import Mathlib

/-!
# Exam scheduler: a shallow embedding of `pkg/scheduler` and its verified properties

The Go package is embedded function by function.  Conventions:

* Go `string` identifiers (`StudentID`, `CourseID`, `HallID`, `SlotID`) are Lean `String`s.
* A Go `map[K]V` is a `GoMap K V`: a list of entries whose order carries no meaning.  Every
  `for ... range m` over a map asks the run-time order function `GoRuntime.rangeOrder` for
  the enumeration order, so every theorem holds for every enumeration order.
* Pointers (`*Course`, `*Hall`, `*Slot`, `*ConflictGraph`) are taken to be non-nil and are
  represented by the value they point to.
* Standard-library behaviour the package relies on but does not define (`math/rand`,
  `sort.Slice`, `time`, `encoding/csv`, `float64` arithmetic, the wall clock) is a field of
  `GoRuntime`; theorems quantify over every run-time.
* A run-time panic (index out of range, `rand.Intn(0)`, nil map write, ...) is the outcome
  `Outcome.panic`; a returned `error` is `Outcome.error msg`.
-/

namespace ExamScheduler

/-! ## Identifiers and the run-time -/

abbrev StudentID := String
abbrev CourseID := String
abbrev HallID := String
abbrev SlotID := String

/-- What a call of a Go function can produce: a value with a nil error, a non-nil error,
a run-time panic, or (for the fuel-bounded loops of the model only) exhaustion of the fuel. -/
inductive Outcome (α : Type) where
  | ok (a : α) : Outcome α
  | error (msg : String) : Outcome α
  | panic : Outcome α
  | timeout : Outcome α
  deriving DecidableEq, Repr

/-- Sequencing of outcomes: the first non-`ok` outcome is propagated. -/
def Outcome.bind {α β : Type} (x : Outcome α) (f : α → Outcome β) : Outcome β :=
  match x with
  | .ok a => f a
  | .error msg => .error msg
  | .panic => .panic
  | .timeout => .timeout

/-- An outcome that is a returned value or a panic: neither an error nor a loop cut short. -/
def Outcome.Plain {α : Type} (x : Outcome α) : Prop :=
  match x with
  | .ok _ => True
  | .panic => True
  | .error _ => False
  | .timeout => False

/-- The parts of the Go run-time and standard library used by the package. -/
structure GoRuntime where
  /-- State of a `*rand.Rand`. -/
  Rand : Type
  /-- Value of `rand.New(rand.NewSource(seed))`. -/
  newRand : Int → Rand
  /-- Value of `rng.Intn(n)` for `n > 0`, with the generator state after the call. -/
  Intn : Rand → Nat → Nat × Rand
  /-- `rng.Intn(n)` lies in `[0, n)`. -/
  Intn_lt : ∀ (r : Rand) (n : Nat), 0 < n → (Intn r n).1 < n
  /-- Value of `rng.Int63()`, with the generator state after the call. -/
  Int63 : Rand → Int × Rand
  /-- Enumeration order chosen by a `range` over a map with the given keys; `site` numbers
  the `range` statement in the package and `exec` tells its executions apart. -/
  rangeOrder : {κ : Type} → (site exec : Nat) → List κ → List κ
  /-- A `range` over a map visits every key exactly once. -/
  rangeOrder_perm : ∀ {κ : Type} (site exec : Nat) (l : List κ),
    (rangeOrder site exec l).Perm l
  /-- Result of `sort.Slice(xs, less)`. -/
  sortSlice : {α : Type} → (α → α → Bool) → List α → List α
  /-- Sorting a slice permutes it. -/
  sortSlice_perm : ∀ {α : Type} (less : α → α → Bool) (l : List α), (sortSlice less l).Perm l
  /-- The contract of package `sort`: when `less` is a strict weak ordering (it is
  asymmetric, and `!less(i, j)` and `!less(j, k)` give `!less(i, k)`), no element of the
  sorted slice is less than an element before it. -/
  sortSlice_sorted : ∀ {α : Type} (less : α → α → Bool) (l : List α),
    (∀ a b, less a b = true → less b a = false) →
    (∀ a b c, less a b = false → less b c = false → less a c = false) →
    (sortSlice less l).Pairwise (fun a b => less b a = false)
  /-- Instants, `time.Time`. -/
  Time : Type
  /-- Value of `t.Format(time.RFC3339)`. -/
  formatRFC3339 : Time → String
  /-- Value of `t.Sub(u)` in nanoseconds. -/
  timeSub : Time → Time → Int
  /-- Value of `t.Day()`. -/
  timeDay : Time → Int
  /-- Value of `time.Now().UnixNano()`. -/
  nowUnixNano : Int
  /-- Values of type `float64`. -/
  Float64 : Type
  /-- The constant `0.0`. -/
  fzero : Float64
  /-- Addition of `float64`. -/
  fadd : Float64 → Float64 → Float64
  /-- Comparison `<` of `float64`. -/
  flt : Float64 → Float64 → Bool
  /-- Result of the first `reader.Read()` of a `csv.Reader` with `LazyQuotes` and
  `TrimLeadingSpace` on the given text: the header record, or the text of the error. -/
  csvReadHeader : String → Except String (List String)
  /-- Result of the `reader.ReadAll()` that follows the reading of the header. -/
  csvReadRest : String → Except String (List (List String))
  /-- Value left in `n` by `fmt.Sscanf(s, "%d", &n)` when `n` was zero before. -/
  sscanInt : String → Int
  /-- The text that a `csv.Writer` with the default settings has written after the given
  records were passed to `Write`, one by one, and `Flush` was called. -/
  csvWrite : List (List String) → String
  /-- Result of the first `csvReader.Read()` of a `csv.Reader` with `LazyQuotes`,
  `TrimLeadingSpace`, `FieldsPerRecord = -1` and `Comment = '#'` on the given text: the
  header record, or the text of the error. -/
  csvLooseHeader : String → Except String (List String)
  /-- The records that the later calls of `csvReader.Read()` of that reader return with a
  nil error before `io.EOF`, in order; a call that returns another error yields no record. -/
  csvLooseRecords : String → List (List String)
  /-- Result of `fmt.Sscanf(s, "%d", &n)` for an `int` variable `n`: the value stored in
  `n`, or `none` when the call returns an error. -/
  sscanfInt : String → Option Int
  /-- Time zones, `*time.Location`. -/
  Location : Type
  /-- Value of `time.LoadLocation(name)`, `none` for an error. -/
  loadLocation : String → Option Location
  /-- The location `time.UTC`. -/
  utc : Location
  /-- Result of `time.ParseInLocation("2006-01-02", s, loc)`: the instant, or the text of
  the error. -/
  parseDate : String → Location → Except String Time
  /-- Result of `time.ParseInLocation("15:04", s, loc)`, as `Hour()` and `Minute()` of the
  time parsed, or the text of the error; `time.Parse("15:04", s)` is the case of `time.UTC`. -/
  parseClock : String → Location → Except String (Int × Int)
  /-- Value of `t.After(u)`. -/
  timeAfter : Time → Time → Bool
  /-- Value of `t.AddDate(0, 0, 1)`. -/
  addDay : Time → Time
  /-- Value of `t.Add(d)` for a duration of `d` nanoseconds. -/
  timeAdd : Time → Int → Time
  /-- Value of `t.Format("2006-01-02")`. -/
  formatDate : Time → String
  /-- Value of `t.Format("15:04")`. -/
  formatClock : Time → String
  /-- Value of `t.Weekday()`, from 0 for Sunday to 6 for Saturday. -/
  weekday : Time → Nat
  /-- Value of `t.Unix()`. -/
  timeUnix : Time → Int

/-! ## Go maps -/

/-- A Go map as the list of its entries; the first entry with a given key is its binding. -/
structure GoMap (κ ν : Type) where
  entries : List (κ × ν)
  deriving DecidableEq, Repr

namespace GoMap

variable {κ ν : Type} [DecidableEq κ]

/-- The empty map, `make(map[K]V)`. -/
def empty : GoMap κ ν := ⟨[]⟩

/-- Lookup in an entry list. -/
def lookupList : List (κ × ν) → κ → Option ν
  | [], _ => none
  | (k', v) :: rest, k => if k' = k then some v else lookupList rest k

/-- Value of `v, ok := m[k]`: `some v` when `ok`. -/
def get? (m : GoMap κ ν) (k : κ) : Option ν := lookupList m.entries k

/-- Replace the binding of `k` in an entry list, or add it at the end. -/
def insertList : List (κ × ν) → κ → ν → List (κ × ν)
  | [], k, v => [(k, v)]
  | (k', v') :: rest, k, v => if k' = k then (k, v) :: rest else (k', v') :: insertList rest k v

/-- Effect of `m[k] = v`. -/
def insert (m : GoMap κ ν) (k : κ) (v : ν) : GoMap κ ν := ⟨insertList m.entries k v⟩

/-- The key set of the map, without repetition. -/
def keys (m : GoMap κ ν) : List κ := (m.entries.map Prod.fst).dedup

/-- Value of `len(m)`. -/
def len (m : GoMap κ ν) : Nat := m.keys.length

/-- The entries visited by `for k, v := range m`, in the order chosen by the run-time. -/
def range (rt : GoRuntime) (site exec : Nat) (m : GoMap κ ν) : List (κ × ν) :=
  (rt.rangeOrder site exec m.keys).filterMap fun k => (m.get? k).map fun v => (k, v)

/-- A map all of whose entries have different keys. -/
def KeysNodup (m : GoMap κ ν) : Prop := (m.entries.map Prod.fst).Nodup

end GoMap

/-! ## Strings (`strings.Split`, `strings.Join`) -/

/-- The pieces of a character list between the occurrences of `sep`. -/
def splitChars (sep : Char) : List Char → List (List Char)
  | [] => [[]]
  | c :: cs =>
    if c = sep then [] :: splitChars sep cs
    else
      match splitChars sep cs with
      | [] => [[c]]
      | piece :: pieces => (c :: piece) :: pieces

/-- Value of `strings.Split(s, string(sep))` for a one-character separator. -/
def stringsSplit (s : String) (sep : Char) : List String :=
  (splitChars sep s.data).map String.mk

/-- The character lists joined with `sep` between them. -/
def joinChars (sep : Char) : List (List Char) → List Char
  | [] => []
  | [piece] => piece
  | piece :: next :: pieces => piece ++ sep :: joinChars sep (next :: pieces)

/-- Value of `strings.Join(elems, string(sep))` for a one-character separator. -/
def stringsJoin (elems : List String) (sep : Char) : String :=
  String.mk (joinChars sep (elems.map String.data))

/-- The order `<` of Go strings on character lists: lexicographic, shorter first. -/
def charsLess : List Char → List Char → Bool
  | [], [] => false
  | [], _ :: _ => true
  | _ :: _, [] => false
  | a :: as, b :: bs =>
    if a.toNat < b.toNat then true
    else if b.toNat < a.toNat then false
    else charsLess as bs

/-- Value of `a < b` for Go strings. -/
def stringLess (a b : String) : Bool := charsLess a.data b.data

/-- Reduction of an integer to the range of a 64-bit Go `int`. -/
def wrapInt64 (x : Int) : Int := (x + 9223372036854775808) % 18446744073709551616 - 9223372036854775808

/-! ## Data model (`model.go`, `graph.go`) -/

/-- A course with its enrollments. -/
structure Course where
  ID : CourseID
  Enrollments : List StudentID
  deriving DecidableEq, Repr

/-- An examination hall. -/
structure Hall where
  ID : HallID
  Capacity : Int
  Group : String
  deriving DecidableEq, Repr

/-- A time slot for an exam. -/
structure Slot (T : Type) where
  ID : SlotID
  Start : T
  End : T
  DayIndex : Int
  IndexInDay : Int

/-- A course scheduled in a slot and hall(s); `Halls` is the `;`-joined list of hall IDs. -/
structure Assignment where
  CourseID : CourseID
  SlotID : SlotID
  SlotDateTime : String
  Halls : String
  EnrolledCount : Int
  Notes : String
  deriving DecidableEq, Repr

/-- A single student registration for a course. -/
structure Registration where
  StudentID : StudentID
  CourseID : CourseID
  deriving DecidableEq, Repr

/-- The course conflict graph. -/
structure ConflictGraph where
  Courses : List CourseID
  CourseIndex : GoMap CourseID Nat
  AdjMatrix : List (List Int)
  Degrees : List Int
  deriving DecidableEq, Repr

/-! ## `DSATUR` (`dsatur.go`) -/

section Dsatur

variable (rt : GoRuntime)

/-- Slot indices `j`, counted from `j0`, with `allowed[slot.ID]` true (dsatur.go 27-31). -/
def allowedIndices (allowed : GoMap SlotID Bool) : Nat → List (Slot rt.Time) → List Nat
  | _, [] => []
  | j, s :: rest =>
    if allowed.get? s.ID = some true then j :: allowedIndices allowed (j + 1) rest
    else allowedIndices allowed (j + 1) rest

/-- The candidate slot indices of one course, in ascending order (dsatur.go 22-36).  The Go
code keeps them as the key set of a `map[int]bool` and sorts the keys before use (83-87). -/
def courseSlots (slots : List (Slot rt.Time)) (allowedSlots : GoMap CourseID (GoMap SlotID Bool))
    (courseID : CourseID) : List Nat :=
  match allowedSlots.get? courseID with
  | some allowed =>
    if allowed.len > 0 then allowedIndices rt allowed 0 slots else List.range slots.length
  | none => List.range slots.length

/-- The slice `availableSlots`, one candidate set per course index (dsatur.go 19-37). -/
def availableSlots (graph : ConflictGraph) (slots : List (Slot rt.Time))
    (allowedSlots : GoMap CourseID (GoMap SlotID Bool)) : List (List Nat) :=
  graph.Courses.map (courseSlots rt slots allowedSlots)

/-- The scan for the uncoloured vertices of maximum saturation (dsatur.go 49-58); the
arguments are the loop index `i`, `maxSat`, `candidates` and the courses from index `i` on. -/
def satCandidates (coloring : GoMap CourseID Nat) (saturation : List Int) :
    Nat → Int → List Nat → List CourseID → List Nat
  | _, _, candidates, [] => candidates
  | i, maxSat, candidates, c :: rest =>
    if coloring.get? c = none then
      if saturation.getD i 0 > maxSat then
        satCandidates coloring saturation (i + 1) (saturation.getD i 0) [i] rest
      else if saturation.getD i 0 = maxSat then
        satCandidates coloring saturation (i + 1) maxSat (candidates ++ [i]) rest
      else satCandidates coloring saturation (i + 1) maxSat candidates rest
    else satCandidates coloring saturation (i + 1) maxSat candidates rest

/-- The degree tie-break scan (dsatur.go 63-70); `graph.Degrees[c]` panics out of range. -/
def degreeCandidates (degrees : List Int) : Int → List Nat → List Nat → Outcome (List Nat)
  | _, acc, [] => .ok acc
  | maxDegree, acc, c :: rest =>
    match degrees[c]? with
    | none => .panic
    | some d =>
      if d > maxDegree then degreeCandidates degrees d [c] rest
      else if d = maxDegree then degreeCandidates degrees maxDegree (acc ++ [c]) rest
      else degreeCandidates degrees maxDegree acc rest

/-- The scan of one adjacency row for a coloured neighbour holding `slotIdx` (dsatur.go
93-100, and again 121-128): `true` when no neighbour with positive weight has that colour.
The arguments are the neighbour index and the rest of the row from that index on. -/
def slotFree (graph : ConflictGraph) (coloring : GoMap CourseID Nat) (slotIdx : Nat) :
    Nat → List Int → Outcome Bool
  | _, [] => .ok true
  | n, weight :: row =>
    if weight > 0 then
      match graph.Courses[n]? with
      | none => .panic
      | some c =>
        if coloring.get? c = some slotIdx then .ok false
        else slotFree graph coloring slotIdx (n + 1) row
    else slotFree graph coloring slotIdx (n + 1) row

/-- The first candidate slot not held by a coloured neighbour of the vertex `nextCourseIdx`
(dsatur.go 89-105); `none` stands for `assignedSlot == -1`.  The row
`graph.AdjMatrix[nextCourseIdx]` is read once per candidate slot. -/
def pickSlot (graph : ConflictGraph) (coloring : GoMap CourseID Nat) (nextCourseIdx : Nat) :
    List Nat → Outcome (Option Nat)
  | [] => .ok none
  | slotIdx :: rest =>
    match graph.AdjMatrix[nextCourseIdx]? with
    | none => .panic
    | some row =>
      (slotFree graph coloring slotIdx 0 row).bind fun isAvailable =>
        if isAvailable then .ok (some slotIdx) else pickSlot graph coloring nextCourseIdx rest

/-- The saturation update after a vertex received `assignedSlot` (dsatur.go 113-135); the
arguments are the neighbour index, the rest of the row and the saturation slice. -/
def updateSaturation (graph : ConflictGraph) (avail : List (List Nat))
    (coloring : GoMap CourseID Nat) (assignedSlot : Nat) :
    Nat → List Int → List Int → Outcome (List Int)
  | _, [], saturation => .ok saturation
  | n, weight :: row, saturation =>
    if weight > 0 then
      match graph.Courses[n]? with
      | none => .panic
      | some c =>
        if coloring.get? c = none then
          if assignedSlot ∈ avail.getD n [] then
            match graph.AdjMatrix[n]? with
            | none => .panic
            | some neighborRow =>
              (slotFree graph coloring assignedSlot 0 neighborRow).bind fun isNewForbiddenColor =>
                if isNewForbiddenColor then
                  updateSaturation graph avail coloring assignedSlot (n + 1) row
                    (saturation.set n (saturation.getD n 0 + 1))
                else updateSaturation graph avail coloring assignedSlot (n + 1) row saturation
          else updateSaturation graph avail coloring assignedSlot (n + 1) row saturation
        else updateSaturation graph avail coloring assignedSlot (n + 1) row saturation
    else updateSaturation graph avail coloring assignedSlot (n + 1) row saturation

/-- The variables of `DSATUR` that change from one iteration of the main loop to the next. -/
structure DsaturState where
  coloring : GoMap CourseID Nat
  saturation : List Int
  rng : rt.Rand

/-- The vertex selection of one iteration (dsatur.go 44-77): `none` is the `break` taken
when no uncoloured vertex is left, otherwise the chosen index and the generator state. -/
def selectVertex (graph : ConflictGraph) (st : DsaturState rt) : Outcome (Option (Nat × rt.Rand)) :=
  match satCandidates st.coloring st.saturation 0 (-1) [] graph.Courses with
  | [] => .ok none
  | [c] => .ok (some (c, st.rng))
  | c :: c' :: rest =>
    (degreeCandidates graph.Degrees (-1) [] (c :: c' :: rest)).bind fun degreeCands =>
      if degreeCands.length = 0 then .panic
      else
        match degreeCands[(rt.Intn st.rng degreeCands.length).1]? with
        | none => .panic
        | some next => .ok (some (next, (rt.Intn st.rng degreeCands.length).2))

/-- The text of the error returned at dsatur.go 108. -/
def infeasibleMsg (courseID : CourseID) : String :=
  "infeasible schedule: cannot assign a slot to course " ++ courseID

/-- How one iteration of the main loop ends. -/
inductive DsaturStep where
  | next (st : DsaturState rt) : DsaturStep
  | done : DsaturStep
  | stuck (courseID : CourseID) : DsaturStep

/-- The body of the main loop after the selection (dsatur.go 79-135), for the vertex
`nextCourseIdx`. -/
def colorVertex (graph : ConflictGraph) (avail : List (List Nat)) (st : DsaturState rt)
    (nextCourseIdx : Nat) (rng : rt.Rand) : Outcome (DsaturStep rt) :=
  match graph.Courses[nextCourseIdx]? with
  | none => .panic
  | some courseID =>
    (pickSlot graph st.coloring nextCourseIdx (avail.getD nextCourseIdx [])).bind fun assigned =>
      match assigned with
      | none => .ok (.stuck courseID)
      | some assignedSlot =>
        match graph.AdjMatrix[nextCourseIdx]? with
        | none => .panic
        | some row =>
          (updateSaturation graph avail (st.coloring.insert courseID assignedSlot) assignedSlot
              0 row st.saturation).bind fun saturation =>
            .ok (.next ⟨st.coloring.insert courseID assignedSlot, saturation, rng⟩)

/-- One iteration of the main loop (dsatur.go 43-135). -/
def dsaturStep (graph : ConflictGraph) (avail : List (List Nat)) (st : DsaturState rt) :
    Outcome (DsaturStep rt) :=
  (selectVertex rt graph st).bind fun sel =>
    match sel with
    | none => .ok .done
    | some (nextCourseIdx, rng) => colorVertex rt graph avail st nextCourseIdx rng

/-- How the main loop ends: with every course coloured, or stuck at a course. -/
inductive DsaturEnd where
  | colored : DsaturEnd
  | stuck (courseID : CourseID) : DsaturEnd

/-- The main loop `for len(coloring) < numCourses` (dsatur.go 42-136), bounded by `fuel`
iterations; it yields the last state together with the way the loop ended. -/
def dsaturLoop (graph : ConflictGraph) (avail : List (List Nat)) :
    Nat → DsaturState rt → Outcome (DsaturState rt × DsaturEnd)
  | 0, _ => .timeout
  | fuel + 1, st =>
    if st.coloring.len < graph.Courses.length then
      (dsaturStep rt graph avail st).bind fun step =>
        match step with
        | .next st' => dsaturLoop graph avail fuel st'
        | .done => .ok (st, .colored)
        | .stuck courseID => .ok (st, .stuck courseID)
    else .ok (st, .colored)

/-- The state before the first iteration (dsatur.go 12-40). -/
def dsaturInit (graph : ConflictGraph) (seed : Int) : DsaturState rt :=
  ⟨GoMap.empty, List.replicate graph.Courses.length 0, rt.newRand seed⟩

/-- The run of `DSATUR` up to the end of its main loop.  Every iteration that does not end
the loop colours one more course, so `len(graph.Courses) + 1` iterations always suffice. -/
def dsaturRun (graph : ConflictGraph) (slots : List (Slot rt.Time))
    (allowedSlots : GoMap CourseID (GoMap SlotID Bool)) (seed : Int) :
    Outcome (DsaturState rt × DsaturEnd) :=
  dsaturLoop rt graph (availableSlots rt graph slots allowedSlots) (graph.Courses.length + 1)
    (dsaturInit rt graph seed)

/-- `DSATUR` (dsatur.go 11-139): the coloring `CourseID → slot index`, or the error naming
the course that could not be given a slot. -/
def DSATUR (graph : ConflictGraph) (slots : List (Slot rt.Time))
    (allowedSlots : GoMap CourseID (GoMap SlotID Bool)) (seed : Int) :
    Outcome (GoMap CourseID Nat) :=
  (dsaturRun rt graph slots allowedSlots seed).bind fun r =>
    match r.2 with
    | .colored => .ok r.1.coloring
    | .stuck courseID => .error (infeasibleMsg courseID)

end Dsatur

/-! ## `NewConflictGraph` (`graph.go`) -/

section Graph

variable (rt : GoRuntime)

/-- The index map filled while the course list is built (graph.go 18-23); the arguments
are the courses still to enter and the counter `i`. -/
def indexCourses : List CourseID → Nat → GoMap CourseID Nat → GoMap CourseID Nat
  | [], _, courseIndex => courseIndex
  | courseID :: rest, i, courseIndex => indexCourses rest (i + 1) (courseIndex.insert courseID i)

/-- The enrollments of one course entered in `studentCourses` (graph.go 35-40). -/
def enrollCourse (courseID : CourseID) :
    List StudentID → GoMap StudentID (GoMap CourseID Bool) → GoMap StudentID (GoMap CourseID Bool)
  | [], studentCourses => studentCourses
  | studentID :: rest, studentCourses =>
    enrollCourse courseID rest
      (studentCourses.insert studentID
        (((studentCourses.get? studentID).getD GoMap.empty).insert courseID true))

/-- The map from each student to the set of its courses (graph.go 33-41). -/
def buildStudentCourses :
    List (CourseID × Course) → GoMap StudentID (GoMap CourseID Bool) →
      GoMap StudentID (GoMap CourseID Bool)
  | [], studentCourses => studentCourses
  | (courseID, course) :: rest, studentCourses =>
    buildStudentCourses rest (enrollCourse courseID course.Enrollments studentCourses)

/-- The entry `m[i][j]` of a matrix, zero where there is none. -/
def matGet (m : List (List Int)) (i j : Nat) : Int := (m.getD i []).getD j 0

/-- The matrix after `m[i][j]++`. -/
def matInc (m : List (List Int)) (i j : Nat) : List (List Int) :=
  m.set i ((m.getD i []).set j (matGet m i j + 1))

/-- The slice after `xs[i]++`. -/
def vecInc (xs : List Int) (i : Nat) : List Int := xs.set i (xs.getD i 0 + 1)

/-- The body of the pair loop (graph.go 53-61) for the courses `a` and `b`. -/
def addConflict (courseIndex : GoMap CourseID Nat) (a b : CourseID)
    (acc : List (List Int) × List Int) : List (List Int) × List Int :=
  (matInc (matInc acc.1 ((courseIndex.get? a).getD 0) ((courseIndex.get? b).getD 0))
      ((courseIndex.get? b).getD 0) ((courseIndex.get? a).getD 0),
    if matGet acc.1 ((courseIndex.get? a).getD 0) ((courseIndex.get? b).getD 0) = 0 then
      vecInc (vecInc acc.2 ((courseIndex.get? a).getD 0)) ((courseIndex.get? b).getD 0)
    else acc.2)

/-- The inner pair loop `for j := i + 1; ...` (graph.go 52-62) for the course `a` at
position `i` and the courses after it. -/
def conflictsWith (courseIndex : GoMap CourseID Nat) (a : CourseID) :
    List CourseID → List (List Int) × List Int → List (List Int) × List Int
  | [], acc => acc
  | b :: rest, acc => conflictsWith courseIndex a rest (addConflict courseIndex a b acc)

/-- The outer pair loop `for i := 0; ...` (graph.go 51-63) over `conflictingCourses`. -/
def conflictsAmong (courseIndex : GoMap CourseID Nat) :
    List CourseID → List (List Int) × List Int → List (List Int) × List Int
  | [], acc => acc
  | a :: rest, acc => conflictsAmong courseIndex rest (conflictsWith courseIndex a rest acc)

/-- The loop over the students (graph.go 44-64); `exec` counts the students visited. -/
def conflictsOfStudents (courseIndex : GoMap CourseID Nat) :
    Nat → List (StudentID × GoMap CourseID Bool) → List (List Int) × List Int →
      List (List Int) × List Int
  | _, [], acc => acc
  | exec, (_, studentCourseSet) :: rest, acc =>
    conflictsOfStudents courseIndex (exec + 1) rest
      (conflictsAmong courseIndex (rt.rangeOrder 4 exec studentCourseSet.keys) acc)

/-- `NewConflictGraph` (graph.go 12-72). -/
def NewConflictGraph (courses : GoMap CourseID Course) : ConflictGraph :=
  let courseList := rt.rangeOrder 1 0 courses.keys
  let courseIndex := indexCourses courseList 0 GoMap.empty
  let studentCourses := buildStudentCourses (GoMap.range rt 2 0 courses) GoMap.empty
  let filled := conflictsOfStudents rt courseIndex 0 (GoMap.range rt 3 0 studentCourses)
    (List.replicate courses.len (List.replicate courses.len 0), List.replicate courses.len 0)
  { Courses := courseList
    CourseIndex := courseIndex
    AdjMatrix := filled.1
    Degrees := filled.2 }

end Graph

/-! ## `AllocateHalls` (`halls.go`) -/

section Halls

variable (rt : GoRuntime)

/-- The test `usedHalls[slotID][hallID]` behind halls.go 28. -/
def hallUsed (usedHalls : GoMap SlotID (GoMap HallID Bool)) (slotID : SlotID)
    (hallID : HallID) : Bool :=
  match usedHalls.get? slotID with
  | none => false
  | some used => (used.get? hallID).getD false

/-- Effect of `usedHalls[slotID][hallID] = true`. -/
def markUsed (usedHalls : GoMap SlotID (GoMap HallID Bool)) (slotID : SlotID)
    (hallID : HallID) : GoMap SlotID (GoMap HallID Bool) :=
  usedHalls.insert slotID (((usedHalls.get? slotID).getD GoMap.empty).insert hallID true)

/-- The scan for the tightest single hall (halls.go 46-53).  The arguments are the loop
index, `bestFitIndex` together with the hall at that index (`none` for `-1`), and the
halls from the loop index on. -/
def bestFit (neededCapacity : Int) : Nat → Option (Nat × Hall) → List Hall → Option (Nat × Hall)
  | _, best, [] => best
  | i, best, hall :: rest =>
    if hall.Capacity ≥ neededCapacity then
      match best with
      | none => bestFit neededCapacity (i + 1) (some (i, hall)) rest
      | some (b, bestHall) =>
        if hall.Capacity < bestHall.Capacity then
          bestFit neededCapacity (i + 1) (some (i, hall)) rest
        else bestFit neededCapacity (i + 1) (some (b, bestHall)) rest
    else bestFit neededCapacity (i + 1) best rest

/-- The greedy prefix of the halls sorted by capacity descending (halls.go 68-75); the
arguments are `currentCapacity`, `combination` and the halls still to visit. -/
def combineHalls (neededCapacity : Int) : Int → List Hall → List Hall → Int × List Hall
  | currentCapacity, combination, [] => (currentCapacity, combination)
  | currentCapacity, combination, hall :: rest =>
    if currentCapacity < neededCapacity then
      combineHalls neededCapacity (wrapInt64 (currentCapacity + hall.Capacity))
        (combination ++ [hall]) rest
    else combineHalls neededCapacity currentCapacity combination rest

/-- The removal of the first available hall with the given ID (halls.go 82-87). -/
def removeHall (hallID : HallID) : List Hall → List Hall
  | [] => []
  | ah :: rest => if ah.ID = hallID then rest else ah :: removeHall hallID rest

/-- The variables of `AllocateHalls` that change from one assignment to the next. -/
structure AllocState where
  availableHalls : List Hall
  usedHalls : GoMap SlotID (GoMap HallID Bool)
  allocatedHalls : GoMap CourseID (List HallID)
  capacityWarnings : List String

/-- The text of the warning built at halls.go 91. -/
def shortCapacityMsg (courseID : CourseID) (neededCapacity currentCapacity : Int) : String :=
  "course " ++ courseID ++ " (enrolled: " ++ toString neededCapacity ++
    ") could not be fully allocated. Total available capacity: " ++ toString currentCapacity

/-- The body of the loop over the assignments of the slot (halls.go 41-102). -/
def allocateCourse (slotID : SlotID) (st : AllocState) (assignment : Assignment) : AllocState :=
  match bestFit assignment.EnrolledCount 0 none st.availableHalls with
  | some (bestFitIndex, hall) =>
    { availableHalls := st.availableHalls.eraseIdx bestFitIndex
      usedHalls := markUsed st.usedHalls slotID hall.ID
      allocatedHalls := st.allocatedHalls.insert assignment.CourseID [hall.ID]
      capacityWarnings := st.capacityWarnings }
  | none =>
    let sorted := rt.sortSlice (fun a b => decide (a.Capacity > b.Capacity)) st.availableHalls
    let combined := combineHalls assignment.EnrolledCount 0 [] sorted
    if combined.1 ≥ assignment.EnrolledCount then
      { availableHalls := combined.2.foldl (fun available hall => removeHall hall.ID available) sorted
        usedHalls := combined.2.foldl (fun used hall => markUsed used slotID hall.ID) st.usedHalls
        allocatedHalls := st.allocatedHalls.insert assignment.CourseID (combined.2.map Hall.ID)
        capacityWarnings := st.capacityWarnings }
    else
      { availableHalls := []
        usedHalls := sorted.foldl (fun used hall => markUsed used slotID hall.ID) st.usedHalls
        allocatedHalls := st.allocatedHalls.insert assignment.CourseID (sorted.map Hall.ID)
        capacityWarnings :=
          st.capacityWarnings ++
            [shortCapacityMsg assignment.CourseID assignment.EnrolledCount combined.1] }

/-- The value written to `a.Halls` for a list of allocated halls (halls.go 107-112). -/
def hallsField (halls : List HallID) : String :=
  stringsJoin (rt.sortSlice stringLess halls) ';'

/-- The update of one assignment object at the end of `AllocateHalls` (halls.go 105-114). -/
def writeHalls (allocatedHalls : GoMap CourseID (List HallID)) (a : Assignment) : Assignment :=
  match allocatedHalls.get? a.CourseID with
  | some halls => { a with Halls := hallsField rt halls }
  | none => a

/-- What a call of `AllocateHalls` leaves behind: the slice `assignmentsInSlot` (sorted, with
the objects it points to as they are after the call), the registry `usedHalls`, and the
returned map and warnings.  The returned error is always nil. -/
structure AllocResult where
  assignmentsInSlot : List Assignment
  usedHalls : GoMap SlotID (GoMap HallID Bool)
  allocatedHalls : GoMap CourseID (List HallID)
  capacityWarnings : List String

/-- `AllocateHalls` (halls.go 10-117).  The slice of pointers `assignmentsInSlot` is given by
the objects it points to; the call reads only their `CourseID` and `EnrolledCount`, and the
value it writes to `Halls` depends only on the `CourseID`. -/
def AllocateHalls (assignmentsInSlot : List Assignment) (allHalls : List Hall)
    (usedHalls : GoMap SlotID (GoMap HallID Bool)) (slotID : SlotID) : AllocResult :=
  let sorted := rt.sortSlice (fun a b => decide (a.EnrolledCount > b.EnrolledCount))
    assignmentsInSlot
  let availableHalls := rt.sortSlice (fun a b => decide (a.Capacity < b.Capacity))
    (allHalls.filter fun hall => !hallUsed usedHalls slotID hall.ID)
  let usedHalls' :=
    if usedHalls.get? slotID = none then usedHalls.insert slotID GoMap.empty else usedHalls
  let final := sorted.foldl (allocateCourse rt slotID) ⟨availableHalls, usedHalls', GoMap.empty, []⟩
  { assignmentsInSlot := sorted.map (writeHalls rt final.allocatedHalls)
    usedHalls := final.usedHalls
    allocatedHalls := final.allocatedHalls
    capacityWarnings := final.capacityWarnings }

end Halls

/-! ## `CalculatePenalty` (`penalty.go`) -/

section Penalty

variable (rt : GoRuntime)

/-- The weights of the penalty components. -/
structure PenaltyConfig where
  StudentProximityWeight : rt.Float64
  MinGapViolationWeight : rt.Float64

/-- The exam starts gathered per student (penalty.go 23-31). -/
def collectExams (courses : GoMap CourseID Course) (slots : List (Slot rt.Time)) :
    List (CourseID × Nat) → GoMap StudentID (List rt.Time) →
      Outcome (GoMap StudentID (List rt.Time))
  | [], studentSchedules => .ok studentSchedules
  | (courseID, slotIdx) :: rest, studentSchedules =>
    match slots[slotIdx]? with
    | none => .panic
    | some slot =>
      match courses.get? courseID with
      | none => .panic
      | some course =>
        collectExams courses slots rest
          (course.Enrollments.foldl
            (fun m studentID => m.insert studentID ((m.get? studentID).getD [] ++ [slot.Start]))
            studentSchedules)

/-- The body of the pair loop (penalty.go 39-52) for the exams `a = exams[i]`, `b = exams[j]`. -/
def pairPenalty (minGapMinutes : Int) (config : PenaltyConfig rt) (a b : rt.Time)
    (totalPenalty : rt.Float64) : rt.Float64 :=
  let gap := if rt.timeSub a b < 0 then wrapInt64 (-(rt.timeSub a b)) else rt.timeSub a b
  let afterProximity :=
    if rt.timeDay a = rt.timeDay b then rt.fadd totalPenalty config.StudentProximityWeight
    else totalPenalty
  if minGapMinutes > 0 ∧ gap < wrapInt64 (minGapMinutes * 60000000000) then
    rt.fadd afterProximity config.MinGapViolationWeight
  else afterProximity

/-- The inner loop `for j := i + 1; ...` (penalty.go 38-53). -/
def penaltyWith (minGapMinutes : Int) (config : PenaltyConfig rt) (a : rt.Time) :
    List rt.Time → rt.Float64 → rt.Float64
  | [], totalPenalty => totalPenalty
  | b :: rest, totalPenalty =>
    penaltyWith minGapMinutes config a rest (pairPenalty rt minGapMinutes config a b totalPenalty)

/-- The outer loop `for i := 0; ...` (penalty.go 36-55) over the exams of one student. -/
def penaltyAmong (minGapMinutes : Int) (config : PenaltyConfig rt) :
    List rt.Time → rt.Float64 → rt.Float64
  | [], totalPenalty => totalPenalty
  | a :: rest, totalPenalty =>
    penaltyAmong minGapMinutes config rest (penaltyWith rt minGapMinutes config a rest totalPenalty)

/-- `CalculatePenalty` (penalty.go 13-59); `exec` tells the calls apart for the run-time. -/
def CalculatePenalty (exec : Nat) (schedule : GoMap CourseID Nat)
    (courses : GoMap CourseID Course) (slots : List (Slot rt.Time)) (_graph : ConflictGraph)
    (minGapMinutes : Int) (config : PenaltyConfig rt) : Outcome rt.Float64 :=
  (collectExams rt courses slots (GoMap.range rt 7 exec schedule) GoMap.empty).bind
    fun studentSchedules =>
      .ok ((GoMap.range rt 8 exec studentSchedules).foldl
        (fun totalPenalty entry =>
          if entry.2.length > 1 then penaltyAmong rt minGapMinutes config entry.2 totalPenalty
          else totalPenalty)
        rt.fzero)

end Penalty

/-! ## `VerifySchedule` (`verify.go`) -/

section Verify

variable (rt : GoRuntime)

/-- The results of a schedule verification. -/
structure ValidationReport where
  Valid : Bool
  Conflicts : Int
  Unassigned : List CourseID
  CapacityWarnings : List String
  Errors : List String
  StudentClashes : List String
  deriving DecidableEq, Repr

/-- The header columns required by `parseScheduleCSV` (verify.go 138). -/
def expectedHeaders : List String :=
  ["course_id", "slot_id", "slot_datetime", "halls", "enrolled_count"]

/-- The first required column missing from the header (verify.go 139-151). -/
def missingHeader (header : List String) : List String → Option String
  | [] => none
  | h :: rest => if h ∈ header then missingHeader header rest else some h

/-- The assignment read from one record, if the record has six fields (verify.go 157-177). -/
def recordAssignment (record : List String) : Option Assignment :=
  match record with
  | courseID :: slotID :: slotDateTime :: halls :: enrolled :: notes :: _ =>
    some ⟨courseID, slotID, slotDateTime, halls, rt.sscanInt enrolled, notes⟩
  | _ => none

/-- `parseScheduleCSV` (verify.go 124-180). -/
def parseScheduleCSV (csvData : String) : Except String (List Assignment) :=
  match rt.csvReadHeader csvData with
  | .error err => .error err
  | .ok header =>
    match missingHeader header expectedHeaders with
    | some h => .error ("missing required header column: " ++ h)
    | none =>
      match rt.csvReadRest csvData with
      | .error err => .error err
      | .ok records => .ok (records.filterMap (recordAssignment rt))

/-- The map from course to assignment (verify.go 36-39); a later row replaces an earlier
row of the same course. -/
def buildAssignmentMap (assignments : List Assignment) : GoMap CourseID Assignment :=
  assignments.foldl (fun m a => m.insert a.CourseID a) GoMap.empty

/-- The map of hall capacities (verify.go 41-44). -/
def buildHallCapacityMap (halls : List Hall) : GoMap HallID Int :=
  halls.foldl (fun m h => m.insert h.ID h.Capacity) GoMap.empty

/-- The text of a student clash (verify.go 62). -/
def clashMsg (studentID : StudentID) (slotID : SlotID) : String :=
  "student " ++ studentID ++ " has a clash in slot " ++ slotID

/-- The body of the clash loop (verify.go 49-68) for one registration. -/
def checkRegistration (assignmentMap : GoMap CourseID Assignment)
    (acc : GoMap StudentID (GoMap SlotID Bool) × ValidationReport) (reg : Registration) :
    GoMap StudentID (GoMap SlotID Bool) × ValidationReport :=
  match assignmentMap.get? reg.CourseID with
  | none => acc
  | some assignment =>
    let schedule := (acc.1.get? reg.StudentID).getD GoMap.empty
    (acc.1.insert reg.StudentID (schedule.insert assignment.SlotID true),
      if (schedule.get? assignment.SlotID).getD false then
        { acc.2 with
          StudentClashes := acc.2.StudentClashes ++ [clashMsg reg.StudentID assignment.SlotID]
          Conflicts := acc.2.Conflicts + 1
          Valid := false }
      else acc.2)

/-- The variables of the hall check of one assignment (verify.go 73-98). -/
structure HallCheck where
  totalCapacity : Int
  slotHallUsage : GoMap SlotID (GoMap HallID Int)
  report : ValidationReport

/-- The text of an unknown-hall warning (verify.go 82). -/
def unknownHallMsg (courseID : CourseID) (hallID : HallID) : String :=
  "course " ++ courseID ++ " assigned to unknown hall " ++ hallID

/-- The text of a double-booking error (verify.go 94). -/
def doubleBookedMsg (hallID : HallID) (slotID : SlotID) : String :=
  "hall " ++ hallID ++ " is double-booked in slot " ++ slotID

/-- The text of an insufficient-capacity warning (verify.go 101). -/
def insufficientMsg (a : Assignment) (totalCapacity : Int) : String :=
  "course " ++ a.CourseID ++ " has insufficient capacity. Enrolled: " ++
    toString a.EnrolledCount ++ ", Allocated: " ++ toString totalCapacity ++
    " in halls [" ++ a.Halls ++ "]"

/-- The body of the loop over the halls of an assignment (verify.go 75-98). -/
def checkHall (hallCapacityMap : GoMap HallID Int) (assignment : Assignment)
    (acc : HallCheck) (hallIDStr : String) : HallCheck :=
  if hallIDStr = "" then acc
  else
    match hallCapacityMap.get? hallIDStr with
    | none =>
      { acc with
        report :=
          { acc.report with
            CapacityWarnings :=
              acc.report.CapacityWarnings ++ [unknownHallMsg assignment.CourseID hallIDStr] } }
    | some capacity =>
      let usage := (acc.slotHallUsage.get? assignment.SlotID).getD GoMap.empty
      let count := (usage.get? hallIDStr).getD 0 + 1
      { totalCapacity := wrapInt64 (acc.totalCapacity + capacity)
        slotHallUsage := acc.slotHallUsage.insert assignment.SlotID (usage.insert hallIDStr count)
        report :=
          if count > 1 then
            { acc.report with
              Errors := acc.report.Errors ++ [doubleBookedMsg hallIDStr assignment.SlotID]
              Valid := false }
          else acc.report }

/-- The body of the loop over the assignments (verify.go 71-104). -/
def checkAssignment (hallCapacityMap : GoMap HallID Int)
    (acc : GoMap SlotID (GoMap HallID Int) × ValidationReport) (assignment : Assignment) :
    GoMap SlotID (GoMap HallID Int) × ValidationReport :=
  let checked := (stringsSplit assignment.Halls ';').foldl
    (checkHall hallCapacityMap assignment) ⟨0, acc.1, acc.2⟩
  (checked.slotHallUsage,
    if checked.totalCapacity < assignment.EnrolledCount then
      { checked.report with
        CapacityWarnings :=
          checked.report.CapacityWarnings ++ [insufficientMsg assignment checked.totalCapacity] }
    else checked.report)

/-- The set of the courses that occur in the registrations (verify.go 107-110). -/
def coursesInRegs (registrations : List Registration) : GoMap CourseID Bool :=
  registrations.foldl (fun m reg => m.insert reg.CourseID true) GoMap.empty

/-- The checks of `VerifySchedule` on the parsed assignments (verify.go 31-120). -/
def verifyAssignments (registrations : List Registration) (assignments : List Assignment)
    (halls : List Hall) : ValidationReport :=
  let assignmentMap := buildAssignmentMap assignments
  let hallCapacityMap := buildHallCapacityMap halls
  let clashes := registrations.foldl (checkRegistration assignmentMap)
    (GoMap.empty, ⟨true, 0, [], [], [], []⟩)
  let booked := assignments.foldl (checkAssignment hallCapacityMap) (GoMap.empty, clashes.2)
  let unassigned := ((GoMap.range rt 9 0 (coursesInRegs registrations)).map Prod.fst).filter
    fun courseID => (assignmentMap.get? courseID).isNone
  { booked.2 with
    Unassigned := booked.2.Unassigned ++ unassigned
    Valid := if (booked.2.Unassigned ++ unassigned).length > 0 then false else booked.2.Valid }

/-- `VerifySchedule` (verify.go 20-121): the report and the returned error, `none` for nil. -/
def VerifySchedule (registrations : List Registration) (scheduleCSV : String)
    (halls : List Hall) : ValidationReport × Option String :=
  match parseScheduleCSV rt scheduleCSV with
  | .error err => (⟨false, 0, [], [], ["error parsing schedule CSV: " ++ err], []⟩, some err)
  | .ok assignments => (verifyAssignments rt registrations assignments halls, none)

end Verify

/-! ## `RunSchedulingAttempts` (`schedule.go`) -/

section Schedule

variable (rt : GoRuntime)

/-- The outcome of a scheduling run. -/
structure ScheduleResult where
  Assignments : List Assignment
  Penalty : rt.Float64
  Unassigned : List CourseID
  Report : ValidationReport

/-- The assignment objects created from a coloring (schedule.go 51-65): the objects in the
order of their creation, which is also the slice `allAssignments` of pointers to them, and
the map `assignmentsBySlot`, whose slices hold the positions of their objects in that list. -/
def buildAssignments (courses : GoMap CourseID Course) (slots : List (Slot rt.Time)) :
    List (CourseID × Nat) → List Assignment → GoMap Nat (List Nat) →
      Outcome (List Assignment × GoMap Nat (List Nat))
  | [], allAssignments, assignmentsBySlot => .ok (allAssignments, assignmentsBySlot)
  | (courseID, slotIdx) :: rest, allAssignments, assignmentsBySlot =>
    match slots[slotIdx]? with
    | none => .panic
    | some slot =>
      match courses.get? courseID with
      | none => .panic
      | some course =>
        buildAssignments courses slots rest
          (allAssignments ++
            [⟨courseID, slot.ID, rt.formatRFC3339 slot.Start, "", course.Enrollments.length, ""⟩])
          (assignmentsBySlot.insert slotIdx
            ((assignmentsBySlot.get? slotIdx).getD [] ++ [allAssignments.length]))

/-- The object at position `p` replaced by its image under `f`. -/
def modifyAt (f : Assignment → Assignment) (objects : List Assignment) (p : Nat) :
    List Assignment :=
  match objects[p]? with
  | some a => objects.set p (f a)
  | none => objects

/-- The variables of the hall allocation loop (schedule.go 67-77). -/
structure HallLoop where
  objects : List Assignment
  usedHalls : GoMap SlotID (GoMap HallID Bool)
  allCapacityWarnings : List String

/-- The hall allocation of the slots in use (schedule.go 67-77).  `AllocateHalls` receives
the objects of the slot; what it writes to their `Halls` reaches `allAssignments` because
both slices point to the same objects. -/
def allocateSlots (halls : List Hall) (slots : List (Slot rt.Time)) :
    List (Nat × List Nat) → HallLoop → Outcome HallLoop
  | [], acc => .ok acc
  | (slotIdx, assignmentsInSlot) :: rest, acc =>
    match slots[slotIdx]? with
    | none => .panic
    | some slot =>
      let r := AllocateHalls rt (assignmentsInSlot.filterMap fun p => acc.objects[p]?) halls
        acc.usedHalls slot.ID
      allocateSlots halls slots rest
        { objects := assignmentsInSlot.foldl (modifyAt (writeHalls rt r.allocatedHalls)) acc.objects
          usedHalls := r.usedHalls
          allCapacityWarnings := acc.allCapacityWarnings ++ r.capacityWarnings }

/-- The order of the final sort (schedule.go 86-91). -/
def assignmentLess (a b : Assignment) : Bool :=
  if a.SlotDateTime ≠ b.SlotDateTime then stringLess a.SlotDateTime b.SlotDateTime
  else stringLess a.CourseID b.CourseID

/-- One attempt after a successful coloring (schedule.go 51-80): the assignments with their
halls, the capacity warnings and the penalty. -/
def scoreAttempt (exec : Nat) (coloring : GoMap CourseID Nat) (courses : GoMap CourseID Course)
    (halls : List Hall) (slots : List (Slot rt.Time)) (graph : ConflictGraph)
    (minGapMinutes : Int) (penaltyConfig : PenaltyConfig rt) :
    Outcome (List Assignment × List String × rt.Float64) :=
  (buildAssignments rt courses slots (GoMap.range rt 5 exec coloring) [] GoMap.empty).bind
    fun built =>
      (allocateSlots rt halls slots (GoMap.range rt 6 exec built.2)
          ⟨built.1, GoMap.empty, []⟩).bind fun allocated =>
        (CalculatePenalty rt exec coloring courses slots graph minGapMinutes penaltyConfig).bind
          fun penalty => .ok (allocated.objects, allocated.allCapacityWarnings, penalty)

/-- The attempts `i, i + 1, ...` of the main loop (schedule.go 39-102); `remaining` counts
the attempts still to run.  The line printed for a failed attempt is not modelled. -/
def attemptLoop (courses : GoMap CourseID Course) (halls : List Hall)
    (slots : List (Slot rt.Time)) (allowedSlots : GoMap CourseID (GoMap SlotID Bool))
    (graph : ConflictGraph) (minGapMinutes : Int) (penaltyConfig : PenaltyConfig rt) :
    Nat → Nat → rt.Rand → Option (ScheduleResult rt) → Outcome (Option (ScheduleResult rt))
  | 0, _, _, bestResult => .ok bestResult
  | remaining + 1, i, rng, bestResult =>
    match DSATUR rt graph slots allowedSlots (rt.Int63 rng).1 with
    | .error _ =>
      attemptLoop courses halls slots allowedSlots graph minGapMinutes penaltyConfig
        remaining (i + 1) (rt.Int63 rng).2 bestResult
    | .panic => .panic
    | .timeout => .timeout
    | .ok coloring =>
      (scoreAttempt rt i coloring courses halls slots graph minGapMinutes penaltyConfig).bind
        fun scored =>
          attemptLoop courses halls slots allowedSlots graph minGapMinutes penaltyConfig
            remaining (i + 1) (rt.Int63 rng).2
            (match bestResult with
              | none =>
                some ⟨rt.sortSlice assignmentLess scored.1, scored.2.2, [],
                  ⟨false, 0, [], scored.2.1, [], []⟩⟩
              | some best =>
                if rt.flt scored.2.2 best.Penalty then
                  some ⟨rt.sortSlice assignmentLess scored.1, scored.2.2, [],
                    ⟨false, 0, [], scored.2.1, [], []⟩⟩
                else some best)

/-- `RunSchedulingAttempts` (schedule.go 19-110). -/
def RunSchedulingAttempts (tries : Int) (seed : Int) (courses : GoMap CourseID Course)
    (halls : List Hall) (slots : List (Slot rt.Time))
    (allowedSlots : GoMap CourseID (GoMap SlotID Bool)) (graph : ConflictGraph)
    (minGapMinutes : Int) (penaltyConfig : PenaltyConfig rt) : Outcome (ScheduleResult rt) :=
  (attemptLoop rt courses halls slots allowedSlots graph minGapMinutes penaltyConfig
      tries.toNat 0 (rt.newRand (if seed = 0 then rt.nowUnixNano else seed)) none).bind
    fun bestResult =>
      match bestResult with
      | none => .error ("failed to find a valid schedule after " ++ toString tries ++ " attempts")
      | some result => .ok result

end Schedule

/-! ## Notions used to state the properties of `DSATUR` -/

/-- The test `graph.AdjMatrix[i][j] > 0`; false where the matrix has no such entry. -/
def ConflictGraph.adjacent (graph : ConflictGraph) (i j : Nat) : Bool :=
  match graph.AdjMatrix[i]? with
  | none => false
  | some row =>
    match row[j]? with
    | none => false
    | some w => decide (0 < w)

/-- Symmetric adjacency: `AdjMatrix[i][j] > 0` exactly when `AdjMatrix[j][i] > 0`. -/
def ConflictGraph.Symmetric (graph : ConflictGraph) : Prop :=
  ∀ i j, graph.adjacent i j = true → graph.adjacent j i = true

/-- A feasible solution of a colouring instance: `f` gives every course of the graph a slot
index of its candidate set (its palette, or all slots when the palette is empty), and two
courses with `AdjMatrix[i][j] > 0` never get the same slot index. -/
def Feasible (rt : GoRuntime) (graph : ConflictGraph) (slots : List (Slot rt.Time))
    (allowedSlots : GoMap CourseID (GoMap SlotID Bool)) (f : GoMap CourseID Nat) : Prop :=
  (∀ c ∈ graph.Courses, ∃ k ∈ courseSlots rt slots allowedSlots c, f.get? c = some k) ∧
  (∀ i ∈ List.range graph.Courses.length, ∀ j ∈ List.range graph.Courses.length,
    graph.adjacent i j = true →
      (graph.Courses[i]?.bind f.get?) ≠ (graph.Courses[j]?.bind f.get?))

/-- The invariant of the main loop that needs no assumption on the graph. -/
structure DsaturInv (rt : GoRuntime) (graph : ConflictGraph) (slots : List (Slot rt.Time))
    (allowedSlots : GoMap CourseID (GoMap SlotID Bool)) (st : DsaturState rt) : Prop where
  keysNodup : st.coloring.KeysNodup
  dom : ∀ c, st.coloring.get? c ≠ none → c ∈ graph.Courses
  slot : ∀ c k, st.coloring.get? c = some k → k ∈ courseSlots rt slots allowedSlots c
  sat : ∀ i, 0 ≤ st.saturation.getD i 0

/-! ## A concrete run-time -/

/-- Decimal rendering with at least two digits. -/
def pad2 (n : Nat) : String := if n < 10 then "0" ++ toString n else toString n

/-- Decimal rendering with at least four digits. -/
def pad4 (n : Nat) : String :=
  if n < 10 then "000" ++ toString n
  else if n < 100 then "00" ++ toString n
  else if n < 1000 then "0" ++ toString n
  else toString n

/-- Year, month and day of the proleptic Gregorian date `days` days after 1970-01-01. -/
def civilFromDays (days : Int) : Int × Int × Int :=
  let z := days + 719468
  let era := z / 146097
  let doe := z - era * 146097
  let yoe := (doe - doe / 1460 + doe / 36524 - doe / 146096) / 365
  let doy := doe - (365 * yoe + yoe / 4 - yoe / 100)
  let mp := (5 * doy + 2) / 153
  let d := doy - (153 * mp + 2) / 5 + 1
  let m := if mp < 10 then mp + 3 else mp - 9
  (if m ≤ 2 then yoe + era * 400 + 1 else yoe + era * 400, m, d)

/-- The RFC 3339 rendering of the UTC instant `t` seconds after the Unix epoch. -/
def formatUTC (t : Int) : String :=
  let date := civilFromDays (t / 86400)
  let secs := (t % 86400).toNat
  pad4 date.1.toNat ++ "-" ++ pad2 date.2.1.toNat ++ "-" ++ pad2 date.2.2.toNat ++ "T" ++
    pad2 (secs / 3600) ++ ":" ++ pad2 (secs % 3600 / 60) ++ ":" ++ pad2 (secs % 60) ++ "Z"

/-- A line without the carriage return that ends it, if there is one: a `csv.Reader` reads
the line end `\r\n` as `\n` and drops a `\r` before the end of the text. -/
def dropCR (l : List Char) : List Char :=
  if l.getLast? = some '\r' then l.dropLast else l

/-- The records of a CSV text without quotes and without spaces after a comma: the
comma-separated fields of its non-empty lines. -/
def csvLines (text : String) : List (List String) :=
  (((splitChars '\n' text.data).map dropCR).filter (fun l => !l.isEmpty)).map
    fun l => (splitChars ',' l).map String.mk

/-- The number written by the leading decimal digits of a text (no sign, no leading
space). -/
def scanDigits : Nat → List Char → Nat
  | acc, [] => acc
  | acc, c :: rest => if c.isDigit then scanDigits (acc * 10 + (c.toNat - 48)) rest else acc

/-- The test `unicode.IsSpace`. -/
def isSpaceRune (c : Char) : Bool :=
  c.toNat ∈ [9, 10, 11, 12, 13, 32, 133, 160, 5760, 8232, 8233, 8239, 8287, 12288] ||
    (8192 ≤ c.toNat && c.toNat ≤ 8202)

/-- The test of a `csv.Writer` for a field that has to be quoted. -/
def csvNeedsQuotes (field : List Char) : Bool :=
  match field with
  | [] => false
  | first :: _ =>
    field == ['\\', '.'] || field.any (fun c => c == ',' || c == '"' || c == '\r' || c == '\n') ||
      isSpaceRune first

/-- One field as a `csv.Writer` writes it: as it is, or between quotes with every quote
doubled. -/
def csvWriteField (field : List Char) : List Char :=
  if csvNeedsQuotes field then
    '"' :: (field.flatMap fun c => if c == '"' then ['"', '"'] else [c]) ++ ['"']
  else field

/-- The lines a `csv.Writer` writes for the given records. -/
def csvWriteRecords : List (List String) → List Char
  | [] => []
  | record :: rest =>
    joinChars ',' (record.map fun f => csvWriteField f.data) ++ '\n' :: csvWriteRecords rest

/-- The records of a CSV text without quotes and without spaces after a comma, for a reader
that skips the lines starting with the comment character `#`. -/
def csvLooseLines (text : String) : List (List String) :=
  (((splitChars '\n' text.data).map dropCR).filter
      (fun l => !l.isEmpty && l.head? != some '#')).map
    fun l => (splitChars ',' l).map String.mk

/-- The scan of `fmt.Sscanf(s, "%d", &n)` on the characters of `s`: spaces are skipped, a
sign is accepted, then the longest run of decimal digits is read, which has to be a number
in the range of `int`; what follows the run, an underscore included, is not looked at.
`none` stands for an error. -/
def scanfInt (s : List Char) : Option Int :=
  let rest := s.dropWhile fun c => isSpaceRune c && c != '\n'
  let signed : Bool × List Char :=
    match rest with
    | '-' :: r => (true, r)
    | '+' :: r => (false, r)
    | _ => (false, rest)
  let tok := signed.2.takeWhile fun c => c.isDigit
  if tok.isEmpty then none
  else
    let i : Int := if signed.1 then -(scanDigits 0 tok : Nat) else (scanDigits 0 tok : Nat)
    if -9223372036854775808 ≤ i ∧ i ≤ 9223372036854775807 then some i else none

/-- Days from 1970-01-01 to the proleptic Gregorian date `y`-`m`-`d`. -/
def daysFromCivil (y m d : Int) : Int :=
  let y1 := if m ≤ 2 then y - 1 else y
  let era := y1 / 400
  let yoe := y1 - era * 400
  let doy := (153 * (if m > 2 then m - 3 else m + 9) + 2) / 5 + d - 1
  let doe := yoe * 365 + yoe / 4 - yoe / 100 + doy
  era * 146097 + doe - 719468

/-- The number written by a list of decimal digits, `none` when a character is no digit. -/
def digitsValue (cs : List Char) : Option Int :=
  if cs.all Char.isDigit then some (scanDigits 0 cs : Nat) else none

/-- The instant, in seconds after the Unix epoch, of the start of the UTC date written as
`YYYY-MM-DD`; an error for any other text and for a date that does not exist. -/
def parseDateUTC (s : String) : Except String Int :=
  match s.data with
  | [y1, y2, y3, y4, '-', m1, m2, '-', d1, d2] =>
    match digitsValue [y1, y2, y3, y4], digitsValue [m1, m2], digitsValue [d1, d2] with
    | some y, some m, some d =>
      if civilFromDays (daysFromCivil y m d) = (y, m, d) then .ok (daysFromCivil y m d * 86400)
      else .error ("parsing time \"" ++ s ++ "\": out of range")
    | _, _, _ => .error ("parsing time \"" ++ s ++ "\" as \"2006-01-02\"")
  | _ => .error ("parsing time \"" ++ s ++ "\" as \"2006-01-02\"")

/-- Hour and minute of a clock time written as `H:MM` or `HH:MM`; an error for any other
text and for an hour above 23 or a minute above 59. -/
def parseClockUTC (s : String) : Except String (Int × Int) :=
  let fields : Option (List Char × List Char) :=
    match s.data with
    | [h1, ':', m1, m2] => some ([h1], [m1, m2])
    | [h1, h2, ':', m1, m2] => some ([h1, h2], [m1, m2])
    | _ => none
  match fields with
  | none => .error ("parsing time \"" ++ s ++ "\" as \"15:04\"")
  | some (hs, ms) =>
    match digitsValue hs, digitsValue ms with
    | some h, some m =>
      if h < 24 ∧ m < 60 then .ok (h, m)
      else .error ("parsing time \"" ++ s ++ "\": out of range")
    | _, _ => .error ("parsing time \"" ++ s ++ "\" as \"15:04\"")

/-- The date `YYYY-MM-DD` of the UTC instant `t` seconds after the Unix epoch. -/
def formatDateUTC (t : Int) : String :=
  let date := civilFromDays (t / 86400)
  pad4 date.1.toNat ++ "-" ++ pad2 date.2.1.toNat ++ "-" ++ pad2 date.2.2.toNat

/-- The clock time `HH:MM` of the UTC instant `t` seconds after the Unix epoch. -/
def formatClockUTC (t : Int) : String :=
  pad2 ((t % 86400).toNat / 3600) ++ ":" ++ pad2 ((t % 86400).toNat % 3600 / 60)

/-- One possible run-time, on which the model can be evaluated: a linear congruential
generator, map ranges in entry order, a stable insertion sort for `sort.Slice` (for a strict
weak order `less` it gives the result of the insertion sort that Go runs on slices of fewer
than 12 elements), instants as whole seconds after the Unix epoch in UTC (UTC is the only
time zone that can be loaded), exact rational arithmetic in the place of `float64`, CSV
readers for texts without quotes, and the CSV writer of the library. -/
@[reducible] def refRuntime : GoRuntime where
  Rand := Nat
  newRand := fun seed => seed.toNat
  Intn := fun r n => (r % n, (r * 1103515245 + 12345) % 2147483648)
  Intn_lt := fun r _ h => Nat.mod_lt r h
  Int63 := fun r => ((r : Int), (r * 1103515245 + 12345) % 2147483648)
  rangeOrder := fun _ _ l => l
  rangeOrder_perm := fun _ _ l => List.Perm.refl l
  sortSlice := fun less l => List.insertionSort (fun a b => ¬ (less b a = true)) l
  sortSlice_perm := fun _ l => List.perm_insertionSort _ l
  sortSlice_sorted := fun {α} less l hasymm htrans => by
    haveI : IsTotal α (fun a b => ¬ (less b a = true)) :=
      ⟨fun a b => by
        by_cases h : less b a = true
        · exact Or.inr (by simp [hasymm b a h])
        · exact Or.inl h⟩
    haveI : IsTrans α (fun a b => ¬ (less b a = true)) :=
      ⟨fun a b c hab hbc => by
        have h1 : less b a = false := by simpa using hab
        have h2 : less c b = false := by simpa using hbc
        simp [htrans c b a h2 h1]⟩
    have h := List.sorted_insertionSort (fun a b => ¬ (less b a = true)) l
    exact List.Pairwise.imp (fun {a b} hab => by simpa using hab) h
  Time := Int
  formatRFC3339 := formatUTC
  timeSub := fun t u => (t - u) * 1000000000
  timeDay := fun t => (civilFromDays (t / 86400)).2.2
  nowUnixNano := 1
  Float64 := Rat
  fzero := 0
  fadd := fun a b => a + b
  flt := fun a b => decide (a < b)
  csvReadHeader := fun text =>
    match csvLines text with
    | [] => .error "EOF"
    | header :: _ => .ok header
  csvReadRest := fun text =>
    match csvLines text with
    | [] => .ok []
    | header :: rest =>
      if rest.all (fun r => r.length = header.length) then .ok rest
      else .error "record on line 2: wrong number of fields"
  sscanInt := fun s => (scanfInt s.data).getD 0
  csvWrite := fun records => String.mk (csvWriteRecords records)
  csvLooseHeader := fun text =>
    match csvLooseLines text with
    | [] => .error "EOF"
    | header :: _ => .ok header
  csvLooseRecords := fun text => (csvLooseLines text).drop 1
  sscanfInt := fun s => scanfInt s.data
  Location := Unit
  loadLocation := fun name => if name = "UTC" ∨ name = "" then some () else none
  utc := ()
  parseDate := fun s _ => parseDateUTC s
  parseClock := fun s _ => parseClockUTC s
  timeAfter := fun t u => decide (u < t)
  addDay := fun t => t + 86400
  timeAdd := fun t d => t + d / 1000000000
  formatDate := formatDateUTC
  formatClock := formatClockUTC
  weekday := fun t => ((t / 86400 + 4) % 7).toNat
  timeUnix := fun t => t

/-- Properness of a partial colouring: two different vertices joined by `AdjMatrix[i][j] > 0`
that are both coloured have different colours. -/
def ProperColoring (graph : ConflictGraph) (coloring : GoMap CourseID Nat) : Prop :=
  ∀ (i j : Nat) (x y : CourseID) (kx ky : Nat), i ≠ j → graph.adjacent i j = true →
    graph.Courses[i]? = some x → graph.Courses[j]? = some y →
    coloring.get? x = some kx → coloring.get? y = some ky → kx ≠ ky

/-! ## Notions used to state the properties of `VerifySchedule` -/

/-- The slot of a course in a schedule: the `slot_id` of the last row of the course. -/
def scheduledSlot : List Assignment → CourseID → Option SlotID
  | [], _ => none
  | a :: rest, c =>
    match scheduledSlot rest c with
    | some s => some s
    | none => if a.CourseID = c then some a.SlotID else none

/-- A registration clashes when its course is in the schedule and an earlier registration
of the same student has a course of the schedule in the same slot. -/
def isClash (assignments : List Assignment) (earlier : List Registration)
    (reg : Registration) : Bool :=
  match scheduledSlot assignments reg.CourseID with
  | none => false
  | some s =>
    earlier.any fun e =>
      decide (e.StudentID = reg.StudentID) && decide (scheduledSlot assignments e.CourseID = some s)

/-- The number of clashing registrations among `regs`, scanned in order after `earlier`. -/
def clashCount (assignments : List Assignment) : List Registration → List Registration → Nat
  | _, [] => 0
  | earlier, reg :: rest =>
    (if isClash assignments earlier reg then 1 else 0) +
      clashCount assignments (earlier ++ [reg]) rest

/-- The test `studentSchedules[studentID][slotID]` of the clash loop. -/
def seenInSlot (studentSchedules : GoMap StudentID (GoMap SlotID Bool)) (studentID : StudentID)
    (slotID : SlotID) : Bool :=
  (((studentSchedules.get? studentID).getD GoMap.empty).get? slotID).getD false

/-- What the clash loop keeps true: `earlier` are the registrations already scanned. -/
structure ClashInv (assignments : List Assignment) (earlier : List Registration)
    (acc : GoMap StudentID (GoMap SlotID Bool) × ValidationReport) (n : Nat) : Prop where
  seen : ∀ s slot, seenInSlot acc.1 s slot = true ↔
    ∃ e ∈ earlier, e.StudentID = s ∧ scheduledSlot assignments e.CourseID = some slot
  conflicts : acc.2.Conflicts = n
  clashes : acc.2.StudentClashes.length = n
  valid : acc.2.Valid = true ↔ n = 0
  errors : acc.2.Errors = []
  unassigned : acc.2.Unassigned = []

/-- What the hall loop keeps true of the report, `n` being the number of clashes found. -/
structure ReportInv (n : Nat) (r : ValidationReport) : Prop where
  conflicts : r.Conflicts = n
  clashes : r.StudentClashes.length = n
  unassigned : r.Unassigned = []
  valid : r.Valid = true ↔ n = 0 ∧ r.Errors = []

/-- The counter `slotHallUsage[slotID][hallID]`. -/
def bookings (slotHallUsage : GoMap SlotID (GoMap HallID Int)) (slotID : SlotID)
    (hallID : HallID) : Int :=
  (((slotHallUsage.get? slotID).getD GoMap.empty).get? hallID).getD 0

/-- The hall has been counted at least once in the slot. -/
def Booked (slotID : SlotID) (hallID : HallID) (usage : GoMap SlotID (GoMap HallID Int)) : Prop :=
  1 ≤ bookings usage slotID hallID

/-- The report holds the double-booking error of the hall in the slot and is invalid. -/
def Flagged (slotID : SlotID) (hallID : HallID) (r : ValidationReport) : Prop :=
  doubleBookedMsg hallID slotID ∈ r.Errors ∧ r.Valid = false

deriving instance DecidableEq for Except

/-- The text of a schedule in which the courses `c1` and `c2` both sit in hall `H1` in slot
`slot1`. -/
def doubleBookedCSV : String :=
  "course_id,slot_id,slot_datetime,halls,enrolled_count,notes\n" ++
  "c1,slot1,2025-01-06T09:00:00Z,H1,1,\n" ++
  "c2,slot1,2025-01-06T09:00:00Z,H1,1,\n"

/-! ## Example inputs -/

/-- Three courses: `a` shares student `s1` with `b` and student `s2` with `c`. -/
def starCourses : GoMap CourseID Course :=
  ⟨[("a", ⟨"a", ["s1", "s2"]⟩), ("b", ⟨"b", ["s1"]⟩), ("c", ⟨"c", ["s2"]⟩)]⟩

/-- Two slots on 2025-01-06, at 09:00 and at 14:00 UTC. -/
def twoSlots : List (Slot refRuntime.Time) :=
  [⟨"2025-01-06T09:00Z#1", (1736154000 : Int), (1736164800 : Int), 0, 0⟩,
    ⟨"2025-01-06T14:00Z#2", (1736172000 : Int), (1736182800 : Int), 0, 1⟩]

/-- A palette that allows both slots to course `a` and only the first slot to course `b`. -/
def starPalette : GoMap CourseID (GoMap SlotID Bool) :=
  ⟨[("a", ⟨[("2025-01-06T09:00Z#1", true), ("2025-01-06T14:00Z#2", true)]⟩),
    ("b", ⟨[("2025-01-06T09:00Z#1", true)]⟩)]⟩

/-! ## Notions used to state the properties of `NewConflictGraph` -/

/-- A matrix with `n` rows of length `n`. -/
def Square (n : Nat) (m : List (List Int)) : Prop := m.length = n ∧ ∀ row ∈ m, row.length = n

/-- The change of the entry `(i, j)` of an `n × n` matrix made by `m[a][b]++`. -/
def bump (n a b i j : Nat) : Int := if i = a ∧ j = b ∧ a < n ∧ b < n then 1 else 0

/-- What the pair loops keep true of the matrix: it is square and symmetric and has a zero
diagonal. -/
structure MatInv (n : Nat) (m : List (List Int)) : Prop where
  square : Square n m
  symm : ∀ i j, matGet m i j = matGet m j i
  diag : ∀ i, matGet m i i = 0

/-- The index of a course as the pair loop reads it, `courseIndex[c]`. -/
def indexOfCourse (courseIndex : GoMap CourseID Nat) (c : CourseID) : Nat :=
  (courseIndex.get? c).getD 0

/-- Every course in a course set of a student is one of the courses `K`. -/
def SetsWithin (K : List CourseID) (studentCourses : GoMap StudentID (GoMap CourseID Bool)) :
    Prop :=
  ∀ s set, studentCourses.get? s = some set → ∀ c, set.get? c ≠ none → c ∈ K

/-! ## Notions used to state the properties of the hall allocation -/

/-- The hall IDs listed by an assignment: the non-empty pieces of its `Halls` field between
the separators `;`, as `VerifySchedule` reads the field (verify.go 73-79). -/
def listedHalls (a : Assignment) : List HallID :=
  (stringsSplit a.Halls ';').filter fun h => h ≠ ""

/-- What the loop of `AllocateHalls` keeps true, for the catalog `allHalls` and the registry
`used0` the call started from: the available halls have different IDs and were free, the
halls given to a course were free, are now marked used and are no longer available, and
two different courses share no hall. -/
structure AllocInv (allHalls : List Hall) (used0 : GoMap SlotID (GoMap HallID Bool))
    (slotID : SlotID) (st : AllocState) : Prop where
  nodup : (st.availableHalls.map Hall.ID).Nodup
  avail : ∀ h ∈ st.availableHalls, h ∈ allHalls ∧ hallUsed used0 slotID h.ID = false
  alloc : ∀ c hs, st.allocatedHalls.get? c = some hs → ∀ id ∈ hs,
    (∃ h ∈ allHalls, h.ID = id) ∧ hallUsed used0 slotID id = false ∧
      hallUsed st.usedHalls slotID id = true ∧ id ∉ st.availableHalls.map Hall.ID
  disj : ∀ c c' hs hs', c ≠ c' → st.allocatedHalls.get? c = some hs →
    st.allocatedHalls.get? c' = some hs' → ∀ id ∈ hs, id ∉ hs'
  mono : ∀ s id, hallUsed used0 s id = true → hallUsed st.usedHalls s id = true

/-- What the hall allocation loop of an attempt keeps true: every hall listed by an
assignment is in the catalog and marked used in the slot of the assignment, and two
assignment objects of the same slot list no hall in common. -/
structure HallLoopInv (halls : List Hall) (acc : HallLoop) : Prop where
  listed : ∀ a ∈ acc.objects, ∀ h ∈ listedHalls a,
    (∃ hall ∈ halls, hall.ID = h) ∧ hallUsed acc.usedHalls a.SlotID h = true
  disj : ∀ (p q : Nat) (a b : Assignment), p ≠ q → acc.objects[p]? = some a →
    acc.objects[q]? = some b →
    a.SlotID = b.SlotID → ∀ h ∈ listedHalls a, h ∉ listedHalls b

/-- The assignments returned by a call of `RunSchedulingAttempts`, if it succeeded. -/
def assignmentsOf (rt : GoRuntime) (r : Outcome (ScheduleResult rt)) : Option (List Assignment) :=
  match r with
  | .ok result => some result.Assignments
  | _ => none

/-- Two courses without a common student, of two students and of one student. -/
def semiCourses : GoMap CourseID Course :=
  ⟨[("c1", ⟨"c1", ["s1", "s2"]⟩), ("c2", ⟨"c2", ["s3"]⟩)]⟩

/-- A hall catalog with unique hall IDs, one of which contains the character `;`. -/
def semiHalls : List Hall := [⟨"A", 1, ""⟩, ⟨"A;B", 2, ""⟩]

/-- One slot on 2025-01-06 at 09:00 UTC. -/
def oneSlot : List (Slot refRuntime.Time) :=
  [⟨"2025-01-06T09:00Z#1", (1736154000 : Int), (1736164800 : Int), 0, 0⟩]

/-- A palette that allows only the second slot to course `a` and only the first to `b`. -/
def forcedPalette : GoMap CourseID (GoMap SlotID Bool) :=
  ⟨[("a", ⟨[("2025-01-06T14:00Z#2", true)]⟩), ("b", ⟨[("2025-01-06T09:00Z#1", true)]⟩)]⟩

/-- The hall catalog of the acceptance test: `H1` of capacity 5 and `H2` of capacity 2. -/
def testHalls : List Hall := [⟨"H1", 5, ""⟩, ⟨"H2", 2, ""⟩]

/-- The text of a schedule with the courses `c1` and `c2`, both in slot `slot1`. -/
def clashCSV : String :=
  "course_id,slot_id,slot_datetime,halls,enrolled_count,notes\n" ++
  "c1,slot1,2025-01-06T09:00:00Z,H1,1,\n" ++
  "c2,slot1,2025-01-06T09:00:00Z,H2,1,\n"

/-! ## Notions used to state the properties of one call of `AllocateHalls` -/

/-- The order in which `AllocateHalls` processes the assignments of the slot: the slice
after the sort by enrollment (halls.go 20-23). -/
def allocOrder (rt : GoRuntime) (assignmentsInSlot : List Assignment) : List Assignment :=
  rt.sortSlice (fun a b => decide (a.EnrolledCount > b.EnrolledCount)) assignmentsInSlot

/-- The variables of `AllocateHalls` when the loop over the assignments starts (halls.go
17-39). -/
def allocInit (rt : GoRuntime) (allHalls : List Hall)
    (usedHalls : GoMap SlotID (GoMap HallID Bool)) (slotID : SlotID) : AllocState :=
  ⟨rt.sortSlice (fun a b => decide (a.Capacity < b.Capacity))
      (allHalls.filter fun hall => !hallUsed usedHalls slotID hall.ID),
    if usedHalls.get? slotID = none then usedHalls.insert slotID GoMap.empty else usedHalls,
    GoMap.empty, []⟩

/-- The variables of `AllocateHalls` after the loop has processed the assignments `done`. -/
def allocAfter (rt : GoRuntime) (allHalls : List Hall)
    (usedHalls : GoMap SlotID (GoMap HallID Bool)) (slotID : SlotID)
    (done : List Assignment) : AllocState :=
  done.foldl (allocateCourse rt slotID) (allocInit rt allHalls usedHalls slotID)

/-- The sum of the capacities of a list of halls, as an integer without bound. -/
def capacitySum (halls : List Hall) : Int := (halls.map Hall.Capacity).sum
/-- The value of `currentCapacity` after the capacities of `halls` were added to `cur`, one
by one, in the 64-bit arithmetic of Go (halls.go 71). -/
def addCapacities (cur : Int) (halls : List Hall) : Int :=
  halls.foldl (fun c hall => wrapInt64 (c + hall.Capacity)) cur

/-- The sum of the absolute values of the capacities of a list of halls. -/
def capacityAbsSum (halls : List Hall) : Int := (halls.map fun hall => |hall.Capacity|).sum
/-- The courses of the packing tests: `c1` with 80 and `c2` with 40 students in `slot1`. -/
def packCourses : List Assignment :=
  [⟨"c1", "slot1", "", "", 80, ""⟩, ⟨"c2", "slot1", "", "", 40, ""⟩]

/-- The halls of the tight-fit test: `H1` of capacity 100 and `H2` of capacity 50. -/
def packHalls : List Hall := [⟨"H1", 100, ""⟩, ⟨"H2", 50, ""⟩]

/-- The halls of the multi-hall test: capacities 100, 50 and 30. -/
def threeHalls : List Hall := [⟨"H1", 100, ""⟩, ⟨"H2", 50, ""⟩, ⟨"H3", 30, ""⟩]

/-- Two halls of capacity `2^62` each: their capacities add up to `2^63`, one more than
the largest value of a 64-bit `int`. -/
def hugeHalls : List Hall :=
  [⟨"H1", 4611686018427387904, ""⟩, ⟨"H2", 4611686018427387904, ""⟩]

/-- Three halls of capacity `2^62` each. -/
def hugeHalls3 : List Hall :=
  [⟨"H1", 4611686018427387904, ""⟩, ⟨"H2", 4611686018427387904, ""⟩,
    ⟨"H3", 4611686018427387904, ""⟩]

/-- A course with `2^62 + 1` students. -/
def hugeCourse : Assignment := ⟨"c1", "slot1", "", "", 4611686018427387905, ""⟩

/-! ## Notions used to state the properties of the attempts of `RunSchedulingAttempts` -/

/-- The seeds that the main loop draws from the master generator for its attempts
(schedule.go 39-40): `n` successive values of `rng.Int63()`. -/
def attemptSeeds (rt : GoRuntime) : Nat → rt.Rand → List Int
  | 0, _ => []
  | n + 1, rng => (rt.Int63 rng).1 :: attemptSeeds rt n (rt.Int63 rng).2

/-- One attempt of the main loop (schedule.go 39-80), numbered `i` from 0, with its seed:
`none` when `DSATUR` fails, otherwise the assignments with their halls, the capacity
warnings and the penalty of the attempt. -/
def runAttempt (rt : GoRuntime) (courses : GoMap CourseID Course) (halls : List Hall)
    (slots : List (Slot rt.Time)) (allowedSlots : GoMap CourseID (GoMap SlotID Bool))
    (graph : ConflictGraph) (minGapMinutes : Int) (penaltyConfig : PenaltyConfig rt)
    (i : Nat) (attemptSeed : Int) :
    Outcome (Option (List Assignment × List String × rt.Float64)) :=
  match DSATUR rt graph slots allowedSlots attemptSeed with
  | .error _ => .ok none
  | .panic => .panic
  | .timeout => .timeout
  | .ok coloring =>
    (scoreAttempt rt i coloring courses halls slots graph minGapMinutes penaltyConfig).bind
      fun scored => .ok (some scored)

/-- The attempts `i, i + 1, ...` of the main loop, one entry per seed. -/
def attemptsFrom (rt : GoRuntime) (courses : GoMap CourseID Course) (halls : List Hall)
    (slots : List (Slot rt.Time)) (allowedSlots : GoMap CourseID (GoMap SlotID Bool))
    (graph : ConflictGraph) (minGapMinutes : Int) (penaltyConfig : PenaltyConfig rt) :
    Nat → List Int → List (Outcome (Option (List Assignment × List String × rt.Float64)))
  | _, [] => []
  | i, attemptSeed :: rest =>
    runAttempt rt courses halls slots allowedSlots graph minGapMinutes penaltyConfig i
        attemptSeed ::
      attemptsFrom rt courses halls slots allowedSlots graph minGapMinutes penaltyConfig
        (i + 1) rest

/-- The generator with which `RunSchedulingAttempts` starts (schedule.go 33-36). -/
def masterRand (rt : GoRuntime) (seed : Int) : rt.Rand :=
  rt.newRand (if seed = 0 then rt.nowUnixNano else seed)

/-- The result that the main loop records for a scored attempt (schedule.go 82-100). -/
def resultOf (rt : GoRuntime) (scored : List Assignment × List String × rt.Float64) :
    ScheduleResult rt :=
  ⟨rt.sortSlice assignmentLess scored.1, scored.2.2, [], ⟨false, 0, [], scored.2.1, [], []⟩⟩

/-- A second possible run-time: `refRuntime`, except that the `range` over the course map in
`NewConflictGraph` (graph.go 19) enumerates the keys in the reverse order. -/
@[reducible] def reversedRuntime : GoRuntime :=
  { refRuntime with
    rangeOrder := fun site _ l => if site = 1 then l.reverse else l
    rangeOrder_perm := fun site _ l => by
      by_cases h : site = 1
      · simp only [h, if_true]; exact List.reverse_perm l
      · simp only [h, if_false]; exact List.Perm.refl l }

/-- Two courses that share the student `s1`. -/
def pairCourses : GoMap CourseID Course := ⟨[("a", ⟨"a", ["s1"]⟩), ("b", ⟨"b", ["s1"]⟩)]⟩

/-! ## Notions used to state the weights of the conflict graph -/

/-- The number of distinct students that occur in both enrollment lists. -/
def sharedStudents (xs ys : List StudentID) : Nat := (xs.dedup.filter fun s => s ∈ ys).length

/-- Some course of the list has the index `k` in the index map. -/
def HitsIndex (courseIndex : GoMap CourseID Nat) (l : List CourseID) (k : Nat) : Prop :=
  ∃ c ∈ l, indexOfCourse courseIndex c = k

instance (courseIndex : GoMap CourseID Nat) (l : List CourseID) (k : Nat) :
    Decidable (HitsIndex courseIndex l k) := by
  unfold HitsIndex
  infer_instance

/-- The student is recorded for the course in `studentCourses`. -/
def RecordedIn (studentCourses : GoMap StudentID (GoMap CourseID Bool)) (s : StudentID)
    (c : CourseID) : Prop :=
  ∃ set, studentCourses.get? s = some set ∧ set.get? c ≠ none
/-- Two courses with repeated enrollments: the students `s1` and `s2` are in both. -/
def dupCourses : GoMap CourseID Course :=
  ⟨[("a", ⟨"a", ["s1", "s1", "s2"]⟩), ("b", ⟨"b", ["s1", "s2", "s2", "s3"]⟩)]⟩

/-! ## The course map of `ParseRegistrations` and `SerializeAssignments` (`io.go`) -/

/-- The effect on the course map of one row that `ParseRegistrations` accepts (io.go
81-87): the course is created when the map has no entry for it, and the student is added
at the end of its enrollments. -/
def registerCourse (courses : GoMap CourseID Course) (reg : Registration) :
    GoMap CourseID Course :=
  match courses.get? reg.CourseID with
  | none => courses.insert reg.CourseID ⟨reg.CourseID, [reg.StudentID]⟩
  | some course =>
    courses.insert reg.CourseID { course with Enrollments := course.Enrollments ++ [reg.StudentID] }

/-- The course map that `ParseRegistrations` returns together with the list
`registrations` of the rows it accepted (io.go 14-16, 78-90). -/
def coursesOfRegistrations (registrations : List Registration) : GoMap CourseID Course :=
  registrations.foldl registerCourse GoMap.empty

/-- The header record written by `SerializeAssignments` (io.go 211). -/
def scheduleHeader : List String :=
  ["course_id", "slot_id", "slot_datetime", "halls", "enrolled_count", "notes"]

/-- The record written for one assignment (io.go 216-223); `strconv.Itoa` gives the decimal
notation of the count. -/
def assignmentRecord (a : Assignment) : List String :=
  [a.CourseID, a.SlotID, a.SlotDateTime, a.Halls, toString a.EnrolledCount, a.Notes]

/-- `SerializeAssignments` (io.go 205-234).  The writer writes to a `strings.Builder`, which
never fails, so the returned error is always nil and only the text is modelled. -/
def SerializeAssignments (rt : GoRuntime) (assignments : List Assignment) : String :=
  rt.csvWrite (scheduleHeader :: assignments.map assignmentRecord)

/-! ## Notions used to state the verification of a serialized schedule -/

/-- The CSV reader of `parseScheduleCSV` reads the text written for the header and the
records back as this header and these records. -/
def ReadsBack (rt : GoRuntime) (header : List String) (records : List (List String)) : Prop :=
  rt.csvReadHeader (rt.csvWrite (header :: records)) = .ok header ∧
    rt.csvReadRest (rt.csvWrite (header :: records)) = .ok records

/-- The assignment that `parseScheduleCSV` builds from the record of an assignment: only the
count is read anew, by `fmt.Sscanf`. -/
def reparsed (rt : GoRuntime) (a : Assignment) : Assignment :=
  { a with EnrolledCount := rt.sscanInt (toString a.EnrolledCount) }

/-- A registrations list with the same row twice: student `s1` in course `c1`. -/
def dupRegistrations : List Registration := [⟨"s1", "c1"⟩, ⟨"s1", "c1"⟩]

/-- The schedule of `dupRegistrations` on `threeHalls` and `oneSlot`. -/
def dupSchedule : List Assignment :=
  [⟨"c1", "2025-01-06T09:00Z#1", "2025-01-06T09:00:00Z", "H3", 2, ""⟩]

/-- Registrations without a repeated row, whose course map is `semiCourses`. -/
def semiRegistrations : List Registration := [⟨"s1", "c1"⟩, ⟨"s2", "c1"⟩, ⟨"s3", "c2"⟩]

/-- The schedule of `semiRegistrations` on `testHalls` and `oneSlot`. -/
def semiSchedule : List Assignment :=
  [⟨"c1", "2025-01-06T09:00Z#1", "2025-01-06T09:00:00Z", "H2", 2, ""⟩,
    ⟨"c2", "2025-01-06T09:00Z#1", "2025-01-06T09:00:00Z", "H1", 1, ""⟩]

/-! ## Notions used to state the degrees of the conflict graph -/

/-- The number of indices `j` other than `i` with `AdjMatrix[i][j] > 0`, among the indices
of the courses of the graph. -/
def conflictCount (graph : ConflictGraph) (i : Nat) : Nat :=
  (List.range graph.Courses.length).countP fun j => decide (j ≠ i) && graph.adjacent i j

/-- The number of positive entries in row `i` of an `n × n` matrix. -/
def positiveCount (n : Nat) (m : List (List Int)) (i : Nat) : Nat :=
  (List.range n).countP fun j => decide (0 < matGet m i j)

/-- What the pair loops keep true of the matrix and the degrees: the matrix is square and
symmetric with a zero diagonal and no negative entry, and the degree of each index is the
number of positive entries in its row. -/
def DegInv (n : Nat) (acc : List (List Int) × List Int) : Prop :=
  MatInv n acc.1 ∧ (∀ i j, 0 ≤ matGet acc.1 i j) ∧ acc.2.length = n ∧
    ∀ i, i < n → acc.2.getD i 0 = (positiveCount n acc.1 i : Int)

/-! ## Notions used to state the capacity warnings of `VerifySchedule` -/

/-- The hall IDs listed by an assignment that no hall of the catalog has. -/
def unknownHalls (halls : List Hall) (a : Assignment) : List HallID :=
  (listedHalls a).filter fun h => h ∉ halls.map Hall.ID

/-- The capacity of a hall ID in a catalog: that of the last hall of the catalog with this
ID, which is the value kept by `hallCapacityMap[h.ID] = h.Capacity`, and 0 when the catalog
has no hall with this ID. -/
def catalogCapacity (halls : List Hall) (hallID : HallID) : Int :=
  match halls.reverse.find? (fun x => decide (x.ID = hallID)) with
  | some x => x.Capacity
  | none => 0

/-- The sum of the catalog capacities of the halls listed by an assignment. -/
def listedCapacity (halls : List Hall) (a : Assignment) : Int :=
  ((listedHalls a).map (catalogCapacity halls)).sum

/-- The sum of the absolute values of the catalog capacities of the halls listed by an
assignment. -/
def listedAbsCapacity (halls : List Hall) (a : Assignment) : Int :=
  ((listedHalls a).map fun h => |catalogCapacity halls h|).sum

/-- The value of `totalCapacity` after the hall loop of one assignment (verify.go 73-85):
the capacities found in `hallCapacityMap` added one by one in a 64-bit `int`. -/
def allocatedCapacity (hallCapacityMap : GoMap HallID Int) (a : Assignment) : Int :=
  (listedHalls a).foldl
    (fun total h =>
      match hallCapacityMap.get? h with
      | none => total
      | some capacity => wrapInt64 (total + capacity))
    0

/-- The capacity warnings that the hall check adds for one assignment (verify.go 80-83 and
99-103): one for each listed hall missing from `hallCapacityMap`, then the warning of
insufficient capacity. -/
def capacityWarningsOf (hallCapacityMap : GoMap HallID Int) (a : Assignment) : List String :=
  ((listedHalls a).filter fun h => (hallCapacityMap.get? h).isNone).map
      (unknownHallMsg a.CourseID) ++
    if allocatedCapacity hallCapacityMap a < a.EnrolledCount then
      [insufficientMsg a (allocatedCapacity hallCapacityMap a)]
    else []

/-- The text of a schedule with course `c1` in the halls `H1` and `H9` and course `c2` in
hall `H2`, in different slots. -/
def unknownHallCSV : String :=
  "course_id,slot_id,slot_datetime,halls,enrolled_count,notes\n" ++
  "c1,slot1,2025-01-06T09:00:00Z,H1;H9,6,\n" ++
  "c2,slot2,2025-01-06T14:00:00Z,H2,1,\n"

/-- The text of a schedule with course `c1` of one student in the halls `H1` and `H2`. -/
def twoHallCSV : String :=
  "course_id,slot_id,slot_datetime,halls,enrolled_count,notes\n" ++
  "c1,slot1,2025-01-06T09:00:00Z,H1;H2,1,\n"

/-! ## Notions used to state the order of the assignments -/

/-- The order of the result: `a` comes before `b` when its `slot_datetime` is the smaller
string or, the `slot_datetime` being the same, its `course_id` is the smaller string. -/
def SortedBefore (a b : Assignment) : Prop :=
  stringLess a.SlotDateTime b.SlotDateTime = true ∨
    (a.SlotDateTime = b.SlotDateTime ∧ stringLess a.CourseID b.CourseID = true)

/-! ## Notions used to state the penalty -/

/-- The pairs `(l[i], l[j])` with `i < j`, in the order in which the double loop of
`CalculatePenalty` visits them. -/
def orderedPairs {α : Type} : List α → List (α × α)
  | [] => []
  | a :: rest => rest.map (fun b => (a, b)) ++ orderedPairs rest

/-- The exam starts of one student: for each visited course with its slot index, the start
of the slot, once for each occurrence of the student in the enrollments of the course. -/
def examStarts (rt : GoRuntime) (courses : GoMap CourseID Course) (slots : List (Slot rt.Time))
    (visited : List (CourseID × Nat)) (studentID : StudentID) : List rt.Time :=
  visited.flatMap fun e =>
    match slots[e.2]?, courses.get? e.1 with
    | some slot, some course =>
      (course.Enrollments.filter fun x => x = studentID).map fun _ => slot.Start
    | _, _ => []

/-- The proximity term of a pair of exams: the weight when `Day()` gives the same value for
both starts. -/
def proximityTerm (rt : GoRuntime) (config : PenaltyConfig rt) (a b : rt.Time) :
    List rt.Float64 :=
  if rt.timeDay a = rt.timeDay b then [config.StudentProximityWeight] else []

/-- The gap term of a pair of exams: the weight when `min_gap_minutes` is positive and the
absolute value of the difference of the starts is less than that many minutes. -/
def minGapTerm (rt : GoRuntime) (minGapMinutes : Int) (config : PenaltyConfig rt)
    (a b : rt.Time) : List rt.Float64 :=
  if 0 < minGapMinutes ∧ |rt.timeSub a b| < minGapMinutes * 60000000000 then
    [config.MinGapViolationWeight]
  else []

/-- The terms that the exams of one student add to the penalty, pair by pair. -/
def penaltyTerms (rt : GoRuntime) (minGapMinutes : Int) (config : PenaltyConfig rt)
    (exams : List rt.Time) : List rt.Float64 :=
  (orderedPairs exams).flatMap fun p =>
    proximityTerm rt config p.1 p.2 ++ minGapTerm rt minGapMinutes config p.1 p.2

/-- Two slots at 09:00 UTC, on 2025-01-06 and on 2025-02-06. -/
def monthSlots : List (Slot refRuntime.Time) :=
  [⟨"2025-01-06T09:00Z#1", (1736154000 : Int), (1736164800 : Int), 0, 0⟩,
    ⟨"2025-02-06T09:00Z#1", (1738832400 : Int), (1738843200 : Int), 31, 0⟩]

/-- Two slots at 09:00 UTC, on 2025-01-06 and on 2025-01-07. -/
def dailySlots : List (Slot refRuntime.Time) :=
  [⟨"2025-01-06T09:00Z#1", (1736154000 : Int), (1736164800 : Int), 0, 0⟩,
    ⟨"2025-01-07T09:00Z#1", (1736240400 : Int), (1736251200 : Int), 1, 0⟩]

/-- The coloring that gives slot 0 to course `a` and slot 1 to course `b`. -/
def pairColoring : GoMap CourseID Nat := ⟨[("a", 0), ("b", 1)]⟩

/-! ## Notions used to state the monotonicity of the penalty -/

/-- A graph whose matrix and degrees fit its course list: the matrix has one row for each
course, every row has one entry for each course, `Degrees` has one entry for each course,
and no degree is negative. -/
def ConflictGraph.WellFormed (graph : ConflictGraph) : Prop :=
  Square graph.Courses.length graph.AdjMatrix ∧ graph.Degrees.length = graph.Courses.length ∧
    ∀ d ∈ graph.Degrees, 0 ≤ d

/-- The enrollments of a course of the course map, none for a course that is not in it. -/
def enrollmentsOf (courses : GoMap CourseID Course) (courseID : CourseID) : List StudentID :=
  match courses.get? courseID with
  | some course => course.Enrollments
  | none => []

/-- Two courses of a graph are in conflict: the entry of the matrix at their indices is
positive. -/
def ConflictGraph.conflicting (graph : ConflictGraph) (x y : CourseID) : Bool :=
  graph.adjacent (indexOfCourse graph.CourseIndex x) (indexOfCourse graph.CourseIndex y)

/-- The palette allows exactly the slot ID `slotID` to the course. -/
def AllowsOnly (allowedSlots : GoMap CourseID (GoMap SlotID Bool)) (courseID : CourseID)
    (slotID : SlotID) : Prop :=
  ∃ allowed, allowedSlots.get? courseID = some allowed ∧
    ∀ id, allowed.get? id = some true ↔ id = slotID

/-- A palette for `starCourses` that allows one slot to each course: the second slot to
course `a`, the first slot to the courses `b` and `c`. -/
def singlePalette : GoMap CourseID (GoMap SlotID Bool) :=
  ⟨[("a", ⟨[("2025-01-06T14:00Z#2", true)]⟩), ("b", ⟨[("2025-01-06T09:00Z#1", true)]⟩),
    ("c", ⟨[("2025-01-06T09:00Z#1", true)]⟩)]⟩

/-- The slot that `singlePalette` allows to a course. -/
def singleSlotOf (courseID : CourseID) : SlotID :=
  if courseID = "a" then "2025-01-06T14:00Z#2" else "2025-01-06T09:00Z#1"

/-- A palette for `starCourses` that allows only the first slot to the courses `a` and
`b`, which share student `s1`. -/
def sameSlotPalette : GoMap CourseID (GoMap SlotID Bool) :=
  ⟨[("a", ⟨[("2025-01-06T09:00Z#1", true)]⟩), ("b", ⟨[("2025-01-06T09:00Z#1", true)]⟩)]⟩

/-- The state in which the main loop of `DSATUR` starts its iteration number `k` (counted
from 0) when it starts from the state `st`: `none` when the loop has ended, or failed,
before that iteration. -/
def dsaturAfter (rt : GoRuntime) (graph : ConflictGraph) (avail : List (List Nat)) :
    Nat → DsaturState rt → Option (DsaturState rt)
  | 0, st => some st
  | k + 1, st =>
    if st.coloring.len < graph.Courses.length then
      match dsaturStep rt graph avail st with
      | .ok (.next st') => dsaturAfter rt graph avail k st'
      | _ => none
    else none

/-- The indices of the courses without a colour, in ascending order. -/
def uncolored (graph : ConflictGraph) (coloring : GoMap CourseID Nat) : List Nat :=
  (graph.Courses.enum.filter fun p => coloring.get? p.2 = none).map Prod.fst

/-- The uncoloured vertices that have as many conflicting courses as the vertex `v`, in
ascending order. -/
def degreeTies (graph : ConflictGraph) (coloring : GoMap CourseID Nat) (v : Nat) : List Nat :=
  (uncolored graph coloring).filter fun u => conflictCount graph u = conflictCount graph v

/-- Selection by degree only: whenever the selection of dsatur.go 44-77 yields a vertex in
the state `st`, that vertex is uncoloured and no uncoloured vertex has more conflicting
courses; it is the only uncoloured vertex, chosen without the generator, or the element
number `rng.Intn(n)` of the `n` uncoloured vertices that have as many conflicting courses. -/
def SelectsByDegree (rt : GoRuntime) (graph : ConflictGraph) (st : DsaturState rt) : Prop :=
  ∀ next rng, selectVertex rt graph st = .ok (some (next, rng)) →
    next ∈ uncolored graph st.coloring ∧
    (∀ u ∈ uncolored graph st.coloring, conflictCount graph u ≤ conflictCount graph next) ∧
    ((uncolored graph st.coloring = [next] ∧ rng = st.rng) ∨
      (1 < (uncolored graph st.coloring).length ∧
        (degreeTies graph st.coloring next)[(rt.Intn st.rng
          (degreeTies graph st.coloring next).length).1]? = some next ∧
        rng = (rt.Intn st.rng (degreeTies graph st.coloring next).length).2))

/-- The colours of the candidate set of the vertex `v` that are held by a coloured
neighbour of `v`. -/
def heldColors (graph : ConflictGraph) (avail : List (List Nat))
    (coloring : GoMap CourseID Nat) (v : Nat) : List Nat :=
  (avail.getD v []).filter fun k =>
    (List.range graph.Courses.length).any fun n =>
      graph.adjacent v n && decide ((graph.Courses[n]?.bind coloring.get?) = some k)

/-- Coloring and saturation counters of a state. -/
def DsaturState.view {rt : GoRuntime} (st : DsaturState rt) : GoMap CourseID Nat × List Int :=
  (st.coloring, st.saturation)

/-- Every coloured course holds the smallest candidate slot index that no neighbour holds:
for every candidate index `j` below the colour of a course `v`, some other course at an
index `n` with `AdjMatrix[i][n] > 0`, `i` an index of `v`, has the colour `j`. -/
def SmallestFree (rt : GoRuntime) (graph : ConflictGraph) (slots : List (Slot rt.Time))
    (allowedSlots : GoMap CourseID (GoMap SlotID Bool)) (coloring : GoMap CourseID Nat) : Prop :=
  ∀ v k, coloring.get? v = some k → ∀ j ∈ courseSlots rt slots allowedSlots v, j < k →
    ∃ i n y, graph.Courses[i]? = some v ∧ graph.adjacent i n = true ∧
      graph.Courses[n]? = some y ∧ y ≠ v ∧ coloring.get? y = some j

/-- Two assignments of one slot with the same enrollment count. -/
def tiedAssignments : List Assignment :=
  [⟨"c1", "s", "", "", 40, ""⟩, ⟨"c2", "s", "", "", 40, ""⟩]

/-- A hall of capacity 50 and a hall of capacity 40. -/
def tiedHalls : List Hall := [⟨"H1", 50, ""⟩, ⟨"H2", 40, ""⟩]

/-- Course `c1` lists student `s1` twice; course `c2` has the single student `s2`. -/
def twiceCourses : GoMap CourseID Course :=
  ⟨[("c1", ⟨"c1", ["s1", "s1"]⟩), ("c2", ⟨"c2", ["s2"]⟩)]⟩

/-- Both courses of `twiceCourses` in the slot of index 0. -/
def twiceColoring : GoMap CourseID Nat := ⟨[("c1", 0), ("c2", 0)]⟩

/-! ## `ParseHalls` (`io.go`) -/

/-- The names of the columns that hold the required data (model.go 62-68). -/
structure ColumnMapping where
  StudentIDColumn : String
  CourseIDColumn : String
  HallIDColumn : String
  CapacityColumn : String
  GroupColumn : String
  deriving DecidableEq, Repr

/-- The name of a column: the name given by the mapping when there is a mapping and the name
is not empty, the default name otherwise (io.go 111-124). -/
def columnName (columnMapping : Option ColumnMapping) (field : ColumnMapping → String)
    (default : String) : String :=
  match columnMapping with
  | some m => if field m ≠ "" then field m else default
  | none => default

/-- The scan of the header for one column (io.go 129-139); the arguments are the loop index,
the index found so far (`none` for `-1`) and the header from the loop index on. -/
def columnIndex (col : String) : Nat → Option Nat → List String → Option Nat
  | _, found, [] => found
  | i, found, name :: rest =>
    if name = col then columnIndex col (i + 1) (some i) rest
    else columnIndex col (i + 1) found rest

/-- The hall read from one record, `none` for a record that is skipped (io.go 155-179). -/
def hallOfRecord (rt : GoRuntime) (hallIDIndex capacityIndex : Nat) (groupIndex : Option Nat)
    (record : List String) : Option Hall :=
  if record.length ≤ hallIDIndex ∨ record.length ≤ capacityIndex then none
  else if record.getD hallIDIndex "" = "" then none
  else
    match rt.sscanfInt (record.getD capacityIndex "") with
    | none => none
    | some capacity =>
      if capacity < 0 then none
      else
        some ⟨record.getD hallIDIndex "", capacity,
          match groupIndex with
          | some g => if record.length > g then record.getD g "" else ""
          | none => ""⟩

/-- `ParseHalls` (io.go 94-183): the halls, or the text of the error. -/
def ParseHalls (rt : GoRuntime) (csvData : String) (columnMapping : Option ColumnMapping) :
    Except String (List Hall) :=
  match rt.csvLooseHeader csvData with
  | .error err => .error err
  | .ok header =>
    let hallIDCol := columnName columnMapping ColumnMapping.HallIDColumn "hall"
    let capacityCol := columnName columnMapping ColumnMapping.CapacityColumn "capacity"
    let groupCol := columnName columnMapping ColumnMapping.GroupColumn "group"
    match columnIndex hallIDCol 0 none header, columnIndex capacityCol 0 none header with
    | some hallIDIndex, some capacityIndex =>
      .ok ((rt.csvLooseRecords csvData).filterMap
        (hallOfRecord rt hallIDIndex capacityIndex (columnIndex groupCol 0 none header)))
    | _, _ => .error ("missing required columns: " ++ hallIDCol ++ " or " ++ capacityCol)

/-- A halls file whose capacity fields are a fraction, digits followed by letters, a negative
number, an empty field, letters, and a decimal number. -/
def capacityCSV : String :=
  "hall,capacity\n" ++
  "H1,12.5\n" ++
  "H2,30abc\n" ++
  "H3,-5\n" ++
  "H4,\n" ++
  "H5,abc\n" ++
  "H6,40\n"

/-! ## `GenerateSlots` (`slots.go`) -/

section Slots

variable (rt : GoRuntime)

/-- The duration `time.Hour*time.Duration(hour) + time.Minute*time.Duration(minute)` in
nanoseconds (slots.go 46, 52). -/
def clockOffset (hour minute : Int) : Int :=
  wrapInt64 (3600000000000 * hour + 60000000000 * minute)

/-- The start times built from `slotTimes` for the day `d` (slots.go 41-47); the arguments
are the slot times still to visit and `timesToUse`. -/
def timesFromList (d : rt.Time) : List String → List rt.Time → Except String (List rt.Time)
  | [], timesToUse => .ok timesToUse
  | st :: rest, timesToUse =>
    match rt.parseClock st rt.utc with
    | .error err => .error ("invalid slot time \x27" ++ st ++ "\x27: " ++ err)
    | .ok t => timesFromList d rest (timesToUse ++ [rt.timeAdd d (clockOffset t.1 t.2)])

/-- The evenly spaced start times of the day `d` (slots.go 50-53); the error of the parse
of `09:00` is ignored, and the zero `time.Time` it leaves has hour 0 and minute 0. -/
def evenTimes (loc : rt.Location) (slotsPerDay slotDuration : Int) (d : rt.Time) :
    List rt.Time :=
  let dayStart : Int × Int :=
    match rt.parseClock "09:00" loc with
    | .ok t => t
    | .error _ => (0, 0)
  (List.range slotsPerDay.toNat).map fun (i : Nat) =>
    rt.timeAdd (rt.timeAdd d (clockOffset dayStart.1 dayStart.2))
      (wrapInt64 (wrapInt64 ((i : Int) * slotDuration) * 60000000000))

/-- The slice `timesToUse` of the day `d` (slots.go 39-54). -/
def timesOfDay (loc : rt.Location) (slotsPerDay : Int) (slotTimes : List String)
    (slotDuration : Int) (d : rt.Time) : Except String (List rt.Time) :=
  if slotTimes.length > 0 then timesFromList rt d slotTimes []
  else .ok (evenTimes rt loc slotsPerDay slotDuration d)

/-- The slots built from the start times of the day `d` (slots.go 56-66); the arguments are
the loop index `i` and the start times from that index on. -/
def slotsOfDay (slotDuration : Int) (d : rt.Time) (dayIndex : Int) :
    Nat → List rt.Time → List (Slot rt.Time)
  | _, [] => []
  | i, t :: rest =>
    ⟨rt.formatDate d ++ "T" ++ rt.formatClock t ++ "Z#" ++ toString (i + 1), t,
      rt.timeAdd t (wrapInt64 (slotDuration * 60000000000)), dayIndex, i⟩ ::
      slotsOfDay slotDuration d dayIndex (i + 1) rest

/-- The test of slots.go 35 for a day that gets slots: no holiday, Saturday or Sunday. -/
def isWorkingDay (holidays : List String) (d : rt.Time) : Bool :=
  !(decide (rt.formatDate d ∈ holidays) || rt.weekday d == 6 || rt.weekday d == 0)

/-- The loop over the days (slots.go 33-68), bounded by `fuel` iterations; the arguments
are the day `d`, `dayIndex` and `slots`. -/
def dayLoop (endDay : rt.Time) (loc : rt.Location) (slotsPerDay : Int)
    (slotTimes : List String) (slotDuration : Int) (holidays : List String) :
    Nat → rt.Time → Int → List (Slot rt.Time) → Outcome (List (Slot rt.Time))
  | 0, _, _, _ => .timeout
  | fuel + 1, d, dayIndex, slots =>
    if rt.timeAfter d endDay then .ok slots
    else if isWorkingDay rt holidays d then
      match timesOfDay rt loc slotsPerDay slotTimes slotDuration d with
      | .error err => .error err
      | .ok timesToUse =>
        dayLoop endDay loc slotsPerDay slotTimes slotDuration holidays fuel (rt.addDay d)
          (dayIndex + 1) (slots ++ slotsOfDay rt slotDuration d dayIndex 0 timesToUse)
    else
      dayLoop endDay loc slotsPerDay slotTimes slotDuration holidays fuel (rt.addDay d)
        dayIndex slots

/-- `GenerateSlots` (slots.go 9-71).  The loop over the days has no bound in the source; it
runs here for at most `end.Unix() - start.Unix() + 2` iterations, which is enough whenever
`AddDate(0, 0, 1)` moves the time forward by a second or more. -/
def GenerateSlots (startDate endDate : String) (slotsPerDay : Int) (slotTimes : List String)
    (slotDuration : Int) (holidays : List String) (timezone : String) :
    Outcome (List (Slot rt.Time)) :=
  let loc := (rt.loadLocation timezone).getD rt.utc
  match rt.parseDate startDate loc with
  | .error err => .error ("invalid start date: " ++ err)
  | .ok start =>
    match rt.parseDate endDate loc with
    | .error err => .error ("invalid end date: " ++ err)
    | .ok endDay =>
      dayLoop rt endDay loc slotsPerDay slotTimes slotDuration holidays
        ((rt.timeUnix endDay - rt.timeUnix start + 1).toNat + 1) start 0 []

end Slots

deriving instance DecidableEq for Slot

/-! ## Notions used to state the properties of `GenerateSlots` -/

/-- The first `n` values of the loop variable `d` of slots.go 33: `start`, then
`AddDate(0, 0, 1)` of the value before. -/
def calendarDays (rt : GoRuntime) (start : rt.Time) (n : Nat) : List rt.Time :=
  (List.range n).map fun i => Nat.iterate rt.addDay i start

/-- The start times of a day, none if a slot time cannot be parsed. -/
def dayStarts (rt : GoRuntime) (loc : rt.Location) (slotsPerDay : Int)
    (slotTimes : List String) (slotDuration : Int) (d : rt.Time) : List rt.Time :=
  match timesOfDay rt loc slotsPerDay slotTimes slotDuration d with
  | .ok timesToUse => timesToUse
  | .error _ => []

/-- The slots of a list of days, day after day, with the day index counted from
`dayIndex` on. -/
def slotsOfDays (rt : GoRuntime) (loc : rt.Location) (slotsPerDay : Int)
    (slotTimes : List String) (slotDuration : Int) :
    List rt.Time → Int → List (Slot rt.Time)
  | [], _ => []
  | d :: rest, dayIndex =>
    slotsOfDay rt slotDuration d dayIndex 0
        (dayStarts rt loc slotsPerDay slotTimes slotDuration d) ++
      slotsOfDays rt loc slotsPerDay slotTimes slotDuration rest (dayIndex + 1)

/-- The number of slots of a working day: `len(slotTimes)`, or `slotsPerDay` when no slot
time is given. -/
def slotsPerWorkingDay (slotsPerDay : Int) (slotTimes : List String) : Nat :=
  if slotTimes.length > 0 then slotTimes.length else slotsPerDay.toNat

/-- The slots of the test `TestGenerateSlots`: two slots on each working day from Monday
2025-01-06 to Friday 2025-01-10 but the holiday 2025-01-08. -/
def testSlots : List (Slot refRuntime.Time) :=
  [⟨"2025-01-06T09:00Z#1", (1736154000 : Int), (1736164800 : Int), 0, 0⟩,
    ⟨"2025-01-06T14:00Z#2", (1736172000 : Int), (1736182800 : Int), 0, 1⟩,
    ⟨"2025-01-07T09:00Z#1", (1736240400 : Int), (1736251200 : Int), 1, 0⟩,
    ⟨"2025-01-07T14:00Z#2", (1736258400 : Int), (1736269200 : Int), 1, 1⟩,
    ⟨"2025-01-09T09:00Z#1", (1736413200 : Int), (1736424000 : Int), 2, 0⟩,
    ⟨"2025-01-09T14:00Z#2", (1736431200 : Int), (1736442000 : Int), 2, 1⟩,
    ⟨"2025-01-10T09:00Z#1", (1736499600 : Int), (1736510400 : Int), 3, 0⟩,
    ⟨"2025-01-10T14:00Z#2", (1736517600 : Int), (1736528400 : Int), 3, 1⟩]

/-- ID, start as `Format(time.RFC3339)` writes it, day index and index in the day of the
slots of a result. -/
def slotTable (r : Outcome (List (Slot refRuntime.Time))) :
    Outcome (List (SlotID × String × Int × Int)) :=
  r.bind fun slots =>
    .ok (slots.map fun s => (s.ID, refRuntime.formatRFC3339 s.Start, s.DayIndex, s.IndexInDay))

/-- The slots of two evenly spaced slots of 180 minutes on Friday 2025-01-10 and on Monday
2025-01-13. -/
def weekendSlots : List (Slot refRuntime.Time) :=
  [⟨"2025-01-10T09:00Z#1", (1736499600 : Int), (1736510400 : Int), 0, 0⟩,
    ⟨"2025-01-10T12:00Z#2", (1736510400 : Int), (1736521200 : Int), 0, 1⟩,
    ⟨"2025-01-13T09:00Z#1", (1736758800 : Int), (1736769600 : Int), 1, 0⟩,
    ⟨"2025-01-13T12:00Z#2", (1736769600 : Int), (1736780400 : Int), 1, 1⟩]

/-! ## A run-time with rounded addition -/

theorem Outcome.bind_eq_ok {α β : Type} {x : Outcome α} {f : α → Outcome β} {b : β} :
    x.bind f = .ok b ↔ ∃ a, x = .ok a ∧ f a = .ok b := by
  cases x <;> simp [Outcome.bind]

theorem Outcome.bind_eq_error {α β : Type} {x : Outcome α} {f : α → Outcome β} {msg : String} :
    x.bind f = .error msg ↔ x = .error msg ∨ ∃ a, x = .ok a ∧ f a = .error msg := by
  cases x <;> simp [Outcome.bind]

theorem Outcome.bind_eq_timeout {α β : Type} {x : Outcome α} {f : α → Outcome β} :
    x.bind f = .timeout ↔ x = .timeout ∨ ∃ a, x = .ok a ∧ f a = .timeout := by
  cases x <;> simp [Outcome.bind]

/-! ## Go maps -/

namespace GoMap

variable {κ ν : Type} [DecidableEq κ]

theorem lookupList_insertList_self (l : List (κ × ν)) (k : κ) (v : ν) :
    lookupList (insertList l k v) k = some v := by
  induction l with
  | nil => simp [insertList, lookupList]
  | cons p rest ih =>
    obtain ⟨k', v'⟩ := p
    by_cases h : k' = k
    · simp [insertList, lookupList, h]
    · simp [insertList, lookupList, h, ih]

theorem lookupList_insertList_of_ne (l : List (κ × ν)) {k k' : κ} (v : ν) (h : k' ≠ k) :
    lookupList (insertList l k v) k' = lookupList l k' := by
  induction l with
  | nil => simp [insertList, lookupList, Ne.symm h]
  | cons p rest ih =>
    obtain ⟨k₁, v₁⟩ := p
    by_cases h₁ : k₁ = k
    · subst h₁
      simp [insertList, lookupList, Ne.symm h]
    · by_cases h₂ : k₁ = k'
      · subst h₂
        simp [insertList, lookupList, h₁]
      · simp [insertList, lookupList, h₁, h₂, ih]

theorem get?_insert_self (m : GoMap κ ν) (k : κ) (v : ν) : (m.insert k v).get? k = some v :=
  lookupList_insertList_self m.entries k v

theorem get?_insert_of_ne (m : GoMap κ ν) {k k' : κ} (v : ν) (h : k' ≠ k) :
    (m.insert k v).get? k' = m.get? k' :=
  lookupList_insertList_of_ne m.entries v h

theorem get?_insert (m : GoMap κ ν) (k k' : κ) (v : ν) :
    (m.insert k v).get? k' = if k' = k then some v else m.get? k' := by
  by_cases h : k' = k
  · subst h; simp [get?_insert_self]
  · simp [h, get?_insert_of_ne]

theorem get?_empty (k : κ) : (empty : GoMap κ ν).get? k = none := rfl

theorem lookupList_eq_none_iff (l : List (κ × ν)) (k : κ) :
    lookupList l k = none ↔ k ∉ l.map Prod.fst := by
  induction l with
  | nil => simp [lookupList]
  | cons p rest ih =>
    obtain ⟨k', v'⟩ := p
    by_cases h : k' = k
    · simp [lookupList, h]
    · simp only [lookupList, h, if_false, ih, List.map_cons, List.mem_cons]
      constructor
      · intro h1 h2
        rcases h2 with h2 | h2
        · exact h h2.symm
        · exact h1 h2
      · intro h1 h2
        exact h1 (Or.inr h2)

theorem mem_keys_iff (m : GoMap κ ν) (k : κ) : k ∈ m.keys ↔ m.get? k ≠ none := by
  unfold keys get?
  rw [List.mem_dedup, Ne, lookupList_eq_none_iff, not_not]

theorem map_fst_insertList_of_none (l : List (κ × ν)) (k : κ) (v : ν)
    (h : lookupList l k = none) :
    (insertList l k v).map Prod.fst = l.map Prod.fst ++ [k] := by
  induction l with
  | nil => simp [insertList]
  | cons p rest ih =>
    obtain ⟨k', v'⟩ := p
    by_cases h' : k' = k
    · simp [lookupList, h'] at h
    · simp only [lookupList, h', if_false] at h
      simp [insertList, h', ih h]

omit [DecidableEq κ] in
theorem keysNodup_empty : KeysNodup (empty : GoMap κ ν) := by
  simp [KeysNodup, empty]

theorem keysNodup_insert_of_none (m : GoMap κ ν) (k : κ) (v : ν) (hm : m.KeysNodup)
    (h : m.get? k = none) : (m.insert k v).KeysNodup := by
  unfold KeysNodup insert
  rw [map_fst_insertList_of_none _ _ _ h]
  have hk : k ∉ m.entries.map Prod.fst := (lookupList_eq_none_iff _ _).1 h
  exact List.Nodup.append hm (List.nodup_singleton k) (by
    intro a ha hb
    rw [List.mem_singleton] at hb
    subst hb
    exact hk ha)

theorem keys_eq_of_keysNodup (m : GoMap κ ν) (hm : m.KeysNodup) :
    m.keys = m.entries.map Prod.fst := List.Nodup.dedup hm

theorem len_insert_of_none (m : GoMap κ ν) (k : κ) (v : ν) (hm : m.KeysNodup)
    (h : m.get? k = none) : (m.insert k v).len = m.len + 1 := by
  unfold len
  rw [keys_eq_of_keysNodup _ (keysNodup_insert_of_none m k v hm h), keys_eq_of_keysNodup _ hm]
  unfold insert
  rw [map_fst_insertList_of_none _ _ _ h]
  simp

end GoMap

/-! ## The scans of `DSATUR` -/

theorem slotFree_true (graph : ConflictGraph) (coloring : GoMap CourseID Nat) (k : Nat) :
    ∀ (row : List Int) (n : Nat), slotFree graph coloring k n row = .ok true →
      ∀ (j : Nat) (w : Int), row[j]? = some w → 0 < w →
        ∃ c, graph.Courses[n + j]? = some c ∧ coloring.get? c ≠ some k := by
  intro row
  induction row with
  | nil => intro n _ j w hj; simp at hj
  | cons weight row ih =>
    intro n h j w hj hw
    unfold slotFree at h
    by_cases hpos : weight > 0
    · simp only [hpos, if_true] at h
      cases hc : graph.Courses[n]? with
      | none => simp [hc] at h
      | some c =>
        simp only [hc] at h
        by_cases hk : coloring.get? c = some k
        · simp [hk] at h
        · simp only [hk, if_false] at h
          cases j with
          | zero => exact ⟨c, by simpa using hc, hk⟩
          | succ j =>
            have := ih (n + 1) h j w (by simpa using hj) hw
            simpa [Nat.add_assoc, Nat.add_comm 1 j] using this
    · simp only [hpos, if_false] at h
      cases j with
      | zero =>
        simp at hj
        subst hj
        exact absurd hw hpos
      | succ j =>
        have := ih (n + 1) h j w (by simpa using hj) hw
        simpa [Nat.add_assoc, Nat.add_comm 1 j] using this

theorem slotFree_false (graph : ConflictGraph) (coloring : GoMap CourseID Nat) (k : Nat) :
    ∀ (row : List Int) (n : Nat), slotFree graph coloring k n row = .ok false →
      ∃ (j : Nat) (w : Int) (c : CourseID), row[j]? = some w ∧ 0 < w ∧
        graph.Courses[n + j]? = some c ∧ coloring.get? c = some k := by
  intro row
  induction row with
  | nil => intro n h; simp [slotFree] at h
  | cons weight row ih =>
    intro n h
    unfold slotFree at h
    by_cases hpos : weight > 0
    · simp only [hpos, if_true] at h
      cases hc : graph.Courses[n]? with
      | none => simp [hc] at h
      | some c =>
        simp only [hc] at h
        by_cases hk : coloring.get? c = some k
        · exact ⟨0, weight, c, by simp, hpos, by simpa using hc, hk⟩
        · simp only [hk, if_false] at h
          obtain ⟨j, w, c', h1, h2, h3, h4⟩ := ih (n + 1) h
          exact ⟨j + 1, w, c', by simpa using h1, h2,
            by simpa [Nat.add_assoc, Nat.add_comm 1 j] using h3, h4⟩
    · simp only [hpos, if_false] at h
      obtain ⟨j, w, c', h1, h2, h3, h4⟩ := ih (n + 1) h
      exact ⟨j + 1, w, c', by simpa using h1, h2,
        by simpa [Nat.add_assoc, Nat.add_comm 1 j] using h3, h4⟩

/-- The outcome of `pickSlot`: the slots tried and refused, then the slot found, if any. -/
theorem pickSlot_ok (graph : ConflictGraph) (coloring : GoMap CourseID Nat) (next : Nat) :
    ∀ (cands : List Nat) (r : Option Nat), pickSlot graph coloring next cands = .ok r →
      ∃ (pre post : List Nat), cands = pre ++ post ∧
        (∀ k ∈ pre, ∃ row, graph.AdjMatrix[next]? = some row ∧
          slotFree graph coloring k 0 row = .ok false) ∧
        ((r = none ∧ post = []) ∨
          ∃ k post', r = some k ∧ post = k :: post' ∧ ∃ row, graph.AdjMatrix[next]? = some row ∧
            slotFree graph coloring k 0 row = .ok true) := by
  intro cands
  induction cands with
  | nil =>
    intro r h
    simp only [pickSlot, Outcome.ok.injEq] at h
    exact ⟨[], [], rfl, by simp, Or.inl ⟨h.symm, rfl⟩⟩
  | cons slotIdx rest ih =>
    intro r h
    unfold pickSlot at h
    cases hrow : graph.AdjMatrix[next]? with
    | none => simp [hrow] at h
    | some row =>
      simp only [hrow] at h
      obtain ⟨b, hb, hr⟩ := Outcome.bind_eq_ok.1 h
      cases b with
      | true =>
        simp only [if_true, Outcome.ok.injEq] at hr
        exact ⟨[], slotIdx :: rest, rfl, by simp,
          Or.inr ⟨slotIdx, rest, hr.symm, rfl, row, rfl, hb⟩⟩
      | false =>
        simp only [Bool.false_eq_true, if_false] at hr
        obtain ⟨pre, post, h1, h2, h3⟩ := ih r hr
        refine ⟨slotIdx :: pre, post, by simp [h1], ?_, ?_⟩
        · intro k hk
          rcases List.mem_cons.1 hk with hk | hk
          · subst hk; exact ⟨row, rfl, hb⟩
          · obtain ⟨row', hrow', hf⟩ := h2 k hk
            exact ⟨row', hrow.symm.trans hrow', hf⟩
        · rcases h3 with h3 | ⟨k, post', h4, h5, row', h6, h7⟩
          · exact Or.inl h3
          · exact Or.inr ⟨k, post', h4, h5, row', hrow.symm.trans h6, h7⟩

theorem satCandidates_mem (coloring : GoMap CourseID Nat) (saturation : List Int) :
    ∀ (rest : List CourseID) (i : Nat) (maxSat : Int) (cands : List Nat) (n : Nat),
      n ∈ satCandidates coloring saturation i maxSat cands rest →
      n ∈ cands ∨ ∃ c, i ≤ n ∧ rest[n - i]? = some c ∧ coloring.get? c = none := by
  intro rest
  induction rest with
  | nil => intro i maxSat cands n h; exact Or.inl (by simpa [satCandidates] using h)
  | cons c rest ih =>
    intro i maxSat cands n h
    unfold satCandidates at h
    have key : ∀ cands' m, n ∈ satCandidates coloring saturation (i + 1) m cands' rest →
        (∀ x ∈ cands', x ∈ cands ∨ (x = i ∧ coloring.get? c = none)) →
        n ∈ cands ∨ ∃ c', i ≤ n ∧ (c :: rest)[n - i]? = some c' ∧ coloring.get? c' = none := by
      intro cands' m hn hsub
      rcases ih (i + 1) m cands' n hn with h1 | ⟨c', h1, h2, h3⟩
      · rcases hsub n h1 with h2 | ⟨h2, h3⟩
        · exact Or.inl h2
        · exact Or.inr ⟨c, by omega, by simp [h2], h3⟩
      · refine Or.inr ⟨c', by omega, ?_, h3⟩
        have : n - i = (n - (i + 1)) + 1 := by omega
        rw [this]
        simpa using h2
    by_cases hc : coloring.get? c = none
    · simp only [hc, if_true] at h
      by_cases h1 : saturation.getD i 0 > maxSat
      · simp only [h1, if_true] at h
        exact key _ _ h (by intro x hx; exact Or.inr ⟨by simpa using hx, hc⟩)
      · simp only [h1, if_false] at h
        by_cases h2 : saturation.getD i 0 = maxSat
        · simp only [h2, if_true] at h
          refine key _ _ h ?_
          intro x hx
          rcases List.mem_append.1 hx with hx | hx
          · exact Or.inl hx
          · exact Or.inr ⟨by simpa using hx, hc⟩
        · simp only [h2, if_false] at h
          exact key _ _ h (fun x hx => Or.inl hx)
    · simp only [hc, if_false] at h
      exact key _ _ h (fun x hx => Or.inl hx)

theorem satCandidates_eq_nil (coloring : GoMap CourseID Nat) (saturation : List Int)
    (hsat : ∀ i, 0 ≤ saturation.getD i 0) :
    ∀ (rest : List CourseID) (i : Nat) (maxSat : Int) (cands : List Nat),
      (cands = [] → maxSat < 0) →
      satCandidates coloring saturation i maxSat cands rest = [] →
      cands = [] ∧ ∀ c ∈ rest, coloring.get? c ≠ none := by
  intro rest
  induction rest with
  | nil => intro i maxSat cands _ h; exact ⟨by simpa [satCandidates] using h, by simp⟩
  | cons c rest ih =>
    intro i maxSat cands hm h
    unfold satCandidates at h
    by_cases hc : coloring.get? c = none
    · simp only [hc, if_true] at h
      by_cases h1 : saturation.getD i 0 > maxSat
      · simp only [h1, if_true] at h
        exact absurd (ih (i + 1) _ [i] (by simp) h).1 (by simp)
      · simp only [h1, if_false] at h
        by_cases h2 : saturation.getD i 0 = maxSat
        · simp only [h2, if_true] at h
          exact absurd (ih (i + 1) _ _ (by simp) h).1 (by simp)
        · simp only [h2, if_false] at h
          have h3 := (ih (i + 1) _ _ hm h).1
          have := hm h3
          have := hsat i
          omega
    · simp only [hc, if_false] at h
      obtain ⟨h3, h4⟩ := ih (i + 1) _ _ hm h
      refine ⟨h3, ?_⟩
      intro c' hc'
      rcases List.mem_cons.1 hc' with hc' | hc'
      · subst hc'; exact hc
      · exact h4 c' hc'

theorem degreeCandidates_mem (degrees : List Int) :
    ∀ (l : List Nat) (maxDegree : Int) (acc r : List Nat),
      degreeCandidates degrees maxDegree acc l = .ok r → ∀ n ∈ r, n ∈ acc ∨ n ∈ l := by
  intro l
  induction l with
  | nil =>
    intro maxDegree acc r h n hn
    simp only [degreeCandidates, Outcome.ok.injEq] at h
    subst h
    exact Or.inl hn
  | cons c rest ih =>
    intro maxDegree acc r h n hn
    unfold degreeCandidates at h
    cases hd : degrees[c]? with
    | none => simp [hd] at h
    | some d =>
      simp only [hd] at h
      by_cases h1 : d > maxDegree
      · simp only [h1, if_true] at h
        rcases ih _ _ _ h n hn with h2 | h2
        · exact Or.inr (by simp at h2; simp [h2])
        · exact Or.inr (List.mem_cons_of_mem _ h2)
      · simp only [h1, if_false] at h
        by_cases h2 : d = maxDegree
        · simp only [h2, if_true] at h
          rcases ih _ _ _ h n hn with h3 | h3
          · rcases List.mem_append.1 h3 with h3 | h3
            · exact Or.inl h3
            · exact Or.inr (by simp at h3; simp [h3])
          · exact Or.inr (List.mem_cons_of_mem _ h3)
        · simp only [h2, if_false] at h
          rcases ih _ _ _ h n hn with h3 | h3
          · exact Or.inl h3
          · exact Or.inr (List.mem_cons_of_mem _ h3)

theorem Outcome.Plain.bind {α β : Type} {x : Outcome α} {f : α → Outcome β}
    (hx : x.Plain) (hf : ∀ a, (f a).Plain) : (x.bind f).Plain := by
  cases x with
  | ok a => exact hf a
  | error msg => exact hx
  | panic => exact hx
  | timeout => exact hx

theorem Outcome.Plain.ne_timeout {α : Type} {x : Outcome α} (hx : x.Plain) : x ≠ .timeout := by
  cases x <;> simp [Outcome.Plain] at hx ⊢

theorem Outcome.Plain.ne_error {α : Type} {x : Outcome α} (hx : x.Plain) (msg : String) :
    x ≠ .error msg := by
  cases x <;> simp [Outcome.Plain] at hx ⊢

/-! ## The steps of `DSATUR` -/

section DsaturSteps

variable (rt : GoRuntime)

theorem slotFree_plain (graph : ConflictGraph) (coloring : GoMap CourseID Nat) (k : Nat) :
    ∀ (row : List Int) (n : Nat), (slotFree graph coloring k n row).Plain := by
  intro row
  induction row with
  | nil => intro n; simp [slotFree, Outcome.Plain]
  | cons weight row ih =>
    intro n
    unfold slotFree
    split
    · split
      · simp [Outcome.Plain]
      · split
        · simp [Outcome.Plain]
        · exact ih _
    · exact ih _

theorem pickSlot_plain (graph : ConflictGraph) (coloring : GoMap CourseID Nat) (next : Nat) :
    ∀ (cands : List Nat), (pickSlot graph coloring next cands).Plain := by
  intro cands
  induction cands with
  | nil => simp [pickSlot, Outcome.Plain]
  | cons slotIdx rest ih =>
    unfold pickSlot
    split
    · simp [Outcome.Plain]
    · refine Outcome.Plain.bind (slotFree_plain _ _ _ _ _) ?_
      intro b
      split
      · simp [Outcome.Plain]
      · exact ih

theorem degreeCandidates_plain (degrees : List Int) :
    ∀ (l : List Nat) (maxDegree : Int) (acc : List Nat),
      (degreeCandidates degrees maxDegree acc l).Plain := by
  intro l
  induction l with
  | nil => intro m acc; simp [degreeCandidates, Outcome.Plain]
  | cons c rest ih =>
    intro m acc
    unfold degreeCandidates
    split
    · simp [Outcome.Plain]
    · split
      · exact ih _ _
      · split
        · exact ih _ _
        · exact ih _ _

theorem updateSaturation_plain (graph : ConflictGraph) (avail : List (List Nat))
    (coloring : GoMap CourseID Nat) (k : Nat) :
    ∀ (row : List Int) (n : Nat) (sat : List Int),
      (updateSaturation graph avail coloring k n row sat).Plain := by
  intro row
  induction row with
  | nil => intro n sat; simp [updateSaturation, Outcome.Plain]
  | cons weight row ih =>
    intro n sat
    unfold updateSaturation
    split
    · split
      · simp [Outcome.Plain]
      · split
        · split
          · split
            · simp [Outcome.Plain]
            · refine Outcome.Plain.bind (slotFree_plain _ _ _ _ _) ?_
              intro b
              split
              · exact ih _ _
              · exact ih _ _
          · exact ih _ _
        · exact ih _ _
    · exact ih _ _

theorem selectVertex_plain (graph : ConflictGraph) (st : DsaturState rt) :
    (selectVertex rt graph st).Plain := by
  unfold selectVertex
  split
  · simp [Outcome.Plain]
  · simp [Outcome.Plain]
  · refine Outcome.Plain.bind (degreeCandidates_plain _ _ _ _) ?_
    intro l
    split
    · simp [Outcome.Plain]
    · split
      · simp [Outcome.Plain]
      · simp [Outcome.Plain]

theorem colorVertex_plain (graph : ConflictGraph) (avail : List (List Nat))
    (st : DsaturState rt) (next : Nat) (rng : rt.Rand) :
    (colorVertex rt graph avail st next rng).Plain := by
  unfold colorVertex
  split
  · simp [Outcome.Plain]
  · refine Outcome.Plain.bind (pickSlot_plain _ _ _ _) ?_
    intro a
    split
    · simp [Outcome.Plain]
    · split
      · simp [Outcome.Plain]
      · refine Outcome.Plain.bind (updateSaturation_plain _ _ _ _ _ _ _) ?_
        intro s
        simp [Outcome.Plain]

theorem dsaturStep_plain (graph : ConflictGraph) (avail : List (List Nat))
    (st : DsaturState rt) : (dsaturStep rt graph avail st).Plain := by
  unfold dsaturStep
  refine Outcome.Plain.bind (selectVertex_plain rt _ _) ?_
  intro sel
  split
  · simp [Outcome.Plain]
  · exact colorVertex_plain rt _ _ _ _ _

theorem selectVertex_some (graph : ConflictGraph) (st : DsaturState rt) (next : Nat)
    (rng : rt.Rand) (h : selectVertex rt graph st = .ok (some (next, rng))) :
    ∃ c, graph.Courses[next]? = some c ∧ st.coloring.get? c = none := by
  have hmem : next ∈ satCandidates st.coloring st.saturation 0 (-1) [] graph.Courses := by
    unfold selectVertex at h
    split at h
    · simp at h
    · next c hs =>
      simp only [Outcome.ok.injEq, Option.some.injEq, Prod.mk.injEq] at h
      rw [hs, ← h.1]; simp
    · next c c' rest hs =>
      obtain ⟨l, hl, h2⟩ := Outcome.bind_eq_ok.1 h
      split at h2
      · simp at h2
      · split at h2
        · simp at h2
        · next nx hnx =>
          simp only [Outcome.ok.injEq, Option.some.injEq, Prod.mk.injEq] at h2
          have h3 : nx ∈ l := List.getElem?_mem hnx
          rw [hs, ← h2.1]
          rcases degreeCandidates_mem _ _ _ _ _ hl nx h3 with h4 | h4
          · simp at h4
          · exact h4
  rcases satCandidates_mem _ _ _ _ _ _ _ hmem with h1 | ⟨c, _, h2, h3⟩
  · simp at h1
  · exact ⟨c, by simpa using h2, h3⟩

theorem selectVertex_none (graph : ConflictGraph) (st : DsaturState rt)
    (h : selectVertex rt graph st = .ok none) :
    satCandidates st.coloring st.saturation 0 (-1) [] graph.Courses = [] := by
  unfold selectVertex at h
  split at h
  · assumption
  · simp at h
  · obtain ⟨l, _, h2⟩ := Outcome.bind_eq_ok.1 h
    split at h2
    · simp at h2
    · split at h2
      · simp at h2
      · simp at h2

theorem getD_set_nonneg (sat : List Int) (n : Nat) (v : Int) (hv : 0 ≤ v)
    (hsat : ∀ i, 0 ≤ sat.getD i 0) : ∀ i, 0 ≤ (sat.set n v).getD i 0 := by
  intro i
  have := hsat i
  simp only [List.getD_eq_getElem?_getD, List.getElem?_set] at this ⊢
  by_cases h : n = i
  · subst h
    by_cases h2 : n < sat.length
    · simp [h2, hv]
    · simp [h2]
  · simpa [h] using this

theorem updateSaturation_nonneg (graph : ConflictGraph) (avail : List (List Nat))
    (coloring : GoMap CourseID Nat) (k : Nat) :
    ∀ (row : List Int) (n : Nat) (sat sat' : List Int), (∀ i, 0 ≤ sat.getD i 0) →
      updateSaturation graph avail coloring k n row sat = .ok sat' →
      ∀ i, 0 ≤ sat'.getD i 0 := by
  intro row
  induction row with
  | nil =>
    intro n sat sat' hsat h
    simp only [updateSaturation, Outcome.ok.injEq] at h
    subst h; exact hsat
  | cons weight row ih =>
    intro n sat sat' hsat h
    unfold updateSaturation at h
    split at h
    · split at h
      · simp at h
      · split at h
        · split at h
          · split at h
            · simp at h
            · obtain ⟨b, _, h2⟩ := Outcome.bind_eq_ok.1 h
              split at h2
              · exact ih _ _ _ (getD_set_nonneg _ _ _ (by have := hsat n; omega) hsat) h2
              · exact ih _ _ _ hsat h2
          · exact ih _ _ _ hsat h
        · exact ih _ _ _ hsat h
    · exact ih _ _ _ hsat h

/-- What an iteration that colours a vertex did. -/
theorem dsaturStep_next (graph : ConflictGraph) (avail : List (List Nat))
    (st st' : DsaturState rt) (h : dsaturStep rt graph avail st = .ok (.next st')) :
    ∃ (next : Nat) (courseID : CourseID) (k : Nat) (row : List Int),
      selectVertex rt graph st = .ok (some (next, st'.rng)) ∧
      graph.Courses[next]? = some courseID ∧ st.coloring.get? courseID = none ∧
      pickSlot graph st.coloring next (avail.getD next []) = .ok (some k) ∧
      graph.AdjMatrix[next]? = some row ∧
      updateSaturation graph avail (st.coloring.insert courseID k) k 0 row st.saturation
        = .ok st'.saturation ∧
      st'.coloring = st.coloring.insert courseID k := by
  unfold dsaturStep at h
  obtain ⟨sel, hsel, h2⟩ := Outcome.bind_eq_ok.1 h
  split at h2
  · simp at h2
  · next next rng =>
    obtain ⟨c, hc, hun⟩ := selectVertex_some rt graph st next rng hsel
    unfold colorVertex at h2
    simp only [hc] at h2
    obtain ⟨a, ha, h3⟩ := Outcome.bind_eq_ok.1 h2
    cases a with
    | none => simp at h3
    | some k =>
      simp only at h3
      split at h3
      · simp at h3
      · next row hrow =>
        obtain ⟨s, hs, h4⟩ := Outcome.bind_eq_ok.1 h3
        simp only [Outcome.ok.injEq, DsaturStep.next.injEq] at h4
        subst h4
        exact ⟨next, c, k, row, hsel, hc, hun, ha, hrow, hs, rfl⟩

/-- What an iteration that could not colour its vertex did. -/
theorem dsaturStep_stuck (graph : ConflictGraph) (avail : List (List Nat))
    (st : DsaturState rt) (courseID : CourseID)
    (h : dsaturStep rt graph avail st = .ok (.stuck courseID)) :
    ∃ (next : Nat), graph.Courses[next]? = some courseID ∧ st.coloring.get? courseID = none ∧
      pickSlot graph st.coloring next (avail.getD next []) = .ok none := by
  unfold dsaturStep at h
  obtain ⟨sel, hsel, h2⟩ := Outcome.bind_eq_ok.1 h
  split at h2
  · simp at h2
  · next next rng =>
    obtain ⟨c, hc, hun⟩ := selectVertex_some rt graph st next rng hsel
    unfold colorVertex at h2
    simp only [hc] at h2
    obtain ⟨a, ha, h3⟩ := Outcome.bind_eq_ok.1 h2
    cases a with
    | none =>
      simp only [Outcome.ok.injEq, DsaturStep.stuck.injEq] at h3
      subst h3
      exact ⟨next, hc, hun, ha⟩
    | some k =>
      simp only at h3
      split at h3
      · simp at h3
      · obtain ⟨s, _, h4⟩ := Outcome.bind_eq_ok.1 h3
        simp at h4

theorem dsaturStep_done (graph : ConflictGraph) (avail : List (List Nat))
    (st : DsaturState rt) (h : dsaturStep rt graph avail st = .ok .done) :
    selectVertex rt graph st = .ok none := by
  unfold dsaturStep at h
  obtain ⟨sel, hsel, h2⟩ := Outcome.bind_eq_ok.1 h
  split at h2
  · exact hsel
  · next next rng =>
    unfold colorVertex at h2
    split at h2
    · simp at h2
    · obtain ⟨a, _, h3⟩ := Outcome.bind_eq_ok.1 h2
      split at h3
      · simp at h3
      · split at h3
        · simp at h3
        · obtain ⟨s, _, h4⟩ := Outcome.bind_eq_ok.1 h3
          simp at h4

/-- Induction over the main loop: a property kept by every colouring iteration holds in
the last state, and the last state is one in which the loop could end. -/
theorem dsaturLoop_ok (graph : ConflictGraph) (avail : List (List Nat))
    (P : DsaturState rt → Prop)
    (hstep : ∀ st st', P st → dsaturStep rt graph avail st = .ok (.next st') → P st') :
    ∀ (fuel : Nat) (st : DsaturState rt) (r : DsaturState rt × DsaturEnd), P st →
      dsaturLoop rt graph avail fuel st = .ok r →
      P r.1 ∧
      ((r.2 = .colored ∧ (¬ r.1.coloring.len < graph.Courses.length ∨
          dsaturStep rt graph avail r.1 = .ok .done)) ∨
        ∃ c, r.2 = .stuck c ∧ dsaturStep rt graph avail r.1 = .ok (.stuck c)) := by
  intro fuel
  induction fuel with
  | zero => intro st r _ h; simp [dsaturLoop] at h
  | succ fuel ih =>
    intro st r hP h
    unfold dsaturLoop at h
    split at h
    · obtain ⟨step, hs, h2⟩ := Outcome.bind_eq_ok.1 h
      cases step with
      | next st' => exact ih st' r (hstep st st' hP hs) h2
      | done =>
        simp only [Outcome.ok.injEq] at h2
        subst h2
        exact ⟨hP, Or.inl ⟨rfl, Or.inr hs⟩⟩
      | stuck c =>
        simp only [Outcome.ok.injEq] at h2
        subst h2
        exact ⟨hP, Or.inr ⟨c, rfl, hs⟩⟩
    · next hlen =>
      simp only [Outcome.ok.injEq] at h
      subst h
      exact ⟨hP, Or.inl ⟨rfl, Or.inl hlen⟩⟩

end DsaturSteps

/-! ## Invariants of the main loop of `DSATUR` -/

section DsaturInvariants

variable (rt : GoRuntime)

theorem adjacent_iff (graph : ConflictGraph) (i j : Nat) :
    graph.adjacent i j = true ↔
      ∃ row w, graph.AdjMatrix[i]? = some row ∧ row[j]? = some w ∧ 0 < w := by
  unfold ConflictGraph.adjacent
  cases h1 : graph.AdjMatrix[i]? with
  | none => simp
  | some row =>
    cases h2 : row[j]? with
    | none => simp [h2]
    | some w => simp [h2]

theorem mem_allowedIndices (allowed : GoMap SlotID Bool) :
    ∀ (slots : List (Slot rt.Time)) (j0 k : Nat), k ∈ allowedIndices rt allowed j0 slots →
      ∃ s, j0 ≤ k ∧ slots[k - j0]? = some s ∧ allowed.get? s.ID = some true := by
  intro slots
  induction slots with
  | nil => intro j0 k h; simp [allowedIndices] at h
  | cons s rest ih =>
    intro j0 k h
    unfold allowedIndices at h
    have key : k ∈ allowedIndices rt allowed (j0 + 1) rest →
        ∃ s', j0 ≤ k ∧ (s :: rest)[k - j0]? = some s' ∧ allowed.get? s'.ID = some true := by
      intro hk
      obtain ⟨s', h1, h2, h3⟩ := ih (j0 + 1) k hk
      refine ⟨s', by omega, ?_, h3⟩
      have : k - j0 = (k - (j0 + 1)) + 1 := by omega
      rw [this]; simpa using h2
    split at h
    · next hs =>
      rcases List.mem_cons.1 h with h | h
      · subst h
        exact ⟨s, le_refl _, by simp, hs⟩
      · exact key h
    · exact key h

/-- A candidate slot index of a course is an index into the slot list, and the slot there
is allowed by the palette of the course when that palette is non-empty. -/
theorem mem_courseSlots (slots : List (Slot rt.Time))
    (allowedSlots : GoMap CourseID (GoMap SlotID Bool)) (c : CourseID) (k : Nat)
    (h : k ∈ courseSlots rt slots allowedSlots c) :
    k < slots.length ∧
      ∀ allowed, allowedSlots.get? c = some allowed → 0 < allowed.len →
        ∃ s, slots[k]? = some s ∧ allowed.get? s.ID = some true := by
  unfold courseSlots at h
  split at h
  · next allowed hal =>
    split at h
    · next hlen =>
      obtain ⟨s, _, h2, h3⟩ := mem_allowedIndices rt allowed slots 0 k h
      simp only [Nat.sub_zero] at h2
      refine ⟨(List.getElem?_eq_some.1 h2).1, ?_⟩
      intro allowed' hal' _
      rw [hal] at hal'
      cases hal'
      exact ⟨s, h2, h3⟩
    · next hlen =>
      refine ⟨List.mem_range.1 h, ?_⟩
      intro allowed' hal' hpos
      rw [hal] at hal'
      cases hal'
      exact absurd hpos hlen
  · next hal =>
    refine ⟨List.mem_range.1 h, ?_⟩
    intro allowed' hal' _
    rw [hal] at hal'
    cases hal'

theorem availableSlots_getD (graph : ConflictGraph) (slots : List (Slot rt.Time))
    (allowedSlots : GoMap CourseID (GoMap SlotID Bool)) (n : Nat) (c : CourseID)
    (h : graph.Courses[n]? = some c) :
    (availableSlots rt graph slots allowedSlots).getD n [] = courseSlots rt slots allowedSlots c := by
  simp [availableSlots, List.getD_eq_getElem?_getD, h]

theorem dsaturInv_init (graph : ConflictGraph) (slots : List (Slot rt.Time))
    (allowedSlots : GoMap CourseID (GoMap SlotID Bool)) (seed : Int) :
    DsaturInv rt graph slots allowedSlots (dsaturInit rt graph seed) where
  keysNodup := GoMap.keysNodup_empty
  dom := by intro c h; exact absurd (GoMap.get?_empty c) h
  slot := by intro c k h; simp [dsaturInit, GoMap.get?_empty] at h
  sat := by
    intro i
    simp only [dsaturInit, List.getD_eq_getElem?_getD, List.getElem?_replicate]
    split <;> simp

theorem dsaturInv_step (graph : ConflictGraph) (slots : List (Slot rt.Time))
    (allowedSlots : GoMap CourseID (GoMap SlotID Bool)) (st st' : DsaturState rt)
    (hinv : DsaturInv rt graph slots allowedSlots st)
    (h : dsaturStep rt graph (availableSlots rt graph slots allowedSlots) st = .ok (.next st')) :
    DsaturInv rt graph slots allowedSlots st' := by
  obtain ⟨next, c, k, row, _, hc, hun, hpick, _, hsat, hcol⟩ := dsaturStep_next rt _ _ _ _ h
  obtain ⟨pre, post, hsplit, _, hr⟩ := pickSlot_ok _ _ _ _ _ hpick
  have hk : k ∈ courseSlots rt slots allowedSlots c := by
    rcases hr with ⟨hr, _⟩ | ⟨k', post', hk', hpost, _⟩
    · simp at hr
    · simp only [Option.some.injEq] at hk'
      subst hk'
      rw [← availableSlots_getD rt graph slots allowedSlots next c hc, hsplit, hpost]
      simp
  refine ⟨?_, ?_, ?_, ?_⟩
  · rw [hcol]; exact GoMap.keysNodup_insert_of_none _ _ _ hinv.keysNodup hun
  · intro c' hc'
    rw [hcol, GoMap.get?_insert] at hc'
    split at hc'
    · next heq => subst heq; exact List.getElem?_mem hc
    · exact hinv.dom c' hc'
  · intro c' k' hc'
    rw [hcol, GoMap.get?_insert] at hc'
    split at hc'
    · next heq =>
      subst heq
      simp only [Option.some.injEq] at hc'
      subst hc'; exact hk
    · exact hinv.slot c' k' hc'
  · exact updateSaturation_nonneg _ _ _ _ _ _ _ _ hinv.sat hsat

theorem len_le_of_inv (graph : ConflictGraph) (slots : List (Slot rt.Time))
    (allowedSlots : GoMap CourseID (GoMap SlotID Bool)) (st : DsaturState rt)
    (hinv : DsaturInv rt graph slots allowedSlots st) :
    st.coloring.len ≤ graph.Courses.length := by
  unfold GoMap.len
  have hsub : st.coloring.keys ⊆ graph.Courses := by
    intro c hc
    exact hinv.dom c ((GoMap.mem_keys_iff _ _).1 hc)
  have hnd : st.coloring.keys.Nodup := List.nodup_dedup _
  exact (List.Nodup.subperm hnd hsub).length_le

/-- Every course is coloured in a state in which the main loop ends normally. -/
theorem colored_of_end (graph : ConflictGraph) (slots : List (Slot rt.Time))
    (allowedSlots : GoMap CourseID (GoMap SlotID Bool)) (st : DsaturState rt)
    (hinv : DsaturInv rt graph slots allowedSlots st)
    (hend : ¬ st.coloring.len < graph.Courses.length ∨
      dsaturStep rt graph (availableSlots rt graph slots allowedSlots) st = .ok .done) :
    ∀ c ∈ graph.Courses, st.coloring.get? c ≠ none := by
  rcases hend with hlen | hdone
  · intro c hc
    have hsub : st.coloring.keys ⊆ graph.Courses := by
      intro c hc
      exact hinv.dom c ((GoMap.mem_keys_iff _ _).1 hc)
    have hnd : st.coloring.keys.Nodup := List.nodup_dedup _
    have hperm := (List.Nodup.subperm hnd hsub).perm_of_length_le (by
      unfold GoMap.len at hlen; omega)
    exact (GoMap.mem_keys_iff _ _).1 (hperm.symm.subset hc)
  · have h1 := selectVertex_none rt _ _ (dsaturStep_done rt _ _ _ hdone)
    exact (satCandidates_eq_nil _ _ hinv.sat _ _ _ _ (by simp) h1).2

/-- The main loop never runs out of fuel when given one unit more than the number of
courses still to colour. -/
theorem dsaturLoop_ne_timeout (graph : ConflictGraph) (slots : List (Slot rt.Time))
    (allowedSlots : GoMap CourseID (GoMap SlotID Bool)) :
    ∀ (fuel : Nat) (st : DsaturState rt), DsaturInv rt graph slots allowedSlots st →
      graph.Courses.length < st.coloring.len + fuel →
      dsaturLoop rt graph (availableSlots rt graph slots allowedSlots) fuel st ≠ .timeout := by
  intro fuel
  induction fuel with
  | zero =>
    intro st hinv hlt
    have := len_le_of_inv rt graph slots allowedSlots st hinv
    omega
  | succ fuel ih =>
    intro st hinv hlt
    unfold dsaturLoop
    split
    · intro hto
      rcases Outcome.bind_eq_timeout.1 hto with h | ⟨step, hs, h2⟩
      · exact (dsaturStep_plain rt _ _ _).ne_timeout h
      · cases step with
        | next st' =>
          have hinv' := dsaturInv_step rt graph slots allowedSlots st st' hinv hs
          obtain ⟨next, c, k, row, _, _, hun, _, _, _, hcol⟩ := dsaturStep_next rt _ _ _ _ hs
          have hlen : st'.coloring.len = st.coloring.len + 1 := by
            rw [hcol]; exact GoMap.len_insert_of_none _ _ _ hinv.keysNodup hun
          exact ih st' hinv' (by omega) h2
        | done => simp at h2
        | stuck c => simp at h2
    · simp

end DsaturInvariants

section DsaturProper

variable (rt : GoRuntime)

theorem index_eq_of_nodup {l : List CourseID} (hnd : l.Nodup) {i j : Nat} {x : CourseID}
    (hi : l[i]? = some x) (hj : l[j]? = some x) : i = j := by
  obtain ⟨hi1, hi2⟩ := List.getElem?_eq_some.1 hi
  obtain ⟨hj1, hj2⟩ := List.getElem?_eq_some.1 hj
  exact (List.Nodup.getElem_inj_iff hnd).1 (hi2.trans hj2.symm)

theorem properColoring_step (graph : ConflictGraph) (hnd : graph.Courses.Nodup)
    (hsym : graph.Symmetric) (avail : List (List Nat)) (st st' : DsaturState rt)
    (hp : ProperColoring graph st.coloring)
    (h : dsaturStep rt graph avail st = .ok (.next st')) :
    ProperColoring graph st'.coloring := by
  obtain ⟨next, c, k, row, _, hc, hun, hpick, hrow, _, hcol⟩ := dsaturStep_next rt _ _ _ _ h
  obtain ⟨pre, post, _, _, hr⟩ := pickSlot_ok _ _ _ _ _ hpick
  have hfree : slotFree graph st.coloring k 0 row = .ok true := by
    rcases hr with ⟨hr, _⟩ | ⟨k', post', hk', _, row', hrow', hf⟩
    · simp at hr
    · simp only [Option.some.injEq] at hk'
      subst hk'
      rw [hrow] at hrow'
      cases hrow'
      exact hf
  -- no coloured vertex adjacent to `next` holds `k`
  have hnb : ∀ (j : Nat) (y : CourseID) (ky : Nat), graph.adjacent next j = true →
      graph.Courses[j]? = some y → st.coloring.get? y = some ky → ky ≠ k := by
    intro j y ky hadj hy hky
    obtain ⟨row', w, h1, h2, h3⟩ := (adjacent_iff graph next j).1 hadj
    rw [hrow] at h1
    cases h1
    obtain ⟨c', hc', hne⟩ := slotFree_true graph st.coloring k row 0 hfree j w h2 h3
    simp only [Nat.zero_add] at hc'
    rw [hy] at hc'
    cases hc'
    intro heq
    subst heq
    exact hne hky
  intro i j x y kx ky hij hadj hx hy hkx hky
  rw [hcol, GoMap.get?_insert] at hkx hky
  by_cases hxc : x = c
  · by_cases hyc : y = c
    · subst hxc
      subst hyc
      exact absurd (index_eq_of_nodup hnd hx hy) hij
    · subst hxc
      simp only [if_true, Option.some.injEq, hyc, if_false] at hkx hky
      have hin : i = next := index_eq_of_nodup hnd hx hc
      subst hin
      subst hkx
      exact (hnb j y ky hadj hy hky).symm
  · by_cases hyc : y = c
    · subst hyc
      simp only [if_true, Option.some.injEq, hxc, if_false] at hkx hky
      have hjn : j = next := index_eq_of_nodup hnd hy hc
      subst hjn
      subst hky
      exact hnb i x kx (hsym i j hadj) hx hkx
    · simp only [hxc, hyc, if_false] at hkx hky
      exact hp i j x y kx ky hij hadj hx hy hkx hky

theorem dsaturLoop_ne_error (graph : ConflictGraph) (avail : List (List Nat)) (msg : String) :
    ∀ (fuel : Nat) (st : DsaturState rt), dsaturLoop rt graph avail fuel st ≠ .error msg := by
  intro fuel
  induction fuel with
  | zero => intro st; simp [dsaturLoop]
  | succ fuel ih =>
    intro st
    unfold dsaturLoop
    split
    · intro herr
      rcases Outcome.bind_eq_error.1 herr with h | ⟨step, _, h2⟩
      · exact (dsaturStep_plain rt _ _ _).ne_error msg h
      · cases step with
        | next st' => exact ih st' h2
        | done => simp at h2
        | stuck c => simp at h2
    · simp

/-- The state in which a successful run of `DSATUR` ended. -/
theorem DSATUR_ok_run (graph : ConflictGraph) (slots : List (Slot rt.Time))
    (allowedSlots : GoMap CourseID (GoMap SlotID Bool)) (seed : Int)
    (coloring : GoMap CourseID Nat) (h : DSATUR rt graph slots allowedSlots seed = .ok coloring) :
    ∃ st, dsaturRun rt graph slots allowedSlots seed = .ok (st, .colored) ∧
      st.coloring = coloring := by
  unfold DSATUR at h
  obtain ⟨r, hr, h2⟩ := Outcome.bind_eq_ok.1 h
  obtain ⟨st, e⟩ := r
  cases e with
  | colored =>
    simp only [Outcome.ok.injEq] at h2
    exact ⟨st, hr, h2⟩
  | stuck c => simp at h2

/-- The state in which a failed run of `DSATUR` ended. -/
theorem DSATUR_error_run (graph : ConflictGraph) (slots : List (Slot rt.Time))
    (allowedSlots : GoMap CourseID (GoMap SlotID Bool)) (seed : Int) (msg : String)
    (h : DSATUR rt graph slots allowedSlots seed = .error msg) :
    ∃ st c, dsaturRun rt graph slots allowedSlots seed = .ok (st, .stuck c) ∧
      msg = infeasibleMsg c := by
  unfold DSATUR at h
  rcases Outcome.bind_eq_error.1 h with h1 | ⟨r, hr, h2⟩
  · exact absurd h1 (dsaturLoop_ne_error rt _ _ _ _ _)
  · obtain ⟨st, e⟩ := r
    cases e with
    | colored => simp at h2
    | stuck c =>
      simp only [Outcome.error.injEq] at h2
      exact ⟨st, c, hr, h2.symm⟩

/-- The facts about the last state of a run of `DSATUR` that hold for every graph. -/
theorem dsaturRun_inv (graph : ConflictGraph) (slots : List (Slot rt.Time))
    (allowedSlots : GoMap CourseID (GoMap SlotID Bool)) (seed : Int)
    (r : DsaturState rt × DsaturEnd)
    (h : dsaturRun rt graph slots allowedSlots seed = .ok r) :
    DsaturInv rt graph slots allowedSlots r.1 ∧
      ((r.2 = .colored ∧ (¬ r.1.coloring.len < graph.Courses.length ∨
          dsaturStep rt graph (availableSlots rt graph slots allowedSlots) r.1 = .ok .done)) ∨
        ∃ c, r.2 = .stuck c ∧
          dsaturStep rt graph (availableSlots rt graph slots allowedSlots) r.1 = .ok (.stuck c)) :=
  dsaturLoop_ok rt graph _ (DsaturInv rt graph slots allowedSlots)
    (fun st st' hst hs => dsaturInv_step rt graph slots allowedSlots st st' hst hs)
    _ _ r (dsaturInv_init rt graph slots allowedSlots seed) h

/-- `DSATUR` always ends: the fuel of the model is never used up. -/
theorem DSATUR_ne_timeout (graph : ConflictGraph) (slots : List (Slot rt.Time))
    (allowedSlots : GoMap CourseID (GoMap SlotID Bool)) (seed : Int) :
    DSATUR rt graph slots allowedSlots seed ≠ .timeout := by
  unfold DSATUR
  intro h
  rcases Outcome.bind_eq_timeout.1 h with h1 | ⟨r, _, h2⟩
  · refine dsaturLoop_ne_timeout rt graph slots allowedSlots _ _
      (dsaturInv_init rt graph slots allowedSlots seed) ?_ h1
    omega
  · split at h2 <;> simp at h2

/-- A colouring returned by `DSATUR` colours every course of the graph and nothing else,
with a candidate slot of the course. -/
theorem DSATUR_ok_domain (graph : ConflictGraph) (slots : List (Slot rt.Time))
    (allowedSlots : GoMap CourseID (GoMap SlotID Bool)) (seed : Int)
    (coloring : GoMap CourseID Nat) (h : DSATUR rt graph slots allowedSlots seed = .ok coloring) :
    coloring.KeysNodup ∧ (∀ c, coloring.get? c ≠ none ↔ c ∈ graph.Courses) ∧
      ∀ c k, coloring.get? c = some k → k ∈ courseSlots rt slots allowedSlots c := by
  obtain ⟨st, hrun, hst⟩ := DSATUR_ok_run rt graph slots allowedSlots seed coloring h
  obtain ⟨hinv, hend⟩ := dsaturRun_inv rt graph slots allowedSlots seed _ hrun
  subst hst
  rcases hend with ⟨_, hend⟩ | ⟨c, hc, _⟩
  · exact ⟨hinv.keysNodup,
      fun c => ⟨hinv.dom c, colored_of_end rt graph slots allowedSlots st hinv hend c⟩,
      hinv.slot⟩
  · simp at hc

/-- A colouring returned by `DSATUR` for a graph with distinct courses and symmetric
adjacency is proper. -/
theorem DSATUR_ok_proper (graph : ConflictGraph) (hnd : graph.Courses.Nodup)
    (hsym : graph.Symmetric) (slots : List (Slot rt.Time))
    (allowedSlots : GoMap CourseID (GoMap SlotID Bool)) (seed : Int)
    (coloring : GoMap CourseID Nat) (h : DSATUR rt graph slots allowedSlots seed = .ok coloring) :
    ProperColoring graph coloring := by
  obtain ⟨st, hrun, hst⟩ := DSATUR_ok_run rt graph slots allowedSlots seed coloring h
  have := dsaturLoop_ok rt graph _ (fun st => ProperColoring graph st.coloring)
    (fun st st' hst hs => properColoring_step rt graph hnd hsym _ st st' hst hs)
    _ _ _ (by
      intro i j x y kx ky _ _ _ _ hkx
      simp [dsaturInit, GoMap.get?_empty] at hkx) hrun
  rw [← hst]
  exact this.1

end DsaturProper

/-! ## `VerifySchedule`: validity and clashes -/

section VerifyClashes

variable (rt : GoRuntime)

theorem foldl_insert_get? (assignments : List Assignment) :
    ∀ (m : GoMap CourseID Assignment) (c : CourseID),
      ((assignments.foldl (fun m a => m.insert a.CourseID a) m).get? c).map Assignment.SlotID =
        match scheduledSlot assignments c with
        | some s => some s
        | none => (m.get? c).map Assignment.SlotID := by
  induction assignments with
  | nil => intro m c; simp [scheduledSlot]
  | cons a rest ih =>
    intro m c
    simp only [List.foldl_cons, scheduledSlot]
    rw [ih]
    cases h : scheduledSlot rest c with
    | some s => simp
    | none =>
      simp only [GoMap.get?_insert]
      by_cases hc : c = a.CourseID
      · subst hc; simp
      · have hc' : ¬ a.CourseID = c := fun h => hc h.symm
        simp [hc, hc']

theorem assignmentMap_slot (assignments : List Assignment) (c : CourseID) :
    ((buildAssignmentMap assignments).get? c).map Assignment.SlotID =
      scheduledSlot assignments c := by
  unfold buildAssignmentMap
  rw [foldl_insert_get?]
  cases scheduledSlot assignments c <;> simp [GoMap.get?_empty]

theorem scheduledSlot_eq_none_iff (assignments : List Assignment) (c : CourseID) :
    scheduledSlot assignments c = none ↔ ∀ a ∈ assignments, a.CourseID ≠ c := by
  induction assignments with
  | nil => simp [scheduledSlot]
  | cons a rest ih =>
    simp only [scheduledSlot, List.mem_cons, forall_eq_or_imp]
    cases h : scheduledSlot rest c with
    | some s =>
      simp only [false_iff, not_and, reduceCtorEq]
      intro _ hall
      exact absurd (ih.2 hall) (by simp [h])
    | none =>
      have := ih.1 h
      by_cases hc : a.CourseID = c
      · simp [hc]
      · simpa [hc] using this

theorem assignmentMap_eq_none_iff (assignments : List Assignment) (c : CourseID) :
    (buildAssignmentMap assignments).get? c = none ↔ ∀ a ∈ assignments, a.CourseID ≠ c := by
  rw [← scheduledSlot_eq_none_iff, ← assignmentMap_slot]
  cases (buildAssignmentMap assignments).get? c <;> simp

theorem seenInSlot_insert (sched : GoMap StudentID (GoMap SlotID Bool)) (s s' : StudentID)
    (slot slot' : SlotID) :
    seenInSlot (sched.insert s (((sched.get? s).getD GoMap.empty).insert slot true)) s' slot' =
      ((decide (s' = s) && decide (slot' = slot)) || seenInSlot sched s' slot') := by
  unfold seenInSlot
  by_cases hs : s' = s
  · subst hs
    simp only [GoMap.get?_insert_self, Option.getD_some, GoMap.get?_insert]
    by_cases hl : slot' = slot
    · simp [hl]
    · simp [hl]
  · simp [GoMap.get?_insert_of_ne _ _ hs, hs]

theorem clashInv_step (assignments : List Assignment) (earlier : List Registration)
    (acc : GoMap StudentID (GoMap SlotID Bool) × ValidationReport) (n : Nat)
    (reg : Registration) (h : ClashInv assignments earlier acc n) :
    ClashInv assignments (earlier ++ [reg])
      (checkRegistration (buildAssignmentMap assignments) acc reg)
      (n + if isClash assignments earlier reg then 1 else 0) := by
  have hslot := assignmentMap_slot assignments reg.CourseID
  unfold checkRegistration isClash
  cases hm : (buildAssignmentMap assignments).get? reg.CourseID with
  | none =>
    rw [hm] at hslot
    simp only [Option.map_none'] at hslot
    rw [← hslot]
    simp only [Bool.false_eq_true, if_false, Nat.add_zero]
    refine ⟨?_, h.conflicts, h.clashes, h.valid, h.errors, h.unassigned⟩
    intro s slot
    rw [h.seen]
    constructor
    · rintro ⟨e, he, h1, h2⟩
      exact ⟨e, List.mem_append_left _ he, h1, h2⟩
    · rintro ⟨e, he, h1, h2⟩
      rcases List.mem_append.1 he with he | he
      · exact ⟨e, he, h1, h2⟩
      · simp only [List.mem_singleton] at he
        subst he
        rw [← hslot] at h2
        simp at h2
  | some a =>
    rw [hm] at hslot
    simp only [Option.map_some'] at hslot
    rw [← hslot]
    simp only
    have hseen : (((acc.1.get? reg.StudentID).getD GoMap.empty).get? a.SlotID).getD false =
        seenInSlot acc.1 reg.StudentID a.SlotID := rfl
    rw [hseen]
    have hany : (earlier.any fun e => decide (e.StudentID = reg.StudentID) &&
        decide (scheduledSlot assignments e.CourseID = some a.SlotID)) =
        seenInSlot acc.1 reg.StudentID a.SlotID := by
      rw [Bool.eq_iff_iff, h.seen]
      simp [List.any_eq_true]
    simp only [hany]
    refine ⟨?_, ?_, ?_, ?_, ?_, ?_⟩
    · intro s slot
      simp only
      rw [seenInSlot_insert]
      simp only [Bool.or_eq_true, Bool.and_eq_true, decide_eq_true_eq, h.seen]
      constructor
      · rintro (⟨h1, h2⟩ | ⟨e, he, h1, h2⟩)
        · exact ⟨reg, by simp, h1.symm, by rw [h2]; exact hslot.symm⟩
        · exact ⟨e, List.mem_append_left _ he, h1, h2⟩
      · rintro ⟨e, he, h1, h2⟩
        rcases List.mem_append.1 he with he | he
        · exact Or.inr ⟨e, he, h1, h2⟩
        · simp only [List.mem_singleton] at he
          subst he
          rw [← hslot] at h2
          simp only [Option.some.injEq] at h2
          exact Or.inl ⟨h1.symm, h2.symm⟩
    · by_cases hc : seenInSlot acc.1 reg.StudentID a.SlotID = true
      · simp [hc, h.conflicts]
      · simp [hc, h.conflicts]
    · by_cases hc : seenInSlot acc.1 reg.StudentID a.SlotID = true
      · simp [hc, h.clashes]
      · simp [hc, h.clashes]
    · by_cases hc : seenInSlot acc.1 reg.StudentID a.SlotID = true
      · simp [hc]
      · simp [hc, h.valid]
    · by_cases hc : seenInSlot acc.1 reg.StudentID a.SlotID = true
      · simp [hc, h.errors]
      · simp [hc, h.errors]
    · by_cases hc : seenInSlot acc.1 reg.StudentID a.SlotID = true
      · simp [hc, h.unassigned]
      · simp [hc, h.unassigned]

theorem clashInv_foldl (assignments : List Assignment) :
    ∀ (regs earlier : List Registration)
      (acc : GoMap StudentID (GoMap SlotID Bool) × ValidationReport) (n : Nat),
      ClashInv assignments earlier acc n →
      ClashInv assignments (earlier ++ regs)
        (regs.foldl (checkRegistration (buildAssignmentMap assignments)) acc)
        (n + clashCount assignments earlier regs) := by
  intro regs
  induction regs with
  | nil => intro earlier acc n h; simpa [clashCount] using h
  | cons reg rest ih =>
    intro earlier acc n h
    have := ih (earlier ++ [reg]) _ _ (clashInv_step assignments earlier acc n reg h)
    simpa [clashCount, Nat.add_assoc] using this

theorem clashInv_init (assignments : List Assignment) :
    ClashInv assignments [] (GoMap.empty, ⟨true, 0, [], [], [], []⟩) 0 where
  seen := by intro s slot; simp [seenInSlot, GoMap.get?_empty]
  conflicts := rfl
  clashes := rfl
  valid := by simp
  errors := rfl
  unassigned := rfl

end VerifyClashes

/-! ## `VerifySchedule`: the hall loop -/

section VerifyHalls

variable (rt : GoRuntime)

theorem bookings_insert (usage : GoMap SlotID (GoMap HallID Int)) (s s' : SlotID)
    (h h' : HallID) (v : Int) :
    bookings (usage.insert s (((usage.get? s).getD GoMap.empty).insert h v)) s' h' =
      if s' = s ∧ h' = h then v else bookings usage s' h' := by
  unfold bookings
  by_cases hs : s' = s
  · subst hs
    simp only [GoMap.get?_insert_self, Option.getD_some, GoMap.get?_insert]
    by_cases hh : h' = h
    · simp [hh]
    · simp [hh]
  · simp [GoMap.get?_insert_of_ne _ _ hs, hs]

theorem checkHall_report (hallCapacityMap : GoMap HallID Int) (a : Assignment) (n : Nat)
    (acc : HallCheck) (hallIDStr : String) (h : ReportInv n acc.report) :
    ReportInv n (checkHall hallCapacityMap a acc hallIDStr).report := by
  unfold checkHall
  split
  · exact h
  · split
    · exact ⟨h.conflicts, h.clashes, h.unassigned, h.valid⟩
    · simp only
      split
      · refine ⟨h.conflicts, h.clashes, h.unassigned, ?_⟩
        simp
      · exact h

theorem checkHall_mono (hallCapacityMap : GoMap HallID Int) (a : Assignment)
    (acc : HallCheck) (hallIDStr : String) (s : SlotID) (hall : HallID)
    (hk : ∀ s h, 0 ≤ bookings acc.slotHallUsage s h) :
    (∀ s h, 0 ≤ bookings (checkHall hallCapacityMap a acc hallIDStr).slotHallUsage s h) ∧
    (Booked s hall acc.slotHallUsage →
      Booked s hall (checkHall hallCapacityMap a acc hallIDStr).slotHallUsage) ∧
    (Flagged s hall acc.report →
      Flagged s hall (checkHall hallCapacityMap a acc hallIDStr).report) := by
  unfold checkHall
  split
  · exact ⟨hk, id, id⟩
  · split
    · exact ⟨hk, id, id⟩
    · simp only
      refine ⟨?_, ?_, ?_⟩
      · intro s' h'
        rw [bookings_insert]
        split
        · have := hk a.SlotID hallIDStr
          unfold bookings at this
          omega
        · exact hk s' h'
      · intro hb
        unfold Booked at hb ⊢
        rw [bookings_insert]
        split
        · have := hk a.SlotID hallIDStr
          unfold bookings at this
          omega
        · exact hb
      · intro hf
        unfold Flagged at hf ⊢
        split
        · exact ⟨List.mem_append_left _ hf.1, rfl⟩
        · exact hf

theorem checkHall_hit (hallCapacityMap : GoMap HallID Int) (a : Assignment)
    (acc : HallCheck) (hallIDStr : String) (capacity : Int)
    (hk : ∀ s h, 0 ≤ bookings acc.slotHallUsage s h) (hne : hallIDStr ≠ "")
    (hcap : hallCapacityMap.get? hallIDStr = some capacity) :
    Booked a.SlotID hallIDStr (checkHall hallCapacityMap a acc hallIDStr).slotHallUsage ∧
    (Booked a.SlotID hallIDStr acc.slotHallUsage →
      Flagged a.SlotID hallIDStr (checkHall hallCapacityMap a acc hallIDStr).report) := by
  unfold checkHall
  simp only [hne, if_false, hcap]
  have h0 := hk a.SlotID hallIDStr
  refine ⟨?_, ?_⟩
  · unfold Booked
    rw [bookings_insert]
    unfold bookings at h0
    simp only [and_self, if_true]
    omega
  · intro hb
    unfold Booked bookings at hb
    unfold Flagged
    have : (((acc.slotHallUsage.get? a.SlotID).getD GoMap.empty).get? hallIDStr).getD 0 + 1 > 1 := by
      omega
    simp [this]

theorem checkHalls_foldl (hallCapacityMap : GoMap HallID Int) (a : Assignment) (n : Nat)
    (s : SlotID) (hall : HallID) :
    ∀ (l : List String) (acc : HallCheck), ReportInv n acc.report →
      (∀ s h, 0 ≤ bookings acc.slotHallUsage s h) →
      ReportInv n (l.foldl (checkHall hallCapacityMap a) acc).report ∧
      (∀ s h, 0 ≤ bookings (l.foldl (checkHall hallCapacityMap a) acc).slotHallUsage s h) ∧
      (Booked s hall acc.slotHallUsage →
        Booked s hall (l.foldl (checkHall hallCapacityMap a) acc).slotHallUsage) ∧
      (Flagged s hall acc.report →
        Flagged s hall (l.foldl (checkHall hallCapacityMap a) acc).report) := by
  intro l
  induction l with
  | nil => intro acc hr hk; exact ⟨hr, hk, id, id⟩
  | cons x rest ih =>
    intro acc hr hk
    obtain ⟨m1, m2, m3⟩ := checkHall_mono hallCapacityMap a acc x s hall hk
    obtain ⟨i1, i2, i3, i4⟩ := ih _ (checkHall_report hallCapacityMap a n acc x hr) m1
    exact ⟨i1, i2, fun hb => i3 (m2 hb), fun hf => i4 (m3 hf)⟩

theorem checkHalls_hit (hallCapacityMap : GoMap HallID Int) (a : Assignment) (n : Nat)
    (hall : HallID) (capacity : Int) (hne : hall ≠ "")
    (hcap : hallCapacityMap.get? hall = some capacity) :
    ∀ (l : List String) (acc : HallCheck), hall ∈ l → ReportInv n acc.report →
      (∀ s h, 0 ≤ bookings acc.slotHallUsage s h) →
      Booked a.SlotID hall (l.foldl (checkHall hallCapacityMap a) acc).slotHallUsage ∧
      (Booked a.SlotID hall acc.slotHallUsage →
        Flagged a.SlotID hall (l.foldl (checkHall hallCapacityMap a) acc).report) := by
  intro l
  induction l with
  | nil => intro acc hm; simp at hm
  | cons x rest ih =>
    intro acc hm hr hk
    obtain ⟨m1, m2, m3⟩ := checkHall_mono hallCapacityMap a acc x a.SlotID hall hk
    have hr' := checkHall_report hallCapacityMap a n acc x hr
    obtain ⟨_, _, i3, i4⟩ := checkHalls_foldl hallCapacityMap a n a.SlotID hall rest _ hr' m1
    rcases List.mem_cons.1 hm with hx | hx
    · subst hx
      obtain ⟨h1, h2⟩ := checkHall_hit hallCapacityMap a acc hall capacity hk hne hcap
      exact ⟨i3 h1, fun hb => i4 (h2 hb)⟩
    · obtain ⟨j1, j2⟩ := ih _ hx hr' m1
      exact ⟨j1, fun hb => j2 (m2 hb)⟩

theorem checkAssignment_inv (hallCapacityMap : GoMap HallID Int) (n : Nat)
    (s : SlotID) (hall : HallID)
    (acc : GoMap SlotID (GoMap HallID Int) × ValidationReport) (a : Assignment)
    (hr : ReportInv n acc.2) (hk : ∀ s h, 0 ≤ bookings acc.1 s h) :
    ReportInv n (checkAssignment hallCapacityMap acc a).2 ∧
    (∀ s h, 0 ≤ bookings (checkAssignment hallCapacityMap acc a).1 s h) ∧
    (Booked s hall acc.1 → Booked s hall (checkAssignment hallCapacityMap acc a).1) ∧
    (Flagged s hall acc.2 → Flagged s hall (checkAssignment hallCapacityMap acc a).2) := by
  obtain ⟨i1, i2, i3, i4⟩ := checkHalls_foldl hallCapacityMap a n s hall
    (stringsSplit a.Halls ';') ⟨0, acc.1, acc.2⟩ hr hk
  unfold checkAssignment
  refine ⟨?_, i2, i3, ?_⟩
  · simp only
    split
    · exact ⟨i1.conflicts, i1.clashes, i1.unassigned, i1.valid⟩
    · exact i1
  · intro hf
    have := i4 hf
    simp only
    split
    · exact this
    · exact this

theorem checkAssignment_hit (hallCapacityMap : GoMap HallID Int) (n : Nat)
    (hall : HallID) (capacity : Int) (hne : hall ≠ "")
    (hcap : hallCapacityMap.get? hall = some capacity)
    (acc : GoMap SlotID (GoMap HallID Int) × ValidationReport) (a : Assignment)
    (hl : hall ∈ stringsSplit a.Halls ';')
    (hr : ReportInv n acc.2) (hk : ∀ s h, 0 ≤ bookings acc.1 s h) :
    Booked a.SlotID hall (checkAssignment hallCapacityMap acc a).1 ∧
    (Booked a.SlotID hall acc.1 → Flagged a.SlotID hall (checkAssignment hallCapacityMap acc a).2) := by
  obtain ⟨j1, j2⟩ := checkHalls_hit hallCapacityMap a n hall capacity hne hcap
    (stringsSplit a.Halls ';') ⟨0, acc.1, acc.2⟩ hl hr hk
  unfold checkAssignment
  refine ⟨j1, ?_⟩
  intro hb
  have := j2 hb
  simp only
  split
  · exact this
  · exact this

theorem checkAssignments_foldl (hallCapacityMap : GoMap HallID Int) (n : Nat)
    (s : SlotID) (hall : HallID) :
    ∀ (l : List Assignment) (acc : GoMap SlotID (GoMap HallID Int) × ValidationReport),
      ReportInv n acc.2 → (∀ s h, 0 ≤ bookings acc.1 s h) →
      ReportInv n (l.foldl (checkAssignment hallCapacityMap) acc).2 ∧
      (∀ s h, 0 ≤ bookings (l.foldl (checkAssignment hallCapacityMap) acc).1 s h) ∧
      (Booked s hall acc.1 → Booked s hall (l.foldl (checkAssignment hallCapacityMap) acc).1) ∧
      (Flagged s hall acc.2 → Flagged s hall (l.foldl (checkAssignment hallCapacityMap) acc).2) := by
  intro l
  induction l with
  | nil => intro acc hr hk; exact ⟨hr, hk, id, id⟩
  | cons a rest ih =>
    intro acc hr hk
    obtain ⟨m1, m2, m3, m4⟩ := checkAssignment_inv hallCapacityMap n s hall acc a hr hk
    obtain ⟨i1, i2, i3, i4⟩ := ih _ m1 m2
    exact ⟨i1, i2, fun hb => i3 (m3 hb), fun hf => i4 (m4 hf)⟩

theorem hallCapacityMap_get? (halls : List Hall) (hall : HallID)
    (h : ∃ x ∈ halls, x.ID = hall) : ∃ capacity, (buildHallCapacityMap halls).get? hall = some capacity := by
  unfold buildHallCapacityMap
  have key : ∀ (l : List Hall) (m : GoMap HallID Int),
      (m.get? hall ≠ none ∨ ∃ x ∈ l, x.ID = hall) →
      (l.foldl (fun m h => m.insert h.ID h.Capacity) m).get? hall ≠ none := by
    intro l
    induction l with
    | nil =>
      intro m hm
      rcases hm with hm | ⟨x, hx, _⟩
      · exact hm
      · simp at hx
    | cons y rest ih =>
      intro m hm
      simp only [List.foldl_cons]
      apply ih
      by_cases hy : y.ID = hall
      · left; rw [← hy, GoMap.get?_insert_self]; simp
      · rcases hm with hm | ⟨x, hx, hxh⟩
        · left; rw [GoMap.get?_insert_of_ne _ _ (Ne.symm hy)]; exact hm
        · rcases List.mem_cons.1 hx with hx | hx
          · subst hx; exact absurd hxh hy
          · right; exact ⟨x, hx, hxh⟩
  have := key halls GoMap.empty (Or.inr h)
  cases hg : (halls.foldl (fun m h => m.insert h.ID h.Capacity) GoMap.empty).get? hall with
  | none => exact absurd hg this
  | some c => exact ⟨c, rfl⟩

end VerifyHalls

/-! ## `VerifySchedule`: the report -/

section VerifyReport

variable (rt : GoRuntime)

theorem filterMap_get?_fst {κ ν : Type} [DecidableEq κ] (m : GoMap κ ν) :
    ∀ (l : List κ), (∀ k ∈ l, m.get? k ≠ none) →
      (l.filterMap fun k => (m.get? k).map fun v => (k, v)).map Prod.fst = l := by
  intro l
  induction l with
  | nil => intro _; rfl
  | cons k rest ih =>
    intro h
    have hk := h k (List.mem_cons_self _ _)
    cases hg : m.get? k with
    | none => exact absurd hg hk
    | some v =>
      rw [List.filterMap_cons, hg]
      simp only [Option.map_some', List.map_cons]
      rw [ih (fun k' hk' => h k' (List.mem_cons_of_mem _ hk'))]

/-- A `range` over a map visits the keys of the map in the order chosen by the run-time. -/
theorem GoMap.range_fst {κ ν : Type} [DecidableEq κ] (site exec : Nat) (m : GoMap κ ν) :
    (GoMap.range rt site exec m).map Prod.fst = rt.rangeOrder site exec m.keys := by
  unfold GoMap.range
  apply filterMap_get?_fst
  intro k hk
  exact (GoMap.mem_keys_iff m k).1 ((rt.rangeOrder_perm site exec m.keys).subset hk)

/-- Every entry visited by a `range` over a map is a binding of the map. -/
theorem GoMap.mem_range {κ ν : Type} [DecidableEq κ] (site exec : Nat) (m : GoMap κ ν)
    (k : κ) (v : ν) (h : (k, v) ∈ GoMap.range rt site exec m) : m.get? k = some v := by
  unfold GoMap.range at h
  obtain ⟨k', _, hk'⟩ := List.mem_filterMap.1 h
  cases hg : m.get? k' with
  | none => simp [hg] at hk'
  | some v' =>
    simp only [hg, Option.map_some', Option.some.injEq, Prod.mk.injEq] at hk'
    rw [← hk'.1, ← hk'.2]
    exact hg

theorem coursesInRegs_get? (c : CourseID) :
    ∀ (regs : List Registration) (m : GoMap CourseID Bool),
      (regs.foldl (fun m reg => m.insert reg.CourseID true) m).get? c ≠ none ↔
        (m.get? c ≠ none ∨ ∃ reg ∈ regs, reg.CourseID = c) := by
  intro regs
  induction regs with
  | nil => intro m; simp
  | cons reg rest ih =>
    intro m
    simp only [List.foldl_cons]
    rw [ih, GoMap.get?_insert]
    by_cases hc : c = reg.CourseID
    · subst hc; simp
    · have hc' : ¬ reg.CourseID = c := fun h => hc h.symm
      simp [hc, hc']

theorem mem_coursesInRegs_keys (regs : List Registration) (c : CourseID) :
    c ∈ (coursesInRegs regs).keys ↔ ∃ reg ∈ regs, reg.CourseID = c := by
  rw [GoMap.mem_keys_iff]
  unfold coursesInRegs
  rw [coursesInRegs_get?]
  simp [GoMap.get?_empty]

/-- The report of `verifyAssignments` in terms of its three loops. -/
theorem verifyAssignments_report (registrations : List Registration)
    (assignments : List Assignment) (halls : List Hall) :
    ∃ (booked : GoMap SlotID (GoMap HallID Int) × ValidationReport) (unassigned : List CourseID),
      booked = assignments.foldl (checkAssignment (buildHallCapacityMap halls))
        (GoMap.empty, (registrations.foldl (checkRegistration (buildAssignmentMap assignments))
          (GoMap.empty, ⟨true, 0, [], [], [], []⟩)).2) ∧
      ReportInv (clashCount assignments [] registrations) booked.2 ∧
      unassigned = (rt.rangeOrder 9 0 (coursesInRegs registrations).keys).filter
        (fun courseID => ((buildAssignmentMap assignments).get? courseID).isNone) ∧
      verifyAssignments rt registrations assignments halls =
        { booked.2 with
          Unassigned := unassigned
          Valid := if unassigned.length > 0 then false else booked.2.Valid } := by
  have hclash := clashInv_foldl assignments registrations [] _ 0 (clashInv_init assignments)
  simp only [List.nil_append, Nat.zero_add] at hclash
  have hinit : ReportInv (clashCount assignments [] registrations)
      (registrations.foldl (checkRegistration (buildAssignmentMap assignments))
        (GoMap.empty, ⟨true, 0, [], [], [], []⟩)).2 :=
    ⟨hclash.conflicts, hclash.clashes, hclash.unassigned, by
      rw [hclash.valid, hclash.errors]; simp⟩
  obtain ⟨hr, _, _, _⟩ := checkAssignments_foldl (buildHallCapacityMap halls) _ "" ""
    assignments (GoMap.empty, _) hinit (by intro s h; simp [bookings, GoMap.get?_empty])
  refine ⟨_, _, rfl, hr, rfl, ?_⟩
  unfold verifyAssignments
  simp only [GoMap.range_fst, hr.unassigned, List.nil_append]

/-- C7: the report returned by `VerifySchedule` has `Valid = true` if and only if
`Conflicts = 0`, `Errors` is empty and `Unassigned` is empty, for every registrations list,
schedule text and hall catalog. -/
theorem C7_valid_iff_no_clash_error_unassigned (registrations : List Registration)
    (scheduleCSV : String) (halls : List Hall) :
    (VerifySchedule rt registrations scheduleCSV halls).1.Valid = true ↔
      (VerifySchedule rt registrations scheduleCSV halls).1.Conflicts = 0 ∧
      (VerifySchedule rt registrations scheduleCSV halls).1.Errors = [] ∧
      (VerifySchedule rt registrations scheduleCSV halls).1.Unassigned = [] := by
  unfold VerifySchedule
  cases hp : parseScheduleCSV rt scheduleCSV with
  | error err => simp
  | ok assignments =>
    obtain ⟨booked, unassigned, _, hr, _, heq⟩ :=
      verifyAssignments_report rt registrations assignments halls
    simp only [heq]
    cases hu : unassigned with
    | nil =>
      simp only [List.length_nil, gt_iff_lt, lt_self_iff_false, if_false, and_true]
      rw [hr.valid, hr.conflicts]
      simp
    | cons c rest =>
      simp

/-- C8: for a parseable schedule, `Conflicts` equals the number of clash strings and the
number of registrations, scanned in input order, whose course is in the schedule and whose
student already has, by an earlier registration, a course of the schedule in the same slot.
In particular two registrations of one student for courses placed in the same slot (the
same course twice included) yield exactly one clash. -/
theorem C8_conflicts_count_clashing_registrations (registrations : List Registration)
    (scheduleCSV : String) (halls : List Hall) (assignments : List Assignment)
    (hparse : parseScheduleCSV rt scheduleCSV = .ok assignments) :
    (VerifySchedule rt registrations scheduleCSV halls).1.Conflicts =
        (clashCount assignments [] registrations : Int) ∧
      (VerifySchedule rt registrations scheduleCSV halls).1.StudentClashes.length =
        clashCount assignments [] registrations ∧
      ∀ (s : StudentID) (c₁ c₂ : CourseID) (slot : SlotID),
        scheduledSlot assignments c₁ = some slot → scheduledSlot assignments c₂ = some slot →
        (VerifySchedule rt [⟨s, c₁⟩, ⟨s, c₂⟩] scheduleCSV halls).1.Conflicts = 1 := by
  have key : ∀ regs, (VerifySchedule rt regs scheduleCSV halls).1.Conflicts =
        (clashCount assignments [] regs : Int) ∧
      (VerifySchedule rt regs scheduleCSV halls).1.StudentClashes.length =
        clashCount assignments [] regs := by
    intro regs
    unfold VerifySchedule
    rw [hparse]
    obtain ⟨booked, unassigned, _, hr, _, heq⟩ := verifyAssignments_report rt regs assignments halls
    simp only [heq]
    exact ⟨hr.conflicts, hr.clashes⟩
  refine ⟨(key registrations).1, (key registrations).2, ?_⟩
  intro s c₁ c₂ slot h₁ h₂
  rw [(key _).1]
  simp [clashCount, isClash, h₁, h₂]

end VerifyReport

section VerifyBooking

variable (rt : GoRuntime)

/-- C9, as stated, fails: with an empty hall catalog, a schedule whose two rows put hall
`H1` in slot `slot1` twice is reported with no error and `Valid = true`. -/
theorem C9_counterexample_empty_catalog :
    parseScheduleCSV refRuntime doubleBookedCSV =
        .ok [⟨"c1", "slot1", "2025-01-06T09:00:00Z", "H1", 1, ""⟩,
          ⟨"c2", "slot1", "2025-01-06T09:00:00Z", "H1", 1, ""⟩] ∧
      "H1" ∈ stringsSplit "H1" ';' ∧
      (VerifySchedule refRuntime [⟨"s1", "c1"⟩, ⟨"s2", "c2"⟩] doubleBookedCSV []).1.Errors = [] ∧
      (VerifySchedule refRuntime [⟨"s1", "c1"⟩, ⟨"s2", "c2"⟩] doubleBookedCSV []).1.Valid = true := by
  decide

/-- C9, amended: for every parseable schedule and hall catalog, if two rows of the schedule
with the same `slot_id` both list the same non-empty hall ID and that hall is in the
catalog, then `Errors` holds the double-booking entry of that hall and slot and `Valid` is
false. -/
theorem C9_double_booking_of_catalog_hall (registrations : List Registration)
    (scheduleCSV : String) (halls : List Hall) (assignments : List Assignment)
    (hparse : parseScheduleCSV rt scheduleCSV = .ok assignments)
    (pre mid post : List Assignment) (a b : Assignment)
    (hrows : assignments = pre ++ a :: (mid ++ b :: post)) (hslot : a.SlotID = b.SlotID)
    (hall : HallID) (ha : hall ∈ stringsSplit a.Halls ';') (hb : hall ∈ stringsSplit b.Halls ';')
    (hne : hall ≠ "") (hcat : ∃ x ∈ halls, x.ID = hall) :
    doubleBookedMsg hall b.SlotID ∈ (VerifySchedule rt registrations scheduleCSV halls).1.Errors ∧
      (VerifySchedule rt registrations scheduleCSV halls).1.Valid = false := by
  obtain ⟨capacity, hcap⟩ := hallCapacityMap_get? halls hall hcat
  unfold VerifySchedule
  rw [hparse]
  obtain ⟨booked, unassigned, hbooked, hr, _, heq⟩ :=
    verifyAssignments_report rt registrations assignments halls
  have hflag : Flagged b.SlotID hall booked.2 := by
    rw [hbooked, hrows, List.foldl_append, List.foldl_cons, List.foldl_append, List.foldl_cons]
    have hclash := clashInv_foldl assignments registrations [] _ 0 (clashInv_init assignments)
    simp only [List.nil_append, Nat.zero_add] at hclash
    have h0 : ReportInv (clashCount assignments [] registrations)
        (registrations.foldl (checkRegistration (buildAssignmentMap assignments))
          (GoMap.empty, ⟨true, 0, [], [], [], []⟩)).2 :=
      ⟨hclash.conflicts, hclash.clashes, hclash.unassigned, by
        rw [hclash.valid, hclash.errors]; simp⟩
    rw [← hrows]
    obtain ⟨p1, p2, _, _⟩ := checkAssignments_foldl (buildHallCapacityMap halls) _ "" ""
      pre (GoMap.empty, _) h0 (by intro s h; simp [bookings, GoMap.get?_empty])
    obtain ⟨a1, a2, _, _⟩ := checkAssignment_inv (buildHallCapacityMap halls) _ "" "" _ a p1 p2
    obtain ⟨a3, _⟩ := checkAssignment_hit (buildHallCapacityMap halls) _ hall capacity hne hcap
      _ a ha p1 p2
    obtain ⟨m1, m2, m3, _⟩ := checkAssignments_foldl (buildHallCapacityMap halls) _ a.SlotID hall
      mid _ a1 a2
    obtain ⟨b1, b2, _, _⟩ := checkAssignment_inv (buildHallCapacityMap halls) _ "" "" _ b m1 m2
    obtain ⟨_, b3⟩ := checkAssignment_hit (buildHallCapacityMap halls) _ hall capacity hne hcap
      _ b hb m1 m2
    obtain ⟨_, _, _, q4⟩ := checkAssignments_foldl (buildHallCapacityMap halls) _ b.SlotID hall
      post _ b1 b2
    exact q4 (b3 (hslot ▸ m3 a3))
  simp only [heq]
  refine ⟨hflag.1, ?_⟩
  split
  · rfl
  · exact hflag.2

end VerifyBooking

/-! ## `DSATUR`: the colouring returned and the error -/

section DsaturClaims

variable (rt : GoRuntime)

/-- C4: if `DSATUR` returns a coloring, then every course of the graph whose palette is
non-empty is coloured with the index of a slot whose ID is a member of that palette. -/
theorem C4_coloring_within_palette (graph : ConflictGraph) (slots : List (Slot rt.Time))
    (allowedSlots : GoMap CourseID (GoMap SlotID Bool)) (seed : Int)
    (coloring : GoMap CourseID Nat)
    (h : DSATUR rt graph slots allowedSlots seed = .ok coloring) :
    (∀ c ∈ graph.Courses, ∀ allowed, allowedSlots.get? c = some allowed → 0 < allowed.len →
        ∃ k s, coloring.get? c = some k ∧ slots[k]? = some s ∧ allowed.get? s.ID = some true) ∧
      ∀ c k allowed, coloring.get? c = some k → allowedSlots.get? c = some allowed →
        0 < allowed.len → ∃ s, slots[k]? = some s ∧ allowed.get? s.ID = some true := by
  obtain ⟨_, hdom, hslot⟩ := DSATUR_ok_domain rt graph slots allowedSlots seed coloring h
  have key : ∀ c k allowed, coloring.get? c = some k → allowedSlots.get? c = some allowed →
      0 < allowed.len → ∃ s, slots[k]? = some s ∧ allowed.get? s.ID = some true := by
    intro c k allowed hk hal hlen
    exact (mem_courseSlots rt slots allowedSlots c k (hslot c k hk)).2 allowed hal hlen
  refine ⟨?_, key⟩
  intro c hc allowed hal hlen
  cases hk : coloring.get? c with
  | none => exact absurd hk ((hdom c).2 hc)
  | some k =>
    obtain ⟨s, hs1, hs2⟩ := key c k allowed hk hal hlen
    exact ⟨k, s, rfl, hs1, hs2⟩

/-- C5: if `DSATUR` returns a coloring, its domain is exactly the set of courses of the
graph and every assigned slot index is below `len(slots)`; when the courses of the graph are
pairwise distinct the coloring has as many entries as the graph has courses. -/
theorem C5_coloring_domain_and_index_range (graph : ConflictGraph)
    (slots : List (Slot rt.Time)) (allowedSlots : GoMap CourseID (GoMap SlotID Bool))
    (seed : Int) (coloring : GoMap CourseID Nat)
    (h : DSATUR rt graph slots allowedSlots seed = .ok coloring) :
    (∀ c, c ∈ graph.Courses ↔ ∃ k, coloring.get? c = some k) ∧
      (∀ c k, coloring.get? c = some k → 0 ≤ k ∧ k < slots.length) ∧
      (graph.Courses.Nodup → coloring.len = graph.Courses.length) := by
  obtain ⟨_, hdom, hslot⟩ := DSATUR_ok_domain rt graph slots allowedSlots seed coloring h
  refine ⟨?_, ?_, ?_⟩
  · intro c
    rw [← hdom c]
    cases coloring.get? c <;> simp
  · intro c k hk
    exact ⟨Nat.zero_le k, (mem_courseSlots rt slots allowedSlots c k (hslot c k hk)).1⟩
  · intro hnd
    unfold GoMap.len
    apply List.Perm.length_eq
    refine (List.perm_ext_iff_of_nodup (List.nodup_dedup _) hnd).2 ?_
    intro c
    exact (GoMap.mem_keys_iff coloring c).trans (hdom c)

/-- C6, as stated, fails: on the graph of `starCourses` with two slots and `starPalette`,
`DSATUR` returns the error naming course `b` although the instance is feasible: `a` in the
second slot and `b`, `c` in the first is a solution. -/
theorem C6_counterexample_feasible_instance :
    DSATUR refRuntime (NewConflictGraph refRuntime starCourses) twoSlots starPalette 5 =
        .error (infeasibleMsg "b") ∧
      Feasible refRuntime (NewConflictGraph refRuntime starCourses) twoSlots starPalette
        ⟨[("a", 1), ("b", 0), ("c", 0)]⟩ := by
  unfold Feasible
  decide

/-- C6, amended: whenever `DSATUR` returns an error, the error names a course of the graph
at which the greedy run got stuck: the course is uncoloured in the partial colouring built
so far, and every slot index of its candidate set (its palette, or all slots when the
palette is empty) is the colour of an already coloured course adjacent to it.  Nothing is
said about the feasibility of the instance. -/
theorem C6_error_names_stuck_course (graph : ConflictGraph) (slots : List (Slot rt.Time))
    (allowedSlots : GoMap CourseID (GoMap SlotID Bool)) (seed : Int) (msg : String)
    (h : DSATUR rt graph slots allowedSlots seed = .error msg) :
    ∃ (st : DsaturState rt) (c : CourseID) (next : Nat),
      dsaturRun rt graph slots allowedSlots seed = .ok (st, .stuck c) ∧
      msg = infeasibleMsg c ∧ graph.Courses[next]? = some c ∧ st.coloring.get? c = none ∧
      ∀ k ∈ courseSlots rt slots allowedSlots c,
        ∃ j y, graph.adjacent next j = true ∧ graph.Courses[j]? = some y ∧
          st.coloring.get? y = some k := by
  obtain ⟨st, c, hrun, hmsg⟩ := DSATUR_error_run rt graph slots allowedSlots seed msg h
  obtain ⟨_, hend⟩ := dsaturRun_inv rt graph slots allowedSlots seed _ hrun
  rcases hend with ⟨hc, _⟩ | ⟨c', hc', hstep⟩
  · simp at hc
  · simp only [DsaturEnd.stuck.injEq] at hc'
    subst hc'
    obtain ⟨next, hnext, hun, hpick⟩ := dsaturStep_stuck rt _ _ _ _ hstep
    refine ⟨st, c, next, hrun, hmsg, hnext, hun, ?_⟩
    intro k hk
    rw [← availableSlots_getD rt graph slots allowedSlots next c hnext] at hk
    obtain ⟨pre, post, hsplit, hpre, hr⟩ := pickSlot_ok _ _ _ _ _ hpick
    rcases hr with ⟨_, hpost⟩ | ⟨k', post', hk', _⟩
    · rw [hsplit, hpost, List.append_nil] at hk
      obtain ⟨row, hrow, hfalse⟩ := hpre k hk
      obtain ⟨j, w, y, h1, h2, h3, h4⟩ := slotFree_false _ _ _ _ _ hfalse
      refine ⟨j, y, ?_, by simpa using h3, h4⟩
      exact (adjacent_iff graph next j).2 ⟨row, w, hrow, h1, h2⟩
    · simp at hk'

end DsaturClaims

/-! ## `NewConflictGraph`: shape, symmetry and diagonal of the matrix -/

section GraphMatrix

theorem adjacent_eq_matGet (graph : ConflictGraph) (i j : Nat) :
    graph.adjacent i j = decide (0 < matGet graph.AdjMatrix i j) := by
  unfold ConflictGraph.adjacent matGet
  simp only [List.getD_eq_getElem?_getD]
  cases h1 : graph.AdjMatrix[i]? with
  | none => simp
  | some row =>
    cases h2 : row[j]? with
    | none => simp [h2]
    | some w => simp [h2]

theorem getD_row_length {n : Nat} {m : List (List Int)} (hsq : Square n m) {a : Nat}
    (ha : a < n) : (m.getD a []).length = n := by
  have hlt : a < m.length := by rw [hsq.1]; exact ha
  have : m.getD a [] = m[a] := by
    simp [List.getD_eq_getElem?_getD, List.getElem?_eq_getElem hlt]
  rw [this]
  exact hsq.2 _ (List.getElem_mem hlt)

theorem square_matInc {n : Nat} {m : List (List Int)} (hsq : Square n m) (a b : Nat) :
    Square n (matInc m a b) := by
  unfold matInc
  refine ⟨by rw [List.length_set]; exact hsq.1, ?_⟩
  intro row hrow
  by_cases ha : a < n
  · rcases List.mem_or_eq_of_mem_set hrow with h | h
    · exact hsq.2 row h
    · rw [h, List.length_set]
      exact getD_row_length hsq ha
  · rw [List.set_eq_of_length_le (by rw [hsq.1]; omega)] at hrow
    exact hsq.2 row hrow

theorem matGet_matInc {n : Nat} {m : List (List Int)} (hsq : Square n m) (a b i j : Nat) :
    matGet (matInc m a b) i j = matGet m i j + bump n a b i j := by
  unfold bump
  by_cases ha : a < n
  · have hrow := getD_row_length hsq ha
    simp only [List.getD_eq_getElem?_getD] at hrow
    have hlt : a < m.length := by rw [hsq.1]; exact ha
    unfold matInc
    by_cases hia : i = a
    · subst hia
      have h1 : (m.set i ((m.getD i []).set b (matGet m i b + 1))).getD i [] =
          (m.getD i []).set b (matGet m i b + 1) := by
        simp [List.getD_eq_getElem?_getD, List.getElem?_set, hlt]
      by_cases hjb : j = b
      · subst hjb
        by_cases hj : j < n
        · unfold matGet at h1 ⊢
          rw [h1]
          simp [List.getD_eq_getElem?_getD, List.getElem?_set, hrow, hj, ha]
        · have e1 : matGet (m.set i ((m.getD i []).set j (matGet m i j + 1))) i j = matGet m i j := by
            unfold matGet at h1 ⊢
            rw [h1]
            have hnone : (m[i]?.getD [])[j]? = none :=
              List.getElem?_eq_none (by rw [hrow]; omega)
            simp [List.getD_eq_getElem?_getD, List.getElem?_set, hrow, hj, hnone]
          rw [e1]; simp [hj]
      · have e1 : matGet (m.set i ((m.getD i []).set b (matGet m i b + 1))) i j = matGet m i j := by
          unfold matGet at h1 ⊢
          rw [h1]
          have hbj : ¬ b = j := fun h => hjb h.symm
          simp [List.getD_eq_getElem?_getD, List.getElem?_set, hbj]
        rw [e1]; simp [hjb]
    · have hai : ¬ a = i := fun h => hia h.symm
      have e1 : matGet (m.set a ((m.getD a []).set b (matGet m a b + 1))) i j = matGet m i j := by
        unfold matGet
        simp [List.getD_eq_getElem?_getD, List.getElem?_set, hai]
      rw [e1]; simp [hia]
  · unfold matInc
    rw [List.set_eq_of_length_le (by rw [hsq.1]; omega)]
    simp [ha]

theorem bump_swap (n a b i j : Nat) : bump n a b i j = bump n b a j i := by
  unfold bump
  exact if_congr ⟨fun ⟨h1, h2, h3, h4⟩ => ⟨h2, h1, h4, h3⟩, fun ⟨h1, h2, h3, h4⟩ => ⟨h2, h1, h4, h3⟩⟩
    rfl rfl

/-- The pair `(c1, c2)` with `c1 ≠ c2` entered in the matrix keeps it square, symmetric
and with a zero diagonal. -/
theorem matInv_addPair {n : Nat} {m : List (List Int)} (h : MatInv n m) (c1 c2 : Nat)
    (hne : c1 ≠ c2) : MatInv n (matInc (matInc m c1 c2) c2 c1) := by
  have hsq1 := square_matInc h.square c1 c2
  refine ⟨square_matInc hsq1 c2 c1, ?_, ?_⟩
  · intro i j
    rw [matGet_matInc hsq1, matGet_matInc h.square, matGet_matInc hsq1, matGet_matInc h.square,
      h.symm i j, bump_swap n c1 c2 i j, bump_swap n c2 c1 i j]
    omega
  · intro i
    rw [matGet_matInc hsq1, matGet_matInc h.square, h.diag i]
    unfold bump
    by_cases h1 : i = c1
    · subst h1
      simp [hne, Ne.symm hne]
    · by_cases h2 : i = c2
      · subst h2
        have : ¬ c1 = i := hne
        simp [h1, this]
      · simp [h1, h2]

theorem matInv_replicate (n : Nat) :
    MatInv n (List.replicate n (List.replicate n (0 : Int))) := by
  refine ⟨⟨by simp, ?_⟩, ?_, ?_⟩
  · intro row hrow
    rw [(List.mem_replicate.1 hrow).2]; simp
  · have key : ∀ i j, matGet (List.replicate n (List.replicate n (0 : Int))) i j = 0 := by
      intro i j
      unfold matGet
      simp only [List.getD_eq_getElem?_getD, List.getElem?_replicate]
      by_cases hi : i < n
      · simp only [hi, if_true, Option.getD_some, List.getElem?_replicate]
        split <;> simp
      · simp [hi]
    intro i j
    rw [key, key]
  · intro i
    unfold matGet
    simp only [List.getD_eq_getElem?_getD, List.getElem?_replicate]
    by_cases hi : i < n
    · simp [hi]
    · simp [hi]

end GraphMatrix

/-! ## `NewConflictGraph`: the index map and the loops -/

section GraphLoops

variable (rt : GoRuntime)

theorem indexCourses_get?_of_not_mem (x : CourseID) :
    ∀ (l : List CourseID) (i : Nat) (m : GoMap CourseID Nat), x ∉ l →
      (indexCourses l i m).get? x = m.get? x := by
  intro l
  induction l with
  | nil => intro i m _; rfl
  | cons c rest ih =>
    intro i m hx
    simp only [List.mem_cons, not_or] at hx
    unfold indexCourses
    rw [ih _ _ hx.2, GoMap.get?_insert_of_ne _ _ hx.1]

theorem indexCourses_get?_of_getElem? :
    ∀ (l : List CourseID) (i : Nat) (m : GoMap CourseID Nat), l.Nodup →
      ∀ (p : Nat) (x : CourseID), l[p]? = some x → (indexCourses l i m).get? x = some (i + p) := by
  intro l
  induction l with
  | nil => intro i m _ p x hp; simp at hp
  | cons c rest ih =>
    intro i m hnd p x hp
    rw [List.nodup_cons] at hnd
    unfold indexCourses
    cases p with
    | zero =>
      simp only [List.getElem?_cons_zero, Option.some.injEq] at hp
      subst hp
      rw [indexCourses_get?_of_not_mem _ _ _ _ hnd.1, GoMap.get?_insert_self]
      rfl
    | succ p =>
      rw [ih (i + 1) _ hnd.2 p x (by simpa using hp)]
      congr 1
      omega

theorem addConflict_fst (courseIndex : GoMap CourseID Nat) (a b : CourseID)
    (acc : List (List Int) × List Int) :
    (addConflict courseIndex a b acc).1 =
      matInc (matInc acc.1 (indexOfCourse courseIndex a) (indexOfCourse courseIndex b))
        (indexOfCourse courseIndex b) (indexOfCourse courseIndex a) := rfl

theorem matInv_conflictsWith (courseIndex : GoMap CourseID Nat) (n : Nat) (a : CourseID) :
    ∀ (rest : List CourseID) (acc : List (List Int) × List Int),
      (∀ b ∈ rest, indexOfCourse courseIndex a ≠ indexOfCourse courseIndex b) →
      MatInv n acc.1 → MatInv n (conflictsWith courseIndex a rest acc).1 := by
  intro rest
  induction rest with
  | nil => intro acc _ h; exact h
  | cons b rest ih =>
    intro acc hne h
    unfold conflictsWith
    apply ih
    · intro b' hb'
      exact hne b' (List.mem_cons_of_mem _ hb')
    · rw [addConflict_fst]
      exact matInv_addPair h _ _ (hne b (List.mem_cons_self _ _))

theorem matInv_conflictsAmong (courseIndex : GoMap CourseID Nat) (n : Nat) :
    ∀ (l : List CourseID) (acc : List (List Int) × List Int),
      l.Pairwise (fun a b => indexOfCourse courseIndex a ≠ indexOfCourse courseIndex b) →
      MatInv n acc.1 → MatInv n (conflictsAmong courseIndex l acc).1 := by
  intro l
  induction l with
  | nil => intro acc _ h; exact h
  | cons a rest ih =>
    intro acc hp h
    rw [List.pairwise_cons] at hp
    unfold conflictsAmong
    exact ih _ hp.2 (matInv_conflictsWith courseIndex n a rest acc hp.1 h)

theorem matInv_conflictsOfStudents (courseIndex : GoMap CourseID Nat) (n : Nat)
    (courseList : List CourseID)
    (hidx : ∀ p x, courseList[p]? = some x → courseIndex.get? x = some p) :
    ∀ (entries : List (StudentID × GoMap CourseID Bool)) (exec : Nat)
      (acc : List (List Int) × List Int),
      (∀ e ∈ entries, ∀ c ∈ e.2.keys, c ∈ courseList) →
      MatInv n acc.1 → MatInv n (conflictsOfStudents rt courseIndex exec entries acc).1 := by
  intro entries
  induction entries with
  | nil => intro exec acc _ h; exact h
  | cons e rest ih =>
    intro exec acc hin h
    obtain ⟨s, set⟩ := e
    unfold conflictsOfStudents
    apply ih
    · intro e' he'
      exact hin e' (List.mem_cons_of_mem _ he')
    · apply matInv_conflictsAmong _ _ _ _ _ h
      have hperm := rt.rangeOrder_perm 4 exec set.keys
      have hnd' : (rt.rangeOrder 4 exec set.keys).Nodup :=
        hperm.nodup_iff.2 (List.nodup_dedup _)
      refine List.Pairwise.imp_of_mem ?_ hnd'
      intro a b ha hb hab
      have ha' := hin (s, set) (List.mem_cons_self _ _) a (hperm.subset ha)
      have hb' := hin (s, set) (List.mem_cons_self _ _) b (hperm.subset hb)
      obtain ⟨p, hp⟩ := List.mem_iff_getElem?.1 ha'
      obtain ⟨q, hq⟩ := List.mem_iff_getElem?.1 hb'
      unfold indexOfCourse
      rw [hidx p a hp, hidx q b hq]
      simp only [Option.getD_some]
      intro hpq
      subst hpq
      rw [hp] at hq
      exact hab (Option.some.inj hq)

theorem setsWithin_enrollCourse (K : List CourseID) (courseID : CourseID) (hc : courseID ∈ K) :
    ∀ (students : List StudentID) (sc : GoMap StudentID (GoMap CourseID Bool)),
      SetsWithin K sc → SetsWithin K (enrollCourse courseID students sc) := by
  intro students
  induction students with
  | nil => intro sc h; exact h
  | cons st rest ih =>
    intro sc h
    unfold enrollCourse
    apply ih
    intro s set hs c hcset
    rw [GoMap.get?_insert] at hs
    split at hs
    · simp only [Option.some.injEq] at hs
      subst hs
      rw [GoMap.get?_insert] at hcset
      split at hcset
      · next heq => rw [heq]; exact hc
      · cases hg : sc.get? st with
        | none => simp [hg, GoMap.get?_empty] at hcset
        | some set' =>
          rw [hg] at hcset
          exact h st set' hg c hcset
    · exact h s set hs c hcset

theorem setsWithin_buildStudentCourses (K : List CourseID) :
    ∀ (entries : List (CourseID × Course)) (sc : GoMap StudentID (GoMap CourseID Bool)),
      (∀ e ∈ entries, e.1 ∈ K) → SetsWithin K sc →
      SetsWithin K (buildStudentCourses entries sc) := by
  intro entries
  induction entries with
  | nil => intro sc _ h; exact h
  | cons e rest ih =>
    intro sc hin h
    obtain ⟨courseID, course⟩ := e
    unfold buildStudentCourses
    apply ih
    · intro e' he'
      exact hin e' (List.mem_cons_of_mem _ he')
    · exact setsWithin_enrollCourse K courseID (hin (courseID, course) (List.mem_cons_self _ _))
        _ _ h

theorem NewConflictGraph_courses (courses : GoMap CourseID Course) :
    (NewConflictGraph rt courses).Courses = rt.rangeOrder 1 0 courses.keys := rfl

/-- The courses of the graph are the keys of the course map, each once. -/
theorem NewConflictGraph_courses_perm (courses : GoMap CourseID Course) :
    (NewConflictGraph rt courses).Courses.Perm courses.keys ∧
      (NewConflictGraph rt courses).Courses.Nodup :=
  ⟨rt.rangeOrder_perm 1 0 courses.keys,
    (rt.rangeOrder_perm 1 0 courses.keys).nodup_iff.2 (List.nodup_dedup _)⟩

/-- The index map of the graph sends each course to its position in the course list. -/
theorem NewConflictGraph_courseIndex (courses : GoMap CourseID Course) (p : Nat)
    (x : CourseID) :
    (NewConflictGraph rt courses).CourseIndex.get? x = some p ↔
      (NewConflictGraph rt courses).Courses[p]? = some x := by
  have hnd := (NewConflictGraph_courses_perm rt courses).2
  have hidx : ∀ p x, (NewConflictGraph rt courses).Courses[p]? = some x →
      (NewConflictGraph rt courses).CourseIndex.get? x = some p := by
    intro p x hp
    have := indexCourses_get?_of_getElem? _ 0 GoMap.empty hnd p x hp
    simpa using this
  constructor
  · intro h
    by_cases hx : x ∈ (NewConflictGraph rt courses).Courses
    · obtain ⟨q, hq⟩ := List.mem_iff_getElem?.1 hx
      have := hidx q x hq
      rw [h] at this
      cases this
      exact hq
    · have : (NewConflictGraph rt courses).CourseIndex.get? x = none := by
        have := indexCourses_get?_of_not_mem x _ 0 GoMap.empty hx
        rw [GoMap.get?_empty] at this
        exact this
      rw [h] at this
      cases this
  · exact hidx p x

/-- The adjacency matrix built by `NewConflictGraph` is square and symmetric and has a zero
diagonal. -/
theorem NewConflictGraph_matInv (courses : GoMap CourseID Course) :
    MatInv courses.len (NewConflictGraph rt courses).AdjMatrix := by
  have hnd := (NewConflictGraph_courses_perm rt courses).2
  have hperm := (NewConflictGraph_courses_perm rt courses).1
  unfold NewConflictGraph
  simp only
  apply matInv_conflictsOfStudents rt _ _ (rt.rangeOrder 1 0 courses.keys)
  · intro p x hp
    have := indexCourses_get?_of_getElem? _ 0 GoMap.empty hnd p x hp
    simpa using this
  · intro e he c hc
    obtain ⟨s, set⟩ := e
    have hget := GoMap.mem_range rt 3 0 _ s set he
    have hsets : SetsWithin (rt.rangeOrder 1 0 courses.keys)
        (buildStudentCourses (GoMap.range rt 2 0 courses) GoMap.empty) := by
      apply setsWithin_buildStudentCourses
      · intro e' he'
        obtain ⟨k, v⟩ := e'
        have hk := GoMap.mem_range rt 2 0 courses k v he'
        apply hperm.symm.subset
        rw [GoMap.mem_keys_iff, hk]
        simp
      · intro s' set' hs'
        simp [GoMap.get?_empty] at hs'
    exact hsets s set hget c ((GoMap.mem_keys_iff set c).1 hc)
  · exact matInv_replicate _

/-- Graphs built by `NewConflictGraph` have symmetric adjacency and no loop. -/
theorem NewConflictGraph_symmetric (courses : GoMap CourseID Course) :
    (NewConflictGraph rt courses).Symmetric ∧
      ∀ i, (NewConflictGraph rt courses).adjacent i i = false := by
  have h := NewConflictGraph_matInv rt courses
  refine ⟨?_, ?_⟩
  · intro i j hij
    rw [adjacent_eq_matGet] at hij ⊢
    rw [h.symm j i]
    exact hij
  · intro i
    rw [adjacent_eq_matGet, h.diag i]
    simp

end GraphLoops

/-! ## `RunSchedulingAttempts`: the assignments of the result -/

section ScheduleCourses

variable (rt : GoRuntime)

/-- C1: if `DSATUR` returns a coloring for a graph built by `NewConflictGraph`, then any two
courses `x`, `y` of the graph with `AdjMatrix[x][y] > 0` are both coloured and their slot
indices differ, whether the rows and columns of the matrix are found through the position
of the courses in `Courses` or through `CourseIndex`. -/
theorem C1_conflicting_courses_get_different_slots (courses : GoMap CourseID Course)
    (slots : List (Slot rt.Time)) (allowedSlots : GoMap CourseID (GoMap SlotID Bool))
    (seed : Int) (coloring : GoMap CourseID Nat)
    (h : DSATUR rt (NewConflictGraph rt courses) slots allowedSlots seed = .ok coloring) :
    (∀ i j x y, (NewConflictGraph rt courses).Courses[i]? = some x →
        (NewConflictGraph rt courses).Courses[j]? = some y →
        (NewConflictGraph rt courses).adjacent i j = true →
        ∃ kx ky, coloring.get? x = some kx ∧ coloring.get? y = some ky ∧ kx ≠ ky) ∧
      (∀ x y i j, (NewConflictGraph rt courses).CourseIndex.get? x = some i →
        (NewConflictGraph rt courses).CourseIndex.get? y = some j →
        (NewConflictGraph rt courses).adjacent i j = true →
        ∃ kx ky, coloring.get? x = some kx ∧ coloring.get? y = some ky ∧ kx ≠ ky) := by
  have hnd := (NewConflictGraph_courses_perm rt courses).2
  obtain ⟨hsym, hdiag⟩ := NewConflictGraph_symmetric rt courses
  have hproper := DSATUR_ok_proper rt _ hnd hsym slots allowedSlots seed coloring h
  obtain ⟨_, hdom, _⟩ := DSATUR_ok_domain rt _ slots allowedSlots seed coloring h
  have key : ∀ i j x y, (NewConflictGraph rt courses).Courses[i]? = some x →
      (NewConflictGraph rt courses).Courses[j]? = some y →
      (NewConflictGraph rt courses).adjacent i j = true →
      ∃ kx ky, coloring.get? x = some kx ∧ coloring.get? y = some ky ∧ kx ≠ ky := by
    intro i j x y hx hy hadj
    have hij : i ≠ j := by
      intro hij
      subst hij
      rw [hdiag i] at hadj
      cases hadj
    cases hkx : coloring.get? x with
    | none => exact absurd hkx ((hdom x).2 (List.getElem?_mem hx))
    | some kx =>
      cases hky : coloring.get? y with
      | none => exact absurd hky ((hdom y).2 (List.getElem?_mem hy))
      | some ky => exact ⟨kx, ky, rfl, rfl, hproper i j x y kx ky hij hadj hx hy hkx hky⟩
  refine ⟨key, ?_⟩
  intro x y i j hx hy hadj
  exact key i j x y ((NewConflictGraph_courseIndex rt courses i x).1 hx)
    ((NewConflictGraph_courseIndex rt courses j y).1 hy) hadj

theorem buildAssignments_courses (courses : GoMap CourseID Course) (slots : List (Slot rt.Time)) :
    ∀ (entries : List (CourseID × Nat)) (objects : List Assignment)
      (bySlot : GoMap Nat (List Nat)) (r : List Assignment × GoMap Nat (List Nat)),
      buildAssignments rt courses slots entries objects bySlot = .ok r →
      r.1.map Assignment.CourseID = objects.map Assignment.CourseID ++ entries.map Prod.fst := by
  intro entries
  induction entries with
  | nil =>
    intro objects bySlot r h
    simp only [buildAssignments, Outcome.ok.injEq] at h
    subst h; simp
  | cons e rest ih =>
    intro objects bySlot r h
    obtain ⟨courseID, slotIdx⟩ := e
    unfold buildAssignments at h
    split at h
    · simp at h
    · split at h
      · simp at h
      · rw [ih _ _ _ h]
        simp

theorem writeHalls_courseID (allocatedHalls : GoMap CourseID (List HallID)) (a : Assignment) :
    (writeHalls rt allocatedHalls a).CourseID = a.CourseID := by
  unfold writeHalls
  split <;> rfl

theorem modifyAt_map {β : Type} (f : Assignment → Assignment) (g : Assignment → β)
    (hfg : ∀ a, g (f a) = g a) (objects : List Assignment) (p : Nat) :
    (modifyAt f objects p).map g = objects.map g := by
  unfold modifyAt
  cases hp : objects[p]? with
  | none => rfl
  | some a =>
    simp only
    apply List.ext_getElem?
    intro i
    simp only [List.getElem?_map, List.getElem?_set]
    by_cases hpi : p = i
    · subst hpi
      have hlt := (List.getElem?_eq_some.1 hp).1
      simp [hlt, hp, hfg]
    · simp [hpi]

theorem foldl_modifyAt_map {β : Type} (f : Assignment → Assignment) (g : Assignment → β)
    (hfg : ∀ a, g (f a) = g a) :
    ∀ (ptrs : List Nat) (objects : List Assignment),
      (ptrs.foldl (modifyAt f) objects).map g = objects.map g := by
  intro ptrs
  induction ptrs with
  | nil => intro objects; rfl
  | cons p rest ih =>
    intro objects
    simp only [List.foldl_cons]
    rw [ih, modifyAt_map f g hfg]

theorem allocateSlots_courses (halls : List Hall) (slots : List (Slot rt.Time)) :
    ∀ (groups : List (Nat × List Nat)) (acc r : HallLoop),
      allocateSlots rt halls slots groups acc = .ok r →
      r.objects.map Assignment.CourseID = acc.objects.map Assignment.CourseID := by
  intro groups
  induction groups with
  | nil =>
    intro acc r h
    simp only [allocateSlots, Outcome.ok.injEq] at h
    subst h; rfl
  | cons g rest ih =>
    intro acc r h
    obtain ⟨slotIdx, ptrs⟩ := g
    unfold allocateSlots at h
    split at h
    · simp at h
    · rw [ih _ _ h]
      exact foldl_modifyAt_map _ _ (writeHalls_courseID rt _) _ _

/-- The courses of the assignments of one scored attempt are the keys of the coloring, in
the order in which the run-time enumerates them. -/
theorem scoreAttempt_courses (exec : Nat) (coloring : GoMap CourseID Nat)
    (courses : GoMap CourseID Course) (halls : List Hall) (slots : List (Slot rt.Time))
    (graph : ConflictGraph) (minGapMinutes : Int) (penaltyConfig : PenaltyConfig rt)
    (scored : List Assignment × List String × rt.Float64)
    (h : scoreAttempt rt exec coloring courses halls slots graph minGapMinutes penaltyConfig
      = .ok scored) :
    scored.1.map Assignment.CourseID = rt.rangeOrder 5 exec coloring.keys := by
  unfold scoreAttempt at h
  obtain ⟨built, hb, h2⟩ := Outcome.bind_eq_ok.1 h
  obtain ⟨allocated, ha, h3⟩ := Outcome.bind_eq_ok.1 h2
  obtain ⟨penalty, _, h4⟩ := Outcome.bind_eq_ok.1 h3
  simp only [Outcome.ok.injEq] at h4
  subst h4
  simp only
  rw [allocateSlots_courses rt halls slots _ _ _ ha, buildAssignments_courses rt _ _ _ _ _ _ hb]
  simp [GoMap.range_fst]

/-- Induction over the attempts: a property of the result of every scored attempt holds of
the result returned. -/
theorem attemptLoop_ok (courses : GoMap CourseID Course) (halls : List Hall)
    (slots : List (Slot rt.Time)) (allowedSlots : GoMap CourseID (GoMap SlotID Bool))
    (graph : ConflictGraph) (minGapMinutes : Int) (penaltyConfig : PenaltyConfig rt)
    (P : ScheduleResult rt → Prop)
    (hP : ∀ (i : Nat) (attemptSeed : Int) (coloring : GoMap CourseID Nat)
      (scored : List Assignment × List String × rt.Float64),
      DSATUR rt graph slots allowedSlots attemptSeed = .ok coloring →
      scoreAttempt rt i coloring courses halls slots graph minGapMinutes penaltyConfig
        = .ok scored →
      P ⟨rt.sortSlice assignmentLess scored.1, scored.2.2, [],
        ⟨false, 0, [], scored.2.1, [], []⟩⟩) :
    ∀ (remaining i : Nat) (rng : rt.Rand) (best : Option (ScheduleResult rt))
      (r : ScheduleResult rt), (∀ b, best = some b → P b) →
      attemptLoop rt courses halls slots allowedSlots graph minGapMinutes penaltyConfig
        remaining i rng best = .ok (some r) → P r := by
  intro remaining
  induction remaining with
  | zero =>
    intro i rng best r hbest h
    simp only [attemptLoop, Outcome.ok.injEq] at h
    exact hbest r h
  | succ remaining ih =>
    intro i rng best r hbest h
    unfold attemptLoop at h
    split at h
    · exact ih _ _ _ r hbest h
    · simp at h
    · simp at h
    · next coloring hcol =>
      obtain ⟨scored, hs, h2⟩ := Outcome.bind_eq_ok.1 h
      refine ih _ _ _ r ?_ h2
      intro b hb
      have hnew := hP i _ coloring scored hcol hs
      cases best with
      | none =>
        simp only [Option.some.injEq] at hb
        rw [← hb]; exact hnew
      | some old =>
        simp only at hb
        split at hb
        · simp only [Option.some.injEq] at hb
          rw [← hb]; exact hnew
        · exact hbest b hb

/-- The result returned by a successful `RunSchedulingAttempts` is the best result of
its attempt loop. -/
theorem RunSchedulingAttempts_ok (tries : Int) (seed : Int) (courses : GoMap CourseID Course)
    (halls : List Hall) (slots : List (Slot rt.Time))
    (allowedSlots : GoMap CourseID (GoMap SlotID Bool)) (graph : ConflictGraph)
    (minGapMinutes : Int) (penaltyConfig : PenaltyConfig rt) (result : ScheduleResult rt)
    (h : RunSchedulingAttempts rt tries seed courses halls slots allowedSlots graph
      minGapMinutes penaltyConfig = .ok result) :
    attemptLoop rt courses halls slots allowedSlots graph minGapMinutes penaltyConfig
      tries.toNat 0 (rt.newRand (if seed = 0 then rt.nowUnixNano else seed)) none
      = .ok (some result) := by
  unfold RunSchedulingAttempts at h
  obtain ⟨best, hb, h2⟩ := Outcome.bind_eq_ok.1 h
  cases best with
  | none => simp at h2
  | some r =>
    simp only [Outcome.ok.injEq] at h2
    rw [hb, h2]

/-- C2: when `RunSchedulingAttempts` succeeds on the graph built by `NewConflictGraph` from
the course mapping, the returned assignments contain exactly one assignment for each course
ID of the mapping and none for any other course ID. -/
theorem C2_one_assignment_per_course (tries : Int) (seed : Int)
    (courses : GoMap CourseID Course) (halls : List Hall) (slots : List (Slot rt.Time))
    (allowedSlots : GoMap CourseID (GoMap SlotID Bool)) (minGapMinutes : Int)
    (penaltyConfig : PenaltyConfig rt) (result : ScheduleResult rt)
    (h : RunSchedulingAttempts rt tries seed courses halls slots allowedSlots
      (NewConflictGraph rt courses) minGapMinutes penaltyConfig = .ok result) :
    (result.Assignments.map Assignment.CourseID).Perm courses.keys ∧
      ∀ c, (result.Assignments.filter fun a => a.CourseID = c).length =
        if courses.get? c = none then 0 else 1 := by
  have hperm : (result.Assignments.map Assignment.CourseID).Perm courses.keys := by
    refine attemptLoop_ok rt courses halls slots allowedSlots (NewConflictGraph rt courses)
      minGapMinutes penaltyConfig
      (fun r => (r.Assignments.map Assignment.CourseID).Perm courses.keys) ?_ _ _ _ none result
      (by intro b hb; cases hb)
      (RunSchedulingAttempts_ok rt _ _ _ _ _ _ _ _ _ _ h)
    intro i attemptSeed coloring scored hcol hs
    simp only
    obtain ⟨_, hdom, _⟩ := DSATUR_ok_domain rt _ slots allowedSlots attemptSeed coloring hcol
    obtain ⟨hp, hnd⟩ := NewConflictGraph_courses_perm rt courses
    have hkeys : coloring.keys.Perm (NewConflictGraph rt courses).Courses :=
      (List.perm_ext_iff_of_nodup (List.nodup_dedup _) hnd).2
        (fun c => (GoMap.mem_keys_iff coloring c).trans (hdom c))
    refine ((rt.sortSlice_perm assignmentLess scored.1).map _).trans ?_
    rw [scoreAttempt_courses rt i coloring courses halls slots _ minGapMinutes penaltyConfig
      scored hs]
    exact ((rt.rangeOrder_perm 5 i coloring.keys).trans hkeys).trans hp
  refine ⟨hperm, ?_⟩
  intro c
  have hcount : (result.Assignments.map Assignment.CourseID).count c = courses.keys.count c :=
    hperm.count_eq c
  have hlen : (result.Assignments.filter fun a => a.CourseID = c).length =
      (result.Assignments.map Assignment.CourseID).count c := by
    rw [List.count_eq_countP, List.countP_map, List.countP_eq_length_filter]
    congr 1
  have hnd : courses.keys.Nodup := List.nodup_dedup _
  rw [hlen, hcount, List.count_eq_of_nodup hnd]
  by_cases hc : courses.get? c = none
  · have : c ∉ courses.keys := fun hm => (GoMap.mem_keys_iff courses c).1 hm hc
    simp [hc, this]
  · have : c ∈ courses.keys := (GoMap.mem_keys_iff courses c).2 hc
    simp [hc, this]

end ScheduleCourses

/-! ## Splitting a joined list -/

section Strings

theorem splitChars_of_not_mem (sep : Char) :
    ∀ (p : List Char), sep ∉ p → splitChars sep p = [p] := by
  intro p
  induction p with
  | nil => intro _; rfl
  | cons c cs ih =>
    intro h
    simp only [List.mem_cons, not_or] at h
    have hc : ¬ c = sep := fun e => h.1 e.symm
    simp [splitChars, hc, ih h.2]

theorem splitChars_append_sep (sep : Char) (rest : List Char) :
    ∀ (p : List Char), sep ∉ p →
      splitChars sep (p ++ sep :: rest) = p :: splitChars sep rest := by
  intro p
  induction p with
  | nil => intro _; simp [splitChars]
  | cons c cs ih =>
    intro h
    simp only [List.mem_cons, not_or] at h
    have hc : ¬ c = sep := fun e => h.1 e.symm
    simp [splitChars, hc, ih h.2]

theorem splitChars_joinChars (sep : Char) :
    ∀ (ls : List (List Char)), ls ≠ [] → (∀ p ∈ ls, sep ∉ p) →
      splitChars sep (joinChars sep ls) = ls := by
  intro ls
  induction ls with
  | nil => intro h; exact absurd rfl h
  | cons p rest ih =>
    intro _ hfree
    cases rest with
    | nil =>
      simp only [joinChars]
      exact splitChars_of_not_mem sep p (hfree p (List.mem_cons_self _ _))
    | cons q rest' =>
      simp only [joinChars]
      rw [splitChars_append_sep sep _ p (hfree p (List.mem_cons_self _ _)),
        ih (by simp) (fun x hx => hfree x (List.mem_cons_of_mem _ hx))]

/-- Splitting the join of strings that do not contain the separator gives the strings back;
the join of no string splits into one empty string. -/
theorem stringsSplit_stringsJoin (sep : Char) (elems : List String)
    (hfree : ∀ e ∈ elems, sep ∉ e.data) :
    stringsSplit (stringsJoin elems sep) sep = if elems = [] then [""] else elems := by
  unfold stringsSplit stringsJoin
  by_cases he : elems = []
  · subst he
    simp [joinChars, splitChars]
  · simp only [he, if_false]
    rw [splitChars_joinChars sep _ (by simpa using he) (by
      intro p hp
      obtain ⟨e, hee, hep⟩ := List.mem_map.1 hp
      rw [← hep]
      exact hfree e hee)]
    rw [List.map_map]
    conv_rhs => rw [← List.map_id elems]
    apply List.map_congr_left
    intro e _
    rfl

end Strings

/-! ## `AllocateHalls`: the halls given to the courses of a slot -/

section AllocLemmas

variable (rt : GoRuntime)

theorem hallUsed_markUsed (u : GoMap SlotID (GoMap HallID Bool)) (s s' : SlotID)
    (id id' : HallID) :
    hallUsed (markUsed u s id) s' id' =
      ((decide (s' = s) && decide (id' = id)) || hallUsed u s' id') := by
  unfold hallUsed markUsed
  by_cases hs : s' = s
  · subst hs
    rw [GoMap.get?_insert_self]
    simp only [GoMap.get?_insert]
    by_cases hid : id' = id
    · simp [hid]
    · cases hu : u.get? s' with
      | none => simp [hid, GoMap.get?_empty]
      | some used => simp [hid]
  · rw [GoMap.get?_insert_of_ne _ _ hs]
    simp [hs]

theorem hallUsed_foldl_markUsed (s : SlotID) :
    ∀ (R : List Hall) (u : GoMap SlotID (GoMap HallID Bool)) (s' : SlotID) (id' : HallID),
      hallUsed (R.foldl (fun used hall => markUsed used s hall.ID) u) s' id' = true ↔
        (s' = s ∧ id' ∈ R.map Hall.ID) ∨ hallUsed u s' id' = true := by
  intro R
  induction R with
  | nil => intro u s' id'; simp
  | cons h rest ih =>
    intro u s' id'
    simp only [List.foldl_cons]
    rw [ih, hallUsed_markUsed]
    simp only [Bool.or_eq_true, Bool.and_eq_true, decide_eq_true_eq, List.map_cons, List.mem_cons]
    constructor
    · rintro (⟨h1, h2⟩ | ⟨h1, h2⟩ | h3)
      · exact Or.inl ⟨h1, Or.inr h2⟩
      · exact Or.inl ⟨h1, Or.inl h2⟩
      · exact Or.inr h3
    · rintro (⟨h1, h2 | h2⟩ | h3)
      · exact Or.inr (Or.inl ⟨h1, h2⟩)
      · exact Or.inl ⟨h1, h2⟩
      · exact Or.inr (Or.inr h3)

theorem bestFit_some (neededCapacity : Int) :
    ∀ (rest : List Hall) (i : Nat) (best : Option (Nat × Hall)) (b : Nat) (hall : Hall),
      bestFit neededCapacity i best rest = some (b, hall) →
      best = some (b, hall) ∨ (i ≤ b ∧ rest[b - i]? = some hall) := by
  intro rest
  induction rest with
  | nil => intro i best b hall h; exact Or.inl (by simpa [bestFit] using h)
  | cons x rest ih =>
    intro i best b hall h
    have key : ∀ best', bestFit neededCapacity (i + 1) best' rest = some (b, hall) →
        (best' = best ∨ best' = some (i, x)) →
        best = some (b, hall) ∨ (i ≤ b ∧ (x :: rest)[b - i]? = some hall) := by
      intro best' hb hbest'
      rcases ih (i + 1) best' b hall hb with h1 | ⟨h1, h2⟩
      · rcases hbest' with h3 | h3
        · exact Or.inl (h3 ▸ h1)
        · rw [h3] at h1
          simp only [Option.some.injEq, Prod.mk.injEq] at h1
          refine Or.inr ⟨by omega, ?_⟩
          rw [← h1.1, h1.2]; simp
      · refine Or.inr ⟨by omega, ?_⟩
        have : b - i = (b - (i + 1)) + 1 := by omega
        rw [this]; simpa using h2
    unfold bestFit at h
    split at h
    · split at h
      · exact key _ h (Or.inr rfl)
      · split at h
        · exact key _ h (Or.inr rfl)
        · exact key _ h (Or.inl rfl)
    · exact key _ h (Or.inl rfl)

theorem eraseIdx_not_mem_ids :
    ∀ (l : List Hall) (b : Nat) (hall : Hall), (l.map Hall.ID).Nodup → l[b]? = some hall →
      hall.ID ∉ (l.eraseIdx b).map Hall.ID := by
  intro l
  induction l with
  | nil => intro b hall _ h; simp at h
  | cons x rest ih =>
    intro b hall hnd h
    simp only [List.map_cons, List.nodup_cons] at hnd
    cases b with
    | zero =>
      simp only [List.getElem?_cons_zero, Option.some.injEq] at h
      subst h
      simpa using hnd.1
    | succ b =>
      simp only [List.getElem?_cons_succ] at h
      simp only [List.eraseIdx_cons_succ, List.map_cons, List.mem_cons, not_or]
      refine ⟨?_, ih b hall hnd.2 h⟩
      intro heq
      apply hnd.1
      rw [← heq]
      exact List.mem_map_of_mem _ (List.getElem?_mem h)

theorem removeHall_sublist (id : HallID) : ∀ (l : List Hall), (removeHall id l).Sublist l := by
  intro l
  induction l with
  | nil => exact List.Sublist.refl _
  | cons x rest ih =>
    unfold removeHall
    split
    · exact List.sublist_cons_self _ _
    · exact ih.cons₂ _

theorem removeHall_not_mem (id : HallID) :
    ∀ (l : List Hall), (l.map Hall.ID).Nodup → id ∉ (removeHall id l).map Hall.ID := by
  intro l
  induction l with
  | nil => intro _; simp [removeHall]
  | cons x rest ih =>
    intro hnd
    simp only [List.map_cons, List.nodup_cons] at hnd
    unfold removeHall
    split
    · next heq => rw [← heq]; exact hnd.1
    · next hne =>
      simp only [List.map_cons, List.mem_cons, not_or]
      exact ⟨fun h => hne h.symm, ih hnd.2⟩

theorem foldl_removeHall (R : List Hall) :
    ∀ (l : List Hall), (l.map Hall.ID).Nodup →
      (R.foldl (fun available hall => removeHall hall.ID available) l).Sublist l ∧
      ∀ h ∈ R, h.ID ∉ (R.foldl (fun available hall => removeHall hall.ID available) l).map Hall.ID := by
  induction R with
  | nil => intro l _; exact ⟨List.Sublist.refl _, by simp⟩
  | cons r rest ih =>
    intro l hnd
    simp only [List.foldl_cons]
    have hsub := removeHall_sublist r.ID l
    have hnd' : ((removeHall r.ID l).map Hall.ID).Nodup := (hsub.map _).nodup hnd
    obtain ⟨h1, h2⟩ := ih (removeHall r.ID l) hnd'
    refine ⟨h1.trans hsub, ?_⟩
    intro h hh
    rcases List.mem_cons.1 hh with hh | hh
    · subst hh
      intro hmem
      exact removeHall_not_mem h.ID l hnd ((h1.map _).subset hmem)
    · exact h2 h hh

theorem combineHalls_mem (neededCapacity : Int) :
    ∀ (rest : List Hall) (cur : Int) (comb : List Hall),
      ∀ h ∈ (combineHalls neededCapacity cur comb rest).2, h ∈ comb ∨ h ∈ rest := by
  intro rest
  induction rest with
  | nil => intro cur comb h hh; exact Or.inl (by simpa [combineHalls] using hh)
  | cons x rest ih =>
    intro cur comb h hh
    unfold combineHalls at hh
    split at hh
    · rcases ih _ _ h hh with h1 | h1
      · rcases List.mem_append.1 h1 with h2 | h2
        · exact Or.inl h2
        · exact Or.inr (by simp at h2; simp [h2])
      · exact Or.inr (List.mem_cons_of_mem _ h1)
    · rcases ih _ _ h hh with h1 | h1
      · exact Or.inl h1
      · exact Or.inr (List.mem_cons_of_mem _ h1)

/-- Giving the halls `R`, taken from the available ones, to the course `c` keeps the
invariant of the allocation loop. -/
theorem allocInv_assign (allHalls : List Hall) (used0 : GoMap SlotID (GoMap HallID Bool))
    (slotID : SlotID) (st : AllocState) (inv : AllocInv allHalls used0 slotID st)
    (c : CourseID) (R av' : List Hall) (u' : GoMap SlotID (GoMap HallID Bool))
    (w' : List String)
    (hav1 : (av'.map Hall.ID).Nodup) (hav2 : ∀ h ∈ av', h ∈ st.availableHalls)
    (hR : ∀ h ∈ R, h ∈ st.availableHalls ∧ h.ID ∉ av'.map Hall.ID)
    (hu : ∀ s id, hallUsed u' s id = true ↔
      (s = slotID ∧ id ∈ R.map Hall.ID) ∨ hallUsed st.usedHalls s id = true) :
    AllocInv allHalls used0 slotID
      ⟨av', u', st.allocatedHalls.insert c (R.map Hall.ID), w'⟩ := by
  have hRid : ∀ id ∈ R.map Hall.ID, id ∈ st.availableHalls.map Hall.ID := by
    intro id hid
    obtain ⟨h, hh, hhid⟩ := List.mem_map.1 hid
    exact List.mem_map.2 ⟨h, (hR h hh).1, hhid⟩
  have hav3 : ∀ id, id ∉ st.availableHalls.map Hall.ID → id ∉ av'.map Hall.ID := by
    intro id hid hmem
    obtain ⟨h, hh, hhid⟩ := List.mem_map.1 hmem
    exact hid (List.mem_map.2 ⟨h, hav2 h hh, hhid⟩)
  refine ⟨hav1, fun h hh => inv.avail h (hav2 h hh), ?_, ?_, ?_⟩
  · intro c0 hs hget id hid
    simp only [GoMap.get?_insert] at hget
    split at hget
    · simp only [Option.some.injEq] at hget
      subst hget
      obtain ⟨h, hh, hhid⟩ := List.mem_map.1 hid
      obtain ⟨h1, h2⟩ := inv.avail h (hR h hh).1
      subst hhid
      exact ⟨⟨h, h1, rfl⟩, h2, (hu slotID h.ID).2 (Or.inl ⟨rfl, hid⟩), (hR h hh).2⟩
    · obtain ⟨h1, h2, h3, h4⟩ := inv.alloc c0 hs hget id hid
      exact ⟨h1, h2, (hu slotID id).2 (Or.inr h3), hav3 id h4⟩
  · intro c1 c2 hs hs' hne hg1 hg2 id hid
    simp only [GoMap.get?_insert] at hg1 hg2
    split at hg1
    · next h1 =>
      split at hg2
      · next h2 => exact absurd (h1.trans h2.symm) hne
      · simp only [Option.some.injEq] at hg1
        subst hg1
        intro hid'
        exact (inv.alloc c2 hs' hg2 id hid').2.2.2 (hRid id hid)
    · split at hg2
      · simp only [Option.some.injEq] at hg2
        subst hg2
        intro hid'
        exact (inv.alloc c1 hs hg1 id hid).2.2.2 (hRid id hid')
      · exact inv.disj c1 c2 hs hs' hne hg1 hg2 id hid
  · intro s id h
    exact (hu s id).2 (Or.inr (inv.mono s id h))

theorem allocateCourse_inv (allHalls : List Hall) (used0 : GoMap SlotID (GoMap HallID Bool))
    (slotID : SlotID) (st : AllocState) (a : Assignment)
    (inv : AllocInv allHalls used0 slotID st) :
    AllocInv allHalls used0 slotID (allocateCourse rt slotID st a) := by
  unfold allocateCourse
  split
  · next b hall hbest =>
    have hb : st.availableHalls[b]? = some hall := by
      rcases bestFit_some _ _ _ _ _ _ hbest with h | ⟨_, h⟩
      · cases h
      · simpa using h
    have := allocInv_assign allHalls used0 slotID st inv a.CourseID [hall]
      (st.availableHalls.eraseIdx b) (markUsed st.usedHalls slotID hall.ID) st.capacityWarnings
      (((List.eraseIdx_sublist _ _).map _).nodup inv.nodup)
      (fun h hh => (List.eraseIdx_sublist _ _).subset hh)
      (by
        intro h hh
        simp only [List.mem_singleton] at hh
        subst hh
        exact ⟨List.getElem?_mem hb, eraseIdx_not_mem_ids _ _ _ inv.nodup hb⟩)
      (by
        intro s id
        rw [hallUsed_markUsed]
        simp)
    simpa using this
  · simp only
    have hperm := rt.sortSlice_perm (fun a b : Hall => decide (a.Capacity > b.Capacity))
      st.availableHalls
    have hnds : ((rt.sortSlice (fun a b : Hall => decide (a.Capacity > b.Capacity))
        st.availableHalls).map Hall.ID).Nodup := (hperm.map _).nodup_iff.2 inv.nodup
    split
    · obtain ⟨h1, h2⟩ := foldl_removeHall
        (combineHalls a.EnrolledCount 0 []
          (rt.sortSlice (fun a b : Hall => decide (a.Capacity > b.Capacity))
            st.availableHalls)).2 _ hnds
      exact allocInv_assign allHalls used0 slotID st inv a.CourseID _ _ _ _
        ((h1.map _).nodup hnds) (fun h hh => hperm.subset (h1.subset hh))
        (by
          intro h hh
          refine ⟨?_, h2 h hh⟩
          rcases combineHalls_mem _ _ _ _ h hh with h3 | h3
          · simp at h3
          · exact hperm.subset h3)
        (by
          intro s id
          exact hallUsed_foldl_markUsed slotID _ _ s id)
    · exact allocInv_assign allHalls used0 slotID st inv a.CourseID _ [] _ _
        List.nodup_nil (by simp)
        (by
          intro h hh
          exact ⟨hperm.subset hh, by simp⟩)
        (by
          intro s id
          exact hallUsed_foldl_markUsed slotID _ _ s id)

theorem allocateCourse_allocated (slotID : SlotID) (st : AllocState) (a : Assignment) :
    ∃ hs, (allocateCourse rt slotID st a).allocatedHalls = st.allocatedHalls.insert a.CourseID hs := by
  unfold allocateCourse
  split
  · exact ⟨_, rfl⟩
  · simp only
    split
    · exact ⟨_, rfl⟩
    · exact ⟨_, rfl⟩

theorem foldl_allocateCourse (allHalls : List Hall) (used0 : GoMap SlotID (GoMap HallID Bool))
    (slotID : SlotID) :
    ∀ (l : List Assignment) (st : AllocState), AllocInv allHalls used0 slotID st →
      AllocInv allHalls used0 slotID (l.foldl (allocateCourse rt slotID) st) ∧
      (∀ c, st.allocatedHalls.get? c ≠ none →
        (l.foldl (allocateCourse rt slotID) st).allocatedHalls.get? c ≠ none) ∧
      ∀ a ∈ l, (l.foldl (allocateCourse rt slotID) st).allocatedHalls.get? a.CourseID ≠ none := by
  intro l
  induction l with
  | nil => intro st inv; exact ⟨inv, fun c h => h, by simp⟩
  | cons x rest ih =>
    intro st inv
    simp only [List.foldl_cons]
    obtain ⟨i1, i2, i3⟩ := ih _ (allocateCourse_inv rt allHalls used0 slotID st x inv)
    obtain ⟨hs, hins⟩ := allocateCourse_allocated rt slotID st x
    refine ⟨i1, ?_, ?_⟩
    · intro c hc
      apply i2
      rw [hins, GoMap.get?_insert]
      split
      · simp
      · exact hc
    · intro a ha
      rcases List.mem_cons.1 ha with ha | ha
      · subst ha
        apply i2
        rw [hins, GoMap.get?_insert_self]
        simp
      · exact i3 a ha

/-- The halls that `AllocateHalls` gives to the courses of a slot, for a catalog with
unique hall IDs: they are halls of the catalog that were free in the slot and are marked
used afterwards, two different courses share none, every assignment of the slot has an
entry, and no hall marked used before loses its mark. -/
theorem AllocateHalls_spec (assignmentsInSlot : List Assignment) (allHalls : List Hall)
    (usedHalls : GoMap SlotID (GoMap HallID Bool)) (slotID : SlotID)
    (hnd : (allHalls.map Hall.ID).Nodup) :
    (∀ c hs, (AllocateHalls rt assignmentsInSlot allHalls usedHalls slotID).allocatedHalls.get? c
        = some hs → ∀ id ∈ hs, (∃ h ∈ allHalls, h.ID = id) ∧
          hallUsed usedHalls slotID id = false ∧
          hallUsed (AllocateHalls rt assignmentsInSlot allHalls usedHalls slotID).usedHalls
            slotID id = true) ∧
      (∀ c c' hs hs', c ≠ c' →
        (AllocateHalls rt assignmentsInSlot allHalls usedHalls slotID).allocatedHalls.get? c
          = some hs →
        (AllocateHalls rt assignmentsInSlot allHalls usedHalls slotID).allocatedHalls.get? c'
          = some hs' → ∀ id ∈ hs, id ∉ hs') ∧
      (∀ a ∈ assignmentsInSlot,
        (AllocateHalls rt assignmentsInSlot allHalls usedHalls slotID).allocatedHalls.get?
          a.CourseID ≠ none) ∧
      ∀ s id, hallUsed usedHalls s id = true →
        hallUsed (AllocateHalls rt assignmentsInSlot allHalls usedHalls slotID).usedHalls s id
          = true := by
  have hsub : (allHalls.filter fun hall => !hallUsed usedHalls slotID hall.ID).Sublist allHalls :=
    List.filter_sublist _
  have hperm := rt.sortSlice_perm (fun a b : Hall => decide (a.Capacity < b.Capacity))
    (allHalls.filter fun hall => !hallUsed usedHalls slotID hall.ID)
  have hinit : AllocInv allHalls usedHalls slotID
      ⟨rt.sortSlice (fun a b : Hall => decide (a.Capacity < b.Capacity))
          (allHalls.filter fun hall => !hallUsed usedHalls slotID hall.ID),
        if usedHalls.get? slotID = none then usedHalls.insert slotID GoMap.empty else usedHalls,
        GoMap.empty, []⟩ := by
    refine ⟨(hperm.map _).nodup_iff.2 ((hsub.map _).nodup hnd), ?_, ?_, ?_, ?_⟩
    · intro h hh
      have := hperm.subset hh
      rw [List.mem_filter] at this
      exact ⟨this.1, by simpa using this.2⟩
    · intro c hs hget
      simp [GoMap.get?_empty] at hget
    · intro c c' hs hs' _ hget
      simp [GoMap.get?_empty] at hget
    · intro s id h
      simp only
      split
      · next hnone =>
        unfold hallUsed at h ⊢
        by_cases hs : s = slotID
        · subst hs
          rw [hnone] at h
          simp at h
        · rw [GoMap.get?_insert_of_ne _ _ hs]
          exact h
      · exact h
  obtain ⟨i1, _, i3⟩ := foldl_allocateCourse rt allHalls usedHalls slotID
    (rt.sortSlice (fun a b : Assignment => decide (a.EnrolledCount > b.EnrolledCount))
      assignmentsInSlot) _ hinit
  unfold AllocateHalls
  simp only
  refine ⟨?_, i1.disj, ?_, i1.mono⟩
  · intro c hs hget id hid
    obtain ⟨h1, h2, h3, _⟩ := i1.alloc c hs hget id hid
    exact ⟨h1, h2, h3⟩
  · intro a ha
    exact i3 a ((rt.sortSlice_perm _ assignmentsInSlot).symm.subset ha)

end AllocLemmas

/-! ## `RunSchedulingAttempts`: the halls of the assignments -/

section ScheduleHalls

variable (rt : GoRuntime)

theorem listedHalls_of_halls_empty (a : Assignment) (h : a.Halls = "") : listedHalls a = [] := by
  unfold listedHalls
  rw [h]
  decide

/-- The halls listed by an assignment after `AllocateHalls` wrote its `Halls` field are
among the halls allocated to its course, when no allocated hall ID contains `;`. -/
theorem listedHalls_writeHalls (allocatedHalls : GoMap CourseID (List HallID)) (a : Assignment)
    (hs : List HallID) (hget : allocatedHalls.get? a.CourseID = some hs)
    (hfree : ∀ id ∈ hs, ';' ∉ id.data) :
    ∀ h ∈ listedHalls (writeHalls rt allocatedHalls a), h ∈ hs := by
  intro h hh
  unfold listedHalls writeHalls at hh
  rw [hget] at hh
  simp only at hh
  unfold hallsField at hh
  have hperm := rt.sortSlice_perm stringLess hs
  rw [stringsSplit_stringsJoin ';' _ (fun e he => hfree e (hperm.subset he))] at hh
  rw [List.mem_filter] at hh
  split at hh
  · simp at hh
  · exact hperm.subset hh.1

theorem writeHalls_slotID (allocatedHalls : GoMap CourseID (List HallID)) (a : Assignment) :
    (writeHalls rt allocatedHalls a).SlotID = a.SlotID := by
  unfold writeHalls
  split <;> rfl

theorem writeHalls_idem (allocatedHalls : GoMap CourseID (List HallID)) (a : Assignment) :
    writeHalls rt allocatedHalls (writeHalls rt allocatedHalls a) = writeHalls rt allocatedHalls a := by
  unfold writeHalls
  cases h : allocatedHalls.get? a.CourseID with
  | none => simp [h]
  | some hs => simp [h]

theorem modifyAt_getElem? (f : Assignment → Assignment) (objects : List Assignment)
    (p q : Nat) :
    (modifyAt f objects p)[q]? = if q = p then objects[q]?.map f else objects[q]? := by
  unfold modifyAt
  cases hp : objects[p]? with
  | none =>
    simp only
    split
    · next h => subst h; rw [hp]; rfl
    · rfl
  | some a =>
    simp only [List.getElem?_set]
    by_cases hpq : p = q
    · subst hpq
      have hlt := (List.getElem?_eq_some.1 hp).1
      simp [hlt, hp]
    · have : ¬ q = p := fun h => hpq h.symm
      simp [hpq, this]

theorem foldl_modifyAt_getElem? (f : Assignment → Assignment) (hf : ∀ a, f (f a) = f a) :
    ∀ (ptrs : List Nat) (objects : List Assignment) (q : Nat),
      (ptrs.foldl (modifyAt f) objects)[q]? =
        if q ∈ ptrs then objects[q]?.map f else objects[q]? := by
  intro ptrs
  induction ptrs with
  | nil => intro objects q; simp
  | cons p rest ih =>
    intro objects q
    simp only [List.foldl_cons, List.mem_cons]
    rw [ih, modifyAt_getElem?]
    by_cases hq : q = p
    · subst hq
      simp only [true_or, if_true]
      split
      · cases objects[q]? <;> simp [hf]
      · rfl
    · simp [hq]

/-- One call of `AllocateHalls` in the hall allocation loop keeps the invariant. -/
theorem hallLoopInv_step (halls : List Hall) (hids : (halls.map Hall.ID).Nodup)
    (hsemi : ∀ hall ∈ halls, ';' ∉ hall.ID.data) (acc : HallLoop) (slotID : SlotID)
    (ptrs : List Nat) (inv : HallLoopInv halls acc)
    (hcourses : (acc.objects.map Assignment.CourseID).Nodup)
    (hgroup : ∀ p ∈ ptrs, (acc.objects.map Assignment.SlotID)[p]? = some slotID) :
    HallLoopInv halls
      { objects := ptrs.foldl
          (modifyAt (writeHalls rt (AllocateHalls rt (ptrs.filterMap fun p => acc.objects[p]?)
            halls acc.usedHalls slotID).allocatedHalls)) acc.objects
        usedHalls := (AllocateHalls rt (ptrs.filterMap fun p => acc.objects[p]?)
            halls acc.usedHalls slotID).usedHalls
        allCapacityWarnings := acc.allCapacityWarnings ++
          (AllocateHalls rt (ptrs.filterMap fun p => acc.objects[p]?)
            halls acc.usedHalls slotID).capacityWarnings } := by
  obtain ⟨s1, s2, s3, s4⟩ := AllocateHalls_spec rt (ptrs.filterMap fun p => acc.objects[p]?)
    halls acc.usedHalls slotID hids
  generalize hr : AllocateHalls rt (ptrs.filterMap fun p => acc.objects[p]?)
    halls acc.usedHalls slotID = r at s1 s2 s3 s4 ⊢
  have hget := foldl_modifyAt_getElem? (writeHalls rt r.allocatedHalls)
    (writeHalls_idem rt r.allocatedHalls) ptrs acc.objects
  -- an object of the group after the call
  have hnew : ∀ q b, q ∈ ptrs → acc.objects[q]? = some b →
      b.SlotID = slotID ∧ ∃ hs, r.allocatedHalls.get? b.CourseID = some hs ∧
        ∀ h ∈ listedHalls (writeHalls rt r.allocatedHalls b), h ∈ hs := by
    intro q b hq hb
    have hslot : b.SlotID = slotID := by
      have := hgroup q hq
      rw [List.getElem?_map, hb] at this
      simpa using this
    have hmem : b ∈ ptrs.filterMap fun p => acc.objects[p]? :=
      List.mem_filterMap.2 ⟨q, hq, hb⟩
    cases hg : r.allocatedHalls.get? b.CourseID with
    | none => exact absurd hg (s3 b hmem)
    | some hs =>
      refine ⟨hslot, hs, rfl, listedHalls_writeHalls rt _ b hs hg ?_⟩
      intro id hid
      obtain ⟨⟨hall, hh, hhid⟩, _, _⟩ := s1 _ hs hg id hid
      rw [← hhid]
      exact hsemi hall hh
  refine ⟨?_, ?_⟩
  · intro a ha h hh
    simp only at ha ⊢
    obtain ⟨q, hq⟩ := List.mem_iff_getElem?.1 ha
    rw [hget] at hq
    split at hq
    · next hqp =>
      cases hb : acc.objects[q]? with
      | none => simp [hb] at hq
      | some b =>
        simp only [hb, Option.map_some', Option.some.injEq] at hq
        subst hq
        obtain ⟨hslot, hs, hg, hl⟩ := hnew q b hqp hb
        obtain ⟨h1, _, h3⟩ := s1 _ hs hg h (hl h hh)
        rw [writeHalls_slotID, hslot]
        exact ⟨h1, h3⟩
    · obtain ⟨h1, h2⟩ := inv.listed a (List.getElem?_mem hq) h hh
      exact ⟨h1, s4 _ _ h2⟩
  · intro p q a b hpq ha hb hslot h hha hhb
    simp only at ha hb
    rw [hget] at ha hb
    have hcne : ∀ a0 b0, acc.objects[p]? = some a0 → acc.objects[q]? = some b0 →
        a0.CourseID ≠ b0.CourseID := by
      intro a0 b0 h1 h2 heq
      have e1 : (acc.objects.map Assignment.CourseID)[p]? = some a0.CourseID := by
        rw [List.getElem?_map, h1]; rfl
      have e2 : (acc.objects.map Assignment.CourseID)[q]? = some a0.CourseID := by
        rw [List.getElem?_map, h2, heq]; rfl
      exact hpq (index_eq_of_nodup hcourses e1 e2)
    split at ha
    · next hp =>
      cases ha0 : acc.objects[p]? with
      | none => simp [ha0] at ha
      | some a0 =>
        simp only [ha0, Option.map_some', Option.some.injEq] at ha
        subst ha
        obtain ⟨hsa, hsA, hgA, hlA⟩ := hnew p a0 hp ha0
        split at hb
        · next hq =>
          cases hb0 : acc.objects[q]? with
          | none => simp [hb0] at hb
          | some b0 =>
            simp only [hb0, Option.map_some', Option.some.injEq] at hb
            subst hb
            obtain ⟨_, hsB, hgB, hlB⟩ := hnew q b0 hq hb0
            exact s2 _ _ hsA hsB (hcne a0 b0 ha0 hb0) hgA hgB h (hlA h hha) (hlB h hhb)
        · have hused := (inv.listed b (List.getElem?_mem hb) h hhb).2
          rw [writeHalls_slotID, hsa] at hslot
          rw [← hslot] at hused
          have hfree := (s1 _ hsA hgA h (hlA h hha)).2.1
          rw [hfree] at hused
          cases hused
    · split at hb
      · next hq =>
        cases hb0 : acc.objects[q]? with
        | none => simp [hb0] at hb
        | some b0 =>
          simp only [hb0, Option.map_some', Option.some.injEq] at hb
          subst hb
          obtain ⟨hsb, hsB, hgB, hlB⟩ := hnew q b0 hq hb0
          have hused := (inv.listed a (List.getElem?_mem ha) h hha).2
          rw [writeHalls_slotID, hsb] at hslot
          rw [hslot] at hused
          have hfree := (s1 _ hsB hgB h (hlB h hhb)).2.1
          rw [hfree] at hused
          cases hused
      · exact inv.disj p q a b hpq ha hb hslot h hha hhb

end ScheduleHalls

section ScheduleHallsResult

variable (rt : GoRuntime)

theorem buildAssignments_spec (courses : GoMap CourseID Course) (slots : List (Slot rt.Time)) :
    ∀ (entries : List (CourseID × Nat)) (objects : List Assignment)
      (bySlot : GoMap Nat (List Nat)) (r : List Assignment × GoMap Nat (List Nat)),
      buildAssignments rt courses slots entries objects bySlot = .ok r →
      (∀ a ∈ objects, a.Halls = "") →
      (∀ k ptrs, bySlot.get? k = some ptrs → ∀ p ∈ ptrs,
        ∃ slot, slots[k]? = some slot ∧ (objects.map Assignment.SlotID)[p]? = some slot.ID) →
      (∀ a ∈ r.1, a.Halls = "") ∧
      ∀ k ptrs, r.2.get? k = some ptrs → ∀ p ∈ ptrs,
        ∃ slot, slots[k]? = some slot ∧ (r.1.map Assignment.SlotID)[p]? = some slot.ID := by
  intro entries
  induction entries with
  | nil =>
    intro objects bySlot r h h1 h2
    simp only [buildAssignments, Outcome.ok.injEq] at h
    subst h
    exact ⟨h1, h2⟩
  | cons e rest ih =>
    intro objects bySlot r h h1 h2
    obtain ⟨courseID, slotIdx⟩ := e
    unfold buildAssignments at h
    split at h
    · simp at h
    · next slot hslot =>
      split at h
      · simp at h
      · next course _ =>
        refine ih _ _ _ h ?_ ?_
        · intro a ha
          rcases List.mem_append.1 ha with ha | ha
          · exact h1 a ha
          · simp only [List.mem_singleton] at ha
            subst ha; rfl
        · intro k ptrs hk p hp
          have hext : ∀ (q : Nat) (s : SlotID), (objects.map Assignment.SlotID)[q]? = some s →
              ((objects ++ [(⟨courseID, slot.ID, rt.formatRFC3339 slot.Start, "",
                (course.Enrollments.length : Int), ""⟩ : Assignment)]).map
                  Assignment.SlotID)[q]? = some s := by
            intro q s hq
            rw [List.map_append, List.getElem?_append_left (by
              exact (List.getElem?_eq_some.1 hq).1)]
            exact hq
          rw [GoMap.get?_insert] at hk
          split at hk
          · next hks =>
            simp only [Option.some.injEq] at hk
            subst hk
            subst hks
            rcases List.mem_append.1 hp with hp | hp
            · cases hold : bySlot.get? k with
              | none => simp [hold] at hp
              | some old =>
                rw [hold] at hp
                obtain ⟨slot', hs1, hs2⟩ := h2 k old hold p hp
                exact ⟨slot', hs1, hext p _ hs2⟩
            · simp only [List.mem_singleton] at hp
              subst hp
              refine ⟨slot, hslot, ?_⟩
              simp
          · obtain ⟨slot', hs1, hs2⟩ := h2 k ptrs hk p hp
            exact ⟨slot', hs1, hext p _ hs2⟩

theorem allocateSlots_inv (halls : List Hall) (hids : (halls.map Hall.ID).Nodup)
    (hsemi : ∀ hall ∈ halls, ';' ∉ hall.ID.data) (slots : List (Slot rt.Time)) :
    ∀ (groups : List (Nat × List Nat)) (acc r : HallLoop),
      allocateSlots rt halls slots groups acc = .ok r → HallLoopInv halls acc →
      (acc.objects.map Assignment.CourseID).Nodup →
      (∀ g ∈ groups, ∀ p ∈ g.2, ∃ slot, slots[g.1]? = some slot ∧
        (acc.objects.map Assignment.SlotID)[p]? = some slot.ID) →
      HallLoopInv halls r := by
  intro groups
  induction groups with
  | nil =>
    intro acc r h inv _ _
    simp only [allocateSlots, Outcome.ok.injEq] at h
    subst h; exact inv
  | cons g rest ih =>
    intro acc r h inv hcourses hgroups
    obtain ⟨slotIdx, ptrs⟩ := g
    unfold allocateSlots at h
    split at h
    · simp at h
    · next slot hslot =>
      have hgroup : ∀ p ∈ ptrs, (acc.objects.map Assignment.SlotID)[p]? = some slot.ID := by
        intro p hp
        obtain ⟨slot', hs1, hs2⟩ := hgroups (slotIdx, ptrs) (List.mem_cons_self _ _) p hp
        simp only at hs1
        rw [hslot] at hs1
        cases hs1
        exact hs2
      refine ih _ _ h (hallLoopInv_step rt halls hids hsemi acc slot.ID ptrs inv hcourses hgroup)
        ?_ ?_
      · simp only
        rw [foldl_modifyAt_map _ _ (writeHalls_courseID rt _)]
        exact hcourses
      · intro g' hg' p hp
        simp only
        rw [foldl_modifyAt_map _ _ (writeHalls_slotID rt _)]
        exact hgroups g' (List.mem_cons_of_mem _ hg') p hp

/-- The halls of the assignments of one scored attempt, for a catalog with unique hall IDs
none of which contains `;`. -/
theorem scoreAttempt_halls (exec : Nat) (coloring : GoMap CourseID Nat)
    (courses : GoMap CourseID Course) (halls : List Hall) (slots : List (Slot rt.Time))
    (graph : ConflictGraph) (minGapMinutes : Int) (penaltyConfig : PenaltyConfig rt)
    (scored : List Assignment × List String × rt.Float64)
    (hids : (halls.map Hall.ID).Nodup) (hsemi : ∀ hall ∈ halls, ';' ∉ hall.ID.data)
    (h : scoreAttempt rt exec coloring courses halls slots graph minGapMinutes penaltyConfig
      = .ok scored) :
    scored.1.Pairwise (fun a b => a.SlotID = b.SlotID → ∀ h ∈ listedHalls a, h ∉ listedHalls b) ∧
      ∀ a ∈ scored.1, ∀ h ∈ listedHalls a, ∃ hall ∈ halls, hall.ID = h := by
  unfold scoreAttempt at h
  obtain ⟨built, hb, h2⟩ := Outcome.bind_eq_ok.1 h
  obtain ⟨allocated, ha, h3⟩ := Outcome.bind_eq_ok.1 h2
  obtain ⟨penalty, _, h4⟩ := Outcome.bind_eq_ok.1 h3
  simp only [Outcome.ok.injEq] at h4
  subst h4
  simp only
  obtain ⟨b1, b2⟩ := buildAssignments_spec rt courses slots _ _ _ _ hb (by simp)
    (by intro k ptrs hk; simp [GoMap.get?_empty] at hk)
  have hcourses : (built.1.map Assignment.CourseID).Nodup := by
    rw [buildAssignments_courses rt _ _ _ _ _ _ hb]
    simp only [List.map_nil, List.nil_append, GoMap.range_fst]
    exact (rt.rangeOrder_perm 5 exec coloring.keys).nodup_iff.2 (List.nodup_dedup _)
  have hinit : HallLoopInv halls ⟨built.1, GoMap.empty, []⟩ := by
    refine ⟨?_, ?_⟩
    · intro a ha' h hh
      rw [listedHalls_of_halls_empty a (b1 a ha')] at hh
      simp at hh
    · intro p q a b _ ha' _ _ h hh
      rw [listedHalls_of_halls_empty a (b1 a (List.getElem?_mem ha'))] at hh
      simp at hh
  have hinv := allocateSlots_inv rt halls hids hsemi slots _ _ _ ha hinit hcourses (by
    intro g hg p hp
    obtain ⟨k, ptrs⟩ := g
    exact b2 k ptrs (GoMap.mem_range rt 6 exec _ k ptrs hg) p hp)
  refine ⟨?_, fun a ha' h hh => (hinv.listed a ha' h hh).1⟩
  rw [List.pairwise_iff_getElem]
  intro i j hi hj hij hslot h hh
  exact hinv.disj i j _ _ (by omega) (List.getElem?_eq_getElem hi) (List.getElem?_eq_getElem hj)
    hslot h hh

/-- C3, as stated, fails: with the unique hall IDs `A` and `A;B`, course `c1` is given the
hall `A;B` and course `c2`, in the same slot, the hall `A`; the `halls` field `A;B` of `c1`
lists the halls `A` and `B`, so hall `A` is listed by two assignments of one slot and the
listed hall `B` is not in the catalog. -/
theorem C3_counterexample_hall_id_with_separator :
    (semiHalls.map Hall.ID).Nodup ∧ (oneSlot.map Slot.ID).Nodup ∧
      assignmentsOf refRuntime (RunSchedulingAttempts refRuntime 1 1 semiCourses semiHalls oneSlot
          ⟨[]⟩ (NewConflictGraph refRuntime semiCourses) 0 ⟨0, 0⟩) =
        some [⟨"c1", "2025-01-06T09:00Z#1", "2025-01-06T09:00:00Z", "A;B", 2, ""⟩,
          ⟨"c2", "2025-01-06T09:00Z#1", "2025-01-06T09:00:00Z", "A", 1, ""⟩] ∧
      listedHalls ⟨"c1", "2025-01-06T09:00Z#1", "2025-01-06T09:00:00Z", "A;B", 2, ""⟩ = ["A", "B"] ∧
      listedHalls ⟨"c2", "2025-01-06T09:00Z#1", "2025-01-06T09:00:00Z", "A", 1, ""⟩ = ["A"] ∧
      ¬ ∃ hall ∈ semiHalls, hall.ID = "B" := by
  decide

/-- C3, amended: for every successful result of `RunSchedulingAttempts`, given a hall
catalog with unique hall IDs none of which contains the character `;`: no hall ID is listed
by two different assignments that have the same `slot_id`, and every hall ID listed by an
assignment belongs to the hall catalog.  (The slot IDs need not be distinct.) -/
theorem C3_no_hall_shared_within_slot (tries : Int) (seed : Int)
    (courses : GoMap CourseID Course) (halls : List Hall) (slots : List (Slot rt.Time))
    (allowedSlots : GoMap CourseID (GoMap SlotID Bool)) (graph : ConflictGraph)
    (minGapMinutes : Int) (penaltyConfig : PenaltyConfig rt) (result : ScheduleResult rt)
    (h : RunSchedulingAttempts rt tries seed courses halls slots allowedSlots graph
      minGapMinutes penaltyConfig = .ok result)
    (hids : (halls.map Hall.ID).Nodup) (hsemi : ∀ hall ∈ halls, ';' ∉ hall.ID.data) :
    result.Assignments.Pairwise
        (fun a b => a.SlotID = b.SlotID → ∀ h ∈ listedHalls a, h ∉ listedHalls b) ∧
      ∀ a ∈ result.Assignments, ∀ h ∈ listedHalls a, ∃ hall ∈ halls, hall.ID = h := by
  refine attemptLoop_ok rt courses halls slots allowedSlots graph minGapMinutes penaltyConfig
    (fun r => r.Assignments.Pairwise
        (fun a b => a.SlotID = b.SlotID → ∀ h ∈ listedHalls a, h ∉ listedHalls b) ∧
      ∀ a ∈ r.Assignments, ∀ h ∈ listedHalls a, ∃ hall ∈ halls, hall.ID = h)
    ?_ _ _ _ none result (by intro b hb; cases hb)
    (RunSchedulingAttempts_ok rt _ _ _ _ _ _ _ _ _ _ h)
  intro i attemptSeed coloring scored _ hs
  obtain ⟨h1, h2⟩ := scoreAttempt_halls rt i coloring courses halls slots graph minGapMinutes
    penaltyConfig scored hids hsemi hs
  have hperm := rt.sortSlice_perm assignmentLess scored.1
  simp only
  refine ⟨?_, fun a ha => h2 a (hperm.subset ha)⟩
  refine (List.Perm.pairwise_iff ?_ hperm).2 h1
  intro a b hab hslot h hh hh'
  exact hab hslot.symm h hh' hh

end ScheduleHallsResult

/-! ## The theorems at concrete inputs -/

section Instances

/-- C1 on the graph of `starCourses` with two slots and no palette: the conflicting courses
`a` and `b` get different slots. -/
theorem C1_conflicting_courses_get_different_slots_witness :
    DSATUR refRuntime (NewConflictGraph refRuntime starCourses) twoSlots ⟨[]⟩ 5 =
        .ok ⟨[("a", 0), ("b", 1), ("c", 1)]⟩ ∧
      ∃ kx ky, (⟨[("a", 0), ("b", 1), ("c", 1)]⟩ : GoMap CourseID Nat).get? "a" = some kx ∧
        (⟨[("a", 0), ("b", 1), ("c", 1)]⟩ : GoMap CourseID Nat).get? "b" = some ky ∧ kx ≠ ky :=
  ⟨by decide,
    (C1_conflicting_courses_get_different_slots refRuntime starCourses twoSlots ⟨[]⟩ 5 _
      (by decide)).1 0 1 "a" "b" (by decide) (by decide) (by decide)⟩

/-- C2 on `semiCourses` with the halls of the acceptance test and one slot. -/
theorem C2_one_assignment_per_course_witness :
    ∃ result, RunSchedulingAttempts refRuntime 1 1 semiCourses testHalls oneSlot ⟨[]⟩
        (NewConflictGraph refRuntime semiCourses) 0 ⟨0, 0⟩ = .ok result ∧
      (result.Assignments.map Assignment.CourseID).Perm semiCourses.keys := by
  have hdec : assignmentsOf refRuntime (RunSchedulingAttempts refRuntime 1 1 semiCourses
      testHalls oneSlot ⟨[]⟩ (NewConflictGraph refRuntime semiCourses) 0 ⟨0, 0⟩) ≠ none := by
    decide
  cases hr : RunSchedulingAttempts refRuntime 1 1 semiCourses testHalls oneSlot ⟨[]⟩
      (NewConflictGraph refRuntime semiCourses) 0 ⟨0, 0⟩ with
  | ok result =>
    exact ⟨result, rfl,
      (C2_one_assignment_per_course refRuntime 1 1 semiCourses testHalls oneSlot ⟨[]⟩ 0 ⟨0, 0⟩
        result hr).1⟩
  | error msg => rw [hr] at hdec; exact absurd rfl hdec
  | panic => rw [hr] at hdec; exact absurd rfl hdec
  | timeout => rw [hr] at hdec; exact absurd rfl hdec

/-- C3, amended, on `semiCourses` with the halls of the acceptance test and one slot. -/
theorem C3_no_hall_shared_within_slot_witness :
    (testHalls.map Hall.ID).Nodup ∧ (∀ hall ∈ testHalls, ';' ∉ hall.ID.data) ∧
      ∃ result, RunSchedulingAttempts refRuntime 1 1 semiCourses testHalls oneSlot ⟨[]⟩
          (NewConflictGraph refRuntime semiCourses) 0 ⟨0, 0⟩ = .ok result ∧
        result.Assignments.Pairwise
          (fun a b => a.SlotID = b.SlotID → ∀ h ∈ listedHalls a, h ∉ listedHalls b) ∧
        ∀ a ∈ result.Assignments, ∀ h ∈ listedHalls a, ∃ hall ∈ testHalls, hall.ID = h := by
  have hdec : assignmentsOf refRuntime (RunSchedulingAttempts refRuntime 1 1 semiCourses
      testHalls oneSlot ⟨[]⟩ (NewConflictGraph refRuntime semiCourses) 0 ⟨0, 0⟩) ≠ none := by
    decide
  refine ⟨by decide, by decide, ?_⟩
  cases hr : RunSchedulingAttempts refRuntime 1 1 semiCourses testHalls oneSlot ⟨[]⟩
      (NewConflictGraph refRuntime semiCourses) 0 ⟨0, 0⟩ with
  | ok result =>
    exact ⟨result, rfl,
      C3_no_hall_shared_within_slot refRuntime 1 1 semiCourses testHalls oneSlot ⟨[]⟩
        (NewConflictGraph refRuntime semiCourses) 0 ⟨0, 0⟩ result hr (by decide) (by decide)⟩
  | error msg => rw [hr] at hdec; exact absurd rfl hdec
  | panic => rw [hr] at hdec; exact absurd rfl hdec
  | timeout => rw [hr] at hdec; exact absurd rfl hdec

/-- C4 on the graph of `starCourses` with `forcedPalette`: course `a` sits in the slot of
its palette. -/
theorem C4_coloring_within_palette_witness :
    DSATUR refRuntime (NewConflictGraph refRuntime starCourses) twoSlots forcedPalette 5 =
        .ok ⟨[("a", 1), ("b", 0), ("c", 0)]⟩ ∧
      ∃ s, twoSlots[1]? = some s ∧
        (⟨[("2025-01-06T14:00Z#2", true)]⟩ : GoMap SlotID Bool).get? s.ID = some true :=
  ⟨by decide,
    (C4_coloring_within_palette refRuntime (NewConflictGraph refRuntime starCourses) twoSlots
      forcedPalette 5 ⟨[("a", 1), ("b", 0), ("c", 0)]⟩ (by decide)).2 "a" 1
      ⟨[("2025-01-06T14:00Z#2", true)]⟩ (by decide) (by decide) (by decide)⟩

/-- C5 on the graph of `starCourses` with `forcedPalette`. -/
theorem C5_coloring_domain_and_index_range_witness :
    DSATUR refRuntime (NewConflictGraph refRuntime starCourses) twoSlots forcedPalette 5 =
        .ok ⟨[("a", 1), ("b", 0), ("c", 0)]⟩ ∧
      (∀ c, c ∈ (NewConflictGraph refRuntime starCourses).Courses ↔
        ∃ k, (⟨[("a", 1), ("b", 0), ("c", 0)]⟩ : GoMap CourseID Nat).get? c = some k) ∧
      (0 ≤ 1 ∧ 1 < twoSlots.length) ∧
      (NewConflictGraph refRuntime starCourses).Courses.Nodup ∧
      (⟨[("a", 1), ("b", 0), ("c", 0)]⟩ : GoMap CourseID Nat).len =
        (NewConflictGraph refRuntime starCourses).Courses.length :=
  ⟨by decide,
    (C5_coloring_domain_and_index_range refRuntime (NewConflictGraph refRuntime starCourses)
      twoSlots forcedPalette 5 _ (by decide)).1,
    (C5_coloring_domain_and_index_range refRuntime (NewConflictGraph refRuntime starCourses)
      twoSlots forcedPalette 5 ⟨[("a", 1), ("b", 0), ("c", 0)]⟩ (by decide)).2.1 "a" 1
      (by decide),
    by decide,
    (C5_coloring_domain_and_index_range refRuntime (NewConflictGraph refRuntime starCourses)
      twoSlots forcedPalette 5 ⟨[("a", 1), ("b", 0), ("c", 0)]⟩ (by decide)).2.2 (by decide)⟩

/-- C6, amended, on the graph of `starCourses` with `starPalette`, where `DSATUR` fails at
course `b`. -/
theorem C6_error_names_stuck_course_witness :
    DSATUR refRuntime (NewConflictGraph refRuntime starCourses) twoSlots starPalette 5 =
        .error (infeasibleMsg "b") ∧
      ∃ (st : DsaturState refRuntime) (c : CourseID) (next : Nat),
        dsaturRun refRuntime (NewConflictGraph refRuntime starCourses) twoSlots starPalette 5 =
          .ok (st, .stuck c) ∧
        infeasibleMsg "b" = infeasibleMsg c ∧
        (NewConflictGraph refRuntime starCourses).Courses[next]? = some c ∧
        st.coloring.get? c = none ∧
        ∀ k ∈ courseSlots refRuntime twoSlots starPalette c,
          ∃ j y, (NewConflictGraph refRuntime starCourses).adjacent next j = true ∧
            (NewConflictGraph refRuntime starCourses).Courses[j]? = some y ∧
            st.coloring.get? y = some k :=
  ⟨by decide,
    C6_error_names_stuck_course refRuntime (NewConflictGraph refRuntime starCourses) twoSlots
      starPalette 5 _ (by decide)⟩

/-- C8 on the schedule `clashCSV`: student `s1` in two courses of one slot, and in one
course twice. -/
theorem C8_conflicts_count_clashing_registrations_witness :
    parseScheduleCSV refRuntime clashCSV =
        .ok [⟨"c1", "slot1", "2025-01-06T09:00:00Z", "H1", 1, ""⟩,
          ⟨"c2", "slot1", "2025-01-06T09:00:00Z", "H2", 1, ""⟩] ∧
      (VerifySchedule refRuntime [⟨"s1", "c1"⟩, ⟨"s1", "c2"⟩] clashCSV testHalls).1.Conflicts =
        (clashCount [⟨"c1", "slot1", "2025-01-06T09:00:00Z", "H1", 1, ""⟩,
          ⟨"c2", "slot1", "2025-01-06T09:00:00Z", "H2", 1, ""⟩] []
          [⟨"s1", "c1"⟩, ⟨"s1", "c2"⟩] : Int) ∧
      (VerifySchedule refRuntime [⟨"s1", "c1"⟩, ⟨"s1", "c2"⟩] clashCSV testHalls).1.Conflicts = 1 ∧
      (VerifySchedule refRuntime [⟨"s1", "c1"⟩, ⟨"s1", "c1"⟩] clashCSV testHalls).1.Conflicts = 1 :=
  ⟨by decide,
    (C8_conflicts_count_clashing_registrations refRuntime [⟨"s1", "c1"⟩, ⟨"s1", "c2"⟩] clashCSV
      testHalls _ (by decide)).1,
    (C8_conflicts_count_clashing_registrations refRuntime [] clashCSV testHalls
      [⟨"c1", "slot1", "2025-01-06T09:00:00Z", "H1", 1, ""⟩,
        ⟨"c2", "slot1", "2025-01-06T09:00:00Z", "H2", 1, ""⟩] (by decide)).2.2
      "s1" "c1" "c2" "slot1" (by decide) (by decide),
    (C8_conflicts_count_clashing_registrations refRuntime [] clashCSV testHalls
      [⟨"c1", "slot1", "2025-01-06T09:00:00Z", "H1", 1, ""⟩,
        ⟨"c2", "slot1", "2025-01-06T09:00:00Z", "H2", 1, ""⟩] (by decide)).2.2
      "s1" "c1" "c1" "slot1" (by decide) (by decide)⟩

/-- C9, amended, on the schedule `doubleBookedCSV` with hall `H1` in the catalog. -/
theorem C9_double_booking_of_catalog_hall_witness :
    parseScheduleCSV refRuntime doubleBookedCSV =
        .ok [⟨"c1", "slot1", "2025-01-06T09:00:00Z", "H1", 1, ""⟩,
          ⟨"c2", "slot1", "2025-01-06T09:00:00Z", "H1", 1, ""⟩] ∧
      "H1" ∈ stringsSplit "H1" ';' ∧ (∃ x ∈ testHalls, x.ID = "H1") ∧
      doubleBookedMsg "H1" "slot1" ∈
        (VerifySchedule refRuntime [⟨"s1", "c1"⟩, ⟨"s2", "c2"⟩] doubleBookedCSV testHalls).1.Errors ∧
      (VerifySchedule refRuntime [⟨"s1", "c1"⟩, ⟨"s2", "c2"⟩] doubleBookedCSV testHalls).1.Valid
        = false :=
  ⟨by decide, by decide, by decide,
    C9_double_booking_of_catalog_hall refRuntime [⟨"s1", "c1"⟩, ⟨"s2", "c2"⟩] doubleBookedCSV
      testHalls _ (by decide) [] [] [] ⟨"c1", "slot1", "2025-01-06T09:00:00Z", "H1", 1, ""⟩
      ⟨"c2", "slot1", "2025-01-06T09:00:00Z", "H1", 1, ""⟩ rfl rfl "H1" (by decide) (by decide)
      (by decide) (by decide)⟩

end Instances

section AllocSteps

variable (rt : GoRuntime)

theorem AllocateHalls_eq (assignmentsInSlot : List Assignment) (allHalls : List Hall)
    (usedHalls : GoMap SlotID (GoMap HallID Bool)) (slotID : SlotID) :
    AllocateHalls rt assignmentsInSlot allHalls usedHalls slotID =
      { assignmentsInSlot := (allocOrder rt assignmentsInSlot).map
          (writeHalls rt (allocAfter rt allHalls usedHalls slotID
            (allocOrder rt assignmentsInSlot)).allocatedHalls)
        usedHalls := (allocAfter rt allHalls usedHalls slotID
          (allocOrder rt assignmentsInSlot)).usedHalls
        allocatedHalls := (allocAfter rt allHalls usedHalls slotID
          (allocOrder rt assignmentsInSlot)).allocatedHalls
        capacityWarnings := (allocAfter rt allHalls usedHalls slotID
          (allocOrder rt assignmentsInSlot)).capacityWarnings } := rfl

theorem allocAfter_append (allHalls : List Hall) (usedHalls : GoMap SlotID (GoMap HallID Bool))
    (slotID : SlotID) (done more : List Assignment) :
    allocAfter rt allHalls usedHalls slotID (done ++ more) =
      more.foldl (allocateCourse rt slotID) (allocAfter rt allHalls usedHalls slotID done) := by
  unfold allocAfter
  rw [List.foldl_append]

theorem allocAfter_snoc (allHalls : List Hall) (usedHalls : GoMap SlotID (GoMap HallID Bool))
    (slotID : SlotID) (done : List Assignment) (a : Assignment) :
    allocAfter rt allHalls usedHalls slotID (done ++ [a]) =
      allocateCourse rt slotID (allocAfter rt allHalls usedHalls slotID done) a := by
  rw [allocAfter_append]; rfl

/-- What the scan for the tightest hall returns: nothing when no hall is large enough,
otherwise a hall that is large enough and no larger than any other such hall. -/
theorem bestFit_spec (neededCapacity : Int) :
    ∀ (rest : List Hall) (i : Nat) (best : Option (Nat × Hall)),
      (∀ b bh, best = some (b, bh) → neededCapacity ≤ bh.Capacity) →
      match bestFit neededCapacity i best rest with
      | none => best = none ∧ ∀ h ∈ rest, h.Capacity < neededCapacity
      | some (_, hall) => neededCapacity ≤ hall.Capacity ∧
          (∀ h ∈ rest, neededCapacity ≤ h.Capacity → hall.Capacity ≤ h.Capacity) ∧
          ∀ b' bh, best = some (b', bh) → hall.Capacity ≤ bh.Capacity := by
  intro rest
  induction rest with
  | nil =>
    intro i best hbest
    unfold bestFit
    cases best with
    | none => simp
    | some p =>
      obtain ⟨b, bh⟩ := p
      refine ⟨hbest b bh rfl, by simp, ?_⟩
      intro b' bh' h
      cases h
      exact le_refl _
  | cons x rest ih =>
    intro i best hbest
    unfold bestFit
    by_cases hx : x.Capacity ≥ neededCapacity
    · simp only [hx, if_true]
      cases best with
      | none =>
        simp only
        have := ih (i + 1) (some (i, x)) (by intro b bh h; cases h; exact hx)
        revert this
        cases bestFit neededCapacity (i + 1) (some (i, x)) rest with
        | none => intro h; simp at h
        | some p =>
          obtain ⟨b, hall⟩ := p
          simp only
          intro ⟨h1, h2, h3⟩
          refine ⟨h1, ?_, by intro b' bh h; cases h⟩
          intro h hh hcap
          rcases List.mem_cons.1 hh with hh | hh
          · subst hh; exact h3 i h rfl
          · exact h2 h hh hcap
      | some p =>
        obtain ⟨b0, bh0⟩ := p
        simp only
        by_cases hlt : x.Capacity < bh0.Capacity
        · simp only [hlt, if_true]
          have := ih (i + 1) (some (i, x)) (by intro b bh h; cases h; exact hx)
          revert this
          cases bestFit neededCapacity (i + 1) (some (i, x)) rest with
          | none => intro h; simp at h
          | some p =>
            obtain ⟨b, hall⟩ := p
            simp only
            intro ⟨h1, h2, h3⟩
            refine ⟨h1, ?_, ?_⟩
            · intro h hh hcap
              rcases List.mem_cons.1 hh with hh | hh
              · subst hh; exact h3 i h rfl
              · exact h2 h hh hcap
            · intro b' bh h
              cases h
              have := h3 i x rfl
              omega
        · simp only [hlt, if_false]
          have := ih (i + 1) (some (b0, bh0)) (by intro b bh h; cases h; exact hbest b0 bh0 rfl)
          revert this
          cases bestFit neededCapacity (i + 1) (some (b0, bh0)) rest with
          | none => intro h; simp at h
          | some p =>
            obtain ⟨b, hall⟩ := p
            simp only
            intro ⟨h1, h2, h3⟩
            refine ⟨h1, ?_, ?_⟩
            · intro h hh hcap
              rcases List.mem_cons.1 hh with hh | hh
              · subst hh
                have := h3 b0 bh0 rfl
                omega
              · exact h2 h hh hcap
            · intro b' bh h
              cases h
              exact h3 b0 bh0 rfl
    · simp only [hx, if_false]
      have := ih (i + 1) best hbest
      revert this
      cases bestFit neededCapacity (i + 1) best rest with
      | none =>
        simp only
        intro ⟨h1, h2⟩
        refine ⟨h1, ?_⟩
        intro h hh
        rcases List.mem_cons.1 hh with hh | hh
        · subst hh; omega
        · exact h2 h hh
      | some p =>
        obtain ⟨b, hall⟩ := p
        simp only
        intro ⟨h1, h2, h3⟩
        refine ⟨h1, ?_, h3⟩
        intro h hh hcap
        rcases List.mem_cons.1 hh with hh | hh
        · subst hh; omega
        · exact h2 h hh hcap

theorem allocInv_init (allHalls : List Hall) (usedHalls : GoMap SlotID (GoMap HallID Bool))
    (slotID : SlotID) (hnd : (allHalls.map Hall.ID).Nodup) :
    AllocInv allHalls usedHalls slotID (allocInit rt allHalls usedHalls slotID) := by
  have hsub : (allHalls.filter fun hall => !hallUsed usedHalls slotID hall.ID).Sublist allHalls :=
    List.filter_sublist _
  have hperm := rt.sortSlice_perm (fun a b : Hall => decide (a.Capacity < b.Capacity))
    (allHalls.filter fun hall => !hallUsed usedHalls slotID hall.ID)
  unfold allocInit
  refine ⟨(hperm.map _).nodup_iff.2 ((hsub.map _).nodup hnd), ?_, ?_, ?_, ?_⟩
  · intro h hh
    have := hperm.subset hh
    rw [List.mem_filter] at this
    exact ⟨this.1, by simpa using this.2⟩
  · intro c hs hget
    simp [GoMap.get?_empty] at hget
  · intro c c' hs hs' _ hget
    simp [GoMap.get?_empty] at hget
  · intro s id h
    simp only
    split
    · next hnone =>
      unfold hallUsed at h ⊢
      by_cases hs : s = slotID
      · subst hs
        rw [hnone] at h
        simp at h
      · rw [GoMap.get?_insert_of_ne _ _ hs]
        exact h
    · exact h

theorem allocAfter_inv (allHalls : List Hall) (usedHalls : GoMap SlotID (GoMap HallID Bool))
    (slotID : SlotID) (hnd : (allHalls.map Hall.ID).Nodup) (done : List Assignment) :
    AllocInv allHalls usedHalls slotID (allocAfter rt allHalls usedHalls slotID done) :=
  (foldl_allocateCourse rt allHalls usedHalls slotID done _
    (allocInv_init rt allHalls usedHalls slotID hnd)).1

/-- The halls still available after a course are among those available before it. -/
theorem allocateCourse_subperm (slotID : SlotID) (st : AllocState) (a : Assignment) :
    (allocateCourse rt slotID st a).availableHalls.Subperm st.availableHalls := by
  unfold allocateCourse
  split
  · exact (List.eraseIdx_sublist _ _).subperm
  · simp only
    have hperm := rt.sortSlice_perm (fun a b : Hall => decide (a.Capacity > b.Capacity))
      st.availableHalls
    split
    · have hsub : ∀ (R l : List Hall),
          (R.foldl (fun available hall => removeHall hall.ID available) l).Sublist l := by
        intro R
        induction R with
        | nil => intro l; exact List.Sublist.refl _
        | cons r rest ih =>
          intro l
          exact (ih _).trans (removeHall_sublist r.ID l)
      exact (hsub _ _).subperm.trans hperm.subperm
    · exact List.nil_subperm

theorem foldl_allocateCourse_subperm (slotID : SlotID) :
    ∀ (l : List Assignment) (st : AllocState),
      (l.foldl (allocateCourse rt slotID) st).availableHalls.Subperm st.availableHalls := by
  intro l
  induction l with
  | nil => intro st; exact List.Subperm.refl _
  | cons x rest ih =>
    intro st
    exact (ih _).trans (allocateCourse_subperm rt slotID st x)

/-- The entry of a course in `allocatedHalls` stays as it is while the loop processes
assignments of other courses. -/
theorem foldl_allocateCourse_get? (slotID : SlotID) (c : CourseID) :
    ∀ (l : List Assignment) (st : AllocState), (∀ b ∈ l, b.CourseID ≠ c) →
      (l.foldl (allocateCourse rt slotID) st).allocatedHalls.get? c = st.allocatedHalls.get? c := by
  intro l
  induction l with
  | nil => intro st _; rfl
  | cons x rest ih =>
    intro st hne
    simp only [List.foldl_cons]
    rw [ih _ (fun b hb => hne b (List.mem_cons_of_mem _ hb))]
    obtain ⟨hs, hins⟩ := allocateCourse_allocated rt slotID st x
    rw [hins, GoMap.get?_insert_of_ne _ _ (fun h => hne x (List.mem_cons_self _ _) h.symm)]

/-- The step of the loop when some available hall is large enough for the course. -/
theorem allocateCourse_fit (slotID : SlotID) (st : AllocState) (a : Assignment)
    (hfit : ∃ h ∈ st.availableHalls, a.EnrolledCount ≤ h.Capacity) :
    ∃ (i : Nat) (hall : Hall), st.availableHalls[i]? = some hall ∧
      a.EnrolledCount ≤ hall.Capacity ∧
      (∀ h ∈ st.availableHalls, a.EnrolledCount ≤ h.Capacity → hall.Capacity ≤ h.Capacity) ∧
      allocateCourse rt slotID st a =
        { availableHalls := st.availableHalls.eraseIdx i
          usedHalls := markUsed st.usedHalls slotID hall.ID
          allocatedHalls := st.allocatedHalls.insert a.CourseID [hall.ID]
          capacityWarnings := st.capacityWarnings } := by
  have hspec := bestFit_spec a.EnrolledCount st.availableHalls 0 none (by intro b bh h; cases h)
  cases hbest : bestFit a.EnrolledCount 0 none st.availableHalls with
  | none =>
    rw [hbest] at hspec
    obtain ⟨h, hh, hcap⟩ := hfit
    have := hspec.2 h hh
    omega
  | some p =>
    obtain ⟨b, hall⟩ := p
    rw [hbest] at hspec
    have hb : st.availableHalls[b]? = some hall := by
      rcases bestFit_some _ _ _ _ _ _ hbest with h | ⟨_, h⟩
      · cases h
      · simpa using h
    refine ⟨b, hall, hb, hspec.1, hspec.2.1, ?_⟩
    unfold allocateCourse
    rw [hbest]

/-- With no available hall large enough for the course the scan for the tightest hall
finds nothing. -/
theorem bestFit_eq_none (neededCapacity : Int) (l : List Hall)
    (h : ∀ hall ∈ l, hall.Capacity < neededCapacity) :
    bestFit neededCapacity 0 none l = none := by
  have hspec := bestFit_spec neededCapacity l 0 none (by intro b bh h; cases h)
  cases hbest : bestFit neededCapacity 0 none l with
  | none => rfl
  | some p =>
    obtain ⟨b, hall⟩ := p
    rw [hbest] at hspec
    have hb : l[b]? = some hall := by
      rcases bestFit_some _ _ _ _ _ _ hbest with h | ⟨_, h⟩
      · cases h
      · simpa using h
    have := h hall (List.getElem?_mem hb)
    have := hspec.1
    omega

/-- C15: in every call of `AllocateHalls`, for every course `a` that the loop processes
(after the courses `pre`, before the courses `post`): if some hall still available is large
enough for the enrollment of `a`, then `a` is given exactly one hall, which is large enough
and has the least capacity among the available halls that are; the available list loses
that entry and nothing else, no warning is added, the hall is marked used, the halls
available to every later course are among the remaining ones (so, with unique hall IDs,
the hall chosen is never available again), and the returned map gives the course that one
hall when no later assignment has the same course ID.  The capacities need not be
non-negative. -/
theorem C15_tightest_single_fit (assignmentsInSlot : List Assignment) (allHalls : List Hall)
    (usedHalls : GoMap SlotID (GoMap HallID Bool)) (slotID : SlotID)
    (pre post : List Assignment) (a : Assignment)
    (hsplit : allocOrder rt assignmentsInSlot = pre ++ a :: post)
    (hfit : ∃ h ∈ (allocAfter rt allHalls usedHalls slotID pre).availableHalls,
      a.EnrolledCount ≤ h.Capacity) :
    ∃ (i : Nat) (hall : Hall),
      (allocAfter rt allHalls usedHalls slotID pre).availableHalls[i]? = some hall ∧
      a.EnrolledCount ≤ hall.Capacity ∧
      (∀ h ∈ (allocAfter rt allHalls usedHalls slotID pre).availableHalls,
        a.EnrolledCount ≤ h.Capacity → hall.Capacity ≤ h.Capacity) ∧
      (allocAfter rt allHalls usedHalls slotID (pre ++ [a])).allocatedHalls.get? a.CourseID =
        some [hall.ID] ∧
      (allocAfter rt allHalls usedHalls slotID (pre ++ [a])).availableHalls =
        (allocAfter rt allHalls usedHalls slotID pre).availableHalls.eraseIdx i ∧
      (allocAfter rt allHalls usedHalls slotID (pre ++ [a])).capacityWarnings =
        (allocAfter rt allHalls usedHalls slotID pre).capacityWarnings ∧
      hallUsed (allocAfter rt allHalls usedHalls slotID (pre ++ [a])).usedHalls slotID hall.ID
        = true ∧
      (∀ later, later <+: post →
        (allocAfter rt allHalls usedHalls slotID (pre ++ a :: later)).availableHalls.Subperm
          ((allocAfter rt allHalls usedHalls slotID pre).availableHalls.eraseIdx i)) ∧
      ((allHalls.map Hall.ID).Nodup → ∀ later, later <+: post →
        hall.ID ∉ (allocAfter rt allHalls usedHalls slotID (pre ++ a :: later)).availableHalls.map
          Hall.ID) ∧
      ((∀ b ∈ post, b.CourseID ≠ a.CourseID) →
        (AllocateHalls rt assignmentsInSlot allHalls usedHalls slotID).allocatedHalls.get?
          a.CourseID = some [hall.ID]) := by
  obtain ⟨i, hall, hi, hcap, hmin, hstep⟩ := allocateCourse_fit rt slotID _ a hfit
  have hsnoc := allocAfter_snoc rt allHalls usedHalls slotID pre a
  have hlater : ∀ later : List Assignment,
      (allocAfter rt allHalls usedHalls slotID (pre ++ a :: later)).availableHalls.Subperm
        ((allocAfter rt allHalls usedHalls slotID pre).availableHalls.eraseIdx i) := by
    intro later
    have e : pre ++ a :: later = (pre ++ [a]) ++ later := by simp
    rw [e, allocAfter_append, hsnoc]
    have := foldl_allocateCourse_subperm rt slotID later
      (allocateCourse rt slotID (allocAfter rt allHalls usedHalls slotID pre) a)
    rw [hstep] at this ⊢
    exact this
  refine ⟨i, hall, hi, hcap, hmin, ?_, ?_, ?_, ?_, fun later _ => hlater later, ?_, ?_⟩
  · rw [hsnoc, hstep]
    exact GoMap.get?_insert_self _ _ _
  · rw [hsnoc, hstep]
  · rw [hsnoc, hstep]
  · rw [hsnoc, hstep, hallUsed_markUsed]
    simp
  · intro hnd later _ hmem
    have inv := allocAfter_inv rt allHalls usedHalls slotID hnd pre
    obtain ⟨h, hh, hid⟩ := List.mem_map.1 hmem
    have hsub := (hlater later).subset hh
    exact eraseIdx_not_mem_ids _ _ _ inv.nodup hi (List.mem_map.2 ⟨h, hsub, hid⟩)
  · intro hne
    rw [AllocateHalls_eq]
    simp only
    have e : pre ++ a :: post = (pre ++ [a]) ++ post := by simp
    rw [hsplit, e, allocAfter_append, foldl_allocateCourse_get? rt slotID a.CourseID post _ hne,
      hsnoc, hstep]
    exact GoMap.get?_insert_self _ _ _

theorem combineHalls_of_ge (neededCapacity : Int) :
    ∀ (rest : List Hall) (cur : Int) (comb : List Hall), neededCapacity ≤ cur →
      combineHalls neededCapacity cur comb rest = (cur, comb) := by
  intro rest
  induction rest with
  | nil => intro cur comb _; rfl
  | cons x rest ih =>
    intro cur comb h
    unfold combineHalls
    have : ¬ cur < neededCapacity := by omega
    simp only [this, if_false]
    exact ih cur comb h

/-- The greedy loop takes the shortest prefix of the halls whose capacities, added up in
the arithmetic of Go, reach the needed capacity, or all halls when no prefix does. -/
theorem combineHalls_spec (neededCapacity : Int) :
    ∀ (rest : List Hall) (cur : Int) (comb : List Hall),
      ∃ k, k ≤ rest.length ∧
        combineHalls neededCapacity cur comb rest =
          (addCapacities cur (rest.take k), comb ++ rest.take k) ∧
        (∀ j, j < k → addCapacities cur (rest.take j) < neededCapacity) ∧
        (k < rest.length → neededCapacity ≤ addCapacities cur (rest.take k)) := by
  intro rest
  induction rest with
  | nil =>
    intro cur comb
    exact ⟨0, le_refl _, by simp [combineHalls, addCapacities], by intro j hj; omega,
      by intro h; simp at h⟩
  | cons x rest ih =>
    intro cur comb
    by_cases hlt : cur < neededCapacity
    · obtain ⟨k, hk, heq, hbelow, hreach⟩ := ih (wrapInt64 (cur + x.Capacity)) (comb ++ [x])
      refine ⟨k + 1, by simp; omega, ?_, ?_, ?_⟩
      · unfold combineHalls
        simp only [hlt, if_true]
        rw [heq]
        simp [addCapacities]
      · intro j hj
        cases j with
        | zero => simpa [addCapacities] using hlt
        | succ j =>
          have := hbelow j (by omega)
          simpa [addCapacities] using this
      · intro h
        have := hreach (by simpa using h)
        simpa [addCapacities] using this
    · refine ⟨0, by simp, ?_, by intro j hj; omega, ?_⟩
      · rw [combineHalls_of_ge neededCapacity _ cur comb (by omega)]
        simp [addCapacities]
      · intro _
        simp only [List.take_zero, addCapacities, List.foldl_nil]
        omega

theorem wrapInt64_of_fits (x : Int) (h1 : -9223372036854775808 ≤ x)
    (h2 : x < 9223372036854775808) : wrapInt64 x = x := by
  unfold wrapInt64
  omega

theorem abs_capacitySum_le (l : List Hall) : |capacitySum l| ≤ capacityAbsSum l := by
  induction l with
  | nil => simp [capacitySum, capacityAbsSum]
  | cons x rest ih =>
    unfold capacitySum capacityAbsSum at ih ⊢
    simp only [List.map_cons, List.sum_cons]
    exact (abs_add _ _).trans (by omega)

theorem capacityAbsSum_nonneg (l : List Hall) : 0 ≤ capacityAbsSum l :=
  (abs_nonneg _).trans (abs_capacitySum_le l)

theorem capacityAbsSum_append (l l' : List Hall) :
    capacityAbsSum (l ++ l') = capacityAbsSum l + capacityAbsSum l' := by
  simp [capacityAbsSum]

theorem capacityAbsSum_take_le (l : List Hall) (k : Nat) :
    capacityAbsSum (l.take k) ≤ capacityAbsSum l := by
  have h := capacityAbsSum_append (l.take k) (l.drop k)
  rw [List.take_append_drop] at h
  have := capacityAbsSum_nonneg (l.drop k)
  omega

theorem addCapacities_snoc (cur : Int) (l : List Hall) (x : Hall) :
    addCapacities cur (l ++ [x]) = wrapInt64 (addCapacities cur l + x.Capacity) := by
  simp only [addCapacities, List.foldl_append, List.foldl_cons, List.foldl_nil]

theorem capacitySum_snoc (l : List Hall) (x : Hall) :
    capacitySum (l ++ [x]) = capacitySum l + x.Capacity := by
  simp only [capacitySum, List.map_append, List.sum_append, List.map_cons, List.map_nil,
    List.sum_cons, List.sum_nil, add_zero]

/-- Without overflow the 64-bit sum of the capacities is their sum. -/
theorem addCapacities_eq (l : List Hall) (hfits : capacityAbsSum l < 9223372036854775808) :
    ∀ k, addCapacities 0 (l.take k) = capacitySum (l.take k) := by
  intro k
  induction k with
  | zero => simp [addCapacities, capacitySum]
  | succ k ih =>
    by_cases hk : k < l.length
    · have hb : |capacitySum (l.take (k + 1))| ≤ capacityAbsSum l :=
        (abs_capacitySum_le _).trans (capacityAbsSum_take_le l (k + 1))
      have e : l.take (k + 1) = l.take k ++ [l[k]] := by
        rw [List.take_succ, List.getElem?_eq_getElem hk]
        rfl
      rw [e] at hb ⊢
      rw [capacitySum_snoc] at hb
      rw [addCapacities_snoc, capacitySum_snoc, ih]
      have := abs_le.1 hb
      exact wrapInt64_of_fits _ (by omega) (by omega)
    · rw [List.take_of_length_le (by omega : l.length ≤ k)] at ih
      rw [List.take_of_length_le (by omega : l.length ≤ k + 1)]
      exact ih

theorem foldl_removeHall_take :
    ∀ (l : List Hall) (k : Nat),
      (l.take k).foldl (fun available hall => removeHall hall.ID available) l = l.drop k := by
  intro l
  induction l with
  | nil => intro k; simp
  | cons x rest ih =>
    intro k
    cases k with
    | zero => simp
    | succ k =>
      simp only [List.take_succ_cons, List.foldl_cons, List.drop_succ_cons]
      have : removeHall x.ID (x :: rest) = rest := by simp [removeHall]
      rw [this]
      exact ih k

theorem capacitySum_perm {l l' : List Hall} (h : l.Perm l') : capacitySum l = capacitySum l' :=
  (h.map Hall.Capacity).sum_eq

theorem capacityAbsSum_perm {l l' : List Hall} (h : l.Perm l') :
    capacityAbsSum l = capacityAbsSum l' := by
  unfold capacityAbsSum
  exact (h.map _).sum_eq

/-- The halls sorted by capacity descending, as the greedy loop sees them. -/
theorem sortSlice_desc (l : List Hall) :
    (rt.sortSlice (fun a b : Hall => decide (a.Capacity > b.Capacity)) l).Pairwise
      (fun x y => y.Capacity ≤ x.Capacity) := by
  have h := rt.sortSlice_sorted (fun a b : Hall => decide (a.Capacity > b.Capacity)) l
    (by intro a b h; simp at h ⊢; omega)
    (by intro a b c h1 h2; simp at h1 h2 ⊢; omega)
  exact List.Pairwise.imp (fun {a b} hab => by simpa using hab) h

theorem capacitySum_take_le_of_nonneg (l : List Hall) (hnonneg : ∀ h ∈ l, 0 ≤ h.Capacity)
    (k : Nat) : capacitySum (l.take k) ≤ capacitySum l := by
  have h : capacitySum (l.take k ++ l.drop k) =
      capacitySum (l.take k) + capacitySum (l.drop k) := by
    simp only [capacitySum, List.map_append, List.sum_append]
  rw [List.take_append_drop] at h
  have : 0 ≤ capacitySum (l.drop k) := by
    unfold capacitySum
    apply List.sum_nonneg
    intro x hx
    obtain ⟨hall, hh, hcap⟩ := List.mem_map.1 hx
    rw [← hcap]
    exact hnonneg hall ((List.drop_sublist k l).subset hh)
  omega

theorem capacityAbsSum_of_nonneg (l : List Hall) (hnonneg : ∀ h ∈ l, 0 ≤ h.Capacity) :
    capacityAbsSum l = capacitySum l := by
  induction l with
  | nil => rfl
  | cons x rest ih =>
    have hx := hnonneg x (List.mem_cons_self _ _)
    have := ih (fun h hh => hnonneg h (List.mem_cons_of_mem _ hh))
    unfold capacityAbsSum capacitySum at this ⊢
    simp only [List.map_cons, List.sum_cons, this, abs_of_nonneg hx]

theorem capacity_le_capacitySum (l : List Hall) (hnonneg : ∀ h ∈ l, 0 ≤ h.Capacity) :
    ∀ h ∈ l, h.Capacity ≤ capacitySum l := by
  induction l with
  | nil => intro h hh; simp at hh
  | cons x rest ih =>
    intro h hh
    have hx := hnonneg x (List.mem_cons_self _ _)
    have hrest : 0 ≤ capacitySum rest := by
      unfold capacitySum
      apply List.sum_nonneg
      intro y hy
      obtain ⟨hall, hh', hcap⟩ := List.mem_map.1 hy
      rw [← hcap]
      exact hnonneg hall (List.mem_cons_of_mem _ hh')
    have e : capacitySum (x :: rest) = x.Capacity + capacitySum rest := by
      simp only [capacitySum, List.map_cons, List.sum_cons]
    rw [e]
    rcases List.mem_cons.1 hh with hh | hh
    · subst hh; omega
    · have := ih (fun h hh => hnonneg h (List.mem_cons_of_mem _ hh)) h hh
      omega

/-- The greedy loop on halls whose capacities add up, without overflow, to the needed
capacity or more: it takes the shortest prefix that is large enough. -/
theorem combineHalls_reach (neededCapacity : Int) (sorted : List Hall)
    (htotal : neededCapacity ≤ capacitySum sorted)
    (hfits : capacityAbsSum sorted < 9223372036854775808) :
    ∃ k, k ≤ sorted.length ∧ neededCapacity ≤ capacitySum (sorted.take k) ∧
      (∀ j, j < k → capacitySum (sorted.take j) < neededCapacity) ∧
      combineHalls neededCapacity 0 [] sorted = (capacitySum (sorted.take k), sorted.take k) := by
  obtain ⟨k, hk, heq, hbelow, hreach⟩ := combineHalls_spec neededCapacity sorted 0 []
  have hsum := addCapacities_eq sorted hfits
  have hge : neededCapacity ≤ capacitySum (sorted.take k) := by
    by_cases hlt : k < sorted.length
    · rw [← hsum k]; exact hreach hlt
    · rw [List.take_of_length_le (by omega)]
      exact htotal
  refine ⟨k, hk, hge, ?_, ?_⟩
  · intro j hj
    rw [← hsum j]
    exact hbelow j hj
  · rw [heq, hsum k, List.nil_append]

/-- The greedy loop on halls whose capacities are not negative and add up, without
overflow, to less than the needed capacity: it takes every hall. -/
theorem combineHalls_short (neededCapacity : Int) (sorted : List Hall)
    (hnonneg : ∀ h ∈ sorted, 0 ≤ h.Capacity)
    (htotal : capacitySum sorted < neededCapacity)
    (hfits : capacitySum sorted < 9223372036854775808) :
    combineHalls neededCapacity 0 [] sorted = (capacitySum sorted, sorted) := by
  have hfits' : capacityAbsSum sorted < 9223372036854775808 := by
    rw [capacityAbsSum_of_nonneg sorted hnonneg]; exact hfits
  obtain ⟨k, hk, heq, hbelow, hreach⟩ := combineHalls_spec neededCapacity sorted 0 []
  have hsum := addCapacities_eq sorted hfits'
  have hkl : k = sorted.length := by
    by_contra hne
    have h1 := hreach (by omega)
    rw [hsum k] at h1
    have h2 := capacitySum_take_le_of_nonneg sorted hnonneg k
    omega
  rw [heq, hsum k, hkl, List.take_length, List.nil_append]

/-- The step of the loop when no available hall alone is large enough, the available halls
together are, and their capacities add up without overflow: the course gets the shortest
prefix of the halls sorted by capacity descending that is large enough. -/
theorem allocateCourse_combine (slotID : SlotID) (st : AllocState) (a : Assignment)
    (hno : ∀ h ∈ st.availableHalls, h.Capacity < a.EnrolledCount)
    (htotal : a.EnrolledCount ≤ capacitySum st.availableHalls)
    (hfits : capacityAbsSum st.availableHalls < 9223372036854775808) :
    ∃ k, k ≤ (rt.sortSlice (fun a b : Hall => decide (a.Capacity > b.Capacity))
          st.availableHalls).length ∧
      a.EnrolledCount ≤ capacitySum
        ((rt.sortSlice (fun a b : Hall => decide (a.Capacity > b.Capacity))
          st.availableHalls).take k) ∧
      (∀ j, j < k → capacitySum
        ((rt.sortSlice (fun a b : Hall => decide (a.Capacity > b.Capacity))
          st.availableHalls).take j) < a.EnrolledCount) ∧
      allocateCourse rt slotID st a =
        { availableHalls := (rt.sortSlice (fun a b : Hall => decide (a.Capacity > b.Capacity))
            st.availableHalls).drop k
          usedHalls := ((rt.sortSlice (fun a b : Hall => decide (a.Capacity > b.Capacity))
            st.availableHalls).take k).foldl (fun used hall => markUsed used slotID hall.ID)
              st.usedHalls
          allocatedHalls := st.allocatedHalls.insert a.CourseID
            (((rt.sortSlice (fun a b : Hall => decide (a.Capacity > b.Capacity))
              st.availableHalls).take k).map Hall.ID)
          capacityWarnings := st.capacityWarnings } := by
  have hperm := rt.sortSlice_perm (fun a b : Hall => decide (a.Capacity > b.Capacity))
    st.availableHalls
  obtain ⟨k, hk, hge, hbelow, heq⟩ := combineHalls_reach a.EnrolledCount
    (rt.sortSlice (fun a b : Hall => decide (a.Capacity > b.Capacity)) st.availableHalls)
    (by rw [capacitySum_perm hperm]; exact htotal)
    (by rw [capacityAbsSum_perm hperm]; exact hfits)
  refine ⟨k, hk, hge, hbelow, ?_⟩
  unfold allocateCourse
  rw [bestFit_eq_none _ _ hno]
  simp only [heq]
  have : capacitySum ((rt.sortSlice (fun a b : Hall => decide (a.Capacity > b.Capacity))
      st.availableHalls).take k) ≥ a.EnrolledCount := hge
  simp only [this, if_true, foldl_removeHall_take]

/-- The step of the loop when the capacities of the available halls, which are not negative
and add up without overflow, fall short of the enrollment of the course. -/
theorem allocateCourse_short (slotID : SlotID) (st : AllocState) (a : Assignment)
    (hnonneg : ∀ h ∈ st.availableHalls, 0 ≤ h.Capacity)
    (htotal : capacitySum st.availableHalls < a.EnrolledCount)
    (hfits : capacitySum st.availableHalls < 9223372036854775808) :
    allocateCourse rt slotID st a =
      { availableHalls := []
        usedHalls := (rt.sortSlice (fun a b : Hall => decide (a.Capacity > b.Capacity))
            st.availableHalls).foldl (fun used hall => markUsed used slotID hall.ID) st.usedHalls
        allocatedHalls := st.allocatedHalls.insert a.CourseID
          ((rt.sortSlice (fun a b : Hall => decide (a.Capacity > b.Capacity))
            st.availableHalls).map Hall.ID)
        capacityWarnings := st.capacityWarnings ++
          [shortCapacityMsg a.CourseID a.EnrolledCount (capacitySum st.availableHalls)] } := by
  have hperm := rt.sortSlice_perm (fun a b : Hall => decide (a.Capacity > b.Capacity))
    st.availableHalls
  have hno : ∀ h ∈ st.availableHalls, h.Capacity < a.EnrolledCount := by
    intro h hh
    have := capacity_le_capacitySum _ hnonneg h hh
    omega
  have heq := combineHalls_short a.EnrolledCount
    (rt.sortSlice (fun a b : Hall => decide (a.Capacity > b.Capacity)) st.availableHalls)
    (fun h hh => hnonneg h (hperm.subset hh))
    (by rw [capacitySum_perm hperm]; exact htotal)
    (by rw [capacitySum_perm hperm]; exact hfits)
  unfold allocateCourse
  rw [bestFit_eq_none _ _ hno]
  simp only [heq, capacitySum_perm hperm]
  have : ¬ capacitySum st.availableHalls ≥ a.EnrolledCount := by omega
  simp only [this, if_false]

theorem foldl_allocateCourse_warnings (slotID : SlotID) :
    ∀ (l : List Assignment) (st : AllocState),
      ∃ ws, (l.foldl (allocateCourse rt slotID) st).capacityWarnings =
        st.capacityWarnings ++ ws := by
  intro l
  induction l with
  | nil => intro st; exact ⟨[], by simp⟩
  | cons x rest ih =>
    intro st
    obtain ⟨ws, hws⟩ := ih (allocateCourse rt slotID st x)
    simp only [List.foldl_cons]
    rw [hws]
    unfold allocateCourse
    split
    · exact ⟨ws, rfl⟩
    · simp only
      split
      · exact ⟨ws, rfl⟩
      · exact ⟨_, List.append_assoc _ _ _⟩

theorem allocAfter_available_mem (allHalls : List Hall)
    (usedHalls : GoMap SlotID (GoMap HallID Bool)) (slotID : SlotID) (done : List Assignment) :
    ∀ h ∈ (allocAfter rt allHalls usedHalls slotID done).availableHalls, h ∈ allHalls := by
  intro h hh
  have h1 := (foldl_allocateCourse_subperm rt slotID done
    (allocInit rt allHalls usedHalls slotID)).subset hh
  have h2 := (rt.sortSlice_perm (fun a b : Hall => decide (a.Capacity < b.Capacity))
    (allHalls.filter fun hall => !hallUsed usedHalls slotID hall.ID)).subset h1
  exact (List.mem_filter.1 h2).1

/-- C16, as stated, fails: with two available halls of capacity `2^62` and a course of
`2^62 + 1` students, no hall alone is large enough and the capacities add up to `2^63`,
which is enough; but the sum kept in a 64-bit `int` overflows to `-2^63`, so the course
gets both halls together with a capacity warning. -/
theorem C16_counterexample_sum_overflow :
    allocOrder refRuntime [hugeCourse] = [] ++ hugeCourse :: [] ∧
      (∀ h ∈ (allocAfter refRuntime hugeHalls ⟨[]⟩ "slot1" []).availableHalls,
        h.Capacity < hugeCourse.EnrolledCount) ∧
      hugeCourse.EnrolledCount ≤
        capacitySum (allocAfter refRuntime hugeHalls ⟨[]⟩ "slot1" []).availableHalls ∧
      (allocAfter refRuntime hugeHalls ⟨[]⟩ "slot1" ([] ++ [hugeCourse])).capacityWarnings =
        ["course c1 (enrolled: 4611686018427387905) could not be fully allocated. " ++
          "Total available capacity: -9223372036854775808"] ∧
      (AllocateHalls refRuntime [hugeCourse] hugeHalls ⟨[]⟩ "slot1").capacityWarnings ≠ [] := by
  decide

/-- C16, amended: in every call of `AllocateHalls`, for every course `a` that the loop
processes (after the courses `pre`, before the courses `post`): if no hall still available
is alone large enough for the enrollment of `a`, the capacities of the available halls add
up to the enrollment or more, and their absolute values add up to less than `2^63` (so
that no sum overflows), then `a` is given the shortest prefix of the available halls in
descending order of capacity whose capacities add up to the enrollment or more; no warning
is added, the available list becomes the rest of that order, the halls given are marked
used, and the returned map gives the course these halls when no later assignment has the
same course ID. -/
theorem C16_greedy_multi_hall (assignmentsInSlot : List Assignment) (allHalls : List Hall)
    (usedHalls : GoMap SlotID (GoMap HallID Bool)) (slotID : SlotID)
    (pre post : List Assignment) (a : Assignment)
    (hsplit : allocOrder rt assignmentsInSlot = pre ++ a :: post)
    (hno : ∀ h ∈ (allocAfter rt allHalls usedHalls slotID pre).availableHalls,
      h.Capacity < a.EnrolledCount)
    (htotal : a.EnrolledCount ≤
      capacitySum (allocAfter rt allHalls usedHalls slotID pre).availableHalls)
    (hfits : capacityAbsSum (allocAfter rt allHalls usedHalls slotID pre).availableHalls
      < 9223372036854775808) :
    ∃ (sorted : List Hall) (k : Nat),
      sorted.Perm (allocAfter rt allHalls usedHalls slotID pre).availableHalls ∧
      sorted.Pairwise (fun x y => y.Capacity ≤ x.Capacity) ∧
      k ≤ sorted.length ∧
      a.EnrolledCount ≤ capacitySum (sorted.take k) ∧
      (∀ j, j < k → capacitySum (sorted.take j) < a.EnrolledCount) ∧
      (allocAfter rt allHalls usedHalls slotID (pre ++ [a])).allocatedHalls.get? a.CourseID =
        some ((sorted.take k).map Hall.ID) ∧
      (allocAfter rt allHalls usedHalls slotID (pre ++ [a])).capacityWarnings =
        (allocAfter rt allHalls usedHalls slotID pre).capacityWarnings ∧
      (allocAfter rt allHalls usedHalls slotID (pre ++ [a])).availableHalls = sorted.drop k ∧
      (∀ h ∈ sorted.take k,
        hallUsed (allocAfter rt allHalls usedHalls slotID (pre ++ [a])).usedHalls slotID h.ID
          = true) ∧
      ((∀ b ∈ post, b.CourseID ≠ a.CourseID) →
        (AllocateHalls rt assignmentsInSlot allHalls usedHalls slotID).allocatedHalls.get?
          a.CourseID = some ((sorted.take k).map Hall.ID)) := by
  obtain ⟨k, hk, hge, hbelow, hstep⟩ := allocateCourse_combine rt slotID _ a hno htotal hfits
  have hsnoc := allocAfter_snoc rt allHalls usedHalls slotID pre a
  refine ⟨_, k, rt.sortSlice_perm _ _, sortSlice_desc rt _, hk, hge, hbelow, ?_, ?_, ?_, ?_, ?_⟩
  · rw [hsnoc, hstep]
    exact GoMap.get?_insert_self _ _ _
  · rw [hsnoc, hstep]
  · rw [hsnoc, hstep]
  · intro h hh
    rw [hsnoc, hstep]
    exact (hallUsed_foldl_markUsed slotID _ _ slotID h.ID).2
      (Or.inl ⟨rfl, List.mem_map_of_mem _ hh⟩)
  · intro hne
    rw [AllocateHalls_eq]
    simp only
    have e : pre ++ a :: post = (pre ++ [a]) ++ post := by simp
    rw [hsplit, e, allocAfter_append, foldl_allocateCourse_get? rt slotID a.CourseID post _ hne,
      hsnoc, hstep]
    exact GoMap.get?_insert_self _ _ _

/-- C17, as stated, fails. With three available halls of capacity `2^62` and a course of
`2^62 + 1` students the capacities add up to more than the enrollment, yet a warning is
emitted, and the total it reports is the overflowed sum `-2^62`.  With halls of capacity
`2^63 - 1` and `1` and a course of 5 students the sum kept in a 64-bit `int` is `-2^63`,
less than the enrollment, yet the first hall fits and no warning is emitted. -/
theorem C17_counterexample_sum_overflow :
    (∀ h ∈ hugeHalls3, 0 ≤ h.Capacity) ∧
      allocOrder refRuntime [hugeCourse] = [] ++ hugeCourse :: [] ∧
      hugeCourse.EnrolledCount ≤
        capacitySum (allocAfter refRuntime hugeHalls3 ⟨[]⟩ "slot1" []).availableHalls ∧
      (allocAfter refRuntime hugeHalls3 ⟨[]⟩ "slot1" ([] ++ [hugeCourse])).capacityWarnings =
        ["course c1 (enrolled: 4611686018427387905) could not be fully allocated. " ++
          "Total available capacity: -4611686018427387904"] ∧
      addCapacities 0 [⟨"H1", 9223372036854775807, ""⟩, ⟨"H2", 1, ""⟩] < 5 ∧
      (AllocateHalls refRuntime [⟨"c1", "slot1", "", "", 5, ""⟩]
        [⟨"H1", 9223372036854775807, ""⟩, ⟨"H2", 1, ""⟩] ⟨[]⟩ "slot1").capacityWarnings = [] := by
  decide

/-- C17, amended: in every call of `AllocateHalls` with non-negative hall capacities, for
every course `a` that the loop processes (after the courses `pre`, before the courses
`post`), provided the capacities of the halls still available add up to less than `2^63`:
if that total is less than the enrollment of `a`, exactly one warning is added, which
names the course ID, the enrollment and that total; the course is given every available
hall; no hall is available to any later course; and the warning is among the warnings
returned.  If the total is not less than the enrollment, no warning is added. -/
theorem C17_capacity_warning (assignmentsInSlot : List Assignment) (allHalls : List Hall)
    (usedHalls : GoMap SlotID (GoMap HallID Bool)) (slotID : SlotID)
    (pre post : List Assignment) (a : Assignment)
    (hsplit : allocOrder rt assignmentsInSlot = pre ++ a :: post)
    (hnonneg : ∀ h ∈ allHalls, 0 ≤ h.Capacity)
    (hfits : capacitySum (allocAfter rt allHalls usedHalls slotID pre).availableHalls
      < 9223372036854775808) :
    (capacitySum (allocAfter rt allHalls usedHalls slotID pre).availableHalls < a.EnrolledCount →
      (allocAfter rt allHalls usedHalls slotID (pre ++ [a])).capacityWarnings =
        (allocAfter rt allHalls usedHalls slotID pre).capacityWarnings ++
          [shortCapacityMsg a.CourseID a.EnrolledCount
            (capacitySum (allocAfter rt allHalls usedHalls slotID pre).availableHalls)] ∧
      (∃ ids, (allocAfter rt allHalls usedHalls slotID (pre ++ [a])).allocatedHalls.get?
          a.CourseID = some ids ∧
        ids.Perm ((allocAfter rt allHalls usedHalls slotID pre).availableHalls.map Hall.ID)) ∧
      (∀ later, later <+: post →
        (allocAfter rt allHalls usedHalls slotID (pre ++ a :: later)).availableHalls = []) ∧
      shortCapacityMsg a.CourseID a.EnrolledCount
          (capacitySum (allocAfter rt allHalls usedHalls slotID pre).availableHalls) ∈
        (AllocateHalls rt assignmentsInSlot allHalls usedHalls slotID).capacityWarnings) ∧
    (a.EnrolledCount ≤ capacitySum (allocAfter rt allHalls usedHalls slotID pre).availableHalls →
      (allocAfter rt allHalls usedHalls slotID (pre ++ [a])).capacityWarnings =
        (allocAfter rt allHalls usedHalls slotID pre).capacityWarnings) := by
  have hsnoc := allocAfter_snoc rt allHalls usedHalls slotID pre a
  have hav : ∀ h ∈ (allocAfter rt allHalls usedHalls slotID pre).availableHalls,
      0 ≤ h.Capacity :=
    fun h hh => hnonneg h (allocAfter_available_mem rt allHalls usedHalls slotID pre h hh)
  constructor
  · intro hshort
    have hstep := allocateCourse_short rt slotID _ a hav hshort hfits
    refine ⟨by rw [hsnoc, hstep], ?_, ?_, ?_⟩
    · refine ⟨(rt.sortSlice (fun a b : Hall => decide (a.Capacity > b.Capacity))
          (allocAfter rt allHalls usedHalls slotID pre).availableHalls).map Hall.ID, ?_,
        (rt.sortSlice_perm _ _).map Hall.ID⟩
      rw [hsnoc, hstep]
      exact GoMap.get?_insert_self _ _ _
    · intro later _
      have e : pre ++ a :: later = (pre ++ [a]) ++ later := by simp
      have := foldl_allocateCourse_subperm rt slotID later
        (allocateCourse rt slotID (allocAfter rt allHalls usedHalls slotID pre) a)
      rw [e, allocAfter_append, hsnoc]
      rw [hstep] at this ⊢
      exact List.eq_nil_of_subset_nil this.subset
    · rw [AllocateHalls_eq]
      simp only
      have e : pre ++ a :: post = (pre ++ [a]) ++ post := by simp
      obtain ⟨ws, hws⟩ := foldl_allocateCourse_warnings rt slotID post
        (allocAfter rt allHalls usedHalls slotID (pre ++ [a]))
      rw [hsplit, e, allocAfter_append, hws, hsnoc, hstep]
      simp
  · intro hge
    by_cases hfit : ∃ h ∈ (allocAfter rt allHalls usedHalls slotID pre).availableHalls,
        a.EnrolledCount ≤ h.Capacity
    · obtain ⟨i, hall, _, _, _, hstep⟩ := allocateCourse_fit rt slotID _ a hfit
      rw [hsnoc, hstep]
    · have hno : ∀ h ∈ (allocAfter rt allHalls usedHalls slotID pre).availableHalls,
          h.Capacity < a.EnrolledCount := by
        intro h hh
        by_contra hcon
        exact hfit ⟨h, hh, by omega⟩
      obtain ⟨k, _, _, _, hstep⟩ := allocateCourse_combine rt slotID _ a hno hge
        (by rw [capacityAbsSum_of_nonneg _ hav]; exact hfits)
      rw [hsnoc, hstep]

end AllocSteps

section AllocInstances

/-- C15 on the tight-fit test: `c1` with 80 students, processed first, gets a hall that is
large enough, and the call gives `H1` to `c1` and `H2` to `c2`. -/
theorem C15_tightest_single_fit_witness :
    allocOrder refRuntime packCourses =
        [] ++ (⟨"c1", "slot1", "", "", 80, ""⟩ : Assignment) :: [⟨"c2", "slot1", "", "", 40, ""⟩] ∧
      (∃ hall : Hall, (80 : Int) ≤ hall.Capacity ∧
        (AllocateHalls refRuntime packCourses packHalls ⟨[]⟩ "slot1").allocatedHalls.get? "c1" =
          some [hall.ID]) ∧
      (AllocateHalls refRuntime packCourses packHalls ⟨[]⟩ "slot1").allocatedHalls =
        ⟨[("c1", ["H1"]), ("c2", ["H2"])]⟩ :=
  ⟨by decide,
    (C15_tightest_single_fit refRuntime packCourses packHalls ⟨[]⟩ "slot1" []
      [⟨"c2", "slot1", "", "", 40, ""⟩] ⟨"c1", "slot1", "", "", 80, ""⟩ (by decide)
      (by decide)).elim fun _ h => h.elim fun hall h =>
        ⟨hall, h.2.1, h.2.2.2.2.2.2.2.2.2 (by decide)⟩,
    by decide⟩

/-- C16, amended, on the multi-hall test: `c1` with 120 students and halls of capacity 100,
50 and 30 gets a prefix of the halls in descending order, and its `halls` field is
`H1;H2`. -/
theorem C16_greedy_multi_hall_witness :
    allocOrder refRuntime [(⟨"c1", "slot1", "", "", 120, ""⟩ : Assignment)] =
        [] ++ (⟨"c1", "slot1", "", "", 120, ""⟩ : Assignment) :: [] ∧
      (∃ (sorted : List Hall) (k : Nat),
        sorted.Perm (allocAfter refRuntime threeHalls ⟨[]⟩ "slot1" []).availableHalls ∧
        (120 : Int) ≤ capacitySum (sorted.take k) ∧
        (AllocateHalls refRuntime [⟨"c1", "slot1", "", "", 120, ""⟩] threeHalls ⟨[]⟩
          "slot1").allocatedHalls.get? "c1" = some ((sorted.take k).map Hall.ID)) ∧
      (AllocateHalls refRuntime [⟨"c1", "slot1", "", "", 120, ""⟩] threeHalls ⟨[]⟩
          "slot1").assignmentsInSlot = [⟨"c1", "slot1", "", "H1;H2", 120, ""⟩] ∧
      (AllocateHalls refRuntime [⟨"c1", "slot1", "", "", 120, ""⟩] threeHalls ⟨[]⟩
          "slot1").capacityWarnings = [] :=
  ⟨by decide,
    (C16_greedy_multi_hall refRuntime [⟨"c1", "slot1", "", "", 120, ""⟩] threeHalls ⟨[]⟩ "slot1"
      [] [] ⟨"c1", "slot1", "", "", 120, ""⟩ (by decide) (by decide) (by decide)
      (by decide)).elim fun sorted h => h.elim fun k h =>
        ⟨sorted, k, h.1, h.2.2.2.1, h.2.2.2.2.2.2.2.2.2 (by decide)⟩,
    by decide, by decide⟩

/-- C17, amended, on the capacity-warning test: `c1` with 200 students and halls of capacity
100 and 50 yields one warning that names `c1`, 200 and the total 150. -/
theorem C17_capacity_warning_witness :
    allocOrder refRuntime [(⟨"c1", "slot1", "", "", 200, ""⟩ : Assignment)] =
        [] ++ (⟨"c1", "slot1", "", "", 200, ""⟩ : Assignment) :: [] ∧
      (∀ h ∈ packHalls, 0 ≤ h.Capacity) ∧
      capacitySum (allocAfter refRuntime packHalls ⟨[]⟩ "slot1" []).availableHalls = 150 ∧
      shortCapacityMsg "c1" 200 150 ∈
        (AllocateHalls refRuntime [⟨"c1", "slot1", "", "", 200, ""⟩] packHalls ⟨[]⟩
          "slot1").capacityWarnings ∧
      (AllocateHalls refRuntime [⟨"c1", "slot1", "", "", 200, ""⟩] packHalls ⟨[]⟩
          "slot1").capacityWarnings =
        ["course c1 (enrolled: 200) could not be fully allocated. " ++
          "Total available capacity: 150"] :=
  ⟨by decide, by decide, by decide,
    ((C17_capacity_warning refRuntime [⟨"c1", "slot1", "", "", 200, ""⟩] packHalls ⟨[]⟩ "slot1"
      [] [] ⟨"c1", "slot1", "", "", 200, ""⟩ (by decide) (by decide) (by decide)).1
        (by decide)).2.2.2,
    by decide⟩

end AllocInstances

section AllocFrame

variable (rt : GoRuntime)

theorem markUsed_get?_of_ne (u : GoMap SlotID (GoMap HallID Bool)) (slotID s : SlotID)
    (id : HallID) (hs : s ≠ slotID) : (markUsed u slotID id).get? s = u.get? s := by
  unfold markUsed
  exact GoMap.get?_insert_of_ne _ _ hs

theorem foldl_markUsed_get?_of_ne (slotID s : SlotID) (hs : s ≠ slotID) :
    ∀ (R : List Hall) (u : GoMap SlotID (GoMap HallID Bool)),
      (R.foldl (fun used hall => markUsed used slotID hall.ID) u).get? s = u.get? s := by
  intro R
  induction R with
  | nil => intro u; rfl
  | cons h rest ih =>
    intro u
    simp only [List.foldl_cons]
    rw [ih, markUsed_get?_of_ne _ _ _ _ hs]

/-- One step of the allocation loop leaves the registry entries of the other slots as they
are. -/
theorem allocateCourse_used_of_ne (slotID s : SlotID) (hs : s ≠ slotID) (st : AllocState)
    (a : Assignment) :
    (allocateCourse rt slotID st a).usedHalls.get? s = st.usedHalls.get? s := by
  unfold allocateCourse
  split
  · exact markUsed_get?_of_ne _ _ _ _ hs
  · simp only
    split
    · exact foldl_markUsed_get?_of_ne slotID s hs _ _
    · exact foldl_markUsed_get?_of_ne slotID s hs _ _

theorem allocAfter_used_of_ne (allHalls : List Hall)
    (usedHalls : GoMap SlotID (GoMap HallID Bool)) (slotID s : SlotID) (hs : s ≠ slotID) :
    ∀ (done : List Assignment),
      (allocAfter rt allHalls usedHalls slotID done).usedHalls.get? s = usedHalls.get? s := by
  have hinit : (allocInit rt allHalls usedHalls slotID).usedHalls.get? s = usedHalls.get? s := by
    unfold allocInit
    simp only
    split
    · exact GoMap.get?_insert_of_ne _ _ hs
    · rfl
  have key : ∀ (l : List Assignment) (st : AllocState),
      (l.foldl (allocateCourse rt slotID) st).usedHalls.get? s = st.usedHalls.get? s := by
    intro l
    induction l with
    | nil => intro st; rfl
    | cons x rest ih =>
      intro st
      simp only [List.foldl_cons]
      rw [ih, allocateCourse_used_of_ne rt slotID s hs]
  intro done
  unfold allocAfter
  rw [key, hinit]

/-- C18: for every hall catalog with unique hall IDs, every registry of used halls and
every list of assignments, after `AllocateHalls` for the slot `slotID`: the hall lists
returned for two different courses are disjoint; every hall returned for a course is a
hall of the catalog that was not marked used for `slotID` in the registry before the call
and is marked used for `slotID` afterwards; no hall marked used before loses its mark; the
registry entries of all other slots are unchanged; and every assignment of the slot has an
entry in the returned map.  The course IDs of the assignments need not be distinct. -/
theorem C18_disjoint_halls_and_registry (assignmentsInSlot : List Assignment)
    (allHalls : List Hall) (usedHalls : GoMap SlotID (GoMap HallID Bool)) (slotID : SlotID)
    (hnd : (allHalls.map Hall.ID).Nodup) :
    (∀ c c' hs hs', c ≠ c' →
      (AllocateHalls rt assignmentsInSlot allHalls usedHalls slotID).allocatedHalls.get? c
        = some hs →
      (AllocateHalls rt assignmentsInSlot allHalls usedHalls slotID).allocatedHalls.get? c'
        = some hs' → ∀ id ∈ hs, id ∉ hs') ∧
    (∀ c hs,
      (AllocateHalls rt assignmentsInSlot allHalls usedHalls slotID).allocatedHalls.get? c
        = some hs → ∀ id ∈ hs, (∃ h ∈ allHalls, h.ID = id) ∧
          hallUsed usedHalls slotID id = false ∧
          hallUsed (AllocateHalls rt assignmentsInSlot allHalls usedHalls slotID).usedHalls
            slotID id = true) ∧
    (∀ s id, hallUsed usedHalls s id = true →
      hallUsed (AllocateHalls rt assignmentsInSlot allHalls usedHalls slotID).usedHalls s id
        = true) ∧
    (∀ s, s ≠ slotID →
      (AllocateHalls rt assignmentsInSlot allHalls usedHalls slotID).usedHalls.get? s =
        usedHalls.get? s) ∧
    (∀ a ∈ assignmentsInSlot,
      (AllocateHalls rt assignmentsInSlot allHalls usedHalls slotID).allocatedHalls.get?
        a.CourseID ≠ none) := by
  obtain ⟨h1, h2, h3, h4⟩ := AllocateHalls_spec rt assignmentsInSlot allHalls usedHalls slotID hnd
  refine ⟨h2, h1, h4, ?_, h3⟩
  intro s hs
  rw [AllocateHalls_eq]
  exact allocAfter_used_of_ne rt allHalls usedHalls slotID s hs _

end AllocFrame

section StringOrder

theorem charsLess_asymm : ∀ (a b : List Char), charsLess a b = true → charsLess b a = false := by
  intro a
  induction a with
  | nil =>
    intro b h
    cases b with
    | nil => simp [charsLess] at h
    | cons y ys => simp [charsLess]
  | cons x xs ih =>
    intro b h
    cases b with
    | nil => simp [charsLess] at h
    | cons y ys =>
      unfold charsLess at h ⊢
      by_cases h1 : x.toNat < y.toNat
      · have h2 : ¬ y.toNat < x.toNat := by omega
        simp [h1, h2]
      · by_cases h2 : y.toNat < x.toNat
        · simp [h1, h2] at h
        · simp only [h1, h2, if_false] at h ⊢
          exact ih ys h

theorem charsLess_negTrans :
    ∀ (a b c : List Char), charsLess a b = false → charsLess b c = false →
      charsLess a c = false := by
  intro a
  induction a with
  | nil =>
    intro b c h1 h2
    cases b with
    | nil => exact h2
    | cons y ys => simp [charsLess] at h1
  | cons x xs ih =>
    intro b c h1 h2
    cases c with
    | nil => simp [charsLess]
    | cons z zs =>
      cases b with
      | nil => simp [charsLess] at h2
      | cons y ys =>
        unfold charsLess at h1 h2 ⊢
        by_cases hxy : x.toNat < y.toNat
        · simp [hxy] at h1
        · by_cases hyz : y.toNat < z.toNat
          · simp [hyz] at h2
          · by_cases hyx : y.toNat < x.toNat
            · have h3 : ¬ x.toNat < z.toNat := by omega
              have h4 : z.toNat < x.toNat := by omega
              simp [h3, h4]
            · by_cases hzy : z.toNat < y.toNat
              · have h3 : ¬ x.toNat < z.toNat := by omega
                have h4 : z.toNat < x.toNat := by omega
                simp [h3, h4]
              · have h3 : ¬ x.toNat < z.toNat := by omega
                have h4 : ¬ z.toNat < x.toNat := by omega
                simp only [hxy, hyx, if_false] at h1
                simp only [hyz, hzy, if_false] at h2
                simp only [h3, h4, if_false]
                exact ih ys zs h1 h2

/-- The strings sorted by `sort.Strings`: no string is less than a string before it. -/
theorem sortSlice_strings (rt : GoRuntime) (l : List String) :
    (rt.sortSlice stringLess l).Pairwise (fun x y => stringLess y x = false) :=
  rt.sortSlice_sorted stringLess l (fun a b h => charsLess_asymm a.data b.data h)
    (fun a b c h1 h2 => charsLess_negTrans a.data b.data c.data h1 h2)

end StringOrder

section AllocField

variable (rt : GoRuntime)

/-- Every assignment the loop has processed has an entry in `allocatedHalls`. -/
theorem foldl_allocateCourse_mem (slotID : SlotID) :
    ∀ (l : List Assignment) (st : AllocState),
      (∀ c, st.allocatedHalls.get? c ≠ none →
        (l.foldl (allocateCourse rt slotID) st).allocatedHalls.get? c ≠ none) ∧
      ∀ a ∈ l, (l.foldl (allocateCourse rt slotID) st).allocatedHalls.get? a.CourseID ≠ none := by
  intro l
  induction l with
  | nil => intro st; exact ⟨fun c h => h, by simp⟩
  | cons x rest ih =>
    intro st
    simp only [List.foldl_cons]
    obtain ⟨i2, i3⟩ := ih (allocateCourse rt slotID st x)
    obtain ⟨hs, hins⟩ := allocateCourse_allocated rt slotID st x
    refine ⟨?_, ?_⟩
    · intro c hc
      apply i2
      rw [hins, GoMap.get?_insert]
      split
      · simp
      · exact hc
    · intro a ha
      rcases List.mem_cons.1 ha with ha | ha
      · subst ha
        apply i2
        rw [hins, GoMap.get?_insert_self]
        simp
      · exact i3 a ha

/-- C19: after `AllocateHalls`, every assignment of the slot has an entry in the returned
map, and its `Halls` field is the hall IDs of that entry, put in ascending order (no ID is
less than an ID before it, in the order `<` of Go strings) and joined with `;`; it is the
empty string when the entry holds no hall, and when no hall ID contains `;` the pieces of
the field between the separators are exactly these IDs.  The assignments of the slot are
the assignments passed in, up to their order and their `Halls` field. -/
theorem C19_halls_field_sorted_join (assignmentsInSlot : List Assignment)
    (allHalls : List Hall) (usedHalls : GoMap SlotID (GoMap HallID Bool)) (slotID : SlotID) :
    (∀ a ∈ (AllocateHalls rt assignmentsInSlot allHalls usedHalls slotID).assignmentsInSlot,
      ∃ (hs sortedIDs : List HallID),
        (AllocateHalls rt assignmentsInSlot allHalls usedHalls slotID).allocatedHalls.get?
          a.CourseID = some hs ∧
        sortedIDs.Perm hs ∧
        sortedIDs.Pairwise (fun x y => stringLess y x = false) ∧
        a.Halls = stringsJoin sortedIDs ';' ∧
        (hs = [] → a.Halls = "") ∧
        (hs ≠ [] → (∀ id ∈ hs, ';' ∉ id.data) → stringsSplit a.Halls ';' = sortedIDs)) ∧
    ((AllocateHalls rt assignmentsInSlot allHalls usedHalls slotID).assignmentsInSlot.map
        fun a => { a with Halls := "" }).Perm
      (assignmentsInSlot.map fun a => { a with Halls := "" }) := by
  rw [AllocateHalls_eq]
  simp only
  constructor
  · intro a ha
    obtain ⟨a0, ha0, heq⟩ := List.mem_map.1 ha
    have hmem : (allocAfter rt allHalls usedHalls slotID
        (allocOrder rt assignmentsInSlot)).allocatedHalls.get? a0.CourseID ≠ none := by
      unfold allocAfter
      exact (foldl_allocateCourse_mem rt slotID _ _).2 a0 ha0
    cases hget : (allocAfter rt allHalls usedHalls slotID
        (allocOrder rt assignmentsInSlot)).allocatedHalls.get? a0.CourseID with
    | none => exact absurd hget hmem
    | some hs =>
      have ha' : a = { a0 with Halls := hallsField rt hs } := by
        rw [← heq]
        unfold writeHalls
        rw [hget]
      have hperm := rt.sortSlice_perm stringLess hs
      refine ⟨hs, rt.sortSlice stringLess hs, ?_, hperm, sortSlice_strings rt hs, ?_, ?_, ?_⟩
      · rw [ha']; exact hget
      · rw [ha']; rfl
      · intro he
        subst he
        rw [ha']
        have : rt.sortSlice stringLess ([] : List HallID) = [] := List.Perm.eq_nil hperm
        simp only [hallsField, this]
        rfl
      · intro hne hfree
        rw [ha']
        simp only [hallsField]
        rw [stringsSplit_stringsJoin ';' _ (fun e he => hfree e (hperm.subset he))]
        have : rt.sortSlice stringLess hs ≠ [] := by
          intro h
          rw [h] at hperm
          exact hne (List.Perm.nil_eq hperm).symm
        simp [this]
  · rw [List.map_map]
    have h1 : ((fun a : Assignment => { a with Halls := "" }) ∘
        writeHalls rt (allocAfter rt allHalls usedHalls slotID
          (allocOrder rt assignmentsInSlot)).allocatedHalls) =
        fun a : Assignment => { a with Halls := "" } := by
      funext a
      simp only [Function.comp, writeHalls]
      split <;> rfl
    rw [h1]
    exact (rt.sortSlice_perm _ assignmentsInSlot).map _

end AllocField

section AllocFrameInstances

/-- C18 on the tight-fit test with a registry in which hall `H1` is used in another slot,
`slot0`: the entry of `slot0` is unchanged, and `c1` and `c2` get different halls. -/
theorem C18_disjoint_halls_and_registry_witness :
    (packHalls.map Hall.ID).Nodup ∧
      (AllocateHalls refRuntime packCourses packHalls ⟨[("slot0", ⟨[("H1", true)]⟩)]⟩
          "slot1").usedHalls.get? "slot0" =
        (⟨[("slot0", ⟨[("H1", true)]⟩)]⟩ : GoMap SlotID (GoMap HallID Bool)).get? "slot0" ∧
      (AllocateHalls refRuntime packCourses packHalls ⟨[("slot0", ⟨[("H1", true)]⟩)]⟩
          "slot1").allocatedHalls = ⟨[("c1", ["H1"]), ("c2", ["H2"])]⟩ ∧
      (AllocateHalls refRuntime packCourses packHalls ⟨[("slot0", ⟨[("H1", true)]⟩)]⟩
          "slot1").usedHalls =
        ⟨[("slot0", ⟨[("H1", true)]⟩), ("slot1", ⟨[("H1", true), ("H2", true)]⟩)]⟩ :=
  ⟨by decide,
    (C18_disjoint_halls_and_registry refRuntime packCourses packHalls
      ⟨[("slot0", ⟨[("H1", true)]⟩)]⟩ "slot1" (by decide)).2.2.2.1 "slot0" (by decide),
    by decide, by decide⟩

end AllocFrameInstances

section Attempts

variable (rt : GoRuntime)

theorem buildAssignments_plain (courses : GoMap CourseID Course) (slots : List (Slot rt.Time)) :
    ∀ (entries : List (CourseID × Nat)) (objects : List Assignment)
      (bySlot : GoMap Nat (List Nat)),
      (buildAssignments rt courses slots entries objects bySlot).Plain := by
  intro entries
  induction entries with
  | nil => intro objects bySlot; simp [buildAssignments, Outcome.Plain]
  | cons e rest ih =>
    intro objects bySlot
    obtain ⟨c, k⟩ := e
    unfold buildAssignments
    split
    · simp [Outcome.Plain]
    · split
      · simp [Outcome.Plain]
      · exact ih _ _

theorem allocateSlots_plain (halls : List Hall) (slots : List (Slot rt.Time)) :
    ∀ (groups : List (Nat × List Nat)) (acc : HallLoop),
      (allocateSlots rt halls slots groups acc).Plain := by
  intro groups
  induction groups with
  | nil => intro acc; simp [allocateSlots, Outcome.Plain]
  | cons g rest ih =>
    intro acc
    obtain ⟨k, ps⟩ := g
    unfold allocateSlots
    split
    · simp [Outcome.Plain]
    · exact ih _

theorem collectExams_plain (courses : GoMap CourseID Course) (slots : List (Slot rt.Time)) :
    ∀ (entries : List (CourseID × Nat)) (m : GoMap StudentID (List rt.Time)),
      (collectExams rt courses slots entries m).Plain := by
  intro entries
  induction entries with
  | nil => intro m; simp [collectExams, Outcome.Plain]
  | cons e rest ih =>
    intro m
    obtain ⟨c, k⟩ := e
    unfold collectExams
    split
    · simp [Outcome.Plain]
    · split
      · simp [Outcome.Plain]
      · exact ih _

/-- An attempt after a successful coloring returns or panics: hall allocation and the
penalty never produce an error. -/
theorem scoreAttempt_plain (exec : Nat) (coloring : GoMap CourseID Nat)
    (courses : GoMap CourseID Course) (halls : List Hall) (slots : List (Slot rt.Time))
    (graph : ConflictGraph) (minGapMinutes : Int) (penaltyConfig : PenaltyConfig rt) :
    (scoreAttempt rt exec coloring courses halls slots graph minGapMinutes penaltyConfig).Plain := by
  unfold scoreAttempt
  refine Outcome.Plain.bind (buildAssignments_plain rt courses slots _ _ _) ?_
  intro built
  refine Outcome.Plain.bind (allocateSlots_plain rt halls slots _ _) ?_
  intro allocated
  unfold CalculatePenalty
  refine Outcome.Plain.bind (Outcome.Plain.bind (collectExams_plain rt courses slots _ _) ?_) ?_
  · intro m; simp [Outcome.Plain]
  · intro p; simp [Outcome.Plain]

end Attempts

section AttemptLoop

variable (rt : GoRuntime)

theorem runAttempt_of_error (courses : GoMap CourseID Course) (halls : List Hall)
    (slots : List (Slot rt.Time)) (allowedSlots : GoMap CourseID (GoMap SlotID Bool))
    (graph : ConflictGraph) (minGapMinutes : Int) (penaltyConfig : PenaltyConfig rt)
    (i : Nat) (attemptSeed : Int) (msg : String)
    (h : DSATUR rt graph slots allowedSlots attemptSeed = .error msg) :
    runAttempt rt courses halls slots allowedSlots graph minGapMinutes penaltyConfig i
      attemptSeed = .ok none := by
  unfold runAttempt
  rw [h]

theorem runAttempt_of_ok (courses : GoMap CourseID Course) (halls : List Hall)
    (slots : List (Slot rt.Time)) (allowedSlots : GoMap CourseID (GoMap SlotID Bool))
    (graph : ConflictGraph) (minGapMinutes : Int) (penaltyConfig : PenaltyConfig rt)
    (i : Nat) (attemptSeed : Int) (coloring : GoMap CourseID Nat)
    (scored : List Assignment × List String × rt.Float64)
    (h : DSATUR rt graph slots allowedSlots attemptSeed = .ok coloring)
    (hs : scoreAttempt rt i coloring courses halls slots graph minGapMinutes penaltyConfig
      = .ok scored) :
    runAttempt rt courses halls slots allowedSlots graph minGapMinutes penaltyConfig i
      attemptSeed = .ok (some scored) := by
  unfold runAttempt
  rw [h]
  simp only [hs, Outcome.bind]

/-- An attempt yields no result exactly when `DSATUR` returns an error on its seed. -/
theorem runAttempt_eq_ok_none (courses : GoMap CourseID Course) (halls : List Hall)
    (slots : List (Slot rt.Time)) (allowedSlots : GoMap CourseID (GoMap SlotID Bool))
    (graph : ConflictGraph) (minGapMinutes : Int) (penaltyConfig : PenaltyConfig rt)
    (i : Nat) (attemptSeed : Int) :
    runAttempt rt courses halls slots allowedSlots graph minGapMinutes penaltyConfig i
        attemptSeed = .ok none ↔
      ∃ msg, DSATUR rt graph slots allowedSlots attemptSeed = .error msg := by
  unfold runAttempt
  cases h : DSATUR rt graph slots allowedSlots attemptSeed with
  | error msg => simp
  | panic => simp
  | timeout => simp
  | ok coloring =>
    simp only [reduceCtorEq, exists_false, iff_false]
    intro hb
    obtain ⟨scored, _, h2⟩ := Outcome.bind_eq_ok.1 hb
    simp at h2

theorem flt_trans (hasymm : ∀ a b, rt.flt a b = true → rt.flt b a = false)
    (hneg : ∀ a b c, rt.flt a b = false → rt.flt b c = false → rt.flt a c = false)
    (a b c : rt.Float64) (hab : rt.flt a b = true) (hbc : rt.flt b c = true) :
    rt.flt a c = true := by
  by_contra hac
  have h1 : rt.flt a c = false := by simpa using hac
  have h2 := hneg a c b h1 (hasymm b c hbc)
  rw [hab] at h2
  cases h2

/-- The selection made by the main loop, when `<` on penalties is a strict weak ordering:
the result returned is the best result so far, if no attempt has a smaller penalty, or
else the result of the first attempt whose penalty is smaller than that of the best result
so far and not greater than that of any attempt. -/
theorem attemptLoop_select (courses : GoMap CourseID Course) (halls : List Hall)
    (slots : List (Slot rt.Time)) (allowedSlots : GoMap CourseID (GoMap SlotID Bool))
    (graph : ConflictGraph) (minGapMinutes : Int) (penaltyConfig : PenaltyConfig rt)
    (hasymm : ∀ a b, rt.flt a b = true → rt.flt b a = false)
    (hneg : ∀ a b c, rt.flt a b = false → rt.flt b c = false → rt.flt a c = false) :
    ∀ (remaining i : Nat) (rng : rt.Rand) (best : Option (ScheduleResult rt))
      (r : ScheduleResult rt),
      attemptLoop rt courses halls slots allowedSlots graph minGapMinutes penaltyConfig
        remaining i rng best = .ok (some r) →
      (∀ o ∈ attemptsFrom rt courses halls slots allowedSlots graph minGapMinutes penaltyConfig
          i (attemptSeeds rt remaining rng), ∃ x, o = .ok x) ∧
      ((best = some r ∧
          ∀ s', .ok (some s') ∈ attemptsFrom rt courses halls slots allowedSlots graph
            minGapMinutes penaltyConfig i (attemptSeeds rt remaining rng) →
            rt.flt s'.2.2 r.Penalty = false) ∨
        ∃ before s after,
          attemptsFrom rt courses halls slots allowedSlots graph minGapMinutes penaltyConfig
            i (attemptSeeds rt remaining rng) = before ++ .ok (some s) :: after ∧
          r = resultOf rt s ∧
          (∀ b, best = some b → rt.flt s.2.2 b.Penalty = true) ∧
          (∀ s', .ok (some s') ∈ before → rt.flt s.2.2 s'.2.2 = true) ∧
          ∀ s', .ok (some s') ∈ attemptsFrom rt courses halls slots allowedSlots graph
            minGapMinutes penaltyConfig i (attemptSeeds rt remaining rng) →
            rt.flt s'.2.2 s.2.2 = false) := by
  have hirr : ∀ a, rt.flt a a = false := by
    intro a
    cases h : rt.flt a a with
    | false => rfl
    | true => have := hasymm a a h; rw [h] at this; cases this
  intro remaining
  induction remaining with
  | zero =>
    intro i rng best r h
    simp only [attemptLoop, Outcome.ok.injEq] at h
    exact ⟨by intro o ho; simp [attemptSeeds, attemptsFrom] at ho,
      Or.inl ⟨h, by intro s' hs'; simp [attemptSeeds, attemptsFrom] at hs'⟩⟩
  | succ remaining ih =>
    intro i rng best r h
    unfold attemptLoop at h
    simp only [attemptSeeds, attemptsFrom]
    split at h
    · next msg hcol =>
      obtain ⟨hall, hsel⟩ := ih _ _ _ r h
      rw [runAttempt_of_error rt courses halls slots allowedSlots graph minGapMinutes
        penaltyConfig i _ msg hcol]
      refine ⟨?_, ?_⟩
      · intro o ho
        rcases List.mem_cons.1 ho with ho | ho
        · exact ⟨none, ho⟩
        · exact hall o ho
      · rcases hsel with ⟨hb, hmin⟩ | ⟨before, s, after, hA, hr, hb, hfirst, hmin⟩
        · refine Or.inl ⟨hb, ?_⟩
          intro s' hs'
          rcases List.mem_cons.1 hs' with hs' | hs'
          · cases hs'
          · exact hmin s' hs'
        · refine Or.inr ⟨.ok none :: before, s, after, by rw [hA]; rfl, hr, hb, ?_, ?_⟩
          · intro s' hs'
            rcases List.mem_cons.1 hs' with hs' | hs'
            · cases hs'
            · exact hfirst s' hs'
          · intro s' hs'
            rcases List.mem_cons.1 hs' with hs' | hs'
            · cases hs'
            · exact hmin s' hs'
    · simp at h
    · simp at h
    · next coloring hcol =>
      obtain ⟨scored, hs, h2⟩ := Outcome.bind_eq_ok.1 h
      obtain ⟨hall, hsel⟩ := ih _ _ _ r h2
      rw [runAttempt_of_ok rt courses halls slots allowedSlots graph minGapMinutes
        penaltyConfig i _ coloring scored hcol hs]
      refine ⟨?_, ?_⟩
      · intro o ho
        rcases List.mem_cons.1 ho with ho | ho
        · exact ⟨some scored, ho⟩
        · exact hall o ho
      · cases best with
        | none =>
          simp only at hsel
          rcases hsel with ⟨hb, hmin⟩ | ⟨before, s, after, hA, hr, hb, hfirst, hmin⟩
          · simp only [Option.some.injEq] at hb
            refine Or.inr ⟨[], scored, _, rfl, hb.symm, (by intro b hb'; cases hb'), by simp, ?_⟩
            intro s' hs'
            rcases List.mem_cons.1 hs' with hs' | hs'
            · simp only [Outcome.ok.injEq, Option.some.injEq] at hs'
              rw [hs']; exact hirr _
            · have := hmin s' hs'
              rw [← hb] at this
              exact this
          · have hlt : rt.flt s.2.2 scored.2.2 = true := hb _ rfl
            refine Or.inr ⟨.ok (some scored) :: before, s, after, by rw [hA]; rfl, hr,
              (by intro b hb'; cases hb'), ?_, ?_⟩
            · intro s' hs'
              rcases List.mem_cons.1 hs' with hs' | hs'
              · simp only [Outcome.ok.injEq, Option.some.injEq] at hs'
                rw [hs']; exact hlt
              · exact hfirst s' hs'
            · intro s' hs'
              rcases List.mem_cons.1 hs' with hs' | hs'
              · simp only [Outcome.ok.injEq, Option.some.injEq] at hs'
                rw [hs']; exact hasymm _ _ hlt
              · exact hmin s' hs'
        | some old =>
          simp only at hsel
          by_cases hlt0 : rt.flt scored.2.2 old.Penalty = true
          · simp only [hlt0, if_true] at hsel
            rcases hsel with ⟨hb, hmin⟩ | ⟨before, s, after, hA, hr, hb, hfirst, hmin⟩
            · simp only [Option.some.injEq] at hb
              refine Or.inr ⟨[], scored, _, rfl, hb.symm, ?_, by simp, ?_⟩
              · intro b hb'
                simp only [Option.some.injEq] at hb'
                rw [← hb']; exact hlt0
              · intro s' hs'
                rcases List.mem_cons.1 hs' with hs' | hs'
                · simp only [Outcome.ok.injEq, Option.some.injEq] at hs'
                  rw [hs']; exact hirr _
                · have := hmin s' hs'
                  rw [← hb] at this
                  exact this
            · have hlt : rt.flt s.2.2 scored.2.2 = true := hb _ rfl
              refine Or.inr ⟨.ok (some scored) :: before, s, after, by rw [hA]; rfl, hr, ?_, ?_, ?_⟩
              · intro b hb'
                simp only [Option.some.injEq] at hb'
                rw [← hb']
                exact flt_trans rt hasymm hneg _ _ _ hlt hlt0
              · intro s' hs'
                rcases List.mem_cons.1 hs' with hs' | hs'
                · simp only [Outcome.ok.injEq, Option.some.injEq] at hs'
                  rw [hs']; exact hlt
                · exact hfirst s' hs'
              · intro s' hs'
                rcases List.mem_cons.1 hs' with hs' | hs'
                · simp only [Outcome.ok.injEq, Option.some.injEq] at hs'
                  rw [hs']; exact hasymm _ _ hlt
                · exact hmin s' hs'
          · have hnlt : rt.flt scored.2.2 old.Penalty = false := by simpa using hlt0
            simp only [hlt0, if_false] at hsel
            rcases hsel with ⟨hb, hmin⟩ | ⟨before, s, after, hA, hr, hb, hfirst, hmin⟩
            · have hb' : old = r := by simpa using hb
              refine Or.inl ⟨by rw [hb'], ?_⟩
              intro s' hs'
              rcases List.mem_cons.1 hs' with hs' | hs'
              · simp only [Outcome.ok.injEq, Option.some.injEq] at hs'
                rw [hs', ← hb']; exact hnlt
              · exact hmin s' hs'
            · have hlt : rt.flt s.2.2 old.Penalty = true := hb _ rfl
              refine Or.inr ⟨.ok (some scored) :: before, s, after, by rw [hA]; rfl, hr, hb, ?_, ?_⟩
              · intro s' hs'
                rcases List.mem_cons.1 hs' with hs' | hs'
                · simp only [Outcome.ok.injEq, Option.some.injEq] at hs'
                  rw [hs']
                  by_contra hcon
                  have h1 : rt.flt s.2.2 scored.2.2 = false := by simpa using hcon
                  have := hneg _ _ _ h1 hnlt
                  rw [hlt] at this
                  cases this
                · exact hfirst s' hs'
              · intro s' hs'
                rcases List.mem_cons.1 hs' with hs' | hs'
                · simp only [Outcome.ok.injEq, Option.some.injEq] at hs'
                  rw [hs']
                  by_contra hcon
                  have h1 : rt.flt scored.2.2 s.2.2 = true := by simpa using hcon
                  have := flt_trans rt hasymm hneg _ _ _ h1 hlt
                  rw [hnlt] at this
                  cases this
                · exact hmin s' hs'

end AttemptLoop

section AttemptErrors

variable (rt : GoRuntime)

/-- The main loop never returns an error: a failed coloring is skipped, and hall
allocation and scoring do not fail. -/
theorem attemptLoop_ne_error (courses : GoMap CourseID Course) (halls : List Hall)
    (slots : List (Slot rt.Time)) (allowedSlots : GoMap CourseID (GoMap SlotID Bool))
    (graph : ConflictGraph) (minGapMinutes : Int) (penaltyConfig : PenaltyConfig rt) :
    ∀ (remaining i : Nat) (rng : rt.Rand) (best : Option (ScheduleResult rt)) (msg : String),
      attemptLoop rt courses halls slots allowedSlots graph minGapMinutes penaltyConfig
        remaining i rng best ≠ .error msg := by
  intro remaining
  induction remaining with
  | zero => intro i rng best msg h; simp [attemptLoop] at h
  | succ remaining ih =>
    intro i rng best msg h
    unfold attemptLoop at h
    split at h
    · exact ih _ _ _ _ h
    · cases h
    · cases h
    · next coloring hcol =>
      rcases Outcome.bind_eq_error.1 h with h1 | ⟨scored, _, h2⟩
      · exact (scoreAttempt_plain rt i coloring courses halls slots graph minGapMinutes
          penaltyConfig).ne_error msg h1
      · exact ih _ _ _ _ h2

/-- The main loop ends without a result exactly when it started without one and `DSATUR`
returned an error on the seed of every attempt. -/
theorem attemptLoop_eq_ok_none (courses : GoMap CourseID Course) (halls : List Hall)
    (slots : List (Slot rt.Time)) (allowedSlots : GoMap CourseID (GoMap SlotID Bool))
    (graph : ConflictGraph) (minGapMinutes : Int) (penaltyConfig : PenaltyConfig rt) :
    ∀ (remaining i : Nat) (rng : rt.Rand) (best : Option (ScheduleResult rt)),
      attemptLoop rt courses halls slots allowedSlots graph minGapMinutes penaltyConfig
          remaining i rng best = .ok none ↔
        best = none ∧ ∀ s ∈ attemptSeeds rt remaining rng,
          ∃ msg, DSATUR rt graph slots allowedSlots s = .error msg := by
  intro remaining
  induction remaining with
  | zero =>
    intro i rng best
    simp [attemptLoop, attemptSeeds]
  | succ remaining ih =>
    intro i rng best
    unfold attemptLoop
    simp only [attemptSeeds, List.mem_cons, forall_eq_or_imp]
    split
    · next msg hcol =>
      rw [ih]
      constructor
      · rintro ⟨h1, h2⟩
        exact ⟨h1, ⟨msg, hcol⟩, h2⟩
      · rintro ⟨h1, _, h2⟩
        exact ⟨h1, h2⟩
    · next hcol =>
      constructor
      · intro h; cases h
      · rintro ⟨_, ⟨msg, hm⟩, _⟩
        rw [hcol] at hm
        cases hm
    · next hcol =>
      constructor
      · intro h; cases h
      · rintro ⟨_, ⟨msg, hm⟩, _⟩
        rw [hcol] at hm
        cases hm
    · next coloring hcol =>
      constructor
      · intro h
        obtain ⟨scored, _, h2⟩ := Outcome.bind_eq_ok.1 h
        have := ((ih _ _ _).1 h2).1
        cases best with
        | none => simp at this
        | some old =>
          simp only at this
          split at this <;> cases this
      · rintro ⟨_, h, _⟩
        obtain ⟨msg, hm⟩ := h
        rw [hcol] at hm
        cases hm

/-- C14: `RunSchedulingAttempts` returns an error if and only if `DSATUR` returns an error
on the seed of every one of its attempts; the attempts are `tries` in number, none when
`tries <= 0`, in which case the call returns the error.  The error is always the one that
reports that no valid schedule was found: hall allocation and scoring never make the call
return an error, and a failed attempt does not end the loop. -/
theorem C14_error_iff_every_attempt_fails (tries : Int) (seed : Int)
    (courses : GoMap CourseID Course) (halls : List Hall) (slots : List (Slot rt.Time))
    (allowedSlots : GoMap CourseID (GoMap SlotID Bool)) (graph : ConflictGraph)
    (minGapMinutes : Int) (penaltyConfig : PenaltyConfig rt) :
    ((∃ msg, RunSchedulingAttempts rt tries seed courses halls slots allowedSlots graph
        minGapMinutes penaltyConfig = .error msg) ↔
      ∀ s ∈ attemptSeeds rt tries.toNat (masterRand rt seed),
        ∃ msg, DSATUR rt graph slots allowedSlots s = .error msg) ∧
    (attemptSeeds rt tries.toNat (masterRand rt seed)).length = tries.toNat ∧
    (tries ≤ 0 → RunSchedulingAttempts rt tries seed courses halls slots allowedSlots graph
      minGapMinutes penaltyConfig =
        .error ("failed to find a valid schedule after " ++ toString tries ++ " attempts")) ∧
    (∀ msg, RunSchedulingAttempts rt tries seed courses halls slots allowedSlots graph
      minGapMinutes penaltyConfig = .error msg →
        msg = "failed to find a valid schedule after " ++ toString tries ++ " attempts") := by
  have hiff := attemptLoop_eq_ok_none rt courses halls slots allowedSlots graph minGapMinutes
    penaltyConfig tries.toNat 0 (masterRand rt seed) none
  have herr : ∀ msg, RunSchedulingAttempts rt tries seed courses halls slots allowedSlots graph
      minGapMinutes penaltyConfig = .error msg →
      attemptLoop rt courses halls slots allowedSlots graph minGapMinutes penaltyConfig
        tries.toNat 0 (masterRand rt seed) none = .ok none ∧
      msg = "failed to find a valid schedule after " ++ toString tries ++ " attempts" := by
    intro msg h
    unfold RunSchedulingAttempts at h
    rcases Outcome.bind_eq_error.1 h with h1 | ⟨best, hb, h2⟩
    · exact absurd h1 (attemptLoop_ne_error rt courses halls slots allowedSlots graph
        minGapMinutes penaltyConfig _ _ _ _ msg)
    · cases best with
      | none =>
        simp only [Outcome.error.injEq] at h2
        exact ⟨hb, h2.symm⟩
      | some r => simp at h2
  have hlen : ∀ (n : Nat) (rng : rt.Rand), (attemptSeeds rt n rng).length = n := by
    intro n
    induction n with
    | zero => intro rng; rfl
    | succ n ih => intro rng; simp [attemptSeeds, ih]
  have hback : (∀ s ∈ attemptSeeds rt tries.toNat (masterRand rt seed),
      ∃ msg, DSATUR rt graph slots allowedSlots s = .error msg) →
      RunSchedulingAttempts rt tries seed courses halls slots allowedSlots graph
        minGapMinutes penaltyConfig =
        .error ("failed to find a valid schedule after " ++ toString tries ++ " attempts") := by
    intro h
    have := hiff.2 ⟨rfl, h⟩
    unfold RunSchedulingAttempts
    unfold masterRand at this
    rw [this]
    rfl
  refine ⟨⟨?_, fun h => ⟨_, hback h⟩⟩, hlen _ _, ?_, fun msg h => (herr msg h).2⟩
  · rintro ⟨msg, h⟩
    exact (hiff.1 (herr msg h).1).2
  · intro ht
    apply hback
    have : tries.toNat = 0 := by omega
    rw [this]
    intro s hs
    simp [attemptSeeds] at hs

/-- C13: when `RunSchedulingAttempts` succeeds and the comparison `<` of the penalties is a
strict weak ordering (as `<` of `float64` is on values other than NaN), every attempt ran
to its end, and the result holds the assignments (sorted), the penalty and the capacity
warnings of one and the same scored attempt: the first attempt, in attempt order, whose
penalty is a least one, that is, no scored attempt has a smaller penalty and every scored
attempt before it has a greater one. -/
theorem C13_first_attempt_of_least_penalty (tries : Int) (seed : Int)
    (courses : GoMap CourseID Course) (halls : List Hall) (slots : List (Slot rt.Time))
    (allowedSlots : GoMap CourseID (GoMap SlotID Bool)) (graph : ConflictGraph)
    (minGapMinutes : Int) (penaltyConfig : PenaltyConfig rt) (result : ScheduleResult rt)
    (hasymm : ∀ a b, rt.flt a b = true → rt.flt b a = false)
    (hneg : ∀ a b c, rt.flt a b = false → rt.flt b c = false → rt.flt a c = false)
    (h : RunSchedulingAttempts rt tries seed courses halls slots allowedSlots graph
      minGapMinutes penaltyConfig = .ok result) :
    ∃ before scored after,
      attemptsFrom rt courses halls slots allowedSlots graph minGapMinutes penaltyConfig 0
          (attemptSeeds rt tries.toNat (masterRand rt seed)) =
        before ++ .ok (some scored) :: after ∧
      result.Assignments = rt.sortSlice assignmentLess scored.1 ∧
      result.Penalty = scored.2.2 ∧
      result.Report.CapacityWarnings = scored.2.1 ∧
      (∀ o ∈ attemptsFrom rt courses halls slots allowedSlots graph minGapMinutes penaltyConfig
          0 (attemptSeeds rt tries.toNat (masterRand rt seed)), ∃ x, o = .ok x) ∧
      (∀ s', .ok (some s') ∈ attemptsFrom rt courses halls slots allowedSlots graph
          minGapMinutes penaltyConfig 0 (attemptSeeds rt tries.toNat (masterRand rt seed)) →
        rt.flt s'.2.2 scored.2.2 = false) ∧
      (∀ s', .ok (some s') ∈ before → rt.flt scored.2.2 s'.2.2 = true) := by
  have hloop := RunSchedulingAttempts_ok rt _ _ _ _ _ _ _ _ _ _ h
  obtain ⟨hall, hsel⟩ := attemptLoop_select rt courses halls slots allowedSlots graph
    minGapMinutes penaltyConfig hasymm hneg _ _ _ none result hloop
  rcases hsel with ⟨hb, _⟩ | ⟨before, s, after, hA, hr, _, hfirst, hmin⟩
  · cases hb
  · exact ⟨before, s, after, hA, by rw [hr]; rfl, by rw [hr]; rfl, by rw [hr]; rfl, hall, hmin,
      hfirst⟩

end AttemptErrors

section AttemptInstances

/-- C13 on the graph of `semiCourses` with one slot and two attempts: both attempts have
the penalty 0, and the result is that of the first. -/
theorem C13_first_attempt_of_least_penalty_witness :
    (∀ a b, refRuntime.flt a b = true → refRuntime.flt b a = false) ∧
      (∀ a b c, refRuntime.flt a b = false → refRuntime.flt b c = false →
        refRuntime.flt a c = false) ∧
      (attemptsFrom refRuntime semiCourses testHalls oneSlot ⟨[]⟩
        (NewConflictGraph refRuntime semiCourses) 0 ⟨1, 10⟩ 0
        (attemptSeeds refRuntime 2 (masterRand refRuntime 1))).map
          (fun o => o.bind fun x => .ok (x.map fun s => s.2.2)) = [.ok (some 0), .ok (some 0)] ∧
      ∃ result, RunSchedulingAttempts refRuntime 2 1 semiCourses testHalls oneSlot ⟨[]⟩
          (NewConflictGraph refRuntime semiCourses) 0 ⟨1, 10⟩ = .ok result ∧
        ∃ scored after,
          attemptsFrom refRuntime semiCourses testHalls oneSlot ⟨[]⟩
              (NewConflictGraph refRuntime semiCourses) 0 ⟨1, 10⟩ 0
              (attemptSeeds refRuntime 2 (masterRand refRuntime 1)) =
            .ok (some scored) :: after ∧
          result.Penalty = scored.2.2 ∧ result.Report.CapacityWarnings = scored.2.1 := by
  have hasymm : ∀ a b, refRuntime.flt a b = true → refRuntime.flt b a = false := by
    intro a b h
    have h1 : a < b := by simpa using h
    simpa using le_of_lt h1
  have hneg : ∀ a b c, refRuntime.flt a b = false → refRuntime.flt b c = false →
      refRuntime.flt a c = false := by
    intro a b c h1 h2
    have h1' : b ≤ a := by simpa using h1
    have h2' : c ≤ b := by simpa using h2
    simpa using le_trans h2' h1'
  have hdec : assignmentsOf refRuntime (RunSchedulingAttempts refRuntime 2 1 semiCourses
      testHalls oneSlot ⟨[]⟩ (NewConflictGraph refRuntime semiCourses) 0 ⟨1, 10⟩) ≠ none := by
    decide
  refine ⟨hasymm, hneg, by decide, ?_⟩
  cases hr : RunSchedulingAttempts refRuntime 2 1 semiCourses testHalls oneSlot ⟨[]⟩
      (NewConflictGraph refRuntime semiCourses) 0 ⟨1, 10⟩ with
  | ok result =>
    obtain ⟨before, scored, after, hA, _, hp, hw, _, _, hfirst⟩ :=
      C13_first_attempt_of_least_penalty refRuntime 2 1 semiCourses testHalls oneSlot ⟨[]⟩
        (NewConflictGraph refRuntime semiCourses) 0 ⟨1, 10⟩ result hasymm hneg hr
    replace hA : attemptsFrom refRuntime semiCourses testHalls oneSlot ⟨[]⟩
        (NewConflictGraph refRuntime semiCourses) 0 ⟨1, 10⟩ 0
        (attemptSeeds refRuntime 2 (masterRand refRuntime 1)) =
        before ++ .ok (some scored) :: after := hA
    cases before with
    | nil => exact ⟨result, rfl, scored, after, hA, hp, hw⟩
    | cons o rest =>
      exfalso
      have hpen : (attemptsFrom refRuntime semiCourses testHalls oneSlot ⟨[]⟩
          (NewConflictGraph refRuntime semiCourses) 0 ⟨1, 10⟩ 0
          (attemptSeeds refRuntime 2 (masterRand refRuntime 1))).map
            (fun o => o.bind fun x => .ok (x.map fun s => s.2.2)) =
          [.ok (some 0), .ok (some 0)] := by decide
      rw [hA] at hpen
      cases rest with
      | nil =>
        simp only [List.cons_append, List.nil_append, List.map_cons] at hpen
        cases after with
        | nil =>
          simp only [List.map_nil, List.cons.injEq, and_true] at hpen
          obtain ⟨h1, h2⟩ := hpen
          cases o with
          | ok x =>
            cases x with
            | none => simp [Outcome.bind] at h1
            | some s0 =>
              have hlt := hfirst s0 (by simp)
              simp only [Outcome.bind, Option.map_some', Outcome.ok.injEq,
                Option.some.injEq] at h1 h2
              rw [h1, h2] at hlt
              revert hlt
              decide
          | error m => simp [Outcome.bind] at h1
          | panic => simp [Outcome.bind] at h1
          | timeout => simp [Outcome.bind] at h1
        | cons x xs => simp at hpen
      | cons o2 rest2 => simp at hpen
  | error msg => rw [hr] at hdec; exact absurd rfl hdec
  | panic => rw [hr] at hdec; exact absurd rfl hdec
  | timeout => rw [hr] at hdec; exact absurd rfl hdec

end AttemptInstances

section Determinism

/-- C12 fails on the code: with the same courses, halls, slots, palette, weights and seed
1, two runs of `NewConflictGraph` followed by `RunSchedulingAttempts` that differ only in
the order in which the `range` of graph.go 19 enumerates the course map return different
schedules: course `a` sits in the second slot in one run and in the first slot in the
other.  The course enumerated first gets index 0, and the random tie-break of `DSATUR`
picks a course by its index. -/
theorem C12_map_order_changes_schedule :
    assignmentsOf refRuntime (RunSchedulingAttempts refRuntime 1 1 pairCourses testHalls
        twoSlots ⟨[]⟩ (NewConflictGraph refRuntime pairCourses) 0 ⟨1, 10⟩) =
      some [⟨"b", "2025-01-06T09:00Z#1", "2025-01-06T09:00:00Z", "H2", 1, ""⟩,
        ⟨"a", "2025-01-06T14:00Z#2", "2025-01-06T14:00:00Z", "H2", 1, ""⟩] ∧
    assignmentsOf reversedRuntime (RunSchedulingAttempts reversedRuntime 1 1 pairCourses
        testHalls twoSlots ⟨[]⟩ (NewConflictGraph reversedRuntime pairCourses) 0 ⟨1, 10⟩) =
      some [⟨"a", "2025-01-06T09:00Z#1", "2025-01-06T09:00:00Z", "H2", 1, ""⟩,
        ⟨"b", "2025-01-06T14:00Z#2", "2025-01-06T14:00:00Z", "H2", 1, ""⟩] ∧
    (NewConflictGraph refRuntime pairCourses).Courses = ["a", "b"] ∧
    (NewConflictGraph reversedRuntime pairCourses).Courses = ["b", "a"] := by
  decide

end Determinism

section GraphWeights

variable (rt : GoRuntime)

theorem addConflict_matGet {n : Nat} (courseIndex : GoMap CourseID Nat) (a b : CourseID)
    (acc : List (List Int) × List Int) (hsq : Square n acc.1) (i j : Nat) :
    Square n (addConflict courseIndex a b acc).1 ∧
    matGet (addConflict courseIndex a b acc).1 i j =
      matGet acc.1 i j +
        bump n (indexOfCourse courseIndex a) (indexOfCourse courseIndex b) i j +
        bump n (indexOfCourse courseIndex b) (indexOfCourse courseIndex a) i j := by
  rw [addConflict_fst]
  have hsq1 := square_matInc hsq (indexOfCourse courseIndex a) (indexOfCourse courseIndex b)
  exact ⟨square_matInc hsq1 _ _, by rw [matGet_matInc hsq1, matGet_matInc hsq]⟩

/-- The inner pair loop for the course `a` adds one to the entries `(a, b)` and `(b, a)` of
every course `b` after it. -/
theorem conflictsWith_matGet {n : Nat} (courseIndex : GoMap CourseID Nat) (a : CourseID)
    (ha : indexOfCourse courseIndex a < n) (i j : Nat) :
    ∀ (rest : List CourseID) (acc : List (List Int) × List Int), Square n acc.1 →
      (∀ b ∈ rest, indexOfCourse courseIndex b < n ∧
        indexOfCourse courseIndex b ≠ indexOfCourse courseIndex a) →
      rest.Pairwise (fun b b' => indexOfCourse courseIndex b ≠ indexOfCourse courseIndex b') →
      Square n (conflictsWith courseIndex a rest acc).1 ∧
      matGet (conflictsWith courseIndex a rest acc).1 i j =
        matGet acc.1 i j +
          if (i = indexOfCourse courseIndex a ∧ HitsIndex courseIndex rest j) ∨
            (j = indexOfCourse courseIndex a ∧ HitsIndex courseIndex rest i) then 1 else 0 := by
  intro rest
  induction rest with
  | nil =>
    intro acc hsq _ _
    refine ⟨hsq, ?_⟩
    have : ¬ ((i = indexOfCourse courseIndex a ∧ HitsIndex courseIndex [] j) ∨
        (j = indexOfCourse courseIndex a ∧ HitsIndex courseIndex [] i)) := by
      simp [HitsIndex]
    simp [conflictsWith, this]
  | cons b rest ih =>
    intro acc hsq hb hpw
    rw [List.pairwise_cons] at hpw
    obtain ⟨hsq1, hget1⟩ := addConflict_matGet courseIndex a b acc hsq i j
    obtain ⟨hsq2, hget2⟩ := ih (addConflict courseIndex a b acc) hsq1
      (fun b' hb' => hb b' (List.mem_cons_of_mem _ hb')) hpw.2
    unfold conflictsWith
    refine ⟨hsq2, ?_⟩
    rw [hget2, hget1]
    obtain ⟨hbn, hba⟩ := hb b (List.mem_cons_self _ _)
    have hP : ∀ k, HitsIndex courseIndex rest k → k ≠ indexOfCourse courseIndex b ∧
        k ≠ indexOfCourse courseIndex a := by
      rintro k ⟨c, hc, hk⟩
      subst hk
      exact ⟨fun h => hpw.1 c hc h.symm, (hb c (List.mem_cons_of_mem _ hc)).2⟩
    have hcons : ∀ k, HitsIndex courseIndex (b :: rest) k ↔
        k = indexOfCourse courseIndex b ∨ HitsIndex courseIndex rest k := by
      intro k
      unfold HitsIndex
      simp only [List.mem_cons, exists_eq_or_imp]
      constructor
      · rintro (h | h)
        · exact Or.inl h.symm
        · exact Or.inr h
      · rintro (h | h)
        · exact Or.inl h.symm
        · exact Or.inr h
    simp only [hcons]
    unfold bump
    by_cases hPj : HitsIndex courseIndex rest j
    · obtain ⟨hj1, hj2⟩ := hP j hPj
      by_cases hPi : HitsIndex courseIndex rest i
      · obtain ⟨hi1, hi2⟩ := hP i hPi
        simp [hPj, hPi, hj1, hj2, hi1, hi2]
      · by_cases hia : i = indexOfCourse courseIndex a
        · have hib : i ≠ indexOfCourse courseIndex b := fun h => hba (h.symm.trans hia)
          simp [hPj, hPi, hj1, hj2, hia, hib, Ne.symm hba]
        · simp [hPj, hPi, hj1, hj2, hia]
    · by_cases hPi : HitsIndex courseIndex rest i
      · obtain ⟨hi1, hi2⟩ := hP i hPi
        by_cases hja : j = indexOfCourse courseIndex a
        · have hjb : j ≠ indexOfCourse courseIndex b := fun h => hba (h.symm.trans hja)
          simp [hPj, hPi, hi1, hi2, hja, hjb, Ne.symm hba]
        · simp [hPj, hPi, hi1, hi2, hja]
      · by_cases hia : i = indexOfCourse courseIndex a
        · by_cases hjb : j = indexOfCourse courseIndex b
          · subst hia; subst hjb
            simp [hPj, hPi, ha, hbn, hba, Ne.symm hba]
          · by_cases hja : j = indexOfCourse courseIndex a
            · subst hia; subst hja
              simp [hPj, hjb, hba, Ne.symm hba]
            · subst hia
              simp [hPj, hPi, hjb, hja, hba, Ne.symm hba]
        · by_cases hja : j = indexOfCourse courseIndex a
          · by_cases hib : i = indexOfCourse courseIndex b
            · subst hja; subst hib
              simp [hPj, hPi, ha, hbn, hba, Ne.symm hba]
            · subst hja
              simp [hPj, hPi, hia, hib, hba, Ne.symm hba]
          · simp [hPj, hPi, hia, hja]

/-- The pair loops over the courses of one student add one to the entry `(i, j)` exactly
when `i` and `j` are the indices of two different courses of the student. -/
theorem conflictsAmong_matGet {n : Nat} (courseIndex : GoMap CourseID Nat) (i j : Nat) :
    ∀ (l : List CourseID) (acc : List (List Int) × List Int), Square n acc.1 →
      (∀ a ∈ l, indexOfCourse courseIndex a < n) →
      l.Pairwise (fun a b => indexOfCourse courseIndex a ≠ indexOfCourse courseIndex b) →
      Square n (conflictsAmong courseIndex l acc).1 ∧
      matGet (conflictsAmong courseIndex l acc).1 i j =
        matGet acc.1 i j +
          if i ≠ j ∧ HitsIndex courseIndex l i ∧ HitsIndex courseIndex l j then 1 else 0 := by
  intro l
  induction l with
  | nil =>
    intro acc hsq _ _
    refine ⟨hsq, ?_⟩
    have : ¬ (i ≠ j ∧ HitsIndex courseIndex [] i ∧ HitsIndex courseIndex [] j) := by
      simp [HitsIndex]
    simp [conflictsAmong, this]
  | cons a rest ih =>
    intro acc hsq hlt hpw
    rw [List.pairwise_cons] at hpw
    have ha := hlt a (List.mem_cons_self _ _)
    obtain ⟨hsq1, hget1⟩ := conflictsWith_matGet courseIndex a ha i j rest acc hsq
      (fun b hb => ⟨hlt b (List.mem_cons_of_mem _ hb), fun h => hpw.1 b hb h.symm⟩) hpw.2
    obtain ⟨hsq2, hget2⟩ := ih (conflictsWith courseIndex a rest acc) hsq1
      (fun b hb => hlt b (List.mem_cons_of_mem _ hb)) hpw.2
    unfold conflictsAmong
    refine ⟨hsq2, ?_⟩
    rw [hget2, hget1]
    have hP : ∀ k, HitsIndex courseIndex rest k → k ≠ indexOfCourse courseIndex a := by
      rintro k ⟨c, hc, hk⟩
      subst hk
      exact fun h => hpw.1 c hc h.symm
    have hcons : ∀ k, HitsIndex courseIndex (a :: rest) k ↔
        k = indexOfCourse courseIndex a ∨ HitsIndex courseIndex rest k := by
      intro k
      unfold HitsIndex
      simp only [List.mem_cons, exists_eq_or_imp]
      constructor
      · rintro (h | h)
        · exact Or.inl h.symm
        · exact Or.inr h
      · rintro (h | h)
        · exact Or.inl h.symm
        · exact Or.inr h
    simp only [hcons]
    by_cases hPi : HitsIndex courseIndex rest i
    · have hi := hP i hPi
      by_cases hPj : HitsIndex courseIndex rest j
      · have hj := hP j hPj
        by_cases hij : i = j
        · simp [hPi, hPj, hi, hj, hij]
        · simp [hPi, hPj, hi, hj, hij]
      · by_cases hja : j = indexOfCourse courseIndex a
        · subst hja
          simp [hPi, hPj, hi]
        · simp [hPi, hPj, hi, hja]
    · by_cases hPj : HitsIndex courseIndex rest j
      · have hj := hP j hPj
        by_cases hia : i = indexOfCourse courseIndex a
        · subst hia
          simp [hPi, hPj, hj, Ne.symm hj]
        · simp [hPi, hPj, hj, hia]
      · by_cases hia : i = indexOfCourse courseIndex a
        · by_cases hja : j = indexOfCourse courseIndex a
          · subst hia
            simp [hPi, hja]
          · subst hia
            simp [hPi, hPj, hja]
        · simp [hPi, hPj, hia]

theorem hitsIndex_perm (courseIndex : GoMap CourseID Nat) {l l' : List CourseID}
    (h : l.Perm l') (k : Nat) : HitsIndex courseIndex l k ↔ HitsIndex courseIndex l' k := by
  unfold HitsIndex
  constructor
  · rintro ⟨c, hc, hk⟩; exact ⟨c, h.subset hc, hk⟩
  · rintro ⟨c, hc, hk⟩; exact ⟨c, h.symm.subset hc, hk⟩

/-- The loop over the students adds to the entry `(i, j)` the number of students that have
two different courses with the indices `i` and `j`. -/
theorem conflictsOfStudents_matGet {n : Nat} (courseIndex : GoMap CourseID Nat)
    (courseList : List CourseID) (hlen : courseList.length = n)
    (hidx : ∀ p x, courseList[p]? = some x → courseIndex.get? x = some p) (i j : Nat) :
    ∀ (entries : List (StudentID × GoMap CourseID Bool)) (exec : Nat)
      (acc : List (List Int) × List Int),
      (∀ e ∈ entries, ∀ c ∈ e.2.keys, c ∈ courseList) → Square n acc.1 →
      Square n (conflictsOfStudents rt courseIndex exec entries acc).1 ∧
      matGet (conflictsOfStudents rt courseIndex exec entries acc).1 i j =
        matGet acc.1 i j +
          (entries.countP fun e => decide (i ≠ j ∧ HitsIndex courseIndex e.2.keys i ∧
            HitsIndex courseIndex e.2.keys j) : Nat) := by
  intro entries
  induction entries with
  | nil =>
    intro exec acc _ hsq
    exact ⟨hsq, by simp [conflictsOfStudents]⟩
  | cons e rest ih =>
    intro exec acc hin hsq
    obtain ⟨s, set⟩ := e
    have hperm := rt.rangeOrder_perm 4 exec set.keys
    have hnd' : (rt.rangeOrder 4 exec set.keys).Nodup :=
      hperm.nodup_iff.2 (List.nodup_dedup _)
    have hpos : ∀ a ∈ rt.rangeOrder 4 exec set.keys,
        ∃ p, courseList[p]? = some a ∧ indexOfCourse courseIndex a = p := by
      intro a ha
      have ha' := hin (s, set) (List.mem_cons_self _ _) a (hperm.subset ha)
      obtain ⟨p, hp⟩ := List.mem_iff_getElem?.1 ha'
      refine ⟨p, hp, ?_⟩
      unfold indexOfCourse
      rw [hidx p a hp]
      rfl
    obtain ⟨hsq1, hget1⟩ := conflictsAmong_matGet courseIndex i j
      (rt.rangeOrder 4 exec set.keys) acc hsq
      (by
        intro a ha
        obtain ⟨p, hp, hpa⟩ := hpos a ha
        rw [hpa, ← hlen]
        exact (List.getElem?_eq_some_iff.1 hp).1)
      (by
        refine List.Pairwise.imp_of_mem ?_ hnd'
        intro a b ha hb hab
        obtain ⟨p, hp, hpa⟩ := hpos a ha
        obtain ⟨q, hq, hqb⟩ := hpos b hb
        rw [hpa, hqb]
        intro hpq
        subst hpq
        rw [hp] at hq
        exact hab (Option.some.inj hq))
    obtain ⟨hsq2, hget2⟩ := ih (exec + 1)
      (conflictsAmong courseIndex (rt.rangeOrder 4 exec set.keys) acc)
      (fun e' he' => hin e' (List.mem_cons_of_mem _ he')) hsq1
    unfold conflictsOfStudents
    refine ⟨hsq2, ?_⟩
    rw [hget2, hget1, List.countP_cons]
    simp only [hitsIndex_perm courseIndex hperm]
    by_cases hc : i ≠ j ∧ HitsIndex courseIndex set.keys i ∧ HitsIndex courseIndex set.keys j
    · rw [if_pos hc]
      have hd : decide (i ≠ j ∧ HitsIndex courseIndex set.keys i ∧
          HitsIndex courseIndex set.keys j) = true := decide_eq_true hc
      simp only [hd, if_true]
      push_cast
      ring
    · rw [if_neg hc]
      have hd : decide (i ≠ j ∧ HitsIndex courseIndex set.keys i ∧
          HitsIndex courseIndex set.keys j) = false := decide_eq_false hc
      simp only [hd]
      simp

theorem GoMap.mem_range_iff {κ ν : Type} [DecidableEq κ] (site exec : Nat) (m : GoMap κ ν)
    (k : κ) (v : ν) : (k, v) ∈ GoMap.range rt site exec m ↔ m.get? k = some v := by
  constructor
  · exact GoMap.mem_range rt site exec m k v
  · intro h
    unfold GoMap.range
    refine List.mem_filterMap.2 ⟨k, ?_, by simp [h]⟩
    apply (rt.rangeOrder_perm site exec m.keys).symm.subset
    rw [GoMap.mem_keys_iff, h]
    simp

theorem recordedIn_insert (sc : GoMap StudentID (GoMap CourseID Bool)) (st : StudentID)
    (courseID : CourseID) (s : StudentID) (c : CourseID) :
    RecordedIn (sc.insert st (((sc.get? st).getD GoMap.empty).insert courseID true)) s c ↔
      RecordedIn sc s c ∨ (s = st ∧ c = courseID) := by
  unfold RecordedIn
  by_cases hs : s = st
  · subst hs
    simp only [GoMap.get?_insert_self, Option.some.injEq, exists_eq_left', true_and]
    rw [GoMap.get?_insert]
    by_cases hc : courseID = c
    · subst hc
      simp
    · have hc' : ¬ c = courseID := fun h => hc h.symm
      simp only [hc, if_false, hc', or_false]
      cases hg : sc.get? s with
      | none => simp [GoMap.get?_empty]
      | some set => simp
  · rw [GoMap.get?_insert_of_ne _ _ hs]
    simp [hs]

theorem enrollCourse_recorded (courseID : CourseID) (s : StudentID) (c : CourseID) :
    ∀ (students : List StudentID) (sc : GoMap StudentID (GoMap CourseID Bool)),
      RecordedIn (enrollCourse courseID students sc) s c ↔
        RecordedIn sc s c ∨ (c = courseID ∧ s ∈ students) := by
  intro students
  induction students with
  | nil => intro sc; simp [enrollCourse]
  | cons st rest ih =>
    intro sc
    unfold enrollCourse
    rw [ih, recordedIn_insert]
    simp only [List.mem_cons]
    constructor
    · rintro ((h | ⟨h1, h2⟩) | ⟨h1, h2⟩)
      · exact Or.inl h
      · exact Or.inr ⟨h2, Or.inl h1⟩
      · exact Or.inr ⟨h1, Or.inr h2⟩
    · rintro (h | ⟨h1, h2 | h2⟩)
      · exact Or.inl (Or.inl h)
      · exact Or.inl (Or.inr ⟨h2, h1⟩)
      · exact Or.inr ⟨h1, h2⟩

theorem buildStudentCourses_recorded (s : StudentID) (c : CourseID) :
    ∀ (entries : List (CourseID × Course)) (sc : GoMap StudentID (GoMap CourseID Bool)),
      RecordedIn (buildStudentCourses entries sc) s c ↔
        RecordedIn sc s c ∨ ∃ e ∈ entries, e.1 = c ∧ s ∈ e.2.Enrollments := by
  intro entries
  induction entries with
  | nil => intro sc; simp [buildStudentCourses]
  | cons e rest ih =>
    intro sc
    obtain ⟨courseID, course⟩ := e
    unfold buildStudentCourses
    rw [ih, enrollCourse_recorded]
    simp only [List.mem_cons, exists_eq_or_imp]
    constructor
    · rintro ((h | ⟨h1, h2⟩) | h)
      · exact Or.inl h
      · exact Or.inr (Or.inl ⟨h1.symm, h2⟩)
      · exact Or.inr (Or.inr h)
    · rintro (h | ⟨h1, h2⟩ | h)
      · exact Or.inl (Or.inl h)
      · exact Or.inl (Or.inr ⟨h1.symm, h2⟩)
      · exact Or.inr h

/-- The student map built by `NewConflictGraph` records a student for a course exactly when
the student occurs in the enrollments of the course. -/
theorem studentCourses_recorded (courses : GoMap CourseID Course) (s : StudentID)
    (c : CourseID) :
    RecordedIn (buildStudentCourses (GoMap.range rt 2 0 courses) GoMap.empty) s c ↔
      ∃ course, courses.get? c = some course ∧ s ∈ course.Enrollments := by
  rw [buildStudentCourses_recorded]
  constructor
  · rintro (h | ⟨e, he, h1, h2⟩)
    · obtain ⟨set, hset, _⟩ := h
      simp [GoMap.get?_empty] at hset
    · obtain ⟨k, v⟩ := e
      simp only at h1 h2
      subst h1
      exact ⟨v, GoMap.mem_range rt 2 0 courses k v he, h2⟩
  · rintro ⟨course, hget, hs⟩
    exact Or.inr ⟨(c, course), (GoMap.mem_range_iff rt 2 0 courses c course).2 hget, rfl, hs⟩

/-- Counting, in a list without repetition that holds every common member of `xs` and
`ys`, the members that occur in both gives the number of distinct common members. -/
theorem countP_shared (L xs ys : List StudentID) (hnd : L.Nodup)
    (hL : ∀ s, s ∈ xs → s ∈ ys → s ∈ L) :
    L.countP (fun s => decide (s ∈ xs ∧ s ∈ ys)) = sharedStudents xs ys := by
  unfold sharedStudents
  rw [List.countP_eq_length_filter]
  apply List.Perm.length_eq
  refine (List.perm_ext_iff_of_nodup (hnd.filter _) ((List.nodup_dedup xs).filter _)).2 ?_
  intro s
  simp only [List.mem_filter, decide_eq_true_eq, List.mem_dedup]
  constructor
  · rintro ⟨_, h1, h2⟩; exact ⟨h1, h2⟩
  · rintro ⟨h1, h2⟩; exact ⟨hL s h1 h2, h1, h2⟩

theorem matGet_replicate (n i j : Nat) :
    matGet (List.replicate n (List.replicate n (0 : Int))) i j = 0 := by
  unfold matGet
  simp only [List.getD_eq_getElem?_getD, List.getElem?_replicate]
  by_cases hi : i < n
  · simp only [hi, if_true, Option.getD_some, List.getElem?_replicate]
    split <;> simp
  · simp [hi]

/-- The weight that `NewConflictGraph` gives to two courses of the course mapping: zero for
a course and itself, otherwise the number of distinct students enrolled in both. -/
theorem NewConflictGraph_weight (courses : GoMap CourseID Course) (x y : CourseID)
    (cx cy : Course) (ix iy : Nat) (hx : courses.get? x = some cx)
    (hy : courses.get? y = some cy)
    (hix : (NewConflictGraph rt courses).Courses[ix]? = some x)
    (hiy : (NewConflictGraph rt courses).Courses[iy]? = some y) :
    matGet (NewConflictGraph rt courses).AdjMatrix ix iy =
      if x = y then 0 else (sharedStudents cx.Enrollments cy.Enrollments : Int) := by
  have hnd := (NewConflictGraph_courses_perm rt courses).2
  have hperm := (NewConflictGraph_courses_perm rt courses).1
  rw [NewConflictGraph_courses] at hix hiy hnd hperm
  have hlen : (rt.rangeOrder 1 0 courses.keys).length = courses.len := hperm.length_eq
  have hidx : ∀ p c, (rt.rangeOrder 1 0 courses.keys)[p]? = some c →
      (indexCourses (rt.rangeOrder 1 0 courses.keys) 0 GoMap.empty).get? c = some p := by
    intro p c hp
    have := indexCourses_get?_of_getElem? _ 0 GoMap.empty hnd p c hp
    simpa using this
  have hsets : SetsWithin (rt.rangeOrder 1 0 courses.keys)
      (buildStudentCourses (GoMap.range rt 2 0 courses) GoMap.empty) := by
    apply setsWithin_buildStudentCourses
    · intro e' he'
      obtain ⟨k, v⟩ := e'
      have hk := GoMap.mem_range rt 2 0 courses k v he'
      apply hperm.symm.subset
      rw [GoMap.mem_keys_iff, hk]
      simp
    · intro s' set' hs'
      simp [GoMap.get?_empty] at hs'
  have hin : ∀ e ∈ GoMap.range rt 3 0 (buildStudentCourses (GoMap.range rt 2 0 courses)
      GoMap.empty), ∀ c ∈ e.2.keys, c ∈ rt.rangeOrder 1 0 courses.keys := by
    intro e he c hc
    obtain ⟨s, set⟩ := e
    exact hsets s set (GoMap.mem_range rt 3 0 _ s set he) c ((GoMap.mem_keys_iff set c).1 hc)
  obtain ⟨_, hget⟩ := conflictsOfStudents_matGet rt
    (indexCourses (rt.rangeOrder 1 0 courses.keys) 0 GoMap.empty)
    (rt.rangeOrder 1 0 courses.keys) hlen hidx ix iy
    (GoMap.range rt 3 0 (buildStudentCourses (GoMap.range rt 2 0 courses) GoMap.empty)) 0
    (List.replicate courses.len (List.replicate courses.len 0), List.replicate courses.len 0)
    hin (matInv_replicate _).square
  have hadj : (NewConflictGraph rt courses).AdjMatrix =
      (conflictsOfStudents rt (indexCourses (rt.rangeOrder 1 0 courses.keys) 0 GoMap.empty) 0
        (GoMap.range rt 3 0 (buildStudentCourses (GoMap.range rt 2 0 courses) GoMap.empty))
        (List.replicate courses.len (List.replicate courses.len 0),
          List.replicate courses.len 0)).1 := rfl
  rw [hadj, hget, matGet_replicate, zero_add]
  have hidxOf : ∀ p c, (rt.rangeOrder 1 0 courses.keys)[p]? = some c →
      indexOfCourse (indexCourses (rt.rangeOrder 1 0 courses.keys) 0 GoMap.empty) c = p := by
    intro p c hp
    unfold indexOfCourse
    rw [hidx p c hp]
    rfl
  have hhit : ∀ (s : StudentID) (set : GoMap CourseID Bool) (k : Nat) (z : CourseID)
      (cz : Course),
      (buildStudentCourses (GoMap.range rt 2 0 courses) GoMap.empty).get? s = some set →
      (rt.rangeOrder 1 0 courses.keys)[k]? = some z → courses.get? z = some cz →
      (HitsIndex (indexCourses (rt.rangeOrder 1 0 courses.keys) 0 GoMap.empty) set.keys k ↔
        s ∈ cz.Enrollments) := by
    intro s set k z cz hset hk hz
    constructor
    · rintro ⟨c, hc, hck⟩
      have hc' := hsets s set hset c ((GoMap.mem_keys_iff set c).1 hc)
      obtain ⟨p, hp⟩ := List.mem_iff_getElem?.1 hc'
      have hpk : p = k := (hidxOf p c hp).symm.trans hck
      subst hpk
      rw [hp] at hk
      have hcz : c = z := Option.some.inj hk
      subst hcz
      have hrec : RecordedIn (buildStudentCourses (GoMap.range rt 2 0 courses) GoMap.empty) s c :=
        ⟨set, hset, (GoMap.mem_keys_iff set c).1 hc⟩
      obtain ⟨course, hcourse, hs⟩ := (studentCourses_recorded rt courses s c).1 hrec
      rw [hz] at hcourse
      cases hcourse
      exact hs
    · intro hs
      obtain ⟨set', hset', hz'⟩ := (studentCourses_recorded rt courses s z).2 ⟨cz, hz, hs⟩
      rw [hset] at hset'
      cases hset'
      exact ⟨z, (GoMap.mem_keys_iff set z).2 hz', hidxOf k z hk⟩
  have hne : ix ≠ iy ↔ x ≠ y := by
    constructor
    · intro h hxy
      subst hxy
      exact h (index_eq_of_nodup hnd hix hiy)
    · intro h hxy
      subst hxy
      rw [hix] at hiy
      exact h (Option.some.inj hiy)
  have hcongr : (GoMap.range rt 3 0 (buildStudentCourses (GoMap.range rt 2 0 courses)
      GoMap.empty)).countP (fun e => decide (ix ≠ iy ∧
        HitsIndex (indexCourses (rt.rangeOrder 1 0 courses.keys) 0 GoMap.empty) e.2.keys ix ∧
        HitsIndex (indexCourses (rt.rangeOrder 1 0 courses.keys) 0 GoMap.empty) e.2.keys iy)) =
      (GoMap.range rt 3 0 (buildStudentCourses (GoMap.range rt 2 0 courses)
        GoMap.empty)).countP ((fun s => decide (x ≠ y ∧ s ∈ cx.Enrollments ∧
          s ∈ cy.Enrollments)) ∘ Prod.fst) := by
    apply List.countP_congr
    intro e he
    obtain ⟨s, set⟩ := e
    have hset := GoMap.mem_range rt 3 0 _ s set he
    simp only [Function.comp, decide_eq_true_eq]
    rw [hne, hhit s set ix x cx hset hix hx, hhit s set iy y cy hset hiy hy]
  rw [hcongr, ← List.countP_map, GoMap.range_fst,
    (rt.rangeOrder_perm 3 0 _).countP_eq]
  by_cases hxy : x = y
  · simp [hxy]
  · simp only [hxy, if_false, ne_eq, not_false_eq_true, true_and]
    congr 1
    apply countP_shared _ _ _ (List.nodup_dedup _)
    intro s h1 _
    obtain ⟨set, hset, _⟩ := (studentCourses_recorded rt courses s x).2 ⟨cx, hx, h1⟩
    refine (GoMap.mem_keys_iff _ s).2 ?_
    rw [hset]
    simp

/-- C20: for every course mapping and all courses `x`, `y` of it, the graph built by
`NewConflictGraph` has an index for `x` and for `y`, and the entry of the adjacency matrix
at these indices exists and is 0 when `x = y` and otherwise the number of distinct
students that occur in the enrollments of both `x` and `y`; the matrix is symmetric and
its diagonal is zero. -/
theorem C20_adjacency_counts_shared_students (courses : GoMap CourseID Course)
    (x y : CourseID) (cx cy : Course) (hx : courses.get? x = some cx)
    (hy : courses.get? y = some cy) :
    ∃ (ix iy : Nat) (row : List Int),
      (NewConflictGraph rt courses).CourseIndex.get? x = some ix ∧
      (NewConflictGraph rt courses).CourseIndex.get? y = some iy ∧
      (NewConflictGraph rt courses).AdjMatrix[ix]? = some row ∧
      row[iy]? = some (if x = y then 0
        else (sharedStudents cx.Enrollments cy.Enrollments : Int)) ∧
      (∀ i j, matGet (NewConflictGraph rt courses).AdjMatrix i j =
        matGet (NewConflictGraph rt courses).AdjMatrix j i) ∧
      ∀ i, matGet (NewConflictGraph rt courses).AdjMatrix i i = 0 := by
  have hperm := (NewConflictGraph_courses_perm rt courses).1
  have hinv := NewConflictGraph_matInv rt courses
  have hmemx : x ∈ (NewConflictGraph rt courses).Courses :=
    hperm.symm.subset ((GoMap.mem_keys_iff courses x).2 (by rw [hx]; simp))
  have hmemy : y ∈ (NewConflictGraph rt courses).Courses :=
    hperm.symm.subset ((GoMap.mem_keys_iff courses y).2 (by rw [hy]; simp))
  obtain ⟨ix, hix⟩ := List.mem_iff_getElem?.1 hmemx
  obtain ⟨iy, hiy⟩ := List.mem_iff_getElem?.1 hmemy
  have hlen : (NewConflictGraph rt courses).Courses.length = courses.len := hperm.length_eq
  have hixn : ix < courses.len := by
    rw [← hlen]; exact (List.getElem?_eq_some_iff.1 hix).1
  have hiyn : iy < courses.len := by
    rw [← hlen]; exact (List.getElem?_eq_some_iff.1 hiy).1
  have hrowlt : ix < (NewConflictGraph rt courses).AdjMatrix.length := by
    rw [hinv.square.1]; exact hixn
  have hrowlen : ((NewConflictGraph rt courses).AdjMatrix[ix]).length = courses.len :=
    hinv.square.2 _ (List.getElem_mem hrowlt)
  have hw := NewConflictGraph_weight rt courses x y cx cy ix iy hx hy hix hiy
  refine ⟨ix, iy, (NewConflictGraph rt courses).AdjMatrix[ix],
    (NewConflictGraph_courseIndex rt courses ix x).2 hix,
    (NewConflictGraph_courseIndex rt courses iy y).2 hiy,
    List.getElem?_eq_getElem hrowlt, ?_, hinv.symm, hinv.diag⟩
  rw [← hw]
  unfold matGet
  have hcol : iy < ((NewConflictGraph rt courses).AdjMatrix[ix]).length := by
    rw [hrowlen]; exact hiyn
  simp [List.getD_eq_getElem?_getD, List.getElem?_eq_getElem hrowlt,
    List.getElem?_eq_getElem hcol]

end GraphWeights

section GraphWeightInstances

/-- C20 on `dupCourses`, where `s1` and `s2` are listed several times: the weight of the
two courses is 2. -/
theorem C20_adjacency_counts_shared_students_witness :
    dupCourses.get? "a" = some ⟨"a", ["s1", "s1", "s2"]⟩ ∧
      dupCourses.get? "b" = some ⟨"b", ["s1", "s2", "s2", "s3"]⟩ ∧
      sharedStudents ["s1", "s1", "s2"] ["s1", "s2", "s2", "s3"] = 2 ∧
      (NewConflictGraph refRuntime dupCourses).AdjMatrix = [[0, 2], [2, 0]] ∧
      ∃ (ix iy : Nat) (row : List Int),
        (NewConflictGraph refRuntime dupCourses).CourseIndex.get? "a" = some ix ∧
        (NewConflictGraph refRuntime dupCourses).CourseIndex.get? "b" = some iy ∧
        (NewConflictGraph refRuntime dupCourses).AdjMatrix[ix]? = some row ∧
        row[iy]? = some (if ("a" : CourseID) = "b" then 0
          else (sharedStudents ["s1", "s1", "s2"] ["s1", "s2", "s2", "s3"] : Int)) :=
  ⟨by decide, by decide, by decide, by decide,
    (C20_adjacency_counts_shared_students refRuntime dupCourses "a" "b"
      ⟨"a", ["s1", "s1", "s2"]⟩ ⟨"b", ["s1", "s2", "s2", "s3"]⟩ (by decide) (by decide)).elim
      fun ix h => h.elim fun iy h => h.elim fun row h => ⟨ix, iy, row, h.1, h.2.1, h.2.2.1,
        h.2.2.2.1⟩⟩

end GraphWeightInstances

section HallLists

variable (rt : GoRuntime)

theorem combineHalls_sublist (neededCapacity : Int) (sorted : List Hall) :
    (combineHalls neededCapacity 0 [] sorted).2.Sublist sorted := by
  obtain ⟨k, _, heq, _, _⟩ := combineHalls_spec neededCapacity sorted 0 []
  rw [heq]
  simp only [List.nil_append]
  exact List.take_sublist k sorted

/-- One step of the allocation loop gives the course a list of halls without repetition,
when the available halls have different IDs. -/
theorem allocateCourse_nodup (slotID : SlotID) (st : AllocState) (a : Assignment)
    (hav : (st.availableHalls.map Hall.ID).Nodup)
    (hst : ∀ c hs, st.allocatedHalls.get? c = some hs → hs.Nodup) :
    ∀ c hs, (allocateCourse rt slotID st a).allocatedHalls.get? c = some hs → hs.Nodup := by
  have hperm := rt.sortSlice_perm (fun a b : Hall => decide (a.Capacity > b.Capacity))
    st.availableHalls
  have hnds : ((rt.sortSlice (fun a b : Hall => decide (a.Capacity > b.Capacity))
      st.availableHalls).map Hall.ID).Nodup := (hperm.map _).nodup_iff.2 hav
  have key : ∀ (R : List HallID), R.Nodup → ∀ c hs,
      (st.allocatedHalls.insert a.CourseID R).get? c = some hs → hs.Nodup := by
    intro R hR c hs hget
    rw [GoMap.get?_insert] at hget
    split at hget
    · simp only [Option.some.injEq] at hget
      rw [← hget]; exact hR
    · exact hst c hs hget
  unfold allocateCourse
  split
  · exact key _ (List.nodup_singleton _)
  · simp only
    split
    · exact key _ (((combineHalls_sublist a.EnrolledCount _).map Hall.ID).nodup hnds)
    · exact key _ hnds

/-- For a catalog with unique hall IDs, no hall occurs twice in the list that
`AllocateHalls` returns for a course. -/
theorem AllocateHalls_nodup (assignmentsInSlot : List Assignment) (allHalls : List Hall)
    (usedHalls : GoMap SlotID (GoMap HallID Bool)) (slotID : SlotID)
    (hnd : (allHalls.map Hall.ID).Nodup) :
    ∀ c hs, (AllocateHalls rt assignmentsInSlot allHalls usedHalls slotID).allocatedHalls.get? c
      = some hs → hs.Nodup := by
  have key : ∀ (l : List Assignment) (st : AllocState),
      AllocInv allHalls usedHalls slotID st →
      (∀ c hs, st.allocatedHalls.get? c = some hs → hs.Nodup) →
      ∀ c hs, (l.foldl (allocateCourse rt slotID) st).allocatedHalls.get? c = some hs →
        hs.Nodup := by
    intro l
    induction l with
    | nil => intro st _ h; exact h
    | cons x rest ih =>
      intro st inv h
      simp only [List.foldl_cons]
      exact ih _ (allocateCourse_inv rt allHalls usedHalls slotID st x inv)
        (allocateCourse_nodup rt slotID st x inv.nodup h)
  rw [AllocateHalls_eq]
  simp only
  unfold allocAfter
  apply key _ _ (allocInv_init rt allHalls usedHalls slotID hnd)
  intro c hs hget
  simp [allocInit, GoMap.get?_empty] at hget

/-- The halls listed by an assignment after `AllocateHalls` wrote its `Halls` field are
listed once each, when the halls allocated to its course are different and no hall ID
contains `;`. -/
theorem listedHalls_writeHalls_nodup (allocatedHalls : GoMap CourseID (List HallID))
    (a : Assignment) (hs : List HallID) (hget : allocatedHalls.get? a.CourseID = some hs)
    (hnd : hs.Nodup) (hfree : ∀ id ∈ hs, ';' ∉ id.data) :
    (listedHalls (writeHalls rt allocatedHalls a)).Nodup := by
  unfold listedHalls writeHalls
  rw [hget]
  simp only
  unfold hallsField
  have hperm := rt.sortSlice_perm stringLess hs
  rw [stringsSplit_stringsJoin ';' _ (fun e he => hfree e (hperm.subset he))]
  split
  · simp
  · exact (hperm.nodup_iff.2 hnd).filter _

/-- The hall allocation loop of an attempt keeps every assignment listing each of its
halls once. -/
theorem allocateSlots_listed_nodup (halls : List Hall) (hids : (halls.map Hall.ID).Nodup)
    (hsemi : ∀ hall ∈ halls, ';' ∉ hall.ID.data) (slots : List (Slot rt.Time)) :
    ∀ (groups : List (Nat × List Nat)) (acc r : HallLoop),
      allocateSlots rt halls slots groups acc = .ok r →
      (∀ a ∈ acc.objects, (listedHalls a).Nodup) →
      ∀ a ∈ r.objects, (listedHalls a).Nodup := by
  intro groups
  induction groups with
  | nil =>
    intro acc r h inv
    simp only [allocateSlots, Outcome.ok.injEq] at h
    subst h; exact inv
  | cons g rest ih =>
    intro acc r h inv
    obtain ⟨slotIdx, ptrs⟩ := g
    unfold allocateSlots at h
    split at h
    · simp at h
    · next slot hslot =>
      refine ih _ _ h ?_
      simp only
      obtain ⟨s1, _, _, _⟩ := AllocateHalls_spec rt (ptrs.filterMap fun p => acc.objects[p]?)
        halls acc.usedHalls slot.ID hids
      have s5 := AllocateHalls_nodup rt (ptrs.filterMap fun p => acc.objects[p]?)
        halls acc.usedHalls slot.ID hids
      generalize AllocateHalls rt (ptrs.filterMap fun p => acc.objects[p]?)
        halls acc.usedHalls slot.ID = r0 at s1 s5 ⊢
      have hw : ∀ b, (listedHalls b).Nodup →
          (listedHalls (writeHalls rt r0.allocatedHalls b)).Nodup := by
        intro b hb
        cases hg : r0.allocatedHalls.get? b.CourseID with
        | none =>
          have : writeHalls rt r0.allocatedHalls b = b := by
            unfold writeHalls; rw [hg]
          rw [this]; exact hb
        | some hs =>
          refine listedHalls_writeHalls_nodup rt _ b hs hg (s5 _ hs hg) ?_
          intro id hid
          obtain ⟨⟨hall, hh, hhid⟩, _, _⟩ := s1 _ hs hg id hid
          rw [← hhid]
          exact hsemi hall hh
      intro a ha
      obtain ⟨q, hq⟩ := List.mem_iff_getElem?.1 ha
      rw [foldl_modifyAt_getElem? (writeHalls rt r0.allocatedHalls)
        (writeHalls_idem rt r0.allocatedHalls) ptrs acc.objects] at hq
      split at hq
      · cases hb : acc.objects[q]? with
        | none => simp [hb] at hq
        | some b =>
          simp only [hb, Option.map_some', Option.some.injEq] at hq
          rw [← hq]
          exact hw b (inv b (List.getElem?_mem hb))
      · exact inv a (List.getElem?_mem hq)

end HallLists

section AttemptSlots

variable (rt : GoRuntime)

/-- The hall allocation loop changes nothing of an assignment but its `Halls` field. -/
theorem allocateSlots_map {β : Type} (g : Assignment → β)
    (hg : ∀ alloc a, g (writeHalls rt alloc a) = g a) (halls : List Hall)
    (slots : List (Slot rt.Time)) :
    ∀ (groups : List (Nat × List Nat)) (acc r : HallLoop),
      allocateSlots rt halls slots groups acc = .ok r →
      r.objects.map g = acc.objects.map g := by
  intro groups
  induction groups with
  | nil =>
    intro acc r h
    simp only [allocateSlots, Outcome.ok.injEq] at h
    subst h; rfl
  | cons grp rest ih =>
    intro acc r h
    obtain ⟨slotIdx, ptrs⟩ := grp
    unfold allocateSlots at h
    split at h
    · simp at h
    · rw [ih _ _ h]
      exact foldl_modifyAt_map _ _ (hg _) _ _

/-- Every assignment object created from a coloring carries a course of the coloring and the
ID of the slot whose index the coloring gives to the course. -/
theorem buildAssignments_slots (courses : GoMap CourseID Course) (slots : List (Slot rt.Time))
    (coloring : GoMap CourseID Nat) :
    ∀ (entries : List (CourseID × Nat)) (objects : List Assignment)
      (bySlot : GoMap Nat (List Nat)) (r : List Assignment × GoMap Nat (List Nat)),
      buildAssignments rt courses slots entries objects bySlot = .ok r →
      (∀ e ∈ entries, coloring.get? e.1 = some e.2) →
      (∀ a ∈ objects, ∃ k slot, coloring.get? a.CourseID = some k ∧ slots[k]? = some slot ∧
        a.SlotID = slot.ID) →
      ∀ a ∈ r.1, ∃ k slot, coloring.get? a.CourseID = some k ∧ slots[k]? = some slot ∧
        a.SlotID = slot.ID := by
  intro entries
  induction entries with
  | nil =>
    intro objects bySlot r h _ hobj
    simp only [buildAssignments, Outcome.ok.injEq] at h
    subst h
    exact hobj
  | cons e rest ih =>
    intro objects bySlot r h hent hobj
    obtain ⟨courseID, slotIdx⟩ := e
    unfold buildAssignments at h
    split at h
    · simp at h
    · next slot hslot =>
      split at h
      · simp at h
      · next course _ =>
        refine ih _ _ _ h (fun e' he' => hent e' (List.mem_cons_of_mem _ he')) ?_
        intro a ha
        rcases List.mem_append.1 ha with ha | ha
        · exact hobj a ha
        · simp only [List.mem_singleton] at ha
          subst ha
          exact ⟨slotIdx, slot, hent (courseID, slotIdx) (List.mem_cons_self _ _), hslot, rfl⟩

/-- The assignments of one scored attempt carry the slots of the coloring. -/
theorem scoreAttempt_slots (exec : Nat) (coloring : GoMap CourseID Nat)
    (courses : GoMap CourseID Course) (halls : List Hall) (slots : List (Slot rt.Time))
    (graph : ConflictGraph) (minGapMinutes : Int) (penaltyConfig : PenaltyConfig rt)
    (scored : List Assignment × List String × rt.Float64)
    (h : scoreAttempt rt exec coloring courses halls slots graph minGapMinutes penaltyConfig
      = .ok scored) :
    ∀ a ∈ scored.1, ∃ k slot, coloring.get? a.CourseID = some k ∧ slots[k]? = some slot ∧
      a.SlotID = slot.ID := by
  unfold scoreAttempt at h
  obtain ⟨built, hb, h2⟩ := Outcome.bind_eq_ok.1 h
  obtain ⟨allocated, ha, h3⟩ := Outcome.bind_eq_ok.1 h2
  obtain ⟨penalty, _, h4⟩ := Outcome.bind_eq_ok.1 h3
  simp only [Outcome.ok.injEq] at h4
  subst h4
  simp only
  have hbuilt := buildAssignments_slots rt courses slots coloring _ _ _ _ hb
    (fun e he => GoMap.mem_range rt 5 exec coloring e.1 e.2 he) (by simp)
  have hmap := allocateSlots_map rt (fun a => (a.CourseID, a.SlotID))
    (by
      intro alloc a
      simp only [writeHalls_courseID, writeHalls_slotID])
    halls slots _ _ _ ha
  intro a ha'
  have hmem : (a.CourseID, a.SlotID) ∈ allocated.objects.map fun a => (a.CourseID, a.SlotID) :=
    List.mem_map.2 ⟨a, ha', rfl⟩
  rw [hmap] at hmem
  obtain ⟨b, hb', hab⟩ := List.mem_map.1 hmem
  simp only [Prod.mk.injEq] at hab
  obtain ⟨k, slot, h1, h2', h3'⟩ := hbuilt b hb'
  exact ⟨k, slot, by rw [← hab.1]; exact h1, h2', by rw [← hab.2]; exact h3'⟩

theorem sharedStudents_pos (xs ys : List StudentID) (s : StudentID) (hx : s ∈ xs)
    (hy : s ∈ ys) : 0 < sharedStudents xs ys := by
  unfold sharedStudents
  apply List.length_pos_of_mem (a := s)
  simp [List.mem_filter, hx, hy]

/-- In a scored attempt on the graph built from the course mapping, with slots of
different IDs, two different courses with a common student sit in different slots. -/
theorem scoreAttempt_no_shared_slot (exec : Nat) (attemptSeed : Int)
    (coloring : GoMap CourseID Nat) (courses : GoMap CourseID Course) (halls : List Hall)
    (slots : List (Slot rt.Time)) (allowedSlots : GoMap CourseID (GoMap SlotID Bool))
    (minGapMinutes : Int) (penaltyConfig : PenaltyConfig rt)
    (scored : List Assignment × List String × rt.Float64)
    (hslots : (slots.map Slot.ID).Nodup)
    (hcol : DSATUR rt (NewConflictGraph rt courses) slots allowedSlots attemptSeed
      = .ok coloring)
    (h : scoreAttempt rt exec coloring courses halls slots (NewConflictGraph rt courses)
      minGapMinutes penaltyConfig = .ok scored) :
    ∀ a ∈ scored.1, ∀ b ∈ scored.1, ∀ (cx cy : Course) (s : StudentID),
      courses.get? a.CourseID = some cx → courses.get? b.CourseID = some cy →
      a.CourseID ≠ b.CourseID → s ∈ cx.Enrollments → s ∈ cy.Enrollments →
      a.SlotID ≠ b.SlotID := by
  intro a ha b hb cx cy s hx hy hne hsx hsy hslot
  have hnd := (NewConflictGraph_courses_perm rt courses).2
  have hperm := (NewConflictGraph_courses_perm rt courses).1
  obtain ⟨hsym, _⟩ := NewConflictGraph_symmetric rt courses
  have hproper := DSATUR_ok_proper rt _ hnd hsym slots allowedSlots attemptSeed coloring hcol
  obtain ⟨ka, slota, hka, hsa, hida⟩ := scoreAttempt_slots rt exec coloring courses halls slots
    _ minGapMinutes penaltyConfig scored h a ha
  obtain ⟨kb, slotb, hkb, hsb, hidb⟩ := scoreAttempt_slots rt exec coloring courses halls slots
    _ minGapMinutes penaltyConfig scored h b hb
  have hmemx : a.CourseID ∈ (NewConflictGraph rt courses).Courses :=
    hperm.symm.subset ((GoMap.mem_keys_iff courses _).2 (by rw [hx]; simp))
  have hmemy : b.CourseID ∈ (NewConflictGraph rt courses).Courses :=
    hperm.symm.subset ((GoMap.mem_keys_iff courses _).2 (by rw [hy]; simp))
  obtain ⟨ix, hix⟩ := List.mem_iff_getElem?.1 hmemx
  obtain ⟨iy, hiy⟩ := List.mem_iff_getElem?.1 hmemy
  have hw := NewConflictGraph_weight rt courses _ _ cx cy ix iy hx hy hix hiy
  have hadj : (NewConflictGraph rt courses).adjacent ix iy = true := by
    rw [adjacent_eq_matGet, hw]
    have := sharedStudents_pos cx.Enrollments cy.Enrollments s hsx hsy
    simp only [hne, if_false, decide_eq_true_eq]
    exact_mod_cast this
  have hij : ix ≠ iy := by
    intro hij
    subst hij
    rw [hix] at hiy
    exact hne (Option.some.inj hiy)
  have hk := hproper ix iy _ _ ka kb hij hadj hix hiy hka hkb
  apply hk
  have e1 : (slots.map Slot.ID)[ka]? = some a.SlotID := by
    rw [List.getElem?_map, hsa, hida]; rfl
  have e2 : (slots.map Slot.ID)[kb]? = some a.SlotID := by
    rw [List.getElem?_map, hsb, hslot, hidb]; rfl
  exact index_eq_of_nodup hslots e1 e2

end AttemptSlots

section NoDoubleBooking

variable (rt : GoRuntime)

/-- The loop over the halls of one assignment adds no error when none of the halls it
lists was counted before in the slot of the assignment and it lists each hall once; `B`
holds the slot and hall pairs that may have been counted before. -/
theorem checkHalls_no_error (hallCapacityMap : GoMap HallID Int) (a : Assignment) :
    ∀ (l : List String) (acc : HallCheck) (B : SlotID → HallID → Prop),
      acc.report.Errors = [] →
      (∀ s h, bookings acc.slotHallUsage s h ≠ 0 → B s h) →
      (l.filter fun h => h ≠ "").Nodup →
      (∀ h ∈ l, h ≠ "" → ¬ B a.SlotID h) →
      (l.foldl (checkHall hallCapacityMap a) acc).report.Errors = [] ∧
      ∀ s h, bookings (l.foldl (checkHall hallCapacityMap a) acc).slotHallUsage s h ≠ 0 →
        B s h ∨ (s = a.SlotID ∧ h ∈ l ∧ h ≠ "") := by
  intro l
  induction l with
  | nil =>
    intro acc B he hb _ _
    exact ⟨he, fun s h hne => Or.inl (hb s h hne)⟩
  | cons p rest ih =>
    intro acc B he hb hnd hfree
    simp only [List.foldl_cons]
    by_cases hp : p = ""
    · have hstep : checkHall hallCapacityMap a acc p = acc := by
        unfold checkHall; simp [hp]
      rw [hstep]
      have hnd' : (rest.filter fun h => h ≠ "").Nodup := by
        simpa [List.filter_cons, hp] using hnd
      obtain ⟨h1, h2⟩ := ih acc B he hb hnd'
        (fun h hh hne => hfree h (List.mem_cons_of_mem _ hh) hne)
      refine ⟨h1, ?_⟩
      intro s h hne
      rcases h2 s h hne with h3 | ⟨h3, h4, h5⟩
      · exact Or.inl h3
      · exact Or.inr ⟨h3, List.mem_cons_of_mem _ h4, h5⟩
    · have hnd' : p ∉ (rest.filter fun h => h ≠ "") ∧ (rest.filter fun h => h ≠ "").Nodup := by
        simpa [List.filter_cons, hp] using hnd
      cases hcap : hallCapacityMap.get? p with
      | none =>
        have hstep : (checkHall hallCapacityMap a acc p).slotHallUsage = acc.slotHallUsage ∧
            (checkHall hallCapacityMap a acc p).report.Errors = acc.report.Errors := by
          unfold checkHall; simp [hp, hcap]
        obtain ⟨h1, h2⟩ := ih (checkHall hallCapacityMap a acc p) B (by rw [hstep.2]; exact he)
          (by rw [hstep.1]; exact hb) hnd'.2
          (fun h hh hne => hfree h (List.mem_cons_of_mem _ hh) hne)
        refine ⟨h1, ?_⟩
        intro s h hne
        rcases h2 s h hne with h3 | ⟨h3, h4, h5⟩
        · exact Or.inl h3
        · exact Or.inr ⟨h3, List.mem_cons_of_mem _ h4, h5⟩
      | some capacity =>
        have hzero : bookings acc.slotHallUsage a.SlotID p = 0 := by
          by_contra hne
          exact hfree p (List.mem_cons_self _ _) hp (hb _ _ hne)
        have hzero' : ((acc.slotHallUsage.get? a.SlotID).getD GoMap.empty).get? p = none ∨
            ((acc.slotHallUsage.get? a.SlotID).getD GoMap.empty).get? p = some 0 := by
          unfold bookings at hzero
          cases hg : ((acc.slotHallUsage.get? a.SlotID).getD GoMap.empty).get? p with
          | none => exact Or.inl rfl
          | some v =>
            rw [hg] at hzero
            simp only [Option.getD_some] at hzero
            rw [hzero]; exact Or.inr rfl
        have hcount : (((acc.slotHallUsage.get? a.SlotID).getD GoMap.empty).get? p).getD 0 + 1
            = 1 := by
          rcases hzero' with h | h <;> rw [h] <;> rfl
        have hstep : (checkHall hallCapacityMap a acc p).slotHallUsage =
              acc.slotHallUsage.insert a.SlotID
                (((acc.slotHallUsage.get? a.SlotID).getD GoMap.empty).insert p 1) ∧
            (checkHall hallCapacityMap a acc p).report.Errors = acc.report.Errors := by
          unfold checkHall
          simp only [hp, if_false, hcap, hcount]
          simp
        obtain ⟨h1, h2⟩ := ih (checkHall hallCapacityMap a acc p)
          (fun s h => B s h ∨ (s = a.SlotID ∧ h = p)) (by rw [hstep.2]; exact he)
          (by
            intro s h hne
            rw [hstep.1, bookings_insert] at hne
            split at hne
            · next hsh => exact Or.inr hsh
            · exact Or.inl (hb s h hne))
          hnd'.2
          (by
            intro h hh hne hB
            rcases hB with hB | ⟨_, hB⟩
            · exact hfree h (List.mem_cons_of_mem _ hh) hne hB
            · subst hB
              exact hnd'.1 (List.mem_filter.2 ⟨hh, by simpa using hne⟩))
        refine ⟨h1, ?_⟩
        intro s h hne
        rcases h2 s h hne with (h3 | ⟨h3, h4⟩) | ⟨h3, h4, h5⟩
        · exact Or.inl h3
        · exact Or.inr ⟨h3, by rw [h4]; exact List.mem_cons_self _ _, by rw [h4]; exact hp⟩
        · exact Or.inr ⟨h3, List.mem_cons_of_mem _ h4, h5⟩

/-- The loop over the assignments adds no error when every assignment lists each of its
halls once and two assignments of the same slot list no hall in common. -/
theorem checkAssignments_no_error (hallCapacityMap : GoMap HallID Int) :
    ∀ (l : List Assignment) (acc : GoMap SlotID (GoMap HallID Int) × ValidationReport)
      (B : SlotID → HallID → Prop),
      acc.2.Errors = [] →
      (∀ s h, bookings acc.1 s h ≠ 0 → B s h) →
      l.Pairwise (fun a b => a.SlotID = b.SlotID → ∀ h ∈ listedHalls a, h ∉ listedHalls b) →
      (∀ a ∈ l, (listedHalls a).Nodup) →
      (∀ a ∈ l, ∀ h ∈ listedHalls a, ¬ B a.SlotID h) →
      (l.foldl (checkAssignment hallCapacityMap) acc).2.Errors = [] := by
  intro l
  induction l with
  | nil => intro acc B he _ _ _ _; exact he
  | cons a rest ih =>
    intro acc B he hb hpw hnd hfree
    rw [List.pairwise_cons] at hpw
    simp only [List.foldl_cons]
    obtain ⟨h1, h2⟩ := checkHalls_no_error hallCapacityMap a (stringsSplit a.Halls ';')
      ⟨0, acc.1, acc.2⟩ B he hb (hnd a (List.mem_cons_self _ _))
      (by
        intro h hh hne
        exact hfree a (List.mem_cons_self _ _) h
          (List.mem_filter.2 ⟨hh, by simpa using hne⟩))
    refine ih (checkAssignment hallCapacityMap acc a)
      (fun s h => B s h ∨ (s = a.SlotID ∧ h ∈ listedHalls a)) ?_ ?_ hpw.2
      (fun b hb' => hnd b (List.mem_cons_of_mem _ hb')) ?_
    · unfold checkAssignment
      simp only
      split
      · exact h1
      · exact h1
    · intro s h hne
      have : (checkAssignment hallCapacityMap acc a).1 =
          ((stringsSplit a.Halls ';').foldl (checkHall hallCapacityMap a)
            ⟨0, acc.1, acc.2⟩).slotHallUsage := rfl
      rw [this] at hne
      rcases h2 s h hne with h3 | ⟨h3, h4, h5⟩
      · exact Or.inl h3
      · exact Or.inr ⟨h3, List.mem_filter.2 ⟨h4, by simpa using h5⟩⟩
    · intro b hb' h hh hB
      rcases hB with hB | ⟨hs, hB⟩
      · exact hfree b (List.mem_cons_of_mem _ hb') h hh hB
      · exact hpw.1 b hb' hs.symm h hB hh

end NoDoubleBooking

section OwnSchedule

variable (rt : GoRuntime)

/-- Every registration is recorded in the course map built from the registrations: the map
has an entry for its course, and its student is among the enrollments of the entry. -/
theorem coursesOfRegistrations_mem :
    ∀ (regs : List Registration) (m : GoMap CourseID Course),
      (∀ c course s, m.get? c = some course → s ∈ course.Enrollments →
        ∃ course', (regs.foldl registerCourse m).get? c = some course' ∧
          s ∈ course'.Enrollments) ∧
      ∀ reg ∈ regs, ∃ course, (regs.foldl registerCourse m).get? reg.CourseID = some course ∧
        reg.StudentID ∈ course.Enrollments := by
  intro regs
  induction regs with
  | nil => intro m; exact ⟨fun c course s h hs => ⟨course, h, hs⟩, by simp⟩
  | cons r rest ih =>
    intro m
    simp only [List.foldl_cons]
    obtain ⟨i1, i2⟩ := ih (registerCourse m r)
    have hkeep : ∀ c course s, m.get? c = some course → s ∈ course.Enrollments →
        ∃ course', (registerCourse m r).get? c = some course' ∧ s ∈ course'.Enrollments := by
      intro c course s h hs
      unfold registerCourse
      by_cases hc : r.CourseID = c
      · subst hc
        rw [h]
        simp only [GoMap.get?_insert_self, Option.some.injEq, exists_eq_left']
        exact List.mem_append_left _ hs
      · cases hg : m.get? r.CourseID with
        | none =>
          simp only
          rw [GoMap.get?_insert_of_ne _ _ (fun e => hc e.symm)]
          exact ⟨course, h, hs⟩
        | some old =>
          simp only
          rw [GoMap.get?_insert_of_ne _ _ (fun e => hc e.symm)]
          exact ⟨course, h, hs⟩
    have hnew : ∃ course, (registerCourse m r).get? r.CourseID = some course ∧
        r.StudentID ∈ course.Enrollments := by
      unfold registerCourse
      cases hg : m.get? r.CourseID with
      | none =>
        simp only [GoMap.get?_insert_self, Option.some.injEq, exists_eq_left']
        simp
      | some old =>
        simp only [GoMap.get?_insert_self, Option.some.injEq, exists_eq_left']
        simp
    refine ⟨?_, ?_⟩
    · intro c course s h hs
      obtain ⟨course', h', hs'⟩ := hkeep c course s h hs
      exact i1 c course' s h' hs'
    · intro reg hreg
      rcases List.mem_cons.1 hreg with hreg | hreg
      · subst hreg
        obtain ⟨course, h, hs⟩ := hnew
        exact i1 _ course _ h hs
      · exact i2 reg hreg

theorem scheduledSlot_some (assignments : List Assignment) (c : CourseID) (s : SlotID)
    (h : scheduledSlot assignments c = some s) :
    ∃ a ∈ assignments, a.CourseID = c ∧ a.SlotID = s := by
  induction assignments with
  | nil => simp [scheduledSlot] at h
  | cons a rest ih =>
    unfold scheduledSlot at h
    cases hr : scheduledSlot rest c with
    | some s' =>
      rw [hr] at h
      simp only [Option.some.injEq] at h
      subst h
      obtain ⟨b, hb, h1, h2⟩ := ih hr
      exact ⟨b, List.mem_cons_of_mem _ hb, h1, h2⟩
    | none =>
      rw [hr] at h
      simp only at h
      split at h
      · next hc =>
        simp only [Option.some.injEq] at h
        exact ⟨a, List.mem_cons_self _ _, hc, h⟩
      · cases h

/-- No registration clashes when two registrations of one student never have their courses
in the same slot of the schedule. -/
theorem clashCount_eq_zero (assignments : List Assignment) :
    ∀ (regs earlier : List Registration),
      (∀ r ∈ regs, ∀ e ∈ earlier, e.StudentID = r.StudentID → ∀ s,
        scheduledSlot assignments r.CourseID = some s →
        scheduledSlot assignments e.CourseID ≠ some s) →
      regs.Pairwise (fun e r => e.StudentID = r.StudentID → ∀ s,
        scheduledSlot assignments r.CourseID = some s →
        scheduledSlot assignments e.CourseID ≠ some s) →
      clashCount assignments earlier regs = 0 := by
  intro regs
  induction regs with
  | nil => intro earlier _ _; rfl
  | cons r rest ih =>
    intro earlier hearlier hpw
    rw [List.pairwise_cons] at hpw
    unfold clashCount
    have hno : isClash assignments earlier r = false := by
      unfold isClash
      cases hs : scheduledSlot assignments r.CourseID with
      | none => rfl
      | some s =>
        simp only
        rw [List.any_eq_false]
        intro e he
        simp only [Bool.and_eq_true, decide_eq_true_eq, not_and]
        intro hst
        exact hearlier r (List.mem_cons_self _ _) e he hst s hs
    rw [hno, ih (earlier ++ [r]) ?_ hpw.2]
    · simp
    · intro r' hr' e he
      rcases List.mem_append.1 he with he | he
      · exact hearlier r' (List.mem_cons_of_mem _ hr') e he
      · simp only [List.mem_singleton] at he
        subst he
        exact hpw.1 r' hr'

/-- A schedule without student clash, in which every assignment lists each of its halls
once, two assignments of one slot list no hall in common, and every course of a
registration has an assignment, is reported valid. -/
theorem verifyAssignments_valid (registrations : List Registration)
    (assignments : List Assignment) (halls : List Hall)
    (hclash : clashCount assignments [] registrations = 0)
    (hpw : assignments.Pairwise
      (fun a b => a.SlotID = b.SlotID → ∀ h ∈ listedHalls a, h ∉ listedHalls b))
    (hnd : ∀ a ∈ assignments, (listedHalls a).Nodup)
    (hall : ∀ reg ∈ registrations, ∃ a ∈ assignments, a.CourseID = reg.CourseID) :
    (verifyAssignments rt registrations assignments halls).Valid = true ∧
      (verifyAssignments rt registrations assignments halls).Conflicts = 0 ∧
      (verifyAssignments rt registrations assignments halls).StudentClashes = [] ∧
      (verifyAssignments rt registrations assignments halls).Errors = [] ∧
      (verifyAssignments rt registrations assignments halls).Unassigned = [] := by
  obtain ⟨booked, unassigned, hbooked, hinv, hun, hrep⟩ :=
    verifyAssignments_report rt registrations assignments halls
  rw [hclash] at hinv
  have hcl := clashInv_foldl assignments registrations [] _ 0 (clashInv_init assignments)
  have herr : booked.2.Errors = [] := by
    rw [hbooked]
    refine checkAssignments_no_error _ assignments _ (fun _ _ => False) hcl.errors ?_ hpw hnd
      (fun _ _ _ _ h => h)
    intro s h hne
    exact hne (by simp [bookings, GoMap.get?_empty])
  have hunass : unassigned = [] := by
    rw [hun, List.filter_eq_nil_iff]
    intro c hc
    have hc' := (mem_coursesInRegs_keys registrations c).1
      ((rt.rangeOrder_perm 9 0 _).subset hc)
    obtain ⟨reg, hreg, hrc⟩ := hc'
    obtain ⟨a, ha, hac⟩ := hall reg hreg
    have : (buildAssignmentMap assignments).get? c ≠ none := by
      intro hnone
      exact (assignmentMap_eq_none_iff assignments c).1 hnone a ha (hac.trans hrc)
    cases hg : (buildAssignmentMap assignments).get? c with
    | none => exact absurd hg this
    | some v => simp
  rw [hrep, hunass]
  refine ⟨?_, ?_, ?_, herr, rfl⟩
  · simp only [List.length_nil, gt_iff_lt, lt_self_iff_false, if_false]
    exact hinv.valid.2 ⟨rfl, herr⟩
  · simp only
    have := hinv.conflicts
    simpa using this
  · simp only
    have := hinv.clashes
    simpa using this

/-- The schedule that `parseScheduleCSV` reads from the text of `SerializeAssignments`,
when the CSV reader reads back what the CSV writer wrote. -/
theorem parseScheduleCSV_serialized (assignments : List Assignment)
    (hcsv : ReadsBack rt scheduleHeader (assignments.map assignmentRecord)) :
    parseScheduleCSV rt (SerializeAssignments rt assignments) =
      .ok (assignments.map (reparsed rt)) := by
  have hfm : ∀ l : List Assignment,
      (l.map assignmentRecord).filterMap (recordAssignment rt) = l.map (reparsed rt) := by
    intro l
    induction l with
    | nil => rfl
    | cons a rest ih =>
      simp only [List.map_cons, List.filterMap_cons]
      have : recordAssignment rt (assignmentRecord a) = some (reparsed rt a) := rfl
      rw [this]
      simp only
      rw [ih]
  unfold parseScheduleCSV SerializeAssignments
  rw [hcsv.1]
  have hmiss : missingHeader scheduleHeader expectedHeaders = none := by decide
  simp only [hmiss]
  rw [hcsv.2]
  simp only [hfm]

end OwnSchedule

section OwnScheduleResult

variable (rt : GoRuntime)

/-- Every assignment of one scored attempt lists each of its halls once, for a catalog
with unique hall IDs none of which contains `;`. -/
theorem scoreAttempt_listed_nodup (exec : Nat) (coloring : GoMap CourseID Nat)
    (courses : GoMap CourseID Course) (halls : List Hall) (slots : List (Slot rt.Time))
    (graph : ConflictGraph) (minGapMinutes : Int) (penaltyConfig : PenaltyConfig rt)
    (scored : List Assignment × List String × rt.Float64)
    (hids : (halls.map Hall.ID).Nodup) (hsemi : ∀ hall ∈ halls, ';' ∉ hall.ID.data)
    (h : scoreAttempt rt exec coloring courses halls slots graph minGapMinutes penaltyConfig
      = .ok scored) :
    ∀ a ∈ scored.1, (listedHalls a).Nodup := by
  unfold scoreAttempt at h
  obtain ⟨built, hb, h2⟩ := Outcome.bind_eq_ok.1 h
  obtain ⟨allocated, ha, h3⟩ := Outcome.bind_eq_ok.1 h2
  obtain ⟨penalty, _, h4⟩ := Outcome.bind_eq_ok.1 h3
  simp only [Outcome.ok.injEq] at h4
  subst h4
  simp only
  obtain ⟨b1, _⟩ := buildAssignments_spec rt courses slots _ _ _ _ hb (by simp)
    (by intro k ptrs hk; simp [GoMap.get?_empty] at hk)
  refine allocateSlots_listed_nodup rt halls hids hsemi slots _ _ _ ha ?_
  intro a ha'
  rw [listedHalls_of_halls_empty a (b1 a ha')]
  exact List.nodup_nil

/-- C11, amended: for every registrations list without a repeated (student, course) pair,
with the course mapping and the graph derived from it, every hall catalog with unique
hall IDs none of which contains `;`, every slot list with pairwise different slot IDs,
every palette and seed on which `RunSchedulingAttempts` succeeds, and provided the CSV
reader reads the text of `SerializeAssignments` back as the records written:
`VerifySchedule` on the same registrations, that text and the same catalog returns no
error and a report with `Valid = true`, no clash, no error and no unassigned course. -/
theorem C11_own_schedule_verifies (tries : Int) (seed : Int)
    (registrations : List Registration) (halls : List Hall) (slots : List (Slot rt.Time))
    (allowedSlots : GoMap CourseID (GoMap SlotID Bool)) (minGapMinutes : Int)
    (penaltyConfig : PenaltyConfig rt) (result : ScheduleResult rt)
    (h : RunSchedulingAttempts rt tries seed (coursesOfRegistrations registrations) halls slots
      allowedSlots (NewConflictGraph rt (coursesOfRegistrations registrations)) minGapMinutes
      penaltyConfig = .ok result)
    (hregs : registrations.Nodup) (hslots : (slots.map Slot.ID).Nodup)
    (hids : (halls.map Hall.ID).Nodup) (hsemi : ∀ hall ∈ halls, ';' ∉ hall.ID.data)
    (hcsv : ReadsBack rt scheduleHeader (result.Assignments.map assignmentRecord)) :
    (VerifySchedule rt registrations (SerializeAssignments rt result.Assignments) halls).2
        = none ∧
      (VerifySchedule rt registrations (SerializeAssignments rt result.Assignments) halls).1.Valid
        = true ∧
      (VerifySchedule rt registrations (SerializeAssignments rt result.Assignments)
        halls).1.Conflicts = 0 ∧
      (VerifySchedule rt registrations (SerializeAssignments rt result.Assignments)
        halls).1.StudentClashes = [] ∧
      (VerifySchedule rt registrations (SerializeAssignments rt result.Assignments)
        halls).1.Errors = [] ∧
      (VerifySchedule rt registrations (SerializeAssignments rt result.Assignments)
        halls).1.Unassigned = [] := by
  have hP := attemptLoop_ok rt (coursesOfRegistrations registrations) halls slots allowedSlots
    (NewConflictGraph rt (coursesOfRegistrations registrations)) minGapMinutes penaltyConfig
    (fun r =>
      (r.Assignments.map Assignment.CourseID).Perm (coursesOfRegistrations registrations).keys ∧
      r.Assignments.Pairwise
        (fun a b => a.SlotID = b.SlotID → ∀ h ∈ listedHalls a, h ∉ listedHalls b) ∧
      (∀ a ∈ r.Assignments, (listedHalls a).Nodup) ∧
      ∀ a ∈ r.Assignments, ∀ b ∈ r.Assignments, ∀ (cx cy : Course) (s : StudentID),
        (coursesOfRegistrations registrations).get? a.CourseID = some cx →
        (coursesOfRegistrations registrations).get? b.CourseID = some cy →
        a.CourseID ≠ b.CourseID → s ∈ cx.Enrollments → s ∈ cy.Enrollments →
        a.SlotID ≠ b.SlotID)
    (by
      intro i attemptSeed coloring scored hcol hs
      have hperm := rt.sortSlice_perm assignmentLess scored.1
      simp only
      refine ⟨?_, ?_, ?_, ?_⟩
      · obtain ⟨_, hdom, _⟩ := DSATUR_ok_domain rt _ slots allowedSlots attemptSeed coloring hcol
        obtain ⟨hp, hnd⟩ := NewConflictGraph_courses_perm rt (coursesOfRegistrations registrations)
        have hkeys : coloring.keys.Perm
            (NewConflictGraph rt (coursesOfRegistrations registrations)).Courses :=
          (List.perm_ext_iff_of_nodup (List.nodup_dedup _) hnd).2
            (fun c => (GoMap.mem_keys_iff coloring c).trans (hdom c))
        refine (hperm.map _).trans ?_
        rw [scoreAttempt_courses rt i coloring _ halls slots _ minGapMinutes penaltyConfig
          scored hs]
        exact ((rt.rangeOrder_perm 5 i coloring.keys).trans hkeys).trans hp
      · obtain ⟨h1, _⟩ := scoreAttempt_halls rt i coloring _ halls slots _ minGapMinutes
          penaltyConfig scored hids hsemi hs
        refine (List.Perm.pairwise_iff ?_ hperm).2 h1
        intro a b hab hslot h hh hh'
        exact hab hslot.symm h hh' hh
      · intro a ha
        exact scoreAttempt_listed_nodup rt i coloring _ halls slots _ minGapMinutes
          penaltyConfig scored hids hsemi hs a (hperm.subset ha)
      · intro a ha b hb
        exact scoreAttempt_no_shared_slot rt i attemptSeed coloring _ halls slots allowedSlots
          minGapMinutes penaltyConfig scored hslots hcol hs a (hperm.subset ha) b
          (hperm.subset hb))
    _ _ _ none result (by intro b hb; cases hb)
    (RunSchedulingAttempts_ok rt _ _ _ _ _ _ _ _ _ _ h)
  obtain ⟨hcourses, hpw, hnd, hshared⟩ := hP
  have hparse := parseScheduleCSV_serialized rt result.Assignments hcsv
  have hmem := (coursesOfRegistrations_mem registrations GoMap.empty).2
  have hslotOf : ∀ c s, scheduledSlot (result.Assignments.map (reparsed rt)) c = some s →
      ∃ a ∈ result.Assignments, a.CourseID = c ∧ a.SlotID = s := by
    intro c s hs
    obtain ⟨a', ha', h1, h2⟩ := scheduledSlot_some _ c s hs
    obtain ⟨a, ha, haa⟩ := List.mem_map.1 ha'
    subst haa
    exact ⟨a, ha, h1, h2⟩
  have hvalid := verifyAssignments_valid rt registrations
    (result.Assignments.map (reparsed rt)) halls
    (by
      apply clashCount_eq_zero
      · intro r _ e he
        cases he
      · refine List.Pairwise.imp_of_mem ?_ hregs
        intro e r he hr hne hst s hsr hse
        obtain ⟨ar, har, hr1, hr2⟩ := hslotOf _ s hsr
        obtain ⟨ae, hae, he1, he2⟩ := hslotOf _ s hse
        obtain ⟨cr, hcr, hsr'⟩ := hmem r hr
        obtain ⟨ce, hce, hse'⟩ := hmem e he
        have hcne : ae.CourseID ≠ ar.CourseID := by
          rw [he1, hr1]
          intro hc
          apply hne
          cases e
          cases r
          simp only at hst hc
          rw [hst, hc]
        refine hshared ae hae ar har ce cr r.StudentID (by rw [he1]; exact hce)
          (by rw [hr1]; exact hcr) hcne (by rw [← hst]; exact hse') hsr' ?_
        rw [he2, hr2])
    (by
      rw [List.pairwise_map]
      exact hpw)
    (by
      intro a' ha'
      obtain ⟨a, ha, haa⟩ := List.mem_map.1 ha'
      subst haa
      exact hnd a ha)
    (by
      intro reg hreg
      obtain ⟨course, hc, _⟩ := hmem reg hreg
      have hk : reg.CourseID ∈ (coursesOfRegistrations registrations).keys :=
        (GoMap.mem_keys_iff _ _).2 (by
          unfold coursesOfRegistrations
          rw [hc]; simp)
      obtain ⟨a, ha, hac⟩ := List.mem_map.1 (hcourses.symm.subset hk)
      exact ⟨reparsed rt a, List.mem_map_of_mem _ ha, hac⟩)
  unfold VerifySchedule
  rw [hparse]
  exact ⟨rfl, hvalid⟩

/-- C11 fails on a registrations list with a repeated row: for `dupRegistrations` (student
`s1` twice in course `c1`) `RunSchedulingAttempts` succeeds with the schedule
`dupSchedule`, and `VerifySchedule` on the same registrations, the serialized schedule
and the same catalog reports a clash of `s1` and `Valid = false`. -/
theorem C11_counterexample_duplicate_registration :
    assignmentsOf refRuntime (RunSchedulingAttempts refRuntime 1 1
        (coursesOfRegistrations dupRegistrations) threeHalls oneSlot ⟨[]⟩
        (NewConflictGraph refRuntime (coursesOfRegistrations dupRegistrations)) 0 ⟨1, 10⟩)
      = some dupSchedule ∧
    (VerifySchedule refRuntime dupRegistrations (SerializeAssignments refRuntime dupSchedule)
      threeHalls).2 = none ∧
    (VerifySchedule refRuntime dupRegistrations (SerializeAssignments refRuntime dupSchedule)
      threeHalls).1.Valid = false ∧
    (VerifySchedule refRuntime dupRegistrations (SerializeAssignments refRuntime dupSchedule)
      threeHalls).1.Conflicts = 1 ∧
    (VerifySchedule refRuntime dupRegistrations (SerializeAssignments refRuntime dupSchedule)
      threeHalls).1.StudentClashes.length = 1 := by
  decide

/-- C11 on `semiRegistrations`, the catalog `testHalls` and one slot: the schedule that
`RunSchedulingAttempts` returns is read back and verified as valid. -/
theorem C11_own_schedule_verifies_witness :
    semiRegistrations.Nodup ∧ ((oneSlot.map Slot.ID).Nodup) ∧ (testHalls.map Hall.ID).Nodup ∧
      (∀ hall ∈ testHalls, ';' ∉ hall.ID.data) ∧
      ∃ result, RunSchedulingAttempts refRuntime 1 1 (coursesOfRegistrations semiRegistrations)
          testHalls oneSlot ⟨[]⟩
          (NewConflictGraph refRuntime (coursesOfRegistrations semiRegistrations)) 0 ⟨1, 10⟩
          = .ok result ∧
        ReadsBack refRuntime scheduleHeader (result.Assignments.map assignmentRecord) ∧
        (VerifySchedule refRuntime semiRegistrations
          (SerializeAssignments refRuntime result.Assignments) testHalls).2 = none ∧
        (VerifySchedule refRuntime semiRegistrations
          (SerializeAssignments refRuntime result.Assignments) testHalls).1.Valid = true := by
  have hdec : assignmentsOf refRuntime (RunSchedulingAttempts refRuntime 1 1
      (coursesOfRegistrations semiRegistrations) testHalls oneSlot ⟨[]⟩
      (NewConflictGraph refRuntime (coursesOfRegistrations semiRegistrations)) 0 ⟨1, 10⟩)
      = some semiSchedule := by
    decide
  have hread : ReadsBack refRuntime scheduleHeader (semiSchedule.map assignmentRecord) :=
    ⟨by decide, by decide⟩
  refine ⟨by decide, by decide, by decide, by decide, ?_⟩
  cases hr : RunSchedulingAttempts refRuntime 1 1 (coursesOfRegistrations semiRegistrations)
      testHalls oneSlot ⟨[]⟩
      (NewConflictGraph refRuntime (coursesOfRegistrations semiRegistrations)) 0 ⟨1, 10⟩ with
  | ok result =>
    have hcsv : ReadsBack refRuntime scheduleHeader
        (result.Assignments.map assignmentRecord) := by
      rw [hr] at hdec
      have hl : result.Assignments = semiSchedule := by
        simpa [assignmentsOf] using hdec
      rw [hl]
      exact hread
    obtain ⟨h1, h2, _⟩ := C11_own_schedule_verifies refRuntime 1 1 semiRegistrations testHalls
      oneSlot ⟨[]⟩ 0 ⟨1, 10⟩ result hr (by decide) (by decide) (by decide) (by decide) hcsv
    exact ⟨result, rfl, hcsv, h1, h2⟩
  | error msg => rw [hr] at hdec; cases hdec
  | panic => rw [hr] at hdec; cases hdec
  | timeout => rw [hr] at hdec; cases hdec

end OwnScheduleResult

section GraphDegrees

variable (rt : GoRuntime)

theorem countP_flip (p q : Nat → Bool) (x : Nat) (hpx : p x = false) (hqx : q x = true)
    (hne : ∀ j, j ≠ x → q j = p j) :
    ∀ (L : List Nat), L.Nodup → x ∈ L → L.countP q = L.countP p + 1 := by
  intro L
  induction L with
  | nil => intro _ hx; cases hx
  | cons a rest ih =>
    intro hnd hx
    rw [List.nodup_cons] at hnd
    by_cases hax : a = x
    · subst hax
      have hrest : rest.countP q = rest.countP p := by
        apply List.countP_congr
        intro j hj
        have hja : j ≠ a := fun h => hnd.1 (h ▸ hj)
        rw [hne j hja]
      simp [List.countP_cons, hpx, hqx, hrest]
    · have hx' : x ∈ rest := by
        rcases List.mem_cons.1 hx with h | h
        · exact absurd h.symm hax
        · exact h
      have := ih hnd.2 hx'
      simp [List.countP_cons, hne a hax, this]
      omega

theorem vecInc_getD (d : List Int) (c i : Nat) :
    (vecInc d c).getD i 0 = d.getD i 0 + if i = c ∧ c < d.length then 1 else 0 := by
  unfold vecInc
  simp only [List.getD_eq_getElem?_getD, List.getElem?_set]
  by_cases hic : c = i
  · subst hic
    by_cases hlt : c < d.length
    · simp [hlt]
    · simp [hlt, List.getElem?_eq_none (Nat.le_of_not_lt hlt)]
  · have : ¬ i = c := fun h => hic h.symm
    simp [hic, this]

theorem vecInc_length (d : List Int) (c : Nat) : (vecInc d c).length = d.length := by
  unfold vecInc
  simp

/-- One pair of different courses entered in the matrix and the degrees keeps the
invariant. -/
theorem degInv_addConflict (courseIndex : GoMap CourseID Nat) (n : Nat) (a b : CourseID)
    (acc : List (List Int) × List Int)
    (hne : indexOfCourse courseIndex a ≠ indexOfCourse courseIndex b)
    (ha : indexOfCourse courseIndex a < n) (hb : indexOfCourse courseIndex b < n)
    (h : DegInv n acc) : DegInv n (addConflict courseIndex a b acc) := by
  obtain ⟨hmat, hnn, hlen, hdeg⟩ := h
  have hsq1 := square_matInc hmat.square (indexOfCourse courseIndex a)
    (indexOfCourse courseIndex b)
  have hget : ∀ i j, matGet (addConflict courseIndex a b acc).1 i j =
      matGet acc.1 i j + bump n (indexOfCourse courseIndex a) (indexOfCourse courseIndex b) i j
        + bump n (indexOfCourse courseIndex b) (indexOfCourse courseIndex a) i j := by
    intro i j
    rw [addConflict_fst, matGet_matInc hsq1, matGet_matInc hmat.square]
  have hbump : ∀ x y i j, 0 ≤ bump n x y i j := by
    intro x y i j
    unfold bump
    split <;> simp
  refine ⟨?_, ?_, ?_, ?_⟩
  · rw [addConflict_fst]
    exact matInv_addPair hmat _ _ hne
  · intro i j
    rw [hget]
    have := hnn i j
    have := hbump (indexOfCourse courseIndex a) (indexOfCourse courseIndex b) i j
    have := hbump (indexOfCourse courseIndex b) (indexOfCourse courseIndex a) i j
    omega
  · unfold addConflict
    simp only
    split
    · rw [vecInc_length, vecInc_length, hlen]
    · exact hlen
  · intro i hi
    have hsnd : (addConflict courseIndex a b acc).2 =
        if matGet acc.1 (indexOfCourse courseIndex a) (indexOfCourse courseIndex b) = 0 then
          vecInc (vecInc acc.2 (indexOfCourse courseIndex a)) (indexOfCourse courseIndex b)
        else acc.2 := rfl
    rw [hsnd]
    by_cases hz : matGet acc.1 (indexOfCourse courseIndex a) (indexOfCourse courseIndex b) = 0
    · rw [if_pos hz, vecInc_getD, vecInc_getD, vecInc_length, hdeg i hi, hlen]
      have hz' : matGet acc.1 (indexOfCourse courseIndex b) (indexOfCourse courseIndex a) = 0 := by
        rw [hmat.symm]; exact hz
      unfold positiveCount
      by_cases hia : i = indexOfCourse courseIndex a
      · have hib : ¬ i = indexOfCourse courseIndex b := fun h => hne (hia.symm.trans h)
        have := countP_flip (fun j => decide (0 < matGet acc.1 i j))
          (fun j => decide (0 < matGet (addConflict courseIndex a b acc).1 i j))
          (indexOfCourse courseIndex b)
          (by simp only [decide_eq_false_iff_not]; rw [hia, hz]; simp)
          (by
            simp only [decide_eq_true_eq]
            rw [hget, hia, hz]
            unfold bump
            simp [ha, hb, hne])
          (by
            intro j hj
            simp only [hget]
            unfold bump
            simp [hj, hia, hne])
          (List.range n) (List.nodup_range n) (List.mem_range.2 hb)
        rw [this]
        simp [hia, hne, ha, hb]
      · by_cases hib : i = indexOfCourse courseIndex b
        · have := countP_flip (fun j => decide (0 < matGet acc.1 i j))
            (fun j => decide (0 < matGet (addConflict courseIndex a b acc).1 i j))
            (indexOfCourse courseIndex a)
            (by simp only [decide_eq_false_iff_not]; rw [hib, hz']; simp)
            (by
              simp only [decide_eq_true_eq]
              rw [hget, hib, hz']
              unfold bump
              simp [ha, hb, hne, Ne.symm hne])
            (by
              intro j hj
              simp only [hget]
              unfold bump
              simp [hj, hib, Ne.symm hne])
            (List.range n) (List.nodup_range n) (List.mem_range.2 ha)
          rw [this]
          simp [hib, Ne.symm hne, ha, hb]
        · have : (List.range n).countP
              (fun j => decide (0 < matGet (addConflict courseIndex a b acc).1 i j)) =
              (List.range n).countP (fun j => decide (0 < matGet acc.1 i j)) := by
            apply List.countP_congr
            intro j _
            rw [hget]
            unfold bump
            simp [hia, hib]
          rw [this]
          simp [hia, hib]
    · rw [if_neg hz, hdeg i hi]
      have hpos : 0 < matGet acc.1 (indexOfCourse courseIndex a) (indexOfCourse courseIndex b) := by
        have := hnn (indexOfCourse courseIndex a) (indexOfCourse courseIndex b)
        omega
      have hpos' : 0 < matGet acc.1 (indexOfCourse courseIndex b) (indexOfCourse courseIndex a) := by
        rw [hmat.symm]; exact hpos
      unfold positiveCount
      congr 1
      apply List.countP_congr
      intro j _
      rw [hget]
      simp only [decide_eq_true_eq]
      have h1 := hbump (indexOfCourse courseIndex a) (indexOfCourse courseIndex b) i j
      have h2 := hbump (indexOfCourse courseIndex b) (indexOfCourse courseIndex a) i j
      constructor
      · intro h0
        omega
      · intro h0
        by_contra hcon
        have hzero : matGet acc.1 i j = 0 := by have := hnn i j; omega
        have hb1 : bump n (indexOfCourse courseIndex a) (indexOfCourse courseIndex b) i j = 0 := by
          unfold bump
          rw [if_neg]
          rintro ⟨e1, e2, _, _⟩
          rw [e1, e2] at hzero
          omega
        have hb2 : bump n (indexOfCourse courseIndex b) (indexOfCourse courseIndex a) i j = 0 := by
          unfold bump
          rw [if_neg]
          rintro ⟨e1, e2, _, _⟩
          rw [e1, e2] at hzero
          omega
        omega

/-- The inner pair loop keeps the invariant. -/
theorem degInv_conflictsWith (courseIndex : GoMap CourseID Nat) (n : Nat) (a : CourseID)
    (ha : indexOfCourse courseIndex a < n) :
    ∀ (rest : List CourseID) (acc : List (List Int) × List Int),
      (∀ b ∈ rest, indexOfCourse courseIndex a ≠ indexOfCourse courseIndex b ∧
        indexOfCourse courseIndex b < n) →
      DegInv n acc → DegInv n (conflictsWith courseIndex a rest acc) := by
  intro rest
  induction rest with
  | nil => intro acc _ h; exact h
  | cons b rest ih =>
    intro acc hne h
    unfold conflictsWith
    apply ih
    · intro b' hb'
      exact hne b' (List.mem_cons_of_mem _ hb')
    · exact degInv_addConflict courseIndex n a b acc (hne b (List.mem_cons_self _ _)).1 ha
        (hne b (List.mem_cons_self _ _)).2 h

/-- The outer pair loop keeps the invariant. -/
theorem degInv_conflictsAmong (courseIndex : GoMap CourseID Nat) (n : Nat) :
    ∀ (l : List CourseID) (acc : List (List Int) × List Int),
      l.Pairwise (fun a b => indexOfCourse courseIndex a ≠ indexOfCourse courseIndex b) →
      (∀ a ∈ l, indexOfCourse courseIndex a < n) →
      DegInv n acc → DegInv n (conflictsAmong courseIndex l acc) := by
  intro l
  induction l with
  | nil => intro acc _ _ h; exact h
  | cons a rest ih =>
    intro acc hp hlt h
    rw [List.pairwise_cons] at hp
    unfold conflictsAmong
    refine ih _ hp.2 (fun x hx => hlt x (List.mem_cons_of_mem _ hx))
      (degInv_conflictsWith courseIndex n a (hlt a (List.mem_cons_self _ _)) rest acc ?_ h)
    intro b hb
    exact ⟨hp.1 b hb, hlt b (List.mem_cons_of_mem _ hb)⟩

/-- The loop over the students keeps the invariant. -/
theorem degInv_conflictsOfStudents (courseIndex : GoMap CourseID Nat) (n : Nat)
    (courseList : List CourseID) (hlen : courseList.length = n)
    (hidx : ∀ p x, courseList[p]? = some x → courseIndex.get? x = some p) :
    ∀ (entries : List (StudentID × GoMap CourseID Bool)) (exec : Nat)
      (acc : List (List Int) × List Int),
      (∀ e ∈ entries, ∀ c ∈ e.2.keys, c ∈ courseList) →
      DegInv n acc → DegInv n (conflictsOfStudents rt courseIndex exec entries acc) := by
  intro entries
  induction entries with
  | nil => intro exec acc _ h; exact h
  | cons e rest ih =>
    intro exec acc hin h
    obtain ⟨s, set⟩ := e
    unfold conflictsOfStudents
    apply ih
    · intro e' he'
      exact hin e' (List.mem_cons_of_mem _ he')
    · have hperm := rt.rangeOrder_perm 4 exec set.keys
      have hnd' : (rt.rangeOrder 4 exec set.keys).Nodup :=
        hperm.nodup_iff.2 (List.nodup_dedup _)
      apply degInv_conflictsAmong _ _ _ _ _ _ h
      · refine List.Pairwise.imp_of_mem ?_ hnd'
        intro a b ha hb hab
        have ha' := hin (s, set) (List.mem_cons_self _ _) a (hperm.subset ha)
        have hb' := hin (s, set) (List.mem_cons_self _ _) b (hperm.subset hb)
        obtain ⟨p, hp⟩ := List.mem_iff_getElem?.1 ha'
        obtain ⟨q, hq⟩ := List.mem_iff_getElem?.1 hb'
        unfold indexOfCourse
        rw [hidx p a hp, hidx q b hq]
        simp only [Option.getD_some]
        intro hpq
        subst hpq
        rw [hp] at hq
        exact hab (Option.some.inj hq)
      · intro a ha
        have ha' := hin (s, set) (List.mem_cons_self _ _) a (hperm.subset ha)
        obtain ⟨p, hp⟩ := List.mem_iff_getElem?.1 ha'
        unfold indexOfCourse
        rw [hidx p a hp]
        simp only [Option.getD_some]
        rw [← hlen]
        by_contra hcon
        rw [List.getElem?_eq_none (Nat.le_of_not_lt hcon)] at hp
        cases hp

/-- The matrix and the degrees built by `NewConflictGraph` satisfy the invariant of the
pair loops. -/
theorem NewConflictGraph_degInv (courses : GoMap CourseID Course) :
    DegInv courses.len
      ((NewConflictGraph rt courses).AdjMatrix, (NewConflictGraph rt courses).Degrees) := by
  have hnd := (NewConflictGraph_courses_perm rt courses).2
  have hperm := (NewConflictGraph_courses_perm rt courses).1
  unfold NewConflictGraph
  simp only
  apply degInv_conflictsOfStudents rt _ _ (rt.rangeOrder 1 0 courses.keys)
  · rw [(rt.rangeOrder_perm 1 0 courses.keys).length_eq]
    rfl
  · intro p x hp
    have := indexCourses_get?_of_getElem? _ 0 GoMap.empty hnd p x hp
    simpa using this
  · intro e he c hc
    obtain ⟨s, set⟩ := e
    have hget := GoMap.mem_range rt 3 0 _ s set he
    have hsets : SetsWithin (rt.rangeOrder 1 0 courses.keys)
        (buildStudentCourses (GoMap.range rt 2 0 courses) GoMap.empty) := by
      apply setsWithin_buildStudentCourses
      · intro e' he'
        obtain ⟨k, v⟩ := e'
        have hk := GoMap.mem_range rt 2 0 courses k v he'
        apply hperm.symm.subset
        rw [GoMap.mem_keys_iff, hk]
        simp
      · intro s' set' hs'
        simp [GoMap.get?_empty] at hs'
    exact hsets s set hget c ((GoMap.mem_keys_iff set c).1 hc)
  · refine ⟨matInv_replicate _, ?_, by simp, ?_⟩
    · intro i j
      rw [matGet_replicate]
    · intro i hi
      unfold positiveCount
      have : (List.range courses.len).countP
          (fun j => decide (0 < matGet (List.replicate courses.len
            (List.replicate courses.len (0 : Int))) i j)) = 0 := by
        rw [List.countP_eq_zero]
        intro j _
        rw [matGet_replicate]
        simp
      rw [this]
      simp [List.getD_eq_getElem?_getD, List.getElem?_replicate, hi]

/-- The number of courses of the graph is the number of keys of the course map. -/
theorem NewConflictGraph_length (courses : GoMap CourseID Course) :
    (NewConflictGraph rt courses).Courses.length = courses.len :=
  (rt.rangeOrder_perm 1 0 courses.keys).length_eq

end GraphDegrees

section CapacityWarnings

variable (rt : GoRuntime)

/-- The capacity map holds, for each hall ID, the capacity of the last hall of the catalog
with this ID. -/
theorem foldl_hallCapacity_get? (hallID : HallID) :
    ∀ (halls : List Hall) (m : GoMap HallID Int),
      (halls.foldl (fun m h => m.insert h.ID h.Capacity) m).get? hallID =
        match halls.reverse.find? (fun x => decide (x.ID = hallID)) with
        | some x => some x.Capacity
        | none => m.get? hallID := by
  intro halls
  induction halls with
  | nil => intro m; rfl
  | cons x rest ih =>
    intro m
    rw [List.foldl_cons, ih, List.reverse_cons, List.find?_append]
    cases hf : rest.reverse.find? (fun x => decide (x.ID = hallID)) with
    | some y => rfl
    | none =>
      by_cases hx : x.ID = hallID
      · have h1 : List.find? (fun x => decide (x.ID = hallID)) [x] = some x := by
          simp [List.find?_cons, hx]
        rw [h1]
        show (m.insert x.ID x.Capacity).get? hallID = some x.Capacity
        rw [← hx]
        exact GoMap.get?_insert_self _ _ _
      · have h1 : List.find? (fun x => decide (x.ID = hallID)) [x] = none := by
          simp [List.find?_cons, hx]
        rw [h1]
        show (m.insert x.ID x.Capacity).get? hallID = m.get? hallID
        exact GoMap.get?_insert_of_ne _ _ (fun h => hx h.symm)

theorem hallCapacityMap_eq (halls : List Hall) (hallID : HallID) :
    (buildHallCapacityMap halls).get? hallID =
      (halls.reverse.find? (fun x => decide (x.ID = hallID))).map Hall.Capacity := by
  unfold buildHallCapacityMap
  rw [foldl_hallCapacity_get?]
  cases halls.reverse.find? (fun x => decide (x.ID = hallID)) with
  | some y => rfl
  | none => exact GoMap.get?_empty hallID

theorem hallCapacityMap_getD (halls : List Hall) (hallID : HallID) :
    ((buildHallCapacityMap halls).get? hallID).getD 0 = catalogCapacity halls hallID := by
  rw [hallCapacityMap_eq]
  unfold catalogCapacity
  cases halls.reverse.find? (fun x => decide (x.ID = hallID)) <;> rfl

theorem hallCapacityMap_isNone (halls : List Hall) (hallID : HallID) :
    ((buildHallCapacityMap halls).get? hallID).isNone = true ↔ hallID ∉ halls.map Hall.ID := by
  rw [hallCapacityMap_eq]
  cases hf : halls.reverse.find? (fun x => decide (x.ID = hallID)) with
  | some y =>
    have hy := List.mem_of_find?_eq_some hf
    have hid := List.find?_some hf
    simp only [decide_eq_true_eq] at hid
    constructor
    · intro h
      cases h
    · intro h
      exact absurd (List.mem_map.2 ⟨y, List.mem_reverse.1 hy, hid⟩) h
  | none =>
    rw [List.find?_eq_none] at hf
    constructor
    · intro _ hmem
      obtain ⟨x, hx, hid⟩ := List.mem_map.1 hmem
      exact hf x (List.mem_reverse.2 hx) (by simpa using hid)
    · intro _
      rfl

/-- The hall loop of one assignment: the warnings it adds and the capacity it adds up. -/
theorem checkHalls_warnings (hallCapacityMap : GoMap HallID Int) (a : Assignment) :
    ∀ (l : List String) (acc : HallCheck),
      (l.foldl (checkHall hallCapacityMap a) acc).report.CapacityWarnings =
          acc.report.CapacityWarnings ++
            ((l.filter fun h => h ≠ "").filter fun h => (hallCapacityMap.get? h).isNone).map
              (unknownHallMsg a.CourseID) ∧
        (l.foldl (checkHall hallCapacityMap a) acc).totalCapacity =
          (l.filter fun h => h ≠ "").foldl
            (fun total h =>
              match hallCapacityMap.get? h with
              | none => total
              | some capacity => wrapInt64 (total + capacity))
            acc.totalCapacity := by
  intro l
  induction l with
  | nil => intro acc; simp
  | cons h rest ih =>
    intro acc
    rw [List.foldl_cons]
    obtain ⟨ih1, ih2⟩ := ih (checkHall hallCapacityMap a acc h)
    rw [ih1, ih2]
    unfold checkHall
    by_cases he : h = ""
    · simp [he]
    · cases hg : hallCapacityMap.get? h with
      | none => simp [he, hg]
      | some capacity =>
        simp only [he, if_false, hg]
        constructor
        · simp only [List.filter_cons, he, hg, ne_eq, not_false_eq_true, decide_True, if_true,
            Option.isNone_some, Bool.false_eq_true, if_false]
          congr 1
          split <;> rfl
        · simp [he, hg]

/-- The warnings that the body of the assignment loop adds for one assignment. -/
theorem checkAssignment_warnings (hallCapacityMap : GoMap HallID Int)
    (acc : GoMap SlotID (GoMap HallID Int) × ValidationReport) (a : Assignment) :
    (checkAssignment hallCapacityMap acc a).2.CapacityWarnings =
      acc.2.CapacityWarnings ++ capacityWarningsOf hallCapacityMap a := by
  obtain ⟨h1, h2⟩ := checkHalls_warnings hallCapacityMap a (stringsSplit a.Halls ';')
    ⟨0, acc.1, acc.2⟩
  have htot : ((stringsSplit a.Halls ';').foldl (checkHall hallCapacityMap a)
      ⟨0, acc.1, acc.2⟩).totalCapacity = allocatedCapacity hallCapacityMap a := h2
  unfold checkAssignment capacityWarningsOf
  simp only [htot]
  split
  · simp only [h1, List.append_assoc]
    rfl
  · simp only [h1, List.append_nil]
    rfl

theorem checkAssignments_warnings (hallCapacityMap : GoMap HallID Int) :
    ∀ (l : List Assignment) (acc : GoMap SlotID (GoMap HallID Int) × ValidationReport),
      (l.foldl (checkAssignment hallCapacityMap) acc).2.CapacityWarnings =
        acc.2.CapacityWarnings ++ l.flatMap (capacityWarningsOf hallCapacityMap) := by
  intro l
  induction l with
  | nil => intro acc; simp
  | cons a rest ih =>
    intro acc
    rw [List.foldl_cons, ih, checkAssignment_warnings, List.flatMap_cons, List.append_assoc]

theorem checkRegistrations_warnings (assignmentMap : GoMap CourseID Assignment) :
    ∀ (l : List Registration) (acc : GoMap StudentID (GoMap SlotID Bool) × ValidationReport),
      (l.foldl (checkRegistration assignmentMap) acc).2.CapacityWarnings =
        acc.2.CapacityWarnings := by
  intro l
  induction l with
  | nil => intro acc; rfl
  | cons reg rest ih =>
    intro acc
    rw [List.foldl_cons, ih]
    unfold checkRegistration
    split
    · rfl
    · simp only
      split <;> rfl

/-- The capacity warnings of the report: those of the assignments, in the order of the
rows. -/
theorem verifyAssignments_capacityWarnings (registrations : List Registration)
    (assignments : List Assignment) (halls : List Hall) :
    (verifyAssignments rt registrations assignments halls).CapacityWarnings =
      assignments.flatMap (capacityWarningsOf (buildHallCapacityMap halls)) := by
  unfold verifyAssignments
  simp only
  rw [checkAssignments_warnings, checkRegistrations_warnings]
  rfl

/-- The report is valid exactly when it has no clash, no error and no unassigned course;
the capacity warnings play no part. -/
theorem verifyAssignments_valid_iff (registrations : List Registration)
    (assignments : List Assignment) (halls : List Hall) :
    (verifyAssignments rt registrations assignments halls).Valid = true ↔
      (verifyAssignments rt registrations assignments halls).StudentClashes = [] ∧
      (verifyAssignments rt registrations assignments halls).Errors = [] ∧
      (verifyAssignments rt registrations assignments halls).Unassigned = [] := by
  obtain ⟨booked, unassigned, _, hr, _, heq⟩ :=
    verifyAssignments_report rt registrations assignments halls
  simp only [heq]
  have hcl : booked.2.StudentClashes = [] ↔ clashCount assignments [] registrations = 0 := by
    rw [← hr.clashes]
    exact List.length_eq_zero.symm
  cases hu : unassigned with
  | nil =>
    simp only [List.length_nil, gt_iff_lt, lt_self_iff_false, if_false, and_true]
    rw [hr.valid, hcl]
  | cons c rest =>
    simp

/-- Without overflow the capacity added up in a 64-bit `int` is the sum of the catalog
capacities of the listed halls. -/
theorem foldl_capacity_eq (halls : List Hall) :
    ∀ (l : List HallID) (total : Int),
      |total| + (l.map fun h => |catalogCapacity halls h|).sum < 9223372036854775808 →
      l.foldl
          (fun total h =>
            match (buildHallCapacityMap halls).get? h with
            | none => total
            | some capacity => wrapInt64 (total + capacity))
          total =
        total + (l.map (catalogCapacity halls)).sum := by
  intro l
  induction l with
  | nil => intro total _; simp
  | cons h rest ih =>
    intro total hfit
    simp only [List.map_cons, List.sum_cons] at hfit
    have hcap := hallCapacityMap_getD halls h
    rw [List.foldl_cons]
    have hsum : 0 ≤ (rest.map fun h => |catalogCapacity halls h|).sum := by
      apply List.sum_nonneg
      intro x hx
      obtain ⟨y, _, hy⟩ := List.mem_map.1 hx
      rw [← hy]
      exact abs_nonneg _
    have habs := abs_add total (catalogCapacity halls h)
    cases hg : (buildHallCapacityMap halls).get? h with
    | none =>
      rw [hg] at hcap
      simp only [Option.getD_none] at hcap
      simp only [List.map_cons, List.sum_cons, ← hcap, zero_add]
      apply ih
      rw [← hcap] at hfit
      simp only [abs_zero, zero_add] at hfit
      exact hfit
    | some capacity =>
      rw [hg] at hcap
      simp only [Option.getD_some] at hcap
      subst hcap
      simp only [List.map_cons, List.sum_cons]
      have hle1 := le_abs_self (total + catalogCapacity halls h)
      have hle2 := neg_abs_le (total + catalogCapacity halls h)
      have hw : wrapInt64 (total + catalogCapacity halls h) = total + catalogCapacity halls h :=
        wrapInt64_of_fits _ (by omega) (by omega)
      rw [hw, ih (total + catalogCapacity halls h) (by omega)]
      omega

theorem allocatedCapacity_eq (halls : List Hall) (a : Assignment)
    (hfit : listedAbsCapacity halls a < 9223372036854775808) :
    allocatedCapacity (buildHallCapacityMap halls) a = listedCapacity halls a := by
  unfold allocatedCapacity listedCapacity
  rw [foldl_capacity_eq halls (listedHalls a) 0 (by simpa [listedAbsCapacity] using hfit)]
  simp

/-- C28: for every parseable schedule and every hall catalog, the empty one included,
`VerifySchedule` returns a nil error, and the capacity warnings of the report are, row by
row, one unknown-hall warning for each non-empty hall ID listed by the row that no hall of
the catalog has, followed by at most one warning of insufficient capacity; the report is
valid exactly when it has no clash, no error and no unassigned course, whatever warnings
it holds. -/
theorem C28_unknown_hall_warnings (registrations : List Registration)
    (scheduleCSV : String) (halls : List Hall) (assignments : List Assignment)
    (hparse : parseScheduleCSV rt scheduleCSV = .ok assignments) :
    (VerifySchedule rt registrations scheduleCSV halls).2 = none ∧
      (∃ rest : Assignment → List String,
        (∀ a, rest a = [] ∨ ∃ total, rest a = [insufficientMsg a total]) ∧
        (VerifySchedule rt registrations scheduleCSV halls).1.CapacityWarnings =
          assignments.flatMap fun a =>
            (unknownHalls halls a).map (unknownHallMsg a.CourseID) ++ rest a) ∧
      ((VerifySchedule rt registrations scheduleCSV halls).1.Valid = true ↔
        (VerifySchedule rt registrations scheduleCSV halls).1.StudentClashes = [] ∧
        (VerifySchedule rt registrations scheduleCSV halls).1.Errors = [] ∧
        (VerifySchedule rt registrations scheduleCSV halls).1.Unassigned = []) := by
  unfold VerifySchedule
  rw [hparse]
  refine ⟨rfl, ⟨fun a =>
    if allocatedCapacity (buildHallCapacityMap halls) a < a.EnrolledCount then
      [insufficientMsg a (allocatedCapacity (buildHallCapacityMap halls) a)]
    else [], ?_, ?_⟩, verifyAssignments_valid_iff rt registrations assignments halls⟩
  · intro a
    simp only
    split
    · exact Or.inr ⟨_, rfl⟩
    · exact Or.inl rfl
  · simp only
    rw [verifyAssignments_capacityWarnings]
    congr 1
    funext a
    unfold capacityWarningsOf unknownHalls
    congr 2
    apply List.filter_congr
    intro h _
    have := hallCapacityMap_isNone halls h
    by_cases hm : h ∈ halls.map Hall.ID
    · have h1 : ((buildHallCapacityMap halls).get? h).isNone = false := by
        cases hb : ((buildHallCapacityMap halls).get? h).isNone
        · rfl
        · exact absurd hm (this.1 hb)
      rw [h1]
      simp [hm]
    · rw [this.2 hm]
      simp [hm]

/-- C29 fails when the capacities overflow a 64-bit `int`: for the catalog `hugeHalls` of two
halls of capacity `2^62` and a row that lists both for a course of one student, the listed
capacities add up to `2^63`, not less than the enrollment, yet the report holds a warning of
insufficient capacity, with the overflowed total `-2^63`. -/
theorem C29_counterexample_sum_overflow :
    parseScheduleCSV refRuntime twoHallCSV =
        .ok [⟨"c1", "slot1", "2025-01-06T09:00:00Z", "H1;H2", 1, ""⟩] ∧
      listedCapacity hugeHalls ⟨"c1", "slot1", "2025-01-06T09:00:00Z", "H1;H2", 1, ""⟩ =
        9223372036854775808 ∧
      (VerifySchedule refRuntime [⟨"s1", "c1"⟩] twoHallCSV hugeHalls).1.CapacityWarnings =
        ["course c1 has insufficient capacity. Enrolled: 1, " ++
          "Allocated: -9223372036854775808 in halls [H1;H2]"] := by
  decide

/-- C29, amended: for every parseable schedule and hall catalog such that, for each row, the
absolute values of the catalog capacities of the halls it lists add up to less than `2^63`:
the capacity warnings of the report are, row by row, the unknown-hall warnings of the row
followed by the warning of insufficient capacity if and only if the catalog capacities of
the halls the row lists add up to less than its `enrolled_count`, the warning naming that
sum; the report is valid exactly when it has no clash, no error and no unassigned course,
whatever warnings it holds. -/
theorem C29_insufficient_capacity_warning (registrations : List Registration)
    (scheduleCSV : String) (halls : List Hall) (assignments : List Assignment)
    (hparse : parseScheduleCSV rt scheduleCSV = .ok assignments)
    (hfits : ∀ a ∈ assignments, listedAbsCapacity halls a < 9223372036854775808) :
    (∃ unknown : Assignment → List String,
        (∀ a, ∀ w ∈ unknown a, ∃ h, w = unknownHallMsg a.CourseID h) ∧
        (VerifySchedule rt registrations scheduleCSV halls).1.CapacityWarnings =
          assignments.flatMap fun a =>
            unknown a ++
              if listedCapacity halls a < a.EnrolledCount then
                [insufficientMsg a (listedCapacity halls a)]
              else []) ∧
      ((VerifySchedule rt registrations scheduleCSV halls).1.Valid = true ↔
        (VerifySchedule rt registrations scheduleCSV halls).1.StudentClashes = [] ∧
        (VerifySchedule rt registrations scheduleCSV halls).1.Errors = [] ∧
        (VerifySchedule rt registrations scheduleCSV halls).1.Unassigned = []) := by
  unfold VerifySchedule
  rw [hparse]
  refine ⟨⟨fun a => ((listedHalls a).filter fun h =>
      ((buildHallCapacityMap halls).get? h).isNone).map (unknownHallMsg a.CourseID), ?_, ?_⟩,
    verifyAssignments_valid_iff rt registrations assignments halls⟩
  · intro a w hw
    obtain ⟨h, _, hh⟩ := List.mem_map.1 hw
    exact ⟨h, hh.symm⟩
  · simp only
    rw [verifyAssignments_capacityWarnings]
    have hflat : ∀ (l : List Assignment) (f g : Assignment → List String),
        (∀ a ∈ l, f a = g a) → l.flatMap f = l.flatMap g := by
      intro l f g hfg
      induction l with
      | nil => rfl
      | cons x rest ih =>
        rw [List.flatMap_cons, List.flatMap_cons, hfg x (List.mem_cons_self _ _),
          ih (fun a ha => hfg a (List.mem_cons_of_mem _ ha))]
    apply hflat
    intro a ha
    unfold capacityWarningsOf
    rw [allocatedCapacity_eq halls a (hfits a ha)]

/-- C30: `VerifySchedule` returns a non-nil error exactly when `parseScheduleCSV` fails, that
is when the header cannot be read, a required column is missing from the header, or the
rows cannot be read; the error returned is the parse error, and the report then has
`Valid = false` and the single entry of `Errors` that quotes it.  For every parseable
schedule the error is nil and the report is that of the checks. -/
theorem C30_error_only_on_parse_failure (registrations : List Registration)
    (scheduleCSV : String) (halls : List Hall) :
    ((∃ err, (VerifySchedule rt registrations scheduleCSV halls).2 = some err) ↔
        ∃ err, parseScheduleCSV rt scheduleCSV = .error err) ∧
      ((∃ err, parseScheduleCSV rt scheduleCSV = .error err) ↔
        (∃ err, rt.csvReadHeader scheduleCSV = .error err) ∨
        (∃ header, rt.csvReadHeader scheduleCSV = .ok header ∧
          ∃ h ∈ expectedHeaders, h ∉ header) ∨
        (∃ err, rt.csvReadRest scheduleCSV = .error err)) ∧
      (∀ err, parseScheduleCSV rt scheduleCSV = .error err →
        VerifySchedule rt registrations scheduleCSV halls =
          (⟨false, 0, [], [], ["error parsing schedule CSV: " ++ err], []⟩, some err)) ∧
      (∀ assignments, parseScheduleCSV rt scheduleCSV = .ok assignments →
        VerifySchedule rt registrations scheduleCSV halls =
          (verifyAssignments rt registrations assignments halls, none)) := by
  have hmiss : ∀ (header l : List String),
      (∃ h, missingHeader header l = some h) ↔ ∃ h ∈ l, h ∉ header := by
    intro header l
    induction l with
    | nil => simp [missingHeader]
    | cons x rest ih =>
      unfold missingHeader
      by_cases hx : x ∈ header
      · rw [if_pos hx, ih]
        constructor
        · rintro ⟨h, hh, hn⟩
          exact ⟨h, List.mem_cons_of_mem _ hh, hn⟩
        · rintro ⟨h, hh, hn⟩
          rcases List.mem_cons.1 hh with e | e
          · exact absurd (e ▸ hx) hn
          · exact ⟨h, e, hn⟩
      · rw [if_neg hx]
        exact ⟨fun _ => ⟨x, List.mem_cons_self _ _, hx⟩, fun _ => ⟨x, rfl⟩⟩
  refine ⟨?_, ?_, ?_, ?_⟩
  · unfold VerifySchedule
    cases hp : parseScheduleCSV rt scheduleCSV with
    | error err => simp
    | ok assignments => simp
  · unfold parseScheduleCSV
    cases hh : rt.csvReadHeader scheduleCSV with
    | error err =>
      simp only
      exact ⟨fun _ => Or.inl ⟨err, rfl⟩, fun _ => ⟨err, rfl⟩⟩
    | ok header =>
      simp only
      cases hm : missingHeader header expectedHeaders with
      | some h =>
        have := (hmiss header expectedHeaders).1 ⟨h, hm⟩
        simp only
        constructor
        · intro _
          exact Or.inr (Or.inl ⟨header, rfl, this⟩)
        · intro _
          exact ⟨_, rfl⟩
      | none =>
        have hno : ¬ ∃ h ∈ expectedHeaders, h ∉ header := by
          intro hex
          obtain ⟨h, hh'⟩ := (hmiss header expectedHeaders).2 hex
          rw [hm] at hh'
          cases hh'
        simp only
        cases hr : rt.csvReadRest scheduleCSV with
        | error err =>
          simp only
          constructor
          · intro _
            exact Or.inr (Or.inr ⟨err, rfl⟩)
          · intro _
            exact ⟨_, rfl⟩
        | ok records =>
          simp only
          constructor
          · rintro ⟨err, he⟩
            cases he
          · rintro (⟨err, he⟩ | ⟨hd, he, hex⟩ | ⟨err, he⟩)
            · cases he
            · cases he
              exact absurd hex hno
            · cases he
  · intro err hp
    unfold VerifySchedule
    rw [hp]
  · intro assignments hp
    unfold VerifySchedule
    rw [hp]

/-- C28 on the schedule `unknownHallCSV` with the catalog `testHalls`, which has no hall
`H9`, and with the empty catalog. -/
theorem C28_unknown_hall_warnings_witness :
    parseScheduleCSV refRuntime unknownHallCSV =
        .ok [⟨"c1", "slot1", "2025-01-06T09:00:00Z", "H1;H9", 6, ""⟩,
          ⟨"c2", "slot2", "2025-01-06T14:00:00Z", "H2", 1, ""⟩] ∧
      (VerifySchedule refRuntime [⟨"s1", "c1"⟩] unknownHallCSV testHalls).1.CapacityWarnings =
        ["course c1 assigned to unknown hall H9",
          "course c1 has insufficient capacity. Enrolled: 6, Allocated: 5 in halls [H1;H9]"] ∧
      (VerifySchedule refRuntime [⟨"s1", "c1"⟩] unknownHallCSV testHalls).1.Valid = true ∧
      (VerifySchedule refRuntime [⟨"s1", "c1"⟩] unknownHallCSV []).2 = none ∧
      ∃ rest : Assignment → List String,
        (∀ a, rest a = [] ∨ ∃ total, rest a = [insufficientMsg a total]) ∧
        (VerifySchedule refRuntime [⟨"s1", "c1"⟩] unknownHallCSV []).1.CapacityWarnings =
          ([⟨"c1", "slot1", "2025-01-06T09:00:00Z", "H1;H9", 6, ""⟩,
            ⟨"c2", "slot2", "2025-01-06T14:00:00Z", "H2", 1, ""⟩] : List Assignment).flatMap
            fun a => (unknownHalls [] a).map (unknownHallMsg a.CourseID) ++ rest a :=
  ⟨by decide, by decide, by decide,
    (C28_unknown_hall_warnings refRuntime [⟨"s1", "c1"⟩] unknownHallCSV []
      [⟨"c1", "slot1", "2025-01-06T09:00:00Z", "H1;H9", 6, ""⟩,
        ⟨"c2", "slot2", "2025-01-06T14:00:00Z", "H2", 1, ""⟩] (by decide)).1,
    (C28_unknown_hall_warnings refRuntime [⟨"s1", "c1"⟩] unknownHallCSV []
      [⟨"c1", "slot1", "2025-01-06T09:00:00Z", "H1;H9", 6, ""⟩,
        ⟨"c2", "slot2", "2025-01-06T14:00:00Z", "H2", 1, ""⟩] (by decide)).2.1⟩

/-- C29, amended, on the schedule `unknownHallCSV` with the catalog `testHalls`: course `c1`
of 6 students lists `H1` of capacity 5 and the unknown `H9`. -/
theorem C29_insufficient_capacity_warning_witness :
    parseScheduleCSV refRuntime unknownHallCSV =
        .ok [⟨"c1", "slot1", "2025-01-06T09:00:00Z", "H1;H9", 6, ""⟩,
          ⟨"c2", "slot2", "2025-01-06T14:00:00Z", "H2", 1, ""⟩] ∧
      (∀ a ∈ ([⟨"c1", "slot1", "2025-01-06T09:00:00Z", "H1;H9", 6, ""⟩,
          ⟨"c2", "slot2", "2025-01-06T14:00:00Z", "H2", 1, ""⟩] : List Assignment),
        listedAbsCapacity testHalls a < 9223372036854775808) ∧
      listedCapacity testHalls ⟨"c1", "slot1", "2025-01-06T09:00:00Z", "H1;H9", 6, ""⟩ = 5 ∧
      listedCapacity testHalls ⟨"c2", "slot2", "2025-01-06T14:00:00Z", "H2", 1, ""⟩ = 2 ∧
      ∃ unknown : Assignment → List String,
        (∀ a, ∀ w ∈ unknown a, ∃ h, w = unknownHallMsg a.CourseID h) ∧
        (VerifySchedule refRuntime [⟨"s1", "c1"⟩] unknownHallCSV testHalls).1.CapacityWarnings =
          ([⟨"c1", "slot1", "2025-01-06T09:00:00Z", "H1;H9", 6, ""⟩,
            ⟨"c2", "slot2", "2025-01-06T14:00:00Z", "H2", 1, ""⟩] : List Assignment).flatMap
            fun a =>
              unknown a ++
                if listedCapacity testHalls a < a.EnrolledCount then
                  [insufficientMsg a (listedCapacity testHalls a)]
                else [] :=
  ⟨by decide, by decide, by decide, by decide,
    (C29_insufficient_capacity_warning refRuntime [⟨"s1", "c1"⟩] unknownHallCSV testHalls
      [⟨"c1", "slot1", "2025-01-06T09:00:00Z", "H1;H9", 6, ""⟩,
        ⟨"c2", "slot2", "2025-01-06T14:00:00Z", "H2", 1, ""⟩] (by decide) (by decide)).1⟩

end CapacityWarnings

section SortedResult

variable (rt : GoRuntime)

theorem charsLess_total : ∀ (a b : List Char), charsLess a b = false → charsLess b a = false →
    a = b := by
  intro a
  induction a with
  | nil =>
    intro b h1 _
    cases b with
    | nil => rfl
    | cons y ys => simp [charsLess] at h1
  | cons x xs ih =>
    intro b h1 h2
    cases b with
    | nil => simp [charsLess] at h2
    | cons y ys =>
      unfold charsLess at h1 h2
      by_cases hxy : x.toNat < y.toNat
      · simp [hxy] at h1
      · by_cases hyx : y.toNat < x.toNat
        · simp [hyx] at h2
        · simp only [hxy, hyx, if_false] at h1 h2
          have heq : x.toNat = y.toNat := by omega
          have hc : x = y := by
            have := congrArg Char.ofNat heq
            rwa [Char.ofNat_toNat, Char.ofNat_toNat] at this
          rw [hc, ih ys h1 h2]

theorem stringLess_total (a b : String) (h1 : stringLess a b = false)
    (h2 : stringLess b a = false) : a = b := by
  have := charsLess_total a.data b.data h1 h2
  cases a
  cases b
  simp only at this
  rw [this]

theorem stringLess_irrefl (a : String) : stringLess a a = false := by
  cases h : stringLess a a
  · rfl
  · have := charsLess_asymm a.data a.data h
    unfold stringLess at h
    rw [h] at this
    cases this

theorem assignmentLess_asymm (a b : Assignment) (h : assignmentLess a b = true) :
    assignmentLess b a = false := by
  unfold assignmentLess at h ⊢
  by_cases hd : a.SlotDateTime = b.SlotDateTime
  · have hd' : ¬ b.SlotDateTime ≠ a.SlotDateTime := fun hne => hne hd.symm
    have hd'' : ¬ a.SlotDateTime ≠ b.SlotDateTime := fun hne => hne hd
    rw [if_neg hd''] at h
    rw [if_neg hd']
    exact charsLess_asymm _ _ h
  · have hd' : b.SlotDateTime ≠ a.SlotDateTime := fun he => hd he.symm
    rw [if_pos hd] at h
    rw [if_pos hd']
    exact charsLess_asymm _ _ h

theorem assignmentLess_negTrans (a b c : Assignment) (h1 : assignmentLess a b = false)
    (h2 : assignmentLess b c = false) : assignmentLess a c = false := by
  unfold assignmentLess at h1 h2 ⊢
  by_cases hab : a.SlotDateTime = b.SlotDateTime
  · rw [if_neg (fun hne => hne hab)] at h1
    by_cases hbc : b.SlotDateTime = c.SlotDateTime
    · rw [if_neg (fun hne => hne hbc)] at h2
      rw [if_neg (fun hne => hne (hab.trans hbc))]
      exact charsLess_negTrans _ _ _ h1 h2
    · rw [if_pos hbc] at h2
      have hac : a.SlotDateTime ≠ c.SlotDateTime := fun he => hbc (hab ▸ he)
      rw [if_pos hac, hab]
      exact h2
  · rw [if_pos hab] at h1
    by_cases hbc : b.SlotDateTime = c.SlotDateTime
    · have hac : a.SlotDateTime ≠ c.SlotDateTime := fun he => hab (he.trans hbc.symm)
      rw [if_pos hac, ← hbc]
      exact h1
    · rw [if_pos hbc] at h2
      have h3 : stringLess a.SlotDateTime c.SlotDateTime = false :=
        charsLess_negTrans _ _ _ h1 h2
      by_cases hac : a.SlotDateTime = c.SlotDateTime
      · exfalso
        rw [hac] at h1
        exact hbc (stringLess_total _ _ h2 h1)
      · rw [if_pos hac]
        exact h3

/-- An assignment that is not less than an earlier one with another course comes after it
in the order of the result. -/
theorem sortedBefore_of_not_less (a b : Assignment) (hne : a.CourseID ≠ b.CourseID)
    (h : assignmentLess b a = false) : SortedBefore a b := by
  unfold assignmentLess at h
  unfold SortedBefore
  by_cases hd : b.SlotDateTime = a.SlotDateTime
  · rw [if_neg (fun hn => hn hd)] at h
    refine Or.inr ⟨hd.symm, ?_⟩
    cases hl : stringLess a.CourseID b.CourseID
    · exact absurd (stringLess_total _ _ hl h) hne
    · rfl
  · rw [if_pos hd] at h
    refine Or.inl ?_
    cases hl : stringLess a.SlotDateTime b.SlotDateTime
    · exact absurd (stringLess_total _ _ h hl) hd
    · rfl

/-- Every assignment object created from a coloring carries the ID of a slot of the slot
list and the RFC 3339 text of the start of that slot. -/
theorem buildAssignments_datetime (courses : GoMap CourseID Course)
    (slots : List (Slot rt.Time)) :
    ∀ (entries : List (CourseID × Nat)) (objects : List Assignment)
      (bySlot : GoMap Nat (List Nat)) (r : List Assignment × GoMap Nat (List Nat)),
      buildAssignments rt courses slots entries objects bySlot = .ok r →
      (∀ a ∈ objects, ∃ slot ∈ slots, a.SlotID = slot.ID ∧
        a.SlotDateTime = rt.formatRFC3339 slot.Start) →
      ∀ a ∈ r.1, ∃ slot ∈ slots, a.SlotID = slot.ID ∧
        a.SlotDateTime = rt.formatRFC3339 slot.Start := by
  intro entries
  induction entries with
  | nil =>
    intro objects bySlot r h hobj
    simp only [buildAssignments, Outcome.ok.injEq] at h
    subst h
    exact hobj
  | cons e rest ih =>
    intro objects bySlot r h hobj
    obtain ⟨courseID, slotIdx⟩ := e
    unfold buildAssignments at h
    split at h
    · simp at h
    · next slot hslot =>
      split at h
      · simp at h
      · next course _ =>
        refine ih _ _ _ h ?_
        intro a ha
        rcases List.mem_append.1 ha with ha | ha
        · exact hobj a ha
        · simp only [List.mem_singleton] at ha
          subst ha
          exact ⟨slot, List.getElem?_mem hslot, rfl, rfl⟩

/-- The assignments of one scored attempt carry the RFC 3339 text of the start of their
slot. -/
theorem scoreAttempt_datetime (exec : Nat) (coloring : GoMap CourseID Nat)
    (courses : GoMap CourseID Course) (halls : List Hall) (slots : List (Slot rt.Time))
    (graph : ConflictGraph) (minGapMinutes : Int) (penaltyConfig : PenaltyConfig rt)
    (scored : List Assignment × List String × rt.Float64)
    (h : scoreAttempt rt exec coloring courses halls slots graph minGapMinutes penaltyConfig
      = .ok scored) :
    ∀ a ∈ scored.1, ∃ slot ∈ slots, a.SlotID = slot.ID ∧
      a.SlotDateTime = rt.formatRFC3339 slot.Start := by
  unfold scoreAttempt at h
  obtain ⟨built, hb, h2⟩ := Outcome.bind_eq_ok.1 h
  obtain ⟨allocated, ha, h3⟩ := Outcome.bind_eq_ok.1 h2
  obtain ⟨penalty, _, h4⟩ := Outcome.bind_eq_ok.1 h3
  simp only [Outcome.ok.injEq] at h4
  subst h4
  simp only
  have hbuilt := buildAssignments_datetime rt courses slots _ _ _ _ hb (by simp)
  have hmap := allocateSlots_map rt (fun a => (a.SlotID, a.SlotDateTime))
    (by
      intro alloc a
      unfold writeHalls
      split <;> rfl)
    halls slots _ _ _ ha
  intro a ha'
  have hmem : (a.SlotID, a.SlotDateTime) ∈
      allocated.objects.map fun a => (a.SlotID, a.SlotDateTime) :=
    List.mem_map.2 ⟨a, ha', rfl⟩
  rw [hmap] at hmem
  obtain ⟨b, hb', hab⟩ := List.mem_map.1 hmem
  simp only [Prod.mk.injEq] at hab
  obtain ⟨slot, hs, h1, h2'⟩ := hbuilt b hb'
  exact ⟨slot, hs, by rw [← hab.1]; exact h1, by rw [← hab.2]; exact h2'⟩

/-- C25: in every successful result of `RunSchedulingAttempts` each assignment carries the
RFC 3339 text of the start of its slot as `slot_datetime`, and of two assignments of the
list the earlier one has the smaller `slot_datetime` or, with the same `slot_datetime`,
the smaller `course_id` (the strings compared as Go compares them). -/
theorem C25_assignments_sorted (tries : Int) (seed : Int) (courses : GoMap CourseID Course)
    (halls : List Hall) (slots : List (Slot rt.Time))
    (allowedSlots : GoMap CourseID (GoMap SlotID Bool)) (graph : ConflictGraph)
    (minGapMinutes : Int) (penaltyConfig : PenaltyConfig rt) (result : ScheduleResult rt)
    (h : RunSchedulingAttempts rt tries seed courses halls slots allowedSlots graph
      minGapMinutes penaltyConfig = .ok result) :
    result.Assignments.Pairwise SortedBefore ∧
      ∀ a ∈ result.Assignments, ∃ slot ∈ slots, a.SlotID = slot.ID ∧
        a.SlotDateTime = rt.formatRFC3339 slot.Start := by
  refine attemptLoop_ok rt courses halls slots allowedSlots graph minGapMinutes penaltyConfig
    (fun r => r.Assignments.Pairwise SortedBefore ∧
      ∀ a ∈ r.Assignments, ∃ slot ∈ slots, a.SlotID = slot.ID ∧
        a.SlotDateTime = rt.formatRFC3339 slot.Start)
    ?_ _ _ _ none result (by intro b hb; cases hb)
    (RunSchedulingAttempts_ok rt _ _ _ _ _ _ _ _ _ _ h)
  intro i attemptSeed coloring scored hcol hs
  have hperm := rt.sortSlice_perm assignmentLess scored.1
  simp only
  constructor
  · have hsorted := rt.sortSlice_sorted assignmentLess scored.1 assignmentLess_asymm
      assignmentLess_negTrans
    obtain ⟨hkn, _, _⟩ := DSATUR_ok_domain rt graph slots allowedSlots attemptSeed coloring hcol
    have hnd : ((rt.sortSlice assignmentLess scored.1).map Assignment.CourseID).Nodup := by
      refine (hperm.map _).nodup_iff.2 ?_
      rw [scoreAttempt_courses rt i coloring courses halls slots graph minGapMinutes
        penaltyConfig scored hs]
      exact (rt.rangeOrder_perm 5 i coloring.keys).nodup_iff.2 (List.nodup_dedup _)
    have hne : (rt.sortSlice assignmentLess scored.1).Pairwise
        (fun a b => a.CourseID ≠ b.CourseID) := by
      rw [List.Nodup, List.pairwise_map] at hnd
      exact hnd
    exact (hne.and hsorted).imp (fun {a b} hab => sortedBefore_of_not_less a b hab.1 hab.2)
  · intro a ha
    exact scoreAttempt_datetime rt i coloring courses halls slots graph minGapMinutes
      penaltyConfig scored hs a (hperm.subset ha)

/-- C25 on the courses `starCourses` with two slots: the result lists course `a` of the
first slot before the courses `b` and `c` of the second slot. -/
theorem C25_assignments_sorted_witness :
    assignmentsOf refRuntime (RunSchedulingAttempts refRuntime 1 5 starCourses testHalls twoSlots
        ⟨[]⟩ (NewConflictGraph refRuntime starCourses) 0 ⟨1, 10⟩) =
      some [⟨"a", "2025-01-06T09:00Z#1", "2025-01-06T09:00:00Z", "H2", 2, ""⟩,
        ⟨"b", "2025-01-06T14:00Z#2", "2025-01-06T14:00:00Z", "H2", 1, ""⟩,
        ⟨"c", "2025-01-06T14:00Z#2", "2025-01-06T14:00:00Z", "H1", 1, ""⟩] ∧
      ∃ result, RunSchedulingAttempts refRuntime 1 5 starCourses testHalls twoSlots
          ⟨[]⟩ (NewConflictGraph refRuntime starCourses) 0 ⟨1, 10⟩ = .ok result ∧
        result.Assignments.Pairwise SortedBefore := by
  refine ⟨by decide, ?_⟩
  have hdec : assignmentsOf refRuntime (RunSchedulingAttempts refRuntime 1 5 starCourses
      testHalls twoSlots ⟨[]⟩ (NewConflictGraph refRuntime starCourses) 0 ⟨1, 10⟩) ≠ none := by
    decide
  cases hr : RunSchedulingAttempts refRuntime 1 5 starCourses testHalls twoSlots
      ⟨[]⟩ (NewConflictGraph refRuntime starCourses) 0 ⟨1, 10⟩ with
  | ok result =>
    exact ⟨result, rfl, (C25_assignments_sorted refRuntime 1 5 starCourses testHalls twoSlots
      ⟨[]⟩ (NewConflictGraph refRuntime starCourses) 0 ⟨1, 10⟩ result hr).1⟩
  | error msg => rw [hr] at hdec; exact absurd rfl hdec
  | panic => rw [hr] at hdec; exact absurd rfl hdec
  | timeout => rw [hr] at hdec; exact absurd rfl hdec

end SortedResult

section PenaltyTerms

variable (rt : GoRuntime)

/-- The body of the pair loop adds the proximity term and then the gap term, when neither
the negation of the difference nor the minimum gap in nanoseconds overflows. -/
theorem pairPenalty_eq (minGapMinutes : Int) (config : PenaltyConfig rt) (a b : rt.Time)
    (total : rt.Float64) (hgap : minGapMinutes * 60000000000 < 9223372036854775808)
    (hsub : -9223372036854775808 < rt.timeSub a b) :
    pairPenalty rt minGapMinutes config a b total =
      (proximityTerm rt config a b ++ minGapTerm rt minGapMinutes config a b).foldl rt.fadd
        total := by
  have habs : (if rt.timeSub a b < 0 then wrapInt64 (-(rt.timeSub a b)) else rt.timeSub a b) =
      |rt.timeSub a b| := by
    by_cases hneg : rt.timeSub a b < 0
    · rw [if_pos hneg, abs_of_neg hneg]
      unfold wrapInt64
      omega
    · rw [if_neg hneg, abs_of_nonneg (by omega)]
  unfold pairPenalty proximityTerm minGapTerm
  simp only [habs]
  by_cases hpos : 0 < minGapMinutes
  · have hw : wrapInt64 (minGapMinutes * 60000000000) = minGapMinutes * 60000000000 :=
      wrapInt64_of_fits _ (by omega) hgap
    rw [hw]
    by_cases hday : rt.timeDay a = rt.timeDay b
    · by_cases hlt : |rt.timeSub a b| < minGapMinutes * 60000000000
      · simp [hpos, hday, hlt]
      · simp [hpos, hday, hlt]
    · by_cases hlt : |rt.timeSub a b| < minGapMinutes * 60000000000
      · simp [hpos, hday, hlt]
      · simp [hpos, hday, hlt]
  · have hng : ¬ minGapMinutes > 0 := hpos
    by_cases hday : rt.timeDay a = rt.timeDay b
    · simp [hpos, hng, hday]
    · simp [hpos, hng, hday]

theorem penaltyWith_eq (minGapMinutes : Int) (config : PenaltyConfig rt) (a : rt.Time)
    (hgap : minGapMinutes * 60000000000 < 9223372036854775808) :
    ∀ (rest : List rt.Time) (total : rt.Float64),
      (∀ b ∈ rest, -9223372036854775808 < rt.timeSub a b) →
      penaltyWith rt minGapMinutes config a rest total =
        ((rest.map fun b => (a, b)).flatMap fun p =>
          proximityTerm rt config p.1 p.2 ++ minGapTerm rt minGapMinutes config p.1 p.2).foldl
          rt.fadd total := by
  intro rest
  induction rest with
  | nil => intro total _; rfl
  | cons b rest ih =>
    intro total hsub
    unfold penaltyWith
    rw [ih _ (fun x hx => hsub x (List.mem_cons_of_mem _ hx)),
      pairPenalty_eq rt minGapMinutes config a b total hgap (hsub b (List.mem_cons_self _ _))]
    simp only [List.map_cons, List.flatMap_cons, List.foldl_append]

theorem penaltyAmong_eq (minGapMinutes : Int) (config : PenaltyConfig rt)
    (hgap : minGapMinutes * 60000000000 < 9223372036854775808) :
    ∀ (exams : List rt.Time) (total : rt.Float64),
      (∀ a ∈ exams, ∀ b ∈ exams, -9223372036854775808 < rt.timeSub a b) →
      penaltyAmong rt minGapMinutes config exams total =
        (penaltyTerms rt minGapMinutes config exams).foldl rt.fadd total := by
  intro exams
  induction exams with
  | nil => intro total _; rfl
  | cons a rest ih =>
    intro total hsub
    unfold penaltyAmong
    rw [ih _ (fun x hx y hy => hsub x (List.mem_cons_of_mem _ hx) y (List.mem_cons_of_mem _ hy)),
      penaltyWith_eq rt minGapMinutes config a hgap rest total
        (fun b hb => hsub a (List.mem_cons_self _ _) b (List.mem_cons_of_mem _ hb))]
    unfold penaltyTerms
    simp only [orderedPairs, List.flatMap_append, List.foldl_append]

theorem penaltyTerms_of_length_le (minGapMinutes : Int) (config : PenaltyConfig rt)
    (exams : List rt.Time) (h : ¬ exams.length > 1) :
    penaltyTerms rt minGapMinutes config exams = [] := by
  match exams with
  | [] => rfl
  | [a] => rfl
  | a :: b :: rest => simp at h

/-- The exams that the enrollments of one course add for a student. -/
theorem foldl_enrollments_get? (start : rt.Time) (s : StudentID) :
    ∀ (enrollments : List StudentID) (m : GoMap StudentID (List rt.Time)),
      ((enrollments.foldl
          (fun m studentID => m.insert studentID ((m.get? studentID).getD [] ++ [start]))
          m).get? s).getD [] =
        (m.get? s).getD [] ++ (enrollments.filter fun x => x = s).map (fun _ => start) ∧
      ((enrollments.foldl
          (fun m studentID => m.insert studentID ((m.get? studentID).getD [] ++ [start]))
          m).get? s ≠ none ↔ m.get? s ≠ none ∨ s ∈ enrollments) := by
  intro enrollments
  induction enrollments with
  | nil => intro m; simp
  | cons x rest ih =>
    intro m
    rw [List.foldl_cons]
    obtain ⟨ih1, ih2⟩ := ih (m.insert x ((m.get? x).getD [] ++ [start]))
    rw [ih1, ih2]
    by_cases hx : x = s
    · subst hx
      rw [GoMap.get?_insert_self]
      simp
    · have hx' : s ≠ x := fun h => hx h.symm
      rw [GoMap.get?_insert_of_ne _ _ hx']
      simp [hx, hx']

/-- The map of exam starts gathered by `collectExams`. -/
theorem collectExams_spec (courses : GoMap CourseID Course) (slots : List (Slot rt.Time))
    (s : StudentID) :
    ∀ (visited : List (CourseID × Nat)) (m0 m : GoMap StudentID (List rt.Time)),
      collectExams rt courses slots visited m0 = .ok m →
      (m.get? s).getD [] = (m0.get? s).getD [] ++ examStarts rt courses slots visited s ∧
      (m.get? s ≠ none ↔ m0.get? s ≠ none ∨ examStarts rt courses slots visited s ≠ []) := by
  intro visited
  induction visited with
  | nil =>
    intro m0 m h
    simp only [collectExams, Outcome.ok.injEq] at h
    subst h
    simp [examStarts]
  | cons e rest ih =>
    intro m0 m h
    obtain ⟨courseID, slotIdx⟩ := e
    unfold collectExams at h
    split at h
    · simp at h
    · next slot hslot =>
      split at h
      · simp at h
      · next course hcourse =>
        obtain ⟨ih1, ih2⟩ := ih _ _ h
        obtain ⟨f1, f2⟩ := foldl_enrollments_get? rt slot.Start s course.Enrollments m0
        have hhead : examStarts rt courses slots ((courseID, slotIdx) :: rest) s =
            (course.Enrollments.filter fun x => x = s).map (fun _ => slot.Start) ++
              examStarts rt courses slots rest s := by
          unfold examStarts
          rw [List.flatMap_cons]
          simp only [hslot, hcourse]
        rw [ih1, ih2, f1, f2, hhead]
        constructor
        · rw [List.append_assoc]
        · have hmem : s ∈ course.Enrollments ↔
              (course.Enrollments.filter fun x => x = s).map (fun _ => slot.Start) ≠ [] := by
            rw [Ne, List.map_eq_nil_iff, List.filter_eq_nil_iff]
            constructor
            · intro hs hall
              exact absurd (by simp) (hall s hs)
            · intro hall
              by_contra hs
              apply hall
              intro x hx hxs
              simp only [decide_eq_true_eq] at hxs
              exact hs (hxs ▸ hx)
          rw [hmem]
          simp only [ne_eq, List.append_eq_nil, not_and_or]
          tauto

theorem collectExams_ok (courses : GoMap CourseID Course) (slots : List (Slot rt.Time)) :
    ∀ (visited : List (CourseID × Nat)) (m0 : GoMap StudentID (List rt.Time)),
      (∀ e ∈ visited, e.2 < slots.length ∧ courses.get? e.1 ≠ none) →
      ∃ m, collectExams rt courses slots visited m0 = .ok m := by
  intro visited
  induction visited with
  | nil => intro m0 _; exact ⟨m0, rfl⟩
  | cons e rest ih =>
    intro m0 hdom
    obtain ⟨courseID, slotIdx⟩ := e
    obtain ⟨h1, h2⟩ := hdom (courseID, slotIdx) (List.mem_cons_self _ _)
    unfold collectExams
    rw [List.getElem?_eq_getElem h1]
    cases hc : courses.get? courseID with
    | none => exact absurd hc h2
    | some course =>
      simp only
      exact ih _ (fun e he => hdom e (List.mem_cons_of_mem _ he))

theorem examStarts_mem (courses : GoMap CourseID Course) (slots : List (Slot rt.Time))
    (visited : List (CourseID × Nat)) (s : StudentID) (t : rt.Time)
    (h : t ∈ examStarts rt courses slots visited s) : ∃ slot ∈ slots, slot.Start = t := by
  unfold examStarts at h
  obtain ⟨e, _, he⟩ := List.mem_flatMap.1 h
  split at he
  · next slot course hslot _ =>
    obtain ⟨_, _, hx⟩ := List.mem_map.1 he
    exact ⟨slot, List.getElem?_mem hslot, hx⟩
  · cases he

/-- The penalty as the sum of the terms of the students, in the order in which the students
are visited. -/
theorem CalculatePenalty_eq (exec : Nat) (schedule : GoMap CourseID Nat)
    (courses : GoMap CourseID Course) (slots : List (Slot rt.Time)) (graph : ConflictGraph)
    (minGapMinutes : Int) (config : PenaltyConfig rt)
    (hdom : ∀ c k, schedule.get? c = some k → k < slots.length ∧ courses.get? c ≠ none)
    (hgap : minGapMinutes * 60000000000 < 9223372036854775808)
    (hsub : ∀ s ∈ slots, ∀ t ∈ slots, -9223372036854775808 < rt.timeSub s.Start t.Start) :
    ∃ students : List StudentID, students.Nodup ∧
      (∀ s, s ∈ students ↔
        examStarts rt courses slots (GoMap.range rt 7 exec schedule) s ≠ []) ∧
      CalculatePenalty rt exec schedule courses slots graph minGapMinutes config =
        .ok ((students.flatMap fun s => penaltyTerms rt minGapMinutes config
          (examStarts rt courses slots (GoMap.range rt 7 exec schedule) s)).foldl
            rt.fadd rt.fzero) := by
  obtain ⟨m, hm⟩ := collectExams_ok rt courses slots (GoMap.range rt 7 exec schedule)
    GoMap.empty (by
      intro e he
      exact hdom e.1 e.2 (GoMap.mem_range rt 7 exec schedule e.1 e.2 he))
  have hspec : ∀ s, (m.get? s).getD [] =
        examStarts rt courses slots (GoMap.range rt 7 exec schedule) s ∧
      (m.get? s ≠ none ↔ examStarts rt courses slots (GoMap.range rt 7 exec schedule) s ≠ []) := by
    intro s
    obtain ⟨h1, h2⟩ := collectExams_spec rt courses slots s _ _ _ hm
    rw [GoMap.get?_empty] at h1 h2
    simp only [Option.getD_none, List.nil_append, ne_eq, not_true_eq_false, false_or] at h1 h2
    exact ⟨h1, h2⟩
  have hperm := rt.rangeOrder_perm 8 exec m.keys
  refine ⟨rt.rangeOrder 8 exec m.keys, hperm.nodup_iff.2 (List.nodup_dedup _), ?_, ?_⟩
  · intro s
    rw [hperm.mem_iff, GoMap.mem_keys_iff]
    exact (hspec s).2
  · unfold CalculatePenalty
    rw [hm]
    simp only [Outcome.bind]
    congr 1
    unfold GoMap.range
    have key : ∀ (l : List StudentID) (total : rt.Float64), (∀ s ∈ l, m.get? s ≠ none) →
        (l.filterMap fun k => (m.get? k).map fun v => (k, v)).foldl
          (fun totalPenalty entry =>
            if entry.2.length > 1 then penaltyAmong rt minGapMinutes config entry.2 totalPenalty
            else totalPenalty) total =
        (l.flatMap fun s => penaltyTerms rt minGapMinutes config
          (examStarts rt courses slots (GoMap.range rt 7 exec schedule) s)).foldl
            rt.fadd total := by
      intro l
      induction l with
      | nil => intro total _; rfl
      | cons s rest ih =>
        intro total hall
        cases hg : m.get? s with
        | none => exact absurd hg (hall s (List.mem_cons_self _ _))
        | some exams =>
          have hex : exams = examStarts rt courses slots (GoMap.range rt 7 exec schedule) s := by
            have := (hspec s).1
            rw [hg] at this
            exact this
          rw [List.filterMap_cons]
          simp only [hg, Option.map_some', List.foldl_cons, List.flatMap_cons,
            List.foldl_append]
          rw [ih _ (fun x hx => hall x (List.mem_cons_of_mem _ hx))]
          congr 1
          by_cases hlen : exams.length > 1
          · rw [if_pos hlen, penaltyAmong_eq rt minGapMinutes config hgap exams total, hex]
            intro a ha b hb
            rw [hex] at ha hb
            obtain ⟨sa, hsa, ea⟩ := examStarts_mem rt _ _ _ _ _ ha
            obtain ⟨sb, hsb, eb⟩ := examStarts_mem rt _ _ _ _ _ hb
            rw [← ea, ← eb]
            exact hsub sa hsa sb hsb
          · rw [if_neg hlen, ← hex, penaltyTerms_of_length_le rt minGapMinutes config exams hlen]
            rfl
    apply key
    intro s hs
    exact (GoMap.mem_keys_iff m s).1 (hperm.subset hs)

/-- C22 fails: `CalculatePenalty` compares `Day()`, the day of the month.  Student `s1` has
the exams of the courses `a` and `b` on 2025-01-06 and on 2025-02-06, two different
calendar days, and the proximity weight 1 is added for the pair. -/
theorem C22_day_of_month_compared :
    refRuntime.formatRFC3339 (1736154000 : Int) = "2025-01-06T09:00:00Z" ∧
      refRuntime.formatRFC3339 (1738832400 : Int) = "2025-02-06T09:00:00Z" ∧
      examStarts refRuntime pairCourses monthSlots (GoMap.range refRuntime 7 0 pairColoring) "s1"
        = [(1736154000 : Int), (1738832400 : Int)] ∧
      CalculatePenalty refRuntime 0 pairColoring pairCourses monthSlots
        (NewConflictGraph refRuntime pairCourses) 0 ⟨1, 10⟩ = .ok 1 := by
  refine ⟨by decide, by decide, by decide, ?_⟩
  have h : CalculatePenalty refRuntime 0 pairColoring pairCourses monthSlots
      (NewConflictGraph refRuntime pairCourses) 0 ⟨1, 10⟩ =
      .ok (refRuntime.fadd refRuntime.fzero 1) := by
    rfl
  rw [h]
  norm_num

/-- C23 fails when the minimum gap in nanoseconds overflows a 64-bit `Duration`: with
`min_gap_minutes = 153722868` the exams of student `s1` on 2025-01-06 and on 2025-01-07, both
at 09:00, are less than that many minutes apart, yet no gap term is added and the penalty
is 0. -/
theorem C23_counterexample_gap_overflow :
    examStarts refRuntime pairCourses dailySlots (GoMap.range refRuntime 7 0 pairColoring) "s1"
        = [(1736154000 : Int), (1736240400 : Int)] ∧
      (0 : Int) < 153722868 ∧
      |refRuntime.timeSub (1736154000 : Int) (1736240400 : Int)| < 153722868 * 60000000000 ∧
      minGapTerm refRuntime 153722868 ⟨1, 10⟩ (1736154000 : Int) (1736240400 : Int) = [10] ∧
      CalculatePenalty refRuntime 0 pairColoring pairCourses dailySlots
        (NewConflictGraph refRuntime pairCourses) 153722868 ⟨1, 10⟩ = .ok 0 := by
  decide

/-- C23, amended: for every coloring that gives each of its courses a slot index of the
slot list and a course of the course map, when `min_gap_minutes` minutes are less than
`2^63` nanoseconds and no difference of two slot starts is the least 64-bit `Duration`:
`CalculatePenalty` returns the sum, student by student and pair by pair of the exams of the
student, of the proximity term and the gap term of the pair, where the gap term is the
weight `MinGapViolationWeight` if `min_gap_minutes > 0` and the absolute difference of the
two starts is strictly less than `min_gap_minutes` minutes, and is absent otherwise. -/
theorem C23_min_gap_penalty (exec : Nat) (schedule : GoMap CourseID Nat)
    (courses : GoMap CourseID Course) (slots : List (Slot rt.Time)) (graph : ConflictGraph)
    (minGapMinutes : Int) (config : PenaltyConfig rt)
    (hdom : ∀ c k, schedule.get? c = some k → k < slots.length ∧ courses.get? c ≠ none)
    (hgap : minGapMinutes * 60000000000 < 9223372036854775808)
    (hsub : ∀ s ∈ slots, ∀ t ∈ slots, -9223372036854775808 < rt.timeSub s.Start t.Start) :
    (∃ students : List StudentID, students.Nodup ∧
      (∀ s, s ∈ students ↔
        examStarts rt courses slots (GoMap.range rt 7 exec schedule) s ≠ []) ∧
      CalculatePenalty rt exec schedule courses slots graph minGapMinutes config =
        .ok ((students.flatMap fun s => penaltyTerms rt minGapMinutes config
          (examStarts rt courses slots (GoMap.range rt 7 exec schedule) s)).foldl
            rt.fadd rt.fzero)) ∧
      (∀ a b, 0 < minGapMinutes → |rt.timeSub a b| < minGapMinutes * 60000000000 →
        minGapTerm rt minGapMinutes config a b = [config.MinGapViolationWeight]) ∧
      (∀ a b, minGapMinutes * 60000000000 ≤ |rt.timeSub a b| →
        minGapTerm rt minGapMinutes config a b = []) ∧
      (minGapMinutes ≤ 0 → ∀ a b, minGapTerm rt minGapMinutes config a b = []) := by
  refine ⟨CalculatePenalty_eq rt exec schedule courses slots graph minGapMinutes config hdom
    hgap hsub, ?_, ?_, ?_⟩
  · intro a b h1 h2
    unfold minGapTerm
    rw [if_pos ⟨h1, h2⟩]
  · intro a b h1
    unfold minGapTerm
    rw [if_neg]
    rintro ⟨_, h2⟩
    omega
  · intro h1 a b
    unfold minGapTerm
    rw [if_neg]
    rintro ⟨h2, _⟩
    omega

/-- C23, amended, on the exams of student `s1` on 2025-01-06 and on 2025-01-07 with a
minimum gap of 1440 minutes, the distance of the two starts: no gap term is added. -/
theorem C23_min_gap_penalty_witness :
    (∀ c k, pairColoring.get? c = some k → k < dailySlots.length ∧ pairCourses.get? c ≠ none) ∧
      (1440 : Int) * 60000000000 < 9223372036854775808 ∧
      (∀ s ∈ dailySlots, ∀ t ∈ dailySlots,
        -9223372036854775808 < refRuntime.timeSub s.Start t.Start) ∧
      penaltyTerms refRuntime 1440 ⟨1, 10⟩ [(1736154000 : Int), (1736240400 : Int)] = [] ∧
      penaltyTerms refRuntime 1441 ⟨1, 10⟩ [(1736154000 : Int), (1736240400 : Int)] = [10] ∧
      ∃ students : List StudentID, students.Nodup ∧
        (∀ s, s ∈ students ↔
          examStarts refRuntime pairCourses dailySlots (GoMap.range refRuntime 7 0 pairColoring) s
            ≠ []) ∧
        CalculatePenalty refRuntime 0 pairColoring pairCourses dailySlots
            (NewConflictGraph refRuntime pairCourses) 1440 ⟨1, 10⟩ =
          .ok ((students.flatMap fun s => penaltyTerms refRuntime 1440 ⟨1, 10⟩
            (examStarts refRuntime pairCourses dailySlots
              (GoMap.range refRuntime 7 0 pairColoring) s)).foldl
              refRuntime.fadd refRuntime.fzero) := by
  have hdom : ∀ c k, pairColoring.get? c = some k →
      k < dailySlots.length ∧ pairCourses.get? c ≠ none := by
    intro c k h
    have hk : (c, k) ∈ GoMap.range refRuntime 7 0 pairColoring :=
      (GoMap.mem_range_iff refRuntime 7 0 pairColoring c k).2 h
    have hall : ∀ e ∈ GoMap.range refRuntime 7 0 pairColoring,
        e.2 < dailySlots.length ∧ pairCourses.get? e.1 ≠ none := by
      decide
    exact hall (c, k) hk
  exact ⟨hdom, by decide, by decide, by decide, by decide,
    (C23_min_gap_penalty refRuntime 0 pairColoring pairCourses dailySlots
      (NewConflictGraph refRuntime pairCourses) 1440 ⟨1, 10⟩ hdom (by decide) (by decide)).1⟩

end PenaltyTerms

section PenaltyMonotone

variable (rt : GoRuntime)

end PenaltyMonotone

section DsaturNoPanic

variable (rt : GoRuntime)

theorem Outcome.bind_eq_panic {α β : Type} {x : Outcome α} {f : α → Outcome β} :
    x.bind f = .panic ↔ x = .panic ∨ ∃ a, x = .ok a ∧ f a = .panic := by
  cases x <;> simp [Outcome.bind]

theorem slotFree_ne_panic (graph : ConflictGraph) (coloring : GoMap CourseID Nat) (k : Nat) :
    ∀ (row : List Int) (n : Nat), n + row.length ≤ graph.Courses.length →
      slotFree graph coloring k n row ≠ .panic := by
  intro row
  induction row with
  | nil => intro n _; simp [slotFree]
  | cons w row ih =>
    intro n hlen
    simp only [List.length_cons] at hlen
    unfold slotFree
    have hn : n < graph.Courses.length := by omega
    split
    · rw [List.getElem?_eq_getElem hn]
      simp only
      split
      · simp
      · exact ih (n + 1) (by omega)
    · exact ih (n + 1) (by omega)

theorem pickSlot_ne_panic (graph : ConflictGraph) (coloring : GoMap CourseID Nat) (next : Nat)
    (row : List Int) (hrow : graph.AdjMatrix[next]? = some row)
    (hlen : row.length ≤ graph.Courses.length) :
    ∀ (cands : List Nat), pickSlot graph coloring next cands ≠ .panic := by
  intro cands
  induction cands with
  | nil => simp [pickSlot]
  | cons k rest ih =>
    unfold pickSlot
    rw [hrow]
    simp only
    intro h
    rcases Outcome.bind_eq_panic.1 h with h1 | ⟨a, _, h2⟩
    · exact slotFree_ne_panic graph coloring k row 0 (by omega) h1
    · cases a with
      | true => simp at h2
      | false => exact ih (by simpa using h2)

theorem degreeCandidates_ne_panic (degrees : List Int) :
    ∀ (l : List Nat) (maxDegree : Int) (acc : List Nat), (∀ c ∈ l, c < degrees.length) →
      degreeCandidates degrees maxDegree acc l ≠ .panic := by
  intro l
  induction l with
  | nil => intro maxDegree acc _; simp [degreeCandidates]
  | cons c rest ih =>
    intro maxDegree acc hall
    unfold degreeCandidates
    rw [List.getElem?_eq_getElem (hall c (List.mem_cons_self _ _))]
    simp only
    have hrest : ∀ x ∈ rest, x < degrees.length := fun x hx => hall x (List.mem_cons_of_mem _ hx)
    split
    · exact ih _ _ hrest
    · split
      · exact ih _ _ hrest
      · exact ih _ _ hrest

theorem degreeCandidates_ne_nil (degrees : List Int) :
    ∀ (l : List Nat) (maxDegree : Int) (acc r : List Nat), acc ≠ [] →
      degreeCandidates degrees maxDegree acc l = .ok r → r ≠ [] := by
  intro l
  induction l with
  | nil =>
    intro maxDegree acc r hacc h
    simp only [degreeCandidates, Outcome.ok.injEq] at h
    rw [← h]
    exact hacc
  | cons c rest ih =>
    intro maxDegree acc r hacc h
    unfold degreeCandidates at h
    split at h
    · simp at h
    · split at h
      · exact ih _ _ _ (by simp) h
      · split at h
        · exact ih _ _ _ (by simp [hacc]) h
        · exact ih _ _ _ hacc h

theorem degreeCandidates_first (degrees : List Int) (hd : ∀ d ∈ degrees, 0 ≤ d) (c : Nat)
    (rest r : List Nat) (h : degreeCandidates degrees (-1) [] (c :: rest) = .ok r) : r ≠ [] := by
  unfold degreeCandidates at h
  split at h
  · simp at h
  · next d hget =>
    have hpos : d > -1 := by
      have := hd d (List.getElem?_mem hget)
      omega
    rw [if_pos hpos] at h
    exact degreeCandidates_ne_nil degrees _ _ _ _ (by simp) h

theorem selectVertex_ne_panic (graph : ConflictGraph) (hwf : graph.WellFormed)
    (st : DsaturState rt) : selectVertex rt graph st ≠ .panic := by
  unfold selectVertex
  cases hs : satCandidates st.coloring st.saturation 0 (-1) [] graph.Courses with
  | nil => simp
  | cons c l =>
    cases l with
    | nil => simp
    | cons c' rest =>
      simp only
      intro h
      rcases Outcome.bind_eq_panic.1 h with h1 | ⟨cands, hc, h2⟩
      · refine degreeCandidates_ne_panic graph.Degrees _ _ _ ?_ h1
        intro n hn
        have hmem : n ∈ satCandidates st.coloring st.saturation 0 (-1) [] graph.Courses := by
          rw [hs]; exact hn
        rcases satCandidates_mem _ _ _ _ _ _ _ hmem with h0 | ⟨x, _, hx, _⟩
        · cases h0
        · rw [hwf.2.1]
          simp only [Nat.sub_zero] at hx
          by_contra hcon
          rw [List.getElem?_eq_none (Nat.le_of_not_lt hcon)] at hx
          cases hx
      · have hne := degreeCandidates_first graph.Degrees hwf.2.2 c (c' :: rest) cands hc
        have hpos : 0 < cands.length := List.length_pos.2 hne
        have hlt := rt.Intn_lt st.rng cands.length hpos
        rw [if_neg (by omega), List.getElem?_eq_getElem hlt] at h2
        simp at h2

theorem wellFormed_row (graph : ConflictGraph) (hwf : graph.WellFormed) (n : Nat)
    (hn : n < graph.Courses.length) :
    ∃ row, graph.AdjMatrix[n]? = some row ∧ row.length = graph.Courses.length := by
  have hlt : n < graph.AdjMatrix.length := by rw [hwf.1.1]; exact hn
  exact ⟨graph.AdjMatrix[n], List.getElem?_eq_getElem hlt,
    hwf.1.2 _ (List.getElem_mem hlt)⟩

theorem updateSaturation_ne_panic (graph : ConflictGraph) (hwf : graph.WellFormed)
    (avail : List (List Nat)) (coloring : GoMap CourseID Nat) (k : Nat) :
    ∀ (row : List Int) (n : Nat) (sat : List Int), n + row.length ≤ graph.Courses.length →
      updateSaturation graph avail coloring k n row sat ≠ .panic := by
  intro row
  induction row with
  | nil => intro n sat _; simp [updateSaturation]
  | cons w row ih =>
    intro n sat hlen
    simp only [List.length_cons] at hlen
    have hn : n < graph.Courses.length := by omega
    obtain ⟨nrow, hnrow, hnlen⟩ := wellFormed_row graph hwf n hn
    unfold updateSaturation
    split
    · rw [List.getElem?_eq_getElem hn]
      simp only
      split
      · split
        · rw [hnrow]
          simp only
          intro h
          rcases Outcome.bind_eq_panic.1 h with h1 | ⟨a, _, h2⟩
          · exact slotFree_ne_panic graph coloring k nrow 0 (by omega) h1
          · cases a with
            | true => exact ih (n + 1) _ (by omega) (by simpa using h2)
            | false => exact ih (n + 1) _ (by omega) (by simpa using h2)
        · exact ih (n + 1) _ (by omega)
      · exact ih (n + 1) _ (by omega)
    · exact ih (n + 1) _ (by omega)

theorem colorVertex_ne_panic (graph : ConflictGraph) (hwf : graph.WellFormed)
    (avail : List (List Nat)) (st : DsaturState rt) (next : Nat) (rng : rt.Rand)
    (hnext : next < graph.Courses.length) :
    colorVertex rt graph avail st next rng ≠ .panic := by
  obtain ⟨row, hrow, hlen⟩ := wellFormed_row graph hwf next hnext
  unfold colorVertex
  rw [List.getElem?_eq_getElem hnext]
  simp only
  intro h
  rcases Outcome.bind_eq_panic.1 h with h1 | ⟨assigned, _, h2⟩
  · exact pickSlot_ne_panic graph st.coloring next row hrow (by omega) _ h1
  · cases assigned with
    | none => simp at h2
    | some k =>
      simp only [hrow] at h2
      rcases Outcome.bind_eq_panic.1 h2 with h3 | ⟨sat, _, h4⟩
      · exact updateSaturation_ne_panic graph hwf avail _ k row 0 _ (by omega) h3
      · simp at h4

theorem dsaturStep_ne_panic (graph : ConflictGraph) (hwf : graph.WellFormed)
    (avail : List (List Nat)) (st : DsaturState rt) :
    dsaturStep rt graph avail st ≠ .panic := by
  unfold dsaturStep
  intro h
  rcases Outcome.bind_eq_panic.1 h with h1 | ⟨sel, hsel, h2⟩
  · exact selectVertex_ne_panic rt graph hwf st h1
  · cases sel with
    | none => simp at h2
    | some p =>
      obtain ⟨next, rng⟩ := p
      obtain ⟨c, hc, _⟩ := selectVertex_some rt graph st next rng hsel
      have hnext : next < graph.Courses.length := by
        by_contra hcon
        rw [List.getElem?_eq_none (Nat.le_of_not_lt hcon)] at hc
        cases hc
      exact colorVertex_ne_panic rt graph hwf avail st next rng hnext h2

theorem dsaturLoop_ne_panic (graph : ConflictGraph) (hwf : graph.WellFormed)
    (avail : List (List Nat)) :
    ∀ (fuel : Nat) (st : DsaturState rt), dsaturLoop rt graph avail fuel st ≠ .panic := by
  intro fuel
  induction fuel with
  | zero => intro st; simp [dsaturLoop]
  | succ fuel ih =>
    intro st
    unfold dsaturLoop
    split
    · intro h
      rcases Outcome.bind_eq_panic.1 h with h1 | ⟨step, _, h2⟩
      · exact dsaturStep_ne_panic rt graph hwf avail st h1
      · cases step with
        | next st' => exact ih st' h2
        | done => simp at h2
        | stuck c => simp at h2
    · simp

/-- On a graph whose matrix and degrees fit its course list `DSATUR` does not panic. -/
theorem DSATUR_ne_panic (graph : ConflictGraph) (hwf : graph.WellFormed)
    (slots : List (Slot rt.Time)) (allowedSlots : GoMap CourseID (GoMap SlotID Bool))
    (seed : Int) : DSATUR rt graph slots allowedSlots seed ≠ .panic := by
  unfold DSATUR dsaturRun
  intro h
  rcases Outcome.bind_eq_panic.1 h with h1 | ⟨r, _, h2⟩
  · exact dsaturLoop_ne_panic rt graph hwf _ _ _ h1
  · cases hr : r.2 with
    | colored => simp [hr] at h2
    | stuck c => simp [hr] at h2

/-- The graphs built by `NewConflictGraph` are well formed. -/
theorem NewConflictGraph_wellFormed (courses : GoMap CourseID Course) :
    (NewConflictGraph rt courses).WellFormed := by
  obtain ⟨hmat, _, hlen, hdeg⟩ := NewConflictGraph_degInv rt courses
  simp only at hmat hlen hdeg
  have hn := NewConflictGraph_length rt courses
  refine ⟨by rw [hn]; exact hmat.square, by rw [hn]; exact hlen, ?_⟩
  intro d hd
  obtain ⟨i, hi⟩ := List.mem_iff_getElem?.1 hd
  have hlt : i < courses.len := by
    rw [← hlen]
    by_contra hcon
    rw [List.getElem?_eq_none (Nat.le_of_not_lt hcon)] at hi
    cases hi
  have := hdeg i hlt
  rw [List.getD_eq_getElem?_getD, hi, Option.getD_some] at this
  rw [this]
  exact Int.natCast_nonneg _

/-- On a well-formed graph a call of `DSATUR` that returns no coloring returns the error
that names a course. -/
theorem DSATUR_error_of_not_ok (graph : ConflictGraph) (hwf : graph.WellFormed)
    (slots : List (Slot rt.Time)) (allowedSlots : GoMap CourseID (GoMap SlotID Bool))
    (seed : Int) (hno : ∀ coloring, DSATUR rt graph slots allowedSlots seed ≠ .ok coloring) :
    ∃ c, DSATUR rt graph slots allowedSlots seed = .error (infeasibleMsg c) := by
  cases h : DSATUR rt graph slots allowedSlots seed with
  | ok coloring => exact absurd h (hno coloring)
  | error msg =>
    obtain ⟨_, c, _, hmsg⟩ := DSATUR_error_run rt graph slots allowedSlots seed msg h
    exact ⟨c, by rw [hmsg]⟩
  | panic => exact absurd h (DSATUR_ne_panic rt graph hwf slots allowedSlots seed)
  | timeout => exact absurd h (DSATUR_ne_timeout rt graph slots allowedSlots seed)

end DsaturNoPanic

section DsaturForced

variable (rt : GoRuntime)

/-- A call of `DSATUR` that fails is stuck at an uncoloured course all of whose candidate
slots are held by coloured neighbours; the state satisfies the invariant of the loop. -/
theorem DSATUR_error_stuck (graph : ConflictGraph) (slots : List (Slot rt.Time))
    (allowedSlots : GoMap CourseID (GoMap SlotID Bool)) (seed : Int) (msg : String)
    (h : DSATUR rt graph slots allowedSlots seed = .error msg) :
    ∃ (st : DsaturState rt) (c : CourseID) (next : Nat),
      DsaturInv rt graph slots allowedSlots st ∧
      graph.Courses[next]? = some c ∧ st.coloring.get? c = none ∧
      ∀ k ∈ courseSlots rt slots allowedSlots c,
        ∃ j y, graph.adjacent next j = true ∧ graph.Courses[j]? = some y ∧
          st.coloring.get? y = some k := by
  obtain ⟨st, c, hrun, _⟩ := DSATUR_error_run rt graph slots allowedSlots seed msg h
  obtain ⟨hinv, hend⟩ := dsaturRun_inv rt graph slots allowedSlots seed _ hrun
  rcases hend with ⟨hc, _⟩ | ⟨c', hc', hstep⟩
  · simp at hc
  · simp only [DsaturEnd.stuck.injEq] at hc'
    subst hc'
    obtain ⟨next, hnext, hun, hpick⟩ := dsaturStep_stuck rt _ _ _ _ hstep
    refine ⟨st, c, next, hinv, hnext, hun, ?_⟩
    intro k hk
    rw [← availableSlots_getD rt graph slots allowedSlots next c hnext] at hk
    obtain ⟨pre, post, hsplit, hpre, hr⟩ := pickSlot_ok _ _ _ _ _ hpick
    rcases hr with ⟨_, hpost⟩ | ⟨k', post', hk', _⟩
    · rw [hsplit, hpost, List.append_nil] at hk
      obtain ⟨row, hrow, hfalse⟩ := hpre k hk
      obtain ⟨j, w, y, h1, h2, h3, h4⟩ := slotFree_false _ _ _ _ _ hfalse
      refine ⟨j, y, ?_, by simpa using h3, h4⟩
      exact (adjacent_iff graph next j).2 ⟨row, w, hrow, h1, h2⟩
    · simp at hk'

theorem allowedIndices_of_mem (allowed : GoMap SlotID Bool) :
    ∀ (slots : List (Slot rt.Time)) (j0 k : Nat) (s : Slot rt.Time), slots[k]? = some s →
      allowed.get? s.ID = some true → j0 + k ∈ allowedIndices rt allowed j0 slots := by
  intro slots
  induction slots with
  | nil => intro j0 k s h _; simp at h
  | cons x rest ih =>
    intro j0 k s h hs
    unfold allowedIndices
    cases k with
    | zero =>
      simp only [List.getElem?_cons_zero, Option.some.injEq] at h
      subst h
      rw [if_pos hs]
      simp
    | succ k =>
      have h' : rest[k]? = some s := by simpa using h
      have := ih (j0 + 1) k s h' hs
      have heq : j0 + 1 + k = j0 + (k + 1) := by omega
      rw [heq] at this
      split
      · exact List.mem_cons_of_mem _ this
      · exact this

theorem allowsOnly_len (allowed : GoMap SlotID Bool) (slotID : SlotID)
    (h : ∀ id, allowed.get? id = some true ↔ id = slotID) : 0 < allowed.len := by
  have hget : allowed.get? slotID = some true := (h slotID).2 rfl
  have hmem : slotID ∈ allowed.keys := (GoMap.mem_keys_iff allowed slotID).2 (by rw [hget]; simp)
  exact List.length_pos_of_mem hmem

/-- The candidate slots of a course to which the palette allows one slot ID only: the
indices of the slots with that ID. -/
theorem mem_courseSlots_allowsOnly (slots : List (Slot rt.Time))
    (allowedSlots : GoMap CourseID (GoMap SlotID Bool)) (c : CourseID) (slotID : SlotID)
    (h : AllowsOnly allowedSlots c slotID) (k : Nat) :
    k ∈ courseSlots rt slots allowedSlots c ↔ ∃ s, slots[k]? = some s ∧ s.ID = slotID := by
  obtain ⟨allowed, hget, honly⟩ := h
  have hlen := allowsOnly_len allowed slotID honly
  constructor
  · intro hk
    obtain ⟨_, hs⟩ := mem_courseSlots rt slots allowedSlots c k hk
    obtain ⟨s, h1, h2⟩ := hs allowed hget hlen
    exact ⟨s, h1, (honly s.ID).1 h2⟩
  · rintro ⟨s, h1, h2⟩
    unfold courseSlots
    rw [hget]
    simp only [hlen, if_true]
    have := allowedIndices_of_mem rt allowed slots 0 k s h1 ((honly s.ID).2 h2)
    simpa using this

theorem slot_index_unique (slots : List (Slot rt.Time)) (hids : (slots.map Slot.ID).Nodup)
    (k k' : Nat) (s s' : Slot rt.Time) (h : slots[k]? = some s) (h' : slots[k']? = some s')
    (hid : s.ID = s'.ID) : k = k' := by
  have h1 : (slots.map Slot.ID)[k]? = some s.ID := by simp [h]
  have h2 : (slots.map Slot.ID)[k']? = some s.ID := by simp [h', hid]
  exact index_eq_of_nodup hids h1 h2

/-- The index of a course of a built graph in the index map is its position in the course
list. -/
theorem NewConflictGraph_indexOfCourse (courses : GoMap CourseID Course) (i : Nat)
    (x : CourseID) (h : (NewConflictGraph rt courses).Courses[i]? = some x) :
    indexOfCourse (NewConflictGraph rt courses).CourseIndex x = i := by
  unfold indexOfCourse
  rw [(NewConflictGraph_courseIndex rt courses i x).2 h]
  rfl

/-- C26: for every course mapping in which every two courses share a student, every slot
list with fewer slots than courses, every palette and every seed, `DSATUR` on the graph of
the mapping returns the error that names a course; and `RunSchedulingAttempts` returns its
error of no valid schedule, for every number of tries, every seed and every other input. -/
theorem C26_clique_with_too_few_slots (courses : GoMap CourseID Course)
    (slots : List (Slot rt.Time)) (allowedSlots : GoMap CourseID (GoMap SlotID Bool))
    (hclique : ∀ x ∈ courses.keys, ∀ y ∈ courses.keys, x ≠ y →
      ∃ s ∈ enrollmentsOf courses x, s ∈ enrollmentsOf courses y)
    (hfew : slots.length < courses.len) :
    (∀ seed, ∃ c, DSATUR rt (NewConflictGraph rt courses) slots allowedSlots seed =
        .error (infeasibleMsg c)) ∧
      ∀ (tries seed : Int) (halls : List Hall) (minGapMinutes : Int)
        (penaltyConfig : PenaltyConfig rt),
        RunSchedulingAttempts rt tries seed courses halls slots allowedSlots
            (NewConflictGraph rt courses) minGapMinutes penaltyConfig =
          .error ("failed to find a valid schedule after " ++ toString tries ++ " attempts") := by
  have hperm := (NewConflictGraph_courses_perm rt courses).1
  have hnd := (NewConflictGraph_courses_perm rt courses).2
  have hsym := (NewConflictGraph_symmetric rt courses).1
  have hwf := NewConflictGraph_wellFormed rt courses
  have hlen := NewConflictGraph_length rt courses
  have hdsatur : ∀ seed, ∃ c, DSATUR rt (NewConflictGraph rt courses) slots allowedSlots seed =
      .error (infeasibleMsg c) := by
    intro seed
    apply DSATUR_error_of_not_ok rt _ hwf
    intro coloring hok
    obtain ⟨_, hdom, hslot⟩ := DSATUR_ok_domain rt _ slots allowedSlots seed coloring hok
    have hproper := DSATUR_ok_proper rt _ hnd hsym slots allowedSlots seed coloring hok
    have hcolor : ∀ c ∈ (NewConflictGraph rt courses).Courses,
        ∃ k, coloring.get? c = some k ∧ k < slots.length := by
      intro c hc
      cases hg : coloring.get? c with
      | none => exact absurd hg ((hdom c).2 hc)
      | some k => exact ⟨k, rfl, (mem_courseSlots rt slots allowedSlots c k (hslot c k hg)).1⟩
    have hinj : ∀ x ∈ (NewConflictGraph rt courses).Courses,
        ∀ y ∈ (NewConflictGraph rt courses).Courses,
        (coloring.get? x).getD 0 = (coloring.get? y).getD 0 → x = y := by
      intro x hx y hy heq
      by_contra hxy
      obtain ⟨i, hi⟩ := List.mem_iff_getElem?.1 hx
      obtain ⟨j, hj⟩ := List.mem_iff_getElem?.1 hy
      obtain ⟨kx, hkx, _⟩ := hcolor x hx
      obtain ⟨ky, hky, _⟩ := hcolor y hy
      rw [hkx, hky] at heq
      simp only [Option.getD_some] at heq
      have hij : i ≠ j := by
        intro e
        subst e
        rw [hi] at hj
        exact hxy (Option.some.inj hj)
      obtain ⟨s, hsx, hsy⟩ := hclique x (hperm.subset hx) y (hperm.subset hy) hxy
      unfold enrollmentsOf at hsx hsy
      cases hcx : courses.get? x with
      | none => rw [hcx] at hsx; cases hsx
      | some cx =>
        cases hcy : courses.get? y with
        | none => rw [hcy] at hsy; cases hsy
        | some cy =>
          rw [hcx] at hsx
          rw [hcy] at hsy
          have hw := NewConflictGraph_weight rt courses x y cx cy i j hcx hcy hi hj
          rw [if_neg hxy] at hw
          have hadj : (NewConflictGraph rt courses).adjacent i j = true := by
            rw [adjacent_eq_matGet, hw]
            have := sharedStudents_pos cx.Enrollments cy.Enrollments s hsx hsy
            simpa using this
          exact hproper i j x y kx ky hij hadj hi hj hkx hky heq
    have hnodup : ((NewConflictGraph rt courses).Courses.map
        fun c => (coloring.get? c).getD 0).Nodup :=
      List.Nodup.map_on hinj hnd
    have hsub : ((NewConflictGraph rt courses).Courses.map
        fun c => (coloring.get? c).getD 0) ⊆ List.range slots.length := by
      intro k hk
      obtain ⟨c, hc, hck⟩ := List.mem_map.1 hk
      obtain ⟨k', hk', hlt⟩ := hcolor c hc
      rw [hk'] at hck
      simp only [Option.getD_some] at hck
      rw [← hck]
      exact List.mem_range.2 hlt
    have hle := (List.subperm_of_subset hnodup hsub).length_le
    rw [List.length_map, List.length_range, hlen] at hle
    omega
  refine ⟨hdsatur, ?_⟩
  intro tries seed halls minGapMinutes penaltyConfig
  have hnone := (attemptLoop_eq_ok_none rt courses halls slots allowedSlots
    (NewConflictGraph rt courses) minGapMinutes penaltyConfig tries.toNat 0
    (masterRand rt seed) none).2
    ⟨rfl, fun s _ => by
      obtain ⟨c, hc⟩ := hdsatur s
      exact ⟨_, hc⟩⟩
  unfold RunSchedulingAttempts
  unfold masterRand at hnone
  rw [hnone]
  rfl

/-- C27: for every course mapping with its graph and every slot list with pairwise
different slot IDs: if the palette allows to each course exactly one slot ID, that ID is
the ID of a slot of the list, and two courses in conflict are never allowed the same ID,
then for every seed `DSATUR` returns a coloring, which gives each course the index of the
slot with its allowed ID; and if two courses in conflict are both allowed only one and the
same slot ID, then for every seed `DSATUR` returns the error that names a course. -/
theorem C27_single_slot_palettes (courses : GoMap CourseID Course)
    (slots : List (Slot rt.Time)) (allowedSlots : GoMap CourseID (GoMap SlotID Bool))
    (hids : (slots.map Slot.ID).Nodup) :
    (∀ slotOf : CourseID → SlotID,
      (∀ c ∈ courses.keys, AllowsOnly allowedSlots c (slotOf c) ∧
        slotOf c ∈ slots.map Slot.ID) →
      (∀ x ∈ courses.keys, ∀ y ∈ courses.keys,
        (NewConflictGraph rt courses).conflicting x y = true → slotOf x ≠ slotOf y) →
      ∀ seed, ∃ coloring,
        DSATUR rt (NewConflictGraph rt courses) slots allowedSlots seed = .ok coloring ∧
        ∀ c ∈ courses.keys, ∃ k slot, coloring.get? c = some k ∧ slots[k]? = some slot ∧
          slot.ID = slotOf c) ∧
    (∀ (x y : CourseID) (slotID : SlotID), x ∈ courses.keys → y ∈ courses.keys →
      (NewConflictGraph rt courses).conflicting x y = true →
      AllowsOnly allowedSlots x slotID → AllowsOnly allowedSlots y slotID →
      ∀ seed, ∃ c, DSATUR rt (NewConflictGraph rt courses) slots allowedSlots seed =
        .error (infeasibleMsg c)) := by
  have hperm := (NewConflictGraph_courses_perm rt courses).1
  have hnd := (NewConflictGraph_courses_perm rt courses).2
  have hsym := (NewConflictGraph_symmetric rt courses).1
  have hirr := (NewConflictGraph_symmetric rt courses).2
  have hwf := NewConflictGraph_wellFormed rt courses
  constructor
  · intro slotOf hpal hdiff seed
    cases h : DSATUR rt (NewConflictGraph rt courses) slots allowedSlots seed with
    | ok coloring =>
      refine ⟨coloring, rfl, ?_⟩
      obtain ⟨_, hdom, hslot⟩ := DSATUR_ok_domain rt _ slots allowedSlots seed coloring h
      intro c hc
      cases hg : coloring.get? c with
      | none => exact absurd hg ((hdom c).2 (hperm.symm.subset hc))
      | some k =>
        obtain ⟨s, h1, h2⟩ := (mem_courseSlots_allowsOnly rt slots allowedSlots c (slotOf c)
          (hpal c hc).1 k).1 (hslot c k hg)
        exact ⟨k, s, rfl, h1, h2⟩
    | error msg =>
      exfalso
      obtain ⟨st, c, next, hinv, hnext, _, hstuck⟩ :=
        DSATUR_error_stuck rt _ slots allowedSlots seed msg h
      have hc : c ∈ courses.keys := hperm.subset (List.getElem?_mem hnext)
      obtain ⟨hcpal, hcin⟩ := hpal c hc
      obtain ⟨s0, hs0, hid0⟩ := List.mem_map.1 hcin
      obtain ⟨k0, hk0⟩ := List.mem_iff_getElem?.1 hs0
      have hk0mem : k0 ∈ courseSlots rt slots allowedSlots c :=
        (mem_courseSlots_allowsOnly rt slots allowedSlots c (slotOf c) hcpal k0).2
          ⟨s0, hk0, hid0⟩
      obtain ⟨j, y, hadj, hj, hy⟩ := hstuck k0 hk0mem
      have hyk : y ∈ courses.keys := hperm.subset (List.getElem?_mem hj)
      obtain ⟨s1, hs1, hid1⟩ := (mem_courseSlots_allowsOnly rt slots allowedSlots y (slotOf y)
        (hpal y hyk).1 k0).1 (hinv.slot y k0 hy)
      rw [hk0] at hs1
      have hs : s0 = s1 := Option.some.inj hs1
      refine hdiff c hc y hyk ?_ (by rw [← hid0, ← hid1, hs])
      unfold ConflictGraph.conflicting
      rw [NewConflictGraph_indexOfCourse rt courses next c hnext,
        NewConflictGraph_indexOfCourse rt courses j y hj]
      exact hadj
    | panic => exact absurd h (DSATUR_ne_panic rt _ hwf slots allowedSlots seed)
    | timeout => exact absurd h (DSATUR_ne_timeout rt _ slots allowedSlots seed)
  · intro x y slotID hx hy hconf hpx hpy seed
    apply DSATUR_error_of_not_ok rt _ hwf
    intro coloring hok
    obtain ⟨_, hdom, hslot⟩ := DSATUR_ok_domain rt _ slots allowedSlots seed coloring hok
    have hproper := DSATUR_ok_proper rt _ hnd hsym slots allowedSlots seed coloring hok
    obtain ⟨i, hi⟩ := List.mem_iff_getElem?.1 (hperm.symm.subset hx)
    obtain ⟨j, hj⟩ := List.mem_iff_getElem?.1 (hperm.symm.subset hy)
    unfold ConflictGraph.conflicting at hconf
    rw [NewConflictGraph_indexOfCourse rt courses i x hi,
      NewConflictGraph_indexOfCourse rt courses j y hj] at hconf
    have hij : i ≠ j := by
      intro e
      subst e
      rw [hirr i] at hconf
      cases hconf
    cases hgx : coloring.get? x with
    | none => exact absurd hgx ((hdom x).2 (hperm.symm.subset hx))
    | some kx =>
      cases hgy : coloring.get? y with
      | none => exact absurd hgy ((hdom y).2 (hperm.symm.subset hy))
      | some ky =>
        obtain ⟨sx, h1, h2⟩ := (mem_courseSlots_allowsOnly rt slots allowedSlots x slotID
          hpx kx).1 (hslot x kx hgx)
        obtain ⟨sy, h3, h4⟩ := (mem_courseSlots_allowsOnly rt slots allowedSlots y slotID
          hpy ky).1 (hslot y ky hgy)
        have hk := slot_index_unique rt slots hids kx ky sx sy h1 h3 (by rw [h2, h4])
        exact hproper i j x y kx ky hij hconf hi hj hgx hgy hk

/-- C26 on the two courses of `pairCourses`, which share student `s1`, with one slot. -/
theorem C26_clique_with_too_few_slots_witness :
    (∀ x ∈ pairCourses.keys, ∀ y ∈ pairCourses.keys, x ≠ y →
        ∃ s ∈ enrollmentsOf pairCourses x, s ∈ enrollmentsOf pairCourses y) ∧
      oneSlot.length < pairCourses.len ∧
      DSATUR refRuntime (NewConflictGraph refRuntime pairCourses) oneSlot ⟨[]⟩ 5 =
        .error (infeasibleMsg "a") ∧
      (∃ c, DSATUR refRuntime (NewConflictGraph refRuntime pairCourses) oneSlot ⟨[]⟩ 5 =
        .error (infeasibleMsg c)) ∧
      RunSchedulingAttempts refRuntime 3 1 pairCourses testHalls oneSlot ⟨[]⟩
          (NewConflictGraph refRuntime pairCourses) 0 ⟨1, 10⟩ =
        .error ("failed to find a valid schedule after " ++ toString (3 : Int) ++ " attempts") :=
  ⟨by decide, by decide, by decide,
    (C26_clique_with_too_few_slots refRuntime pairCourses oneSlot ⟨[]⟩ (by decide)
      (by decide)).1 5,
    (C26_clique_with_too_few_slots refRuntime pairCourses oneSlot ⟨[]⟩ (by decide)
      (by decide)).2 3 1 testHalls 0 ⟨1, 10⟩⟩

theorem allowsOnly_single (allowedSlots : GoMap CourseID (GoMap SlotID Bool)) (c : CourseID)
    (slotID : SlotID) (h : allowedSlots.get? c = some ⟨[(slotID, true)]⟩) :
    AllowsOnly allowedSlots c slotID := by
  refine ⟨_, h, ?_⟩
  intro id
  simp only [GoMap.get?, GoMap.lookupList]
  by_cases hid : slotID = id
  · simp [hid]
  · have : ¬ id = slotID := fun e => hid e.symm
    simp [hid, this]

/-- C27 on the courses `starCourses` with two slots: with `singlePalette` every course gets
the slot allowed to it, and with `sameSlotPalette`, which allows only the first slot to the
conflicting courses `a` and `b`, `DSATUR` fails. -/
theorem C27_single_slot_palettes_witness :
    (twoSlots.map Slot.ID).Nodup ∧
      (∀ c ∈ starCourses.keys, AllowsOnly singlePalette c (singleSlotOf c) ∧
        singleSlotOf c ∈ twoSlots.map Slot.ID) ∧
      (∀ x ∈ starCourses.keys, ∀ y ∈ starCourses.keys,
        (NewConflictGraph refRuntime starCourses).conflicting x y = true →
          singleSlotOf x ≠ singleSlotOf y) ∧
      DSATUR refRuntime (NewConflictGraph refRuntime starCourses) twoSlots singlePalette 5 =
        .ok ⟨[("a", 1), ("b", 0), ("c", 0)]⟩ ∧
      (∃ coloring,
        DSATUR refRuntime (NewConflictGraph refRuntime starCourses) twoSlots singlePalette 5 =
          .ok coloring ∧
        ∀ c ∈ starCourses.keys, ∃ k slot, coloring.get? c = some k ∧
          twoSlots[k]? = some slot ∧ slot.ID = singleSlotOf c) ∧
      (NewConflictGraph refRuntime starCourses).conflicting "a" "b" = true ∧
      AllowsOnly sameSlotPalette "a" "2025-01-06T09:00Z#1" ∧
      AllowsOnly sameSlotPalette "b" "2025-01-06T09:00Z#1" ∧
      ∃ c, DSATUR refRuntime (NewConflictGraph refRuntime starCourses) twoSlots
        sameSlotPalette 5 = .error (infeasibleMsg c) := by
  have hpal : ∀ c ∈ starCourses.keys, AllowsOnly singlePalette c (singleSlotOf c) ∧
      singleSlotOf c ∈ twoSlots.map Slot.ID := by
    intro c hc
    have hcases : c = "a" ∨ c = "b" ∨ c = "c" := by
      have hk : starCourses.keys = ["a", "b", "c"] := by decide
      rw [hk] at hc
      simpa using hc
    rcases hcases with e | e | e
    · subst e
      exact ⟨allowsOnly_single _ _ _ (by decide), by decide⟩
    · subst e
      exact ⟨allowsOnly_single _ _ _ (by decide), by decide⟩
    · subst e
      exact ⟨allowsOnly_single _ _ _ (by decide), by decide⟩
  have hdiff : ∀ x ∈ starCourses.keys, ∀ y ∈ starCourses.keys,
      (NewConflictGraph refRuntime starCourses).conflicting x y = true →
        singleSlotOf x ≠ singleSlotOf y := by
    decide
  have ha : AllowsOnly sameSlotPalette "a" "2025-01-06T09:00Z#1" :=
    allowsOnly_single _ _ _ (by decide)
  have hb : AllowsOnly sameSlotPalette "b" "2025-01-06T09:00Z#1" :=
    allowsOnly_single _ _ _ (by decide)
  exact ⟨by decide, hpal, hdiff, by decide,
    (C27_single_slot_palettes refRuntime starCourses twoSlots singlePalette (by decide)).1
      singleSlotOf hpal hdiff 5,
    by decide, ha, hb,
    (C27_single_slot_palettes refRuntime starCourses twoSlots sameSlotPalette (by decide)).2
      "a" "b" "2025-01-06T09:00Z#1" (by decide) (by decide) (by decide) ha hb 5⟩

end DsaturForced

section GraphDegreeCourses

variable (rt : GoRuntime)

theorem countP_rangeFrom_eq {α : Type} (p : Nat → Bool) (q : α → Bool) :
    ∀ (l : List α) (k : Nat), (∀ j y, l[j]? = some y → p (k + j) = q y) →
      (List.range' k l.length).countP p = l.countP q := by
  intro l
  induction l with
  | nil => intro k _; rfl
  | cons a rest ih =>
    intro k h
    rw [List.length_cons, List.range'_succ, List.countP_cons, List.countP_cons,
      ih (k + 1) (fun j y hj => by
        have := h (j + 1) y (by simpa using hj)
        rw [← this]
        congr 1
        omega)]
    have h0 := h 0 a (by simp)
    simp only [Nat.add_zero] at h0
    rw [h0]

/-- In a built graph the matrix entry of two courses is positive exactly when the courses
are different and share a student. -/
theorem NewConflictGraph_adjacent (courses : GoMap CourseID Course) (i j : Nat)
    (x y : CourseID) (hi : (NewConflictGraph rt courses).Courses[i]? = some x)
    (hj : (NewConflictGraph rt courses).Courses[j]? = some y) :
    (NewConflictGraph rt courses).adjacent i j =
      (decide (y ≠ x) &&
        decide (0 < sharedStudents (enrollmentsOf courses x) (enrollmentsOf courses y))) := by
  have hperm := (NewConflictGraph_courses_perm rt courses).1
  have hx : x ∈ courses.keys := hperm.subset (List.getElem?_mem hi)
  have hy : y ∈ courses.keys := hperm.subset (List.getElem?_mem hj)
  cases hcx : courses.get? x with
  | none => exact absurd hcx ((GoMap.mem_keys_iff courses x).1 hx)
  | some cx =>
    cases hcy : courses.get? y with
    | none => exact absurd hcy ((GoMap.mem_keys_iff courses y).1 hy)
    | some cy =>
      rw [adjacent_eq_matGet, NewConflictGraph_weight rt courses x y cx cy i j hcx hcy hi hj]
      unfold enrollmentsOf
      rw [hcx, hcy]
      by_cases hxy : x = y
      · subst hxy
        simp
      · have hyx : ¬ y = x := fun e => hxy e.symm
        simp [hxy, hyx]

/-- The number of conflicting indices of the course `x` at index `i` is the number of other
courses of the graph that share a student with `x`. -/
theorem NewConflictGraph_conflictCount (courses : GoMap CourseID Course) (i : Nat)
    (x : CourseID) (hi : (NewConflictGraph rt courses).Courses[i]? = some x) :
    conflictCount (NewConflictGraph rt courses) i =
      (NewConflictGraph rt courses).Courses.countP fun y =>
        decide (y ≠ x) &&
          decide (0 < sharedStudents (enrollmentsOf courses x) (enrollmentsOf courses y)) := by
  have hnd := (NewConflictGraph_courses_perm rt courses).2
  unfold conflictCount
  rw [List.range_eq_range']
  apply countP_rangeFrom_eq
  intro j y hj
  rw [Nat.zero_add, NewConflictGraph_adjacent rt courses i j x y hi hj]
  by_cases hji : j = i
  · subst hji
    rw [hi] at hj
    have hxy : x = y := Option.some.inj hj
    simp [hxy]
  · have hyx : y ≠ x := by
      intro e
      subst e
      exact hji (index_eq_of_nodup hnd hj hi)
    simp [hji, hyx]

end GraphDegreeCourses

section
variable (rt : GoRuntime)

theorem satCandidates_zero_append (coloring : GoMap CourseID Nat) (saturation : List Int)
    (h0 : ∀ i, saturation.getD i 0 = 0) :
    ∀ (rest : List CourseID) (i : Nat) (cands : List Nat),
      satCandidates coloring saturation i 0 cands rest =
        cands ++ ((rest.enumFrom i).filter fun p => coloring.get? p.2 = none).map Prod.fst := by
  intro rest
  induction rest with
  | nil => intro i cands; simp [satCandidates]
  | cons c rest ih =>
    intro i cands
    unfold satCandidates
    by_cases hc : coloring.get? c = none
    · have h0i := h0 i
      rw [List.getD_eq_getElem?_getD] at h0i
      simp [hc, h0i, ih, List.enumFrom, List.filter_cons]
    · simp [hc, ih, List.enumFrom, List.filter_cons]

theorem satCandidates_zero (coloring : GoMap CourseID Nat) (saturation : List Int)
    (h0 : ∀ i, saturation.getD i 0 = 0) :
    ∀ (rest : List CourseID) (i : Nat),
      satCandidates coloring saturation i (-1) [] rest =
        ((rest.enumFrom i).filter fun p => coloring.get? p.2 = none).map Prod.fst := by
  intro rest
  induction rest with
  | nil => intro i; simp [satCandidates]
  | cons c rest ih =>
    intro i
    unfold satCandidates
    by_cases hc : coloring.get? c = none
    · have h0i := h0 i
      rw [List.getD_eq_getElem?_getD] at h0i
      simp [hc, h0i, satCandidates_zero_append coloring saturation h0, List.enumFrom,
        List.filter_cons]
    · simp [hc, ih, List.enumFrom, List.filter_cons]

theorem degreeCandidates_spec (degrees : List Int) :
    ∀ (l : List Nat) (maxDegree : Int) (acc r : List Nat),
      degreeCandidates degrees maxDegree acc l = .ok r →
      ∃ M, maxDegree ≤ M ∧ (∀ c ∈ l, ∃ d, degrees[c]? = some d ∧ d ≤ M) ∧
        r = (if M = maxDegree then acc else []) ++ l.filter fun c => degrees[c]? = some M := by
  intro l
  induction l with
  | nil =>
    intro maxDegree acc r h
    simp only [degreeCandidates, Outcome.ok.injEq] at h
    exact ⟨maxDegree, le_refl _, by simp, by simp [h]⟩
  | cons c rest ih =>
    intro maxDegree acc r h
    unfold degreeCandidates at h
    cases hd : degrees[c]? with
    | none => simp [hd] at h
    | some d =>
      simp only [hd] at h
      by_cases h1 : d > maxDegree
      · rw [if_pos h1] at h
        obtain ⟨M, hM, hall, hr⟩ := ih d [c] r h
        refine ⟨M, by omega, ?_, ?_⟩
        · intro x hx
          rcases List.mem_cons.1 hx with rfl | hx
          · exact ⟨d, hd, hM⟩
          · exact hall x hx
        · have hne : M ≠ maxDegree := by omega
          rw [hr, if_neg hne]
          by_cases hdm : M = d
          · subst hdm; simp [List.filter_cons, hd]
          · have : ¬ d = M := fun h => hdm h.symm
            simp [List.filter_cons, hd, hdm, this]
      · rw [if_neg h1] at h
        by_cases h2 : d = maxDegree
        · rw [if_pos h2] at h
          obtain ⟨M, hM, hall, hr⟩ := ih maxDegree (acc ++ [c]) r h
          refine ⟨M, hM, ?_, ?_⟩
          · intro x hx
            rcases List.mem_cons.1 hx with rfl | hx
            · exact ⟨d, hd, by omega⟩
            · exact hall x hx
          · rw [hr]
            by_cases hmm : M = maxDegree
            · have : d = M := by omega
              simp [List.filter_cons, hd, hmm, this]
            · have : ¬ d = M := by omega
              simp [List.filter_cons, hd, hmm, this]
        · rw [if_neg h2] at h
          obtain ⟨M, hM, hall, hr⟩ := ih maxDegree acc r h
          refine ⟨M, hM, ?_, ?_⟩
          · intro x hx
            rcases List.mem_cons.1 hx with rfl | hx
            · exact ⟨d, hd, by omega⟩
            · exact hall x hx
          · have : ¬ d = M := by omega
            rw [hr]
            simp [List.filter_cons, hd, this]

/-- With symmetric adjacency the scan of dsatur.go 121-128 always meets the vertex that was
coloured just before, so the saturation update changes nothing. -/
theorem updateSaturation_symmetric (graph : ConflictGraph) (hsym : graph.Symmetric)
    (avail : List (List Nat)) (coloring : GoMap CourseID Nat) (k next : Nat)
    (courseID : CourseID) (hc : graph.Courses[next]? = some courseID)
    (hcol : coloring.get? courseID = some k) :
    ∀ (row : List Int) (n : Nat) (sat sat' : List Int),
      (∀ j w, row[j]? = some w → 0 < w → graph.adjacent next (n + j) = true) →
      updateSaturation graph avail coloring k n row sat = .ok sat' → sat' = sat := by
  intro row
  induction row with
  | nil =>
    intro n sat sat' _ h
    simp only [updateSaturation, Outcome.ok.injEq] at h
    exact h.symm
  | cons weight row ih =>
    intro n sat sat' hrow h
    have hrow' : ∀ j w, row[j]? = some w → 0 < w → graph.adjacent next (n + 1 + j) = true := by
      intro j w hj hw
      have := hrow (j + 1) w (by simpa using hj) hw
      rwa [show n + (j + 1) = n + 1 + j by omega] at this
    unfold updateSaturation at h
    by_cases hw : weight > 0
    · rw [if_pos hw] at h
      cases hcn : graph.Courses[n]? with
      | none => simp [hcn] at h
      | some c =>
        simp only [hcn] at h
        by_cases hun : coloring.get? c = none
        · rw [if_pos hun] at h
          by_cases hav : k ∈ avail.getD n []
          · rw [if_pos hav] at h
            cases hnr : graph.AdjMatrix[n]? with
            | none => simp [hnr] at h
            | some neighborRow =>
              simp only [hnr] at h
              obtain ⟨b, hb, hrest⟩ := Outcome.bind_eq_ok.1 h
              cases b with
              | false =>
                simp only [Bool.false_eq_true, if_false] at hrest
                exact ih (n + 1) sat sat' hrow' hrest
              | true =>
                exfalso
                have hadj : graph.adjacent next n = true := by
                  have := hrow 0 weight (by simp) hw
                  simpa using this
                have hadj' := hsym next n hadj
                obtain ⟨row', w', hr', hw', hpos⟩ := (adjacent_iff graph n next).1 hadj'
                rw [hnr] at hr'
                cases hr'
                obtain ⟨c', hc', hne⟩ := slotFree_true graph coloring k neighborRow 0 hb next w' hw' hpos
                rw [Nat.zero_add, hc] at hc'
                cases hc'
                exact hne hcol
          · rw [if_neg hav] at h
            exact ih (n + 1) sat sat' hrow' h
        · rw [if_neg hun] at h
          exact ih (n + 1) sat sat' hrow' h
    · rw [if_neg hw] at h
      exact ih (n + 1) sat sat' hrow' h

theorem dsaturStep_saturation (graph : ConflictGraph) (hsym : graph.Symmetric)
    (avail : List (List Nat)) (st st' : DsaturState rt)
    (h : dsaturStep rt graph avail st = .ok (.next st')) : st'.saturation = st.saturation := by
  obtain ⟨next, courseID, k, row, _, hc, _, _, hrow, hupd, _⟩ := dsaturStep_next rt graph avail st st' h
  refine updateSaturation_symmetric graph hsym avail _ k next courseID hc
    (GoMap.get?_insert_self _ _ _) row 0 _ _ ?_ hupd
  intro j w hj hw
  rw [Nat.zero_add]
  exact (adjacent_iff graph next j).2 ⟨row, w, hrow, hj, hw⟩

theorem dsaturAfter_saturation (graph : ConflictGraph) (hsym : graph.Symmetric)
    (avail : List (List Nat)) :
    ∀ (k : Nat) (st st' : DsaturState rt), dsaturAfter rt graph avail k st = some st' →
      st'.saturation = st.saturation := by
  intro k
  induction k with
  | zero =>
    intro st st' h
    simp only [dsaturAfter, Option.some.injEq] at h
    rw [h]
  | succ k ih =>
    intro st st' h
    unfold dsaturAfter at h
    by_cases hlen : st.coloring.len < graph.Courses.length
    · rw [if_pos hlen] at h
      cases hs : dsaturStep rt graph avail st with
      | ok step =>
        cases step with
        | next st1 =>
          simp only [hs] at h
          rw [ih st1 st' h, dsaturStep_saturation rt graph hsym avail st st1 hs]
        | done => simp [hs] at h
        | stuck c => simp [hs] at h
      | error e => simp [hs] at h
      | panic => simp [hs] at h
      | timeout => simp [hs] at h
    · rw [if_neg hlen] at h
      cases h

/-- The selection of dsatur.go 44-77 in a state whose saturation counters are all zero. -/
theorem selectVertex_zero (graph : ConflictGraph) (st : DsaturState rt)
    (h0 : ∀ i, st.saturation.getD i 0 = 0) (next : Nat) (rng : rt.Rand)
    (h : selectVertex rt graph st = .ok (some (next, rng))) :
    next ∈ uncolored graph st.coloring ∧
      (∀ u ∈ uncolored graph st.coloring,
        ∃ d e, graph.Degrees[u]? = some d ∧ graph.Degrees[next]? = some e ∧ d ≤ e) ∧
      ((uncolored graph st.coloring = [next] ∧ rng = st.rng) ∨
        (1 < (uncolored graph st.coloring).length ∧
          ∃ ties, ties = ((uncolored graph st.coloring).filter fun u =>
              graph.Degrees[u]? = graph.Degrees[next]?) ∧
            ties[(rt.Intn st.rng ties.length).1]? = some next ∧
            rng = (rt.Intn st.rng ties.length).2)) ∨
      (uncolored graph st.coloring = [next] ∧ rng = st.rng) := by
  unfold selectVertex at h
  rw [satCandidates_zero st.coloring st.saturation h0 graph.Courses 0] at h
  have hun : uncolored graph st.coloring =
      ((graph.Courses.enumFrom 0).filter fun p => st.coloring.get? p.2 = none).map Prod.fst := rfl
  rw [← hun] at h
  cases hu : uncolored graph st.coloring with
  | nil => simp [hu] at h
  | cons c rest =>
    cases rest with
    | nil =>
      simp only [hu, Outcome.ok.injEq, Option.some.injEq, Prod.mk.injEq] at h
      obtain ⟨rfl, rfl⟩ := h
      exact Or.inr ⟨rfl, rfl⟩
    | cons c' rest =>
      simp only [hu] at h
      obtain ⟨cands, hcands, hrest⟩ := Outcome.bind_eq_ok.1 h
      obtain ⟨M, _, hall, hr⟩ := degreeCandidates_spec graph.Degrees _ _ _ _ hcands
      simp only [ite_self, List.nil_append] at hr
      by_cases hlen : cands.length = 0
      · simp [hlen] at hrest
      · rw [if_neg hlen] at hrest
        cases hget : cands[(rt.Intn st.rng cands.length).1]? with
        | none => simp [hget] at hrest
        | some v =>
          simp only [hget, Outcome.ok.injEq, Option.some.injEq, Prod.mk.injEq] at hrest
          obtain ⟨rfl, rfl⟩ := hrest
          have hv : v ∈ cands := List.getElem?_mem hget
          rw [hr, List.mem_filter] at hv
          have hvM : graph.Degrees[v]? = some M := by simpa using hv.2
          refine Or.inl ⟨hv.1, ?_, Or.inr ⟨by simp, cands, ?_, hget, rfl⟩⟩
          · intro u hmem
            obtain ⟨d, hd, hle⟩ := hall u hmem
            exact ⟨d, M, hd, hvM, hle⟩
          · rw [hr, hvM]

theorem mem_uncolored (graph : ConflictGraph) (coloring : GoMap CourseID Nat) (u : Nat)
    (h : u ∈ uncolored graph coloring) :
    ∃ c, graph.Courses[u]? = some c ∧ coloring.get? c = none := by
  unfold uncolored at h
  obtain ⟨p, hp, rfl⟩ := List.mem_map.1 h
  obtain ⟨hmem, hcol⟩ := List.mem_filter.1 hp
  refine ⟨p.2, ?_, by simpa using hcol⟩
  exact (List.mk_mem_enum_iff_getElem? (i := p.1) (x := p.2)).1 hmem

end

/-- C38: for every graph with symmetric adjacency whose `Degrees` hold the number of
conflicting courses of each vertex (as in the graphs of `NewConflictGraph`), every slot list,
palette and seed: at the start of every iteration of the main loop of `DSATUR` all
saturation counters are 0, so the vertex selected is an uncoloured vertex with the largest
number of conflicting courses among all uncoloured vertices, and when more than one vertex
is uncoloured it is the element number `rng.Intn(n)` of the `n` uncoloured vertices with
that number, listed in ascending index order. -/
theorem C38_selection_by_degree_only (rt : GoRuntime) (graph : ConflictGraph)
    (hsym : graph.Symmetric)
    (hdeg : ∀ i, i < graph.Courses.length →
      graph.Degrees[i]? = some (conflictCount graph i : Int))
    (slots : List (Slot rt.Time)) (allowedSlots : GoMap CourseID (GoMap SlotID Bool))
    (seed : Int) (k : Nat) (st : DsaturState rt)
    (hk : dsaturAfter rt graph (availableSlots rt graph slots allowedSlots) k
      (dsaturInit rt graph seed) = some st) :
    (∀ i, st.saturation.getD i 0 = 0) ∧ SelectsByDegree rt graph st := by
  have h0 : ∀ i, st.saturation.getD i 0 = 0 := by
    intro i
    rw [dsaturAfter_saturation rt graph hsym _ k _ st hk]
    simp only [dsaturInit, List.getD_eq_getElem?_getD]
    by_cases hi : i < graph.Courses.length
    · simp [List.getElem?_replicate, hi]
    · simp [List.getElem?_replicate, hi]
  refine ⟨h0, ?_⟩
  intro next rng h
  have hlt : ∀ u ∈ uncolored graph st.coloring, u < graph.Courses.length := by
    intro u hu
    obtain ⟨c, hc, _⟩ := mem_uncolored graph st.coloring u hu
    exact (List.getElem?_eq_some_iff.1 hc).1
  rcases selectVertex_zero rt graph st h0 next rng h with ⟨hmem, hmax, htie⟩ | ⟨hone, hrng⟩
  · refine ⟨hmem, ?_, ?_⟩
    · intro u hu
      obtain ⟨d, e, hd, he, hle⟩ := hmax u hu
      rw [hdeg u (hlt u hu)] at hd
      rw [hdeg next (hlt next hmem)] at he
      cases hd
      cases he
      exact_mod_cast hle
    · rcases htie with hone | ⟨hlen, ties, hties, hget, hrng⟩
      · exact Or.inl hone
      · have heq : degreeTies graph st.coloring next = ties := by
          rw [hties]
          unfold degreeTies
          apply List.filter_congr
          intro u hu
          rw [hdeg u (hlt u hu), hdeg next (hlt next hmem)]
          by_cases hc : conflictCount graph u = conflictCount graph next
          · simp [hc]
          · have : ¬ ((conflictCount graph u : Int) = (conflictCount graph next : Int)) := by
              exact_mod_cast hc
            simp [hc, this]
        rw [heq]
        exact Or.inr ⟨hlen, hget, hrng⟩
  · refine ⟨by rw [hone]; simp, ?_, Or.inl ⟨hone, hrng⟩⟩
    intro u hu
    rw [hone, List.mem_singleton] at hu
    rw [hu]

theorem NewConflictGraph_degrees (rt : GoRuntime) (courses : GoMap CourseID Course) (i : Nat)
    (hi : i < (NewConflictGraph rt courses).Courses.length) :
    (NewConflictGraph rt courses).Degrees[i]? =
      some (conflictCount (NewConflictGraph rt courses) i : Int) := by
  obtain ⟨hmat, _, hlen, hdeg⟩ := NewConflictGraph_degInv rt courses
  simp only at hmat hlen hdeg
  have hn := NewConflictGraph_length rt courses
  have hi' : i < courses.len := by rw [← hn]; exact hi
  have h1 : i < (NewConflictGraph rt courses).Degrees.length := by rw [hlen]; exact hi'
  have := hdeg i hi'
  rw [List.getD_eq_getElem?_getD, List.getElem?_eq_getElem h1, Option.getD_some] at this
  rw [List.getElem?_eq_getElem h1, this]
  congr 2
  unfold positiveCount conflictCount
  rw [hn]
  apply List.countP_congr
  intro j _
  rw [adjacent_eq_matGet]
  by_cases hji : j = i
  · subst hji
    simp [hmat.diag j]
  · simp [hji]

/-- C38 on the graph of `starCourses` with two slots and seed 1, at the second iteration:
course `a` (index 0, two conflicting courses) has been coloured first, the counters of `b`
and `c` are still 0, and `b` (index 1) is the element number `rng.Intn(2) = 0` of the
uncoloured vertices `[1, 2]`, which both have one conflicting course. -/
theorem C38_selection_by_degree_only_witness :
    dsaturAfter refRuntime (NewConflictGraph refRuntime starCourses)
        (availableSlots refRuntime (NewConflictGraph refRuntime starCourses) twoSlots ⟨[]⟩) 1
        (dsaturInit refRuntime (NewConflictGraph refRuntime starCourses) 1) =
      some ⟨⟨[("a", 0)]⟩, [0, 0, 0], (1103527590 : Nat)⟩ ∧
    ((∀ i, ([0, 0, 0] : List Int).getD i 0 = 0) ∧
      SelectsByDegree refRuntime (NewConflictGraph refRuntime starCourses)
        ⟨⟨[("a", 0)]⟩, [0, 0, 0], (1103527590 : Nat)⟩) ∧
    selectVertex refRuntime (NewConflictGraph refRuntime starCourses)
        ⟨⟨[("a", 0)]⟩, [0, 0, 0], (1103527590 : Nat)⟩ = .ok (some (1, (377401575 : Nat))) ∧
    uncolored (NewConflictGraph refRuntime starCourses) ⟨[("a", 0)]⟩ = [1, 2] ∧
    degreeTies (NewConflictGraph refRuntime starCourses) ⟨[("a", 0)]⟩ 1 = [1, 2] :=
  ⟨rfl,
    C38_selection_by_degree_only refRuntime (NewConflictGraph refRuntime starCourses)
      (NewConflictGraph_symmetric refRuntime starCourses).1
      (NewConflictGraph_degrees refRuntime starCourses) twoSlots ⟨[]⟩ 1 1
      ⟨⟨[("a", 0)]⟩, [0, 0, 0], (1103527590 : Nat)⟩ rfl,
    by decide, by decide, by decide⟩

/-- C34: on the courses `starCourses` (`a` conflicts with `b` and with `c`) with two slots
and no palette, the first iteration gives `a` the colour 0.  The courses `b` and `c` are then
uncoloured neighbours of `a` whose candidate sets `[0, 1]` contain 0, and `a` is their only
coloured neighbour, so one colour of their candidate sets is held by a coloured neighbour;
yet their saturation counters are still 0, and they are 0 after the second iteration too. -/
theorem C34_saturation_never_incremented :
    (NewConflictGraph refRuntime starCourses).Courses = ["a", "b", "c"] ∧
    (NewConflictGraph refRuntime starCourses).AdjMatrix = [[0, 1, 1], [1, 0, 0], [1, 0, 0]] ∧
    availableSlots refRuntime (NewConflictGraph refRuntime starCourses) twoSlots ⟨[]⟩ =
      [[0, 1], [0, 1], [0, 1]] ∧
    (dsaturAfter refRuntime (NewConflictGraph refRuntime starCourses)
        (availableSlots refRuntime (NewConflictGraph refRuntime starCourses) twoSlots ⟨[]⟩) 1
        (dsaturInit refRuntime (NewConflictGraph refRuntime starCourses) 1)).map
      DsaturState.view = some (⟨[("a", 0)]⟩, [0, 0, 0]) ∧
    heldColors (NewConflictGraph refRuntime starCourses)
      (availableSlots refRuntime (NewConflictGraph refRuntime starCourses) twoSlots ⟨[]⟩)
      ⟨[("a", 0)]⟩ 1 = [0] ∧
    heldColors (NewConflictGraph refRuntime starCourses)
      (availableSlots refRuntime (NewConflictGraph refRuntime starCourses) twoSlots ⟨[]⟩)
      ⟨[("a", 0)]⟩ 2 = [0] ∧
    (dsaturAfter refRuntime (NewConflictGraph refRuntime starCourses)
        (availableSlots refRuntime (NewConflictGraph refRuntime starCourses) twoSlots ⟨[]⟩) 2
        (dsaturInit refRuntime (NewConflictGraph refRuntime starCourses) 1)).map
      DsaturState.view = some (⟨[("a", 0), ("b", 1)]⟩, [0, 0, 0]) := by
  decide

section
variable (rt : GoRuntime)

theorem allowedIndices_sorted (allowed : GoMap SlotID Bool) :
    ∀ (slots : List (Slot rt.Time)) (j : Nat),
      (allowedIndices rt allowed j slots).Pairwise (fun a b => a < b) ∧
        ∀ x ∈ allowedIndices rt allowed j slots, j ≤ x := by
  intro slots
  induction slots with
  | nil => intro j; simp [allowedIndices]
  | cons s rest ih =>
    intro j
    obtain ⟨hp, hge⟩ := ih (j + 1)
    unfold allowedIndices
    by_cases h : allowed.get? s.ID = some true
    · rw [if_pos h]
      refine ⟨List.pairwise_cons.2 ⟨fun x hx => ?_, hp⟩, ?_⟩
      · have := hge x hx
        omega
      · intro x hx
        rcases List.mem_cons.1 hx with rfl | hx
        · exact le_refl _
        · have := hge x hx
          omega
    · rw [if_neg h]
      exact ⟨hp, fun x hx => by have := hge x hx; omega⟩

theorem courseSlots_sorted (slots : List (Slot rt.Time))
    (allowedSlots : GoMap CourseID (GoMap SlotID Bool)) (c : CourseID) :
    (courseSlots rt slots allowedSlots c).Pairwise (fun a b => a < b) := by
  unfold courseSlots
  cases allowedSlots.get? c with
  | none => exact List.pairwise_lt_range _
  | some allowed =>
    simp only
    by_cases h : allowed.len > 0
    · rw [if_pos h]; exact (allowedIndices_sorted rt allowed slots 0).1
    · rw [if_neg h]; exact List.pairwise_lt_range _

theorem smallestFree_step (graph : ConflictGraph) (slots : List (Slot rt.Time))
    (allowedSlots : GoMap CourseID (GoMap SlotID Bool)) (st st' : DsaturState rt)
    (hinv : SmallestFree rt graph slots allowedSlots st.coloring)
    (h : dsaturStep rt graph (availableSlots rt graph slots allowedSlots) st = .ok (.next st')) :
    SmallestFree rt graph slots allowedSlots st'.coloring := by
  obtain ⟨next, courseID, k, row, _, hc, hun, hpick, hrow, _, hcol⟩ :=
    dsaturStep_next rt graph _ st st' h
  rw [availableSlots_getD rt graph slots allowedSlots next courseID hc] at hpick
  have hkeep : ∀ y j, st.coloring.get? y = some j → st'.coloring.get? y = some j := by
    intro y j hy
    have hne : y ≠ courseID := by
      intro e
      rw [e, hun] at hy
      cases hy
    rw [hcol, GoMap.get?_insert_of_ne _ _ hne]
    exact hy
  intro v k' hv j hj hlt
  by_cases hvc : v = courseID
  · subst hvc
    rw [hcol, GoMap.get?_insert_self] at hv
    cases hv
    obtain ⟨pre, post, hsplit, hpre, hpost⟩ := pickSlot_ok graph st.coloring next _ _ hpick
    have hsorted := courseSlots_sorted rt slots allowedSlots v
    rw [hsplit] at hj hsorted
    rcases hpost with ⟨hnone, _⟩ | ⟨k0, post', hk0, hpost', _⟩
    · cases hnone
    · cases hk0
      have hjpre : j ∈ pre := by
        rcases List.mem_append.1 hj with hjp | hjq
        · exact hjp
        · exfalso
          rw [hpost'] at hjq hsorted
          rcases List.mem_cons.1 hjq with e | hjq'
          · omega
          · have := (List.pairwise_cons.1 (List.pairwise_append.1 hsorted).2.1).1 j hjq'
            omega
      obtain ⟨row', hrow', hfree⟩ := hpre j hjpre
      obtain ⟨n, w, y, hn, hw, hy, hyc⟩ := slotFree_false graph st.coloring j row' 0 hfree
      rw [Nat.zero_add] at hy
      refine ⟨next, n, y, hc, (adjacent_iff graph next n).2 ⟨row', w, hrow', hn, hw⟩, hy, ?_,
        hkeep y j hyc⟩
      intro e
      rw [e, hun] at hyc
      cases hyc
  · rw [hcol, GoMap.get?_insert_of_ne _ _ hvc] at hv
    obtain ⟨i, n, y, hi, hadj, hy, hne, hyc⟩ := hinv v k' hv j hj hlt
    exact ⟨i, n, y, hi, hadj, hy, hne, hkeep y j hyc⟩

theorem DSATUR_smallestFree (graph : ConflictGraph) (slots : List (Slot rt.Time))
    (allowedSlots : GoMap CourseID (GoMap SlotID Bool)) (seed : Int)
    (coloring : GoMap CourseID Nat)
    (h : DSATUR rt graph slots allowedSlots seed = .ok coloring) :
    SmallestFree rt graph slots allowedSlots coloring := by
  obtain ⟨st, hrun, hcol⟩ := DSATUR_ok_run rt graph slots allowedSlots seed coloring h
  unfold dsaturRun at hrun
  have hinit : SmallestFree rt graph slots allowedSlots (dsaturInit rt graph seed).coloring := by
    intro v k hv
    simp [dsaturInit, GoMap.get?_empty] at hv
  have := (dsaturLoop_ok rt graph _ (fun s => SmallestFree rt graph slots allowedSlots s.coloring)
    (fun s s' hs hstep => smallestFree_step rt graph slots allowedSlots s s' hs hstep)
    _ _ _ hinit hrun).1
  rw [← hcol]
  exact this

end

/-- C35: in every coloring returned by `DSATUR`, the colour `k` of a course `v` is a
candidate slot index of `v`, and for every candidate index `j` of `v` with `j < k` some
other course, at an index `n` with `AdjMatrix[i][n] > 0` for an index `i` of `v`, has the
colour `j` in the returned coloring. -/
theorem C35_smallest_free_candidate (rt : GoRuntime) (graph : ConflictGraph)
    (slots : List (Slot rt.Time)) (allowedSlots : GoMap CourseID (GoMap SlotID Bool))
    (seed : Int) (coloring : GoMap CourseID Nat)
    (h : DSATUR rt graph slots allowedSlots seed = .ok coloring) :
    ∀ v k, coloring.get? v = some k →
      k ∈ courseSlots rt slots allowedSlots v ∧
      ∀ j ∈ courseSlots rt slots allowedSlots v, j < k →
        ∃ i n y, graph.Courses[i]? = some v ∧ graph.adjacent i n = true ∧
          graph.Courses[n]? = some y ∧ y ≠ v ∧ coloring.get? y = some j := by
  intro v k hv
  exact ⟨(DSATUR_ok_domain rt graph slots allowedSlots seed coloring h).2.2 v k hv,
    DSATUR_smallestFree rt graph slots allowedSlots seed coloring h v k hv⟩

/-- C35 on the courses `starCourses` with two slots: `b` and `c` get the slot index 1, and
the smaller candidate 0 is held by `a`, which conflicts with both. -/
theorem C35_smallest_free_candidate_witness :
    DSATUR refRuntime (NewConflictGraph refRuntime starCourses) twoSlots ⟨[]⟩ 1 =
      .ok ⟨[("a", 0), ("b", 1), ("c", 1)]⟩ ∧
    ∀ v k, (⟨[("a", 0), ("b", 1), ("c", 1)]⟩ : GoMap CourseID Nat).get? v = some k →
      k ∈ courseSlots refRuntime twoSlots ⟨[]⟩ v ∧
      ∀ j ∈ courseSlots refRuntime twoSlots ⟨[]⟩ v, j < k →
        ∃ i n y, (NewConflictGraph refRuntime starCourses).Courses[i]? = some v ∧
          (NewConflictGraph refRuntime starCourses).adjacent i n = true ∧
          (NewConflictGraph refRuntime starCourses).Courses[n]? = some y ∧ y ≠ v ∧
          (⟨[("a", 0), ("b", 1), ("c", 1)]⟩ : GoMap CourseID Nat).get? y = some j :=
  ⟨by decide,
    C35_smallest_free_candidate refRuntime (NewConflictGraph refRuntime starCourses) twoSlots
      ⟨[]⟩ 1 ⟨[("a", 0), ("b", 1), ("c", 1)]⟩ (by decide)⟩

/-- C36: `AllocateHalls` on two assignments with the same enrollment count 40 and the halls
`H1` of capacity 50 and `H2` of capacity 40.  The comparison of halls.go 21-23 reads the
enrollment counts only, so the sort leaves two tied assignments in their input order (as the
insertion sort of package `sort` does for a slice of two elements): with the input `c1, c2`
course `c1` is served first and gets the tightest hall `H2`, with the input `c2, c1` course
`c2` is served first and `c1` gets `H1`. -/
theorem C36_tied_courses_served_in_input_order :
    (AllocateHalls refRuntime tiedAssignments tiedHalls ⟨[]⟩ "s").assignmentsInSlot.map
        Assignment.CourseID = ["c1", "c2"] ∧
      (AllocateHalls refRuntime tiedAssignments tiedHalls ⟨[]⟩ "s").allocatedHalls =
        ⟨[("c1", ["H2"]), ("c2", ["H1"])]⟩ ∧
      tiedAssignments.reverse.Perm tiedAssignments ∧
      (AllocateHalls refRuntime tiedAssignments.reverse tiedHalls ⟨[]⟩ "s").assignmentsInSlot.map
        Assignment.CourseID = ["c2", "c1"] ∧
      (AllocateHalls refRuntime tiedAssignments.reverse tiedHalls ⟨[]⟩ "s").allocatedHalls =
        ⟨[("c2", ["H2"]), ("c1", ["H1"])]⟩ :=
  ⟨by decide, by decide, List.reverse_perm _, by decide, by decide⟩

section
variable (rt : GoRuntime)

theorem flatMap_eq_of_unique {α β κ : Type} (key : α → κ) (f : α → List β) (x0 : α) :
    ∀ (l : List α), (l.map key).Nodup → x0 ∈ l →
      (∀ x ∈ l, key x ≠ key x0 → f x = []) → l.flatMap f = f x0 := by
  intro l
  induction l with
  | nil => intro _ h; cases h
  | cons a rest ih =>
    intro hnd hmem hother
    rw [List.map_cons, List.nodup_cons] at hnd
    rw [List.flatMap_cons]
    rcases List.mem_cons.1 hmem with rfl | hmem'
    · have hrest : rest.flatMap f = [] := by
        rw [List.flatMap_eq_nil_iff]
        intro x hx
        apply hother x (List.mem_cons_of_mem _ hx)
        intro e
        exact hnd.1 (e ▸ List.mem_map_of_mem key hx)
      rw [hrest, List.append_nil]
    · have ha : f a = [] := by
        apply hother a (List.mem_cons_self _ _)
        intro e
        exact hnd.1 (e ▸ List.mem_map_of_mem key hmem')
      rw [ha, List.nil_append]
      exact ih hnd.2 hmem' (fun x hx => hother x (List.mem_cons_of_mem _ hx))

/-- The exams of a student who is listed twice in one scheduled course and in no other
scheduled course: twice the start of the slot of that course. -/
theorem examStarts_twice (exec : Nat) (schedule : GoMap CourseID Nat)
    (courses : GoMap CourseID Course) (slots : List (Slot rt.Time))
    (s : StudentID) (c : CourseID) (k : Nat) (slot : Slot rt.Time) (course : Course)
    (hc : schedule.get? c = some k) (hslot : slots[k]? = some slot)
    (hcourse : courses.get? c = some course) (htwice : course.Enrollments.count s = 2)
    (hother : ∀ c' course', c' ≠ c → schedule.get? c' ≠ none →
      courses.get? c' = some course' → s ∉ course'.Enrollments) :
    examStarts rt courses slots (GoMap.range rt 7 exec schedule) s = [slot.Start, slot.Start] := by
  unfold examStarts
  rw [flatMap_eq_of_unique Prod.fst _ (c, k) (GoMap.range rt 7 exec schedule)]
  · simp only [hslot, hcourse]
    have hlen : (course.Enrollments.filter fun x => decide (x = s)).length = 2 := by
      rw [← htwice, List.count, List.countP_eq_length_filter]
      congr 1
    generalize (course.Enrollments.filter fun x => decide (x = s)) = l at hlen
    match l, hlen with
    | [_, _], _ => rfl
  · rw [GoMap.range_fst]
    exact (rt.rangeOrder_perm 7 exec schedule.keys).nodup_iff.2 (List.nodup_dedup _)
  · exact (GoMap.mem_range_iff rt 7 exec schedule c k).2 hc
  · intro e he hne
    have hget := GoMap.mem_range rt 7 exec schedule e.1 e.2 he
    cases hs : slots[e.2]? with
    | none => simp
    | some slot' =>
      cases hcs : courses.get? e.1 with
      | none => simp
      | some course' =>
        simp only
        have hnot := hother e.1 course' hne (by rw [hget]; simp) hcs
        rw [List.map_eq_nil_iff, List.filter_eq_nil_iff]
        intro x hx
        simp only [decide_eq_true_eq]
        intro e'
        exact hnot (e' ▸ hx)

theorem penaltyTerms_twice (minGapMinutes : Int) (config : PenaltyConfig rt) (t : rt.Time)
    (hzero : rt.timeSub t t = 0) :
    penaltyTerms rt minGapMinutes config [t, t] =
      config.StudentProximityWeight ::
        (if 0 < minGapMinutes then [config.MinGapViolationWeight] else []) := by
  unfold penaltyTerms
  simp only [orderedPairs, List.map_cons, List.map_nil, List.append_nil, List.flatMap_cons,
    List.flatMap_nil, proximityTerm, minGapTerm, hzero, abs_zero, if_true]
  by_cases h : 0 < minGapMinutes
  · have h2 : (0 : Int) < minGapMinutes * 60000000000 := by omega
    simp [h, h2]
  · simp [h]

end

/-- C37, amended: `CalculatePenalty` pairs the enrollment entries of a student with
multiplicity.  For every coloring that gives each of its courses a slot index of the slot
list and a course of the course map, when `min_gap_minutes` minutes are less than `2^63`
nanoseconds, no difference of two slot starts is the least 64-bit `Duration`, and the
difference of a start from itself is 0: if student `s` is listed twice in the scheduled
course `c` and in no other scheduled course, then `s` has two exams, both at the start of
the slot of `c`; this pair adds `StudentProximityWeight` to the penalty, and
`MinGapViolationWeight` as well when `min_gap_minutes > 0`: the penalty is the sum, student
by student, of the terms of the student's exams, and `s` is one of these students. -/
theorem C37_duplicate_enrollment_scored (rt : GoRuntime) (exec : Nat)
    (schedule : GoMap CourseID Nat) (courses : GoMap CourseID Course)
    (slots : List (Slot rt.Time)) (graph : ConflictGraph) (minGapMinutes : Int)
    (config : PenaltyConfig rt)
    (hdom : ∀ c k, schedule.get? c = some k → k < slots.length ∧ courses.get? c ≠ none)
    (hgap : minGapMinutes * 60000000000 < 9223372036854775808)
    (hsub : ∀ s ∈ slots, ∀ t ∈ slots, -9223372036854775808 < rt.timeSub s.Start t.Start)
    (s : StudentID) (c : CourseID) (k : Nat) (slot : Slot rt.Time) (course : Course)
    (hc : schedule.get? c = some k) (hslot : slots[k]? = some slot)
    (hcourse : courses.get? c = some course) (htwice : course.Enrollments.count s = 2)
    (hother : ∀ c' course', c' ≠ c → schedule.get? c' ≠ none →
      courses.get? c' = some course' → s ∉ course'.Enrollments)
    (hzero : rt.timeSub slot.Start slot.Start = 0) :
    examStarts rt courses slots (GoMap.range rt 7 exec schedule) s = [slot.Start, slot.Start] ∧
      penaltyTerms rt minGapMinutes config [slot.Start, slot.Start] =
        config.StudentProximityWeight ::
          (if 0 < minGapMinutes then [config.MinGapViolationWeight] else []) ∧
      ∃ students : List StudentID, students.Nodup ∧ s ∈ students ∧
        (∀ x, x ∈ students ↔
          examStarts rt courses slots (GoMap.range rt 7 exec schedule) x ≠ []) ∧
        CalculatePenalty rt exec schedule courses slots graph minGapMinutes config =
          .ok ((students.flatMap fun x => penaltyTerms rt minGapMinutes config
            (examStarts rt courses slots (GoMap.range rt 7 exec schedule) x)).foldl
              rt.fadd rt.fzero) := by
  have hstarts := examStarts_twice rt exec schedule courses slots s c k slot course hc hslot
    hcourse htwice hother
  obtain ⟨students, hnd, hmem, hpen⟩ := CalculatePenalty_eq rt exec schedule courses slots graph
    minGapMinutes config hdom hgap hsub
  refine ⟨hstarts, penaltyTerms_twice rt minGapMinutes config slot.Start hzero, students, hnd,
    ?_, hmem, hpen⟩
  rw [hmem, hstarts]
  simp

/-- C37, amended, on `twiceCourses`, where `c1` lists student `s1` twice, with one slot:
the pair of the two entries of `s1` adds the proximity weight 1 and, with a minimum gap of
30 minutes, the gap weight 10, so the penalty is 11; with no minimum gap it is 1. -/
theorem C37_duplicate_enrollment_scored_witness :
    (∀ c k, twiceColoring.get? c = some k → k < oneSlot.length ∧ twiceCourses.get? c ≠ none) ∧
      (30 : Int) * 60000000000 < 9223372036854775808 ∧
      (∀ s ∈ oneSlot, ∀ t ∈ oneSlot,
        -9223372036854775808 < refRuntime.timeSub s.Start t.Start) ∧
      List.count "s1" ["s1", "s1"] = 2 ∧
      examStarts refRuntime twiceCourses oneSlot (GoMap.range refRuntime 7 0 twiceColoring) "s1" =
        [(1736154000 : Int), (1736154000 : Int)] ∧
      penaltyTerms refRuntime 30 ⟨1, 10⟩ [(1736154000 : Int), (1736154000 : Int)] = [1, 10] ∧
      CalculatePenalty refRuntime 0 twiceColoring twiceCourses oneSlot
        (NewConflictGraph refRuntime twiceCourses) 30 ⟨1, 10⟩ = .ok (11 : Rat) ∧
      CalculatePenalty refRuntime 0 twiceColoring twiceCourses oneSlot
        (NewConflictGraph refRuntime twiceCourses) 0 ⟨1, 10⟩ = .ok (1 : Rat) := by
  have hdom : ∀ c k, twiceColoring.get? c = some k →
      k < oneSlot.length ∧ twiceCourses.get? c ≠ none := by
    intro c k h
    have hk : (c, k) ∈ GoMap.range refRuntime 7 0 twiceColoring :=
      (GoMap.mem_range_iff refRuntime 7 0 twiceColoring c k).2 h
    have hall : ∀ e ∈ GoMap.range refRuntime 7 0 twiceColoring,
        e.2 < oneSlot.length ∧ twiceCourses.get? e.1 ≠ none := by
      decide
    exact hall (c, k) hk
  have hother : ∀ c' course', c' ≠ "c1" → twiceColoring.get? c' ≠ none →
      twiceCourses.get? c' = some course' → "s1" ∉ course'.Enrollments := by
    intro c' course' hne hsched hcourse
    have hc2 : c' = "c2" := by
      by_contra hne2
      apply hsched
      simp only [twiceColoring, GoMap.get?, GoMap.lookupList]
      have h1 : ¬ "c1" = c' := fun e => hne e.symm
      have h2 : ¬ "c2" = c' := fun e => hne2 e.symm
      simp [h1, h2]
    subst hc2
    have : course' = ⟨"c2", ["s2"]⟩ := by
      have hget : twiceCourses.get? "c2" = some ⟨"c2", ["s2"]⟩ := by decide
      rw [hget] at hcourse
      exact (Option.some.inj hcourse).symm
    rw [this]
    decide
  have h := C37_duplicate_enrollment_scored refRuntime 0 twiceColoring twiceCourses oneSlot
    (NewConflictGraph refRuntime twiceCourses) 30 ⟨1, 10⟩ hdom (by decide) (by decide)
    "s1" "c1" 0 ⟨"2025-01-06T09:00Z#1", (1736154000 : Int), (1736164800 : Int), 0, 0⟩
    ⟨"c1", ["s1", "s1"]⟩ (by decide) rfl (by decide) (by decide) hother (by decide)
  have h11 : CalculatePenalty refRuntime 0 twiceColoring twiceCourses oneSlot
      (NewConflictGraph refRuntime twiceCourses) 30 ⟨1, 10⟩ =
        .ok (refRuntime.fadd (refRuntime.fadd refRuntime.fzero 1) 10) := rfl
  have h1 : CalculatePenalty refRuntime 0 twiceColoring twiceCourses oneSlot
      (NewConflictGraph refRuntime twiceCourses) 0 ⟨1, 10⟩ =
        .ok (refRuntime.fadd refRuntime.fzero 1) := rfl
  refine ⟨hdom, by decide, by decide, by decide, h.1, by decide, ?_, ?_⟩
  · rw [h11]
    norm_num
  · rw [h1]
    norm_num

/-- C33: `ParseHalls` on a file with the capacity fields `12.5`, `30abc`, `-5`, the empty
field, `abc` and `40`.  `fmt.Sscanf(field, "%d", &capacity)` reads the leading digits and
does not look at what follows them, so the rows of `12.5` and `30abc` are kept, with the
capacities 12 and 30; only the negative, the empty and the non-numeric field are skipped. -/
theorem C33_leading_digits_accepted :
    refRuntime.csvLooseRecords capacityCSV =
        [["H1", "12.5"], ["H2", "30abc"], ["H3", "-5"], ["H4", ""], ["H5", "abc"],
          ["H6", "40"]] ∧
      refRuntime.sscanfInt "12.5" = some 12 ∧ refRuntime.sscanfInt "30abc" = some 30 ∧
      refRuntime.sscanfInt "-5" = some (-5) ∧ refRuntime.sscanfInt "" = none ∧
      refRuntime.sscanfInt "abc" = none ∧
      ParseHalls refRuntime capacityCSV none =
        .ok [⟨"H1", 12, ""⟩, ⟨"H2", 30, ""⟩, ⟨"H6", 40, ""⟩] := by
  decide

section
variable (rt : GoRuntime)

theorem calendarDays_succ (start : rt.Time) (n : Nat) :
    calendarDays rt start (n + 1) = start :: calendarDays rt (rt.addDay start) n := by
  unfold calendarDays
  rw [List.range_succ_eq_map, List.map_cons, List.map_map]
  rfl

theorem calendarDays_length (start : rt.Time) (n : Nat) :
    (calendarDays rt start n).length = n := by
  simp [calendarDays]

/-- A run of the day loop that ends visits the days up to the first one after the end day,
and returns the slots of the working days among them. -/
theorem dayLoop_eq (endDay : rt.Time) (loc : rt.Location) (slotsPerDay : Int)
    (slotTimes : List String) (slotDuration : Int) (holidays : List String) :
    ∀ (fuel : Nat) (d : rt.Time) (dayIndex : Int) (acc r : List (Slot rt.Time)),
      dayLoop rt endDay loc slotsPerDay slotTimes slotDuration holidays fuel d dayIndex acc =
        .ok r →
      ∃ n, (∀ i, i < n → rt.timeAfter (Nat.iterate rt.addDay i d) endDay = false) ∧
        rt.timeAfter (Nat.iterate rt.addDay n d) endDay = true ∧
        (∀ day ∈ (calendarDays rt d n).filter (isWorkingDay rt holidays),
          ∃ ts, timesOfDay rt loc slotsPerDay slotTimes slotDuration day = .ok ts) ∧
        r = acc ++ slotsOfDays rt loc slotsPerDay slotTimes slotDuration
          ((calendarDays rt d n).filter (isWorkingDay rt holidays)) dayIndex := by
  intro fuel
  induction fuel with
  | zero => intro d dayIndex acc r h; simp [dayLoop] at h
  | succ fuel ih =>
    intro d dayIndex acc r h
    unfold dayLoop at h
    by_cases hafter : rt.timeAfter d endDay = true
    · rw [if_pos hafter] at h
      cases h
      refine ⟨0, fun i hi => absurd hi (Nat.not_lt_zero i), hafter, ?_, ?_⟩
      · intro day hday
        simp [calendarDays] at hday
      · simp [calendarDays, slotsOfDays]
    · rw [if_neg hafter] at h
      have hnot : rt.timeAfter d endDay = false := by simpa using hafter
      have hbound : ∀ n, (∀ i, i < n →
            rt.timeAfter (Nat.iterate rt.addDay i (rt.addDay d)) endDay = false) →
          ∀ i, i < n + 1 → rt.timeAfter (Nat.iterate rt.addDay i d) endDay = false := by
        intro n hn i hi
        cases i with
        | zero => exact hnot
        | succ i =>
          rw [Function.iterate_succ_apply]
          exact hn i (by omega)
      by_cases hwork : isWorkingDay rt holidays d = true
      · rw [if_pos hwork] at h
        cases hts : timesOfDay rt loc slotsPerDay slotTimes slotDuration d with
        | error err => simp [hts] at h
        | ok ts =>
          simp only [hts] at h
          obtain ⟨n, hn, hend, hok, hr⟩ := ih _ _ _ _ h
          refine ⟨n + 1, hbound n hn, ?_, ?_, ?_⟩
          · rw [Function.iterate_succ_apply]; exact hend
          · intro day hday
            rw [calendarDays_succ, List.filter_cons, if_pos hwork] at hday
            rcases List.mem_cons.1 hday with rfl | hday
            · exact ⟨ts, hts⟩
            · exact hok day hday
          · rw [hr, calendarDays_succ, List.filter_cons, if_pos hwork]
            simp only [slotsOfDays, dayStarts, hts, List.append_assoc]
      · rw [if_neg hwork] at h
        obtain ⟨n, hn, hend, hok, hr⟩ := ih _ _ _ _ h
        refine ⟨n + 1, hbound n hn, ?_, ?_, ?_⟩
        · rw [Function.iterate_succ_apply]; exact hend
        · intro day hday
          rw [calendarDays_succ, List.filter_cons, if_neg hwork] at hday
          exact hok day hday
        · rw [hr, calendarDays_succ, List.filter_cons, if_neg hwork]

/-- The day loop ends when `AddDate(0, 0, 1)` moves the time forward and every slot time
can be parsed. -/
theorem dayLoop_ok (endDay : rt.Time) (loc : rt.Location) (slotsPerDay : Int)
    (slotTimes : List String) (slotDuration : Int) (holidays : List String)
    (hafter : ∀ t u, rt.timeAfter t u = false → rt.timeUnix t ≤ rt.timeUnix u)
    (hadd : ∀ t, rt.timeUnix t < rt.timeUnix (rt.addDay t))
    (htimes : ∀ d, ∃ ts, timesOfDay rt loc slotsPerDay slotTimes slotDuration d = .ok ts) :
    ∀ (fuel : Nat) (d : rt.Time) (dayIndex : Int) (acc : List (Slot rt.Time)),
      (rt.timeUnix endDay - rt.timeUnix d + 1).toNat + 1 ≤ fuel →
      ∃ r, dayLoop rt endDay loc slotsPerDay slotTimes slotDuration holidays fuel d dayIndex
        acc = .ok r := by
  intro fuel
  induction fuel with
  | zero => intro d dayIndex acc h; omega
  | succ fuel ih =>
    intro d dayIndex acc h
    unfold dayLoop
    by_cases haft : rt.timeAfter d endDay = true
    · rw [if_pos haft]; exact ⟨acc, rfl⟩
    · rw [if_neg haft]
      have hnot : rt.timeAfter d endDay = false := by simpa using haft
      have hle := hafter d endDay hnot
      have hlt := hadd d
      have hfuel : (rt.timeUnix endDay - rt.timeUnix (rt.addDay d) + 1).toNat + 1 ≤ fuel := by
        omega
      by_cases hwork : isWorkingDay rt holidays d = true
      · rw [if_pos hwork]
        obtain ⟨ts, hts⟩ := htimes d
        simp only [hts]
        exact ih _ _ _ hfuel
      · rw [if_neg hwork]
        exact ih _ _ _ hfuel

theorem timesFromList_ok (d : rt.Time) :
    ∀ (slotTimes : List String) (acc : List rt.Time),
      (∀ st ∈ slotTimes, ∃ t, rt.parseClock st rt.utc = .ok t) →
      ∃ ts, timesFromList rt d slotTimes acc = .ok ts := by
  intro slotTimes
  induction slotTimes with
  | nil => intro acc _; exact ⟨acc, rfl⟩
  | cons st rest ih =>
    intro acc h
    obtain ⟨t, ht⟩ := h st (List.mem_cons_self _ _)
    unfold timesFromList
    simp only [ht]
    exact ih _ (fun x hx => h x (List.mem_cons_of_mem _ hx))

theorem timesFromList_length (d : rt.Time) :
    ∀ (slotTimes : List String) (acc ts : List rt.Time),
      timesFromList rt d slotTimes acc = .ok ts → ts.length = acc.length + slotTimes.length := by
  intro slotTimes
  induction slotTimes with
  | nil =>
    intro acc ts h
    simp only [timesFromList, Except.ok.injEq] at h
    simp [h]
  | cons st rest ih =>
    intro acc ts h
    unfold timesFromList at h
    cases hp : rt.parseClock st rt.utc with
    | error err => simp [hp] at h
    | ok t =>
      simp only [hp] at h
      rw [ih _ _ h]
      simp
      omega

theorem timesOfDay_ok (loc : rt.Location) (slotsPerDay : Int) (slotTimes : List String)
    (slotDuration : Int) (htimes : ∀ st ∈ slotTimes, ∃ t, rt.parseClock st rt.utc = .ok t)
    (d : rt.Time) : ∃ ts, timesOfDay rt loc slotsPerDay slotTimes slotDuration d = .ok ts := by
  unfold timesOfDay
  by_cases h : slotTimes.length > 0
  · rw [if_pos h]; exact timesFromList_ok rt d slotTimes [] htimes
  · rw [if_neg h]; exact ⟨_, rfl⟩

theorem timesOfDay_length (loc : rt.Location) (slotsPerDay : Int) (slotTimes : List String)
    (slotDuration : Int) (d : rt.Time) (ts : List rt.Time)
    (h : timesOfDay rt loc slotsPerDay slotTimes slotDuration d = .ok ts) :
    ts.length = slotsPerWorkingDay slotsPerDay slotTimes := by
  unfold timesOfDay at h
  unfold slotsPerWorkingDay
  by_cases hl : slotTimes.length > 0
  · rw [if_pos hl] at h
    rw [if_pos hl, timesFromList_length rt d slotTimes [] ts h]
    simp
  · rw [if_neg hl] at h
    cases h
    rw [if_neg hl]
    unfold evenTimes
    simp only [List.length_map, List.length_range]

theorem slotsOfDay_length (slotDuration : Int) (d : rt.Time) (dayIndex : Int) :
    ∀ (ts : List rt.Time) (i : Nat), (slotsOfDay rt slotDuration d dayIndex i ts).length = ts.length := by
  intro ts
  induction ts with
  | nil => intro i; rfl
  | cons t rest ih => intro i; simp [slotsOfDay, ih]

theorem slotsOfDay_getElem? (slotDuration : Int) (d : rt.Time) (dayIndex : Int) :
    ∀ (ts : List rt.Time) (i j : Nat) (t : rt.Time), ts[j]? = some t →
      (slotsOfDay rt slotDuration d dayIndex i ts)[j]? =
        some ⟨rt.formatDate d ++ "T" ++ rt.formatClock t ++ "Z#" ++ toString (i + j + 1), t,
          rt.timeAdd t (wrapInt64 (slotDuration * 60000000000)), dayIndex, ((i + j : Nat) : Int)⟩ := by
  intro ts
  induction ts with
  | nil => intro i j t h; simp at h
  | cons t0 rest ih =>
    intro i j t h
    cases j with
    | zero =>
      simp only [List.getElem?_cons_zero, Option.some.injEq] at h
      subst h
      simp [slotsOfDay]
    | succ j =>
      simp only [List.getElem?_cons_succ] at h
      simp only [slotsOfDay, List.getElem?_cons_succ]
      rw [ih (i + 1) j t h]
      have : i + 1 + j = i + (j + 1) := by omega
      rw [this]

theorem mem_slotsOfDay (slotDuration : Int) (d : rt.Time) (dayIndex : Int)
    (ts : List rt.Time) (s : Slot rt.Time)
    (h : s ∈ slotsOfDay rt slotDuration d dayIndex 0 ts) :
    ∃ (j : Nat) (t : rt.Time), ts[j]? = some t ∧
      s = ⟨rt.formatDate d ++ "T" ++ rt.formatClock t ++ "Z#" ++ toString (j + 1), t,
        rt.timeAdd t (wrapInt64 (slotDuration * 60000000000)), dayIndex, (j : Int)⟩ := by
  obtain ⟨j, hj⟩ := List.mem_iff_getElem?.1 h
  have hlt : j < ts.length := by
    rw [← slotsOfDay_length rt slotDuration d dayIndex ts 0]
    exact (List.getElem?_eq_some_iff.1 hj).1
  have ht : ts[j]? = some ts[j] := List.getElem?_eq_getElem hlt
  have := slotsOfDay_getElem? rt slotDuration d dayIndex ts 0 j ts[j] ht
  rw [hj, Nat.zero_add] at this
  exact ⟨j, ts[j], ht, Option.some.inj this⟩

theorem slotsOfDays_length (loc : rt.Location) (slotsPerDay : Int) (slotTimes : List String)
    (slotDuration : Int) (p : Nat) :
    ∀ (work : List rt.Time) (dayIndex : Int),
      (∀ day ∈ work, (dayStarts rt loc slotsPerDay slotTimes slotDuration day).length = p) →
      (slotsOfDays rt loc slotsPerDay slotTimes slotDuration work dayIndex).length =
        work.length * p := by
  intro work
  induction work with
  | nil => intro dayIndex _; simp [slotsOfDays]
  | cons d rest ih =>
    intro dayIndex h
    simp only [slotsOfDays, List.length_append, slotsOfDay_length, List.length_cons]
    rw [ih _ (fun day hday => h day (List.mem_cons_of_mem _ hday)),
      h d (List.mem_cons_self _ _)]
    ring

theorem slotsOfDays_getElem? (loc : rt.Location) (slotsPerDay : Int) (slotTimes : List String)
    (slotDuration : Int) (p : Nat) :
    ∀ (work : List rt.Time) (dayIndex : Int) (k i : Nat) (day t : rt.Time),
      (∀ day ∈ work, (dayStarts rt loc slotsPerDay slotTimes slotDuration day).length = p) →
      work[k]? = some day →
      (dayStarts rt loc slotsPerDay slotTimes slotDuration day)[i]? = some t →
      (slotsOfDays rt loc slotsPerDay slotTimes slotDuration work dayIndex)[k * p + i]? =
        some ⟨rt.formatDate day ++ "T" ++ rt.formatClock t ++ "Z#" ++ toString (i + 1), t,
          rt.timeAdd t (wrapInt64 (slotDuration * 60000000000)), dayIndex + k, (i : Int)⟩ := by
  intro work
  induction work with
  | nil => intro dayIndex k i day t _ h; simp at h
  | cons d rest ih =>
    intro dayIndex k i day t hlen hk hi
    have hA : (slotsOfDay rt slotDuration d dayIndex 0
        (dayStarts rt loc slotsPerDay slotTimes slotDuration d)).length = p := by
      rw [slotsOfDay_length]
      exact hlen d (List.mem_cons_self _ _)
    cases k with
    | zero =>
      simp only [List.getElem?_cons_zero, Option.some.injEq] at hk
      subst hk
      have hip : i < p := by
        rw [← hlen d (List.mem_cons_self _ _)]
        exact (List.getElem?_eq_some_iff.1 hi).1
      simp only [slotsOfDays, Nat.zero_mul, Nat.zero_add]
      rw [List.getElem?_append_left (by rw [hA]; exact hip),
        slotsOfDay_getElem? rt slotDuration d dayIndex _ 0 i t hi]
      simp
    | succ k =>
      simp only [List.getElem?_cons_succ] at hk
      simp only [slotsOfDays]
      rw [List.getElem?_append_right (by rw [hA]; nlinarith), hA]
      have hidx : (k + 1) * p + i - p = k * p + i := by
        have : (k + 1) * p = k * p + p := by ring
        omega
      rw [hidx, ih (dayIndex + 1) k i day t
        (fun day hday => hlen day (List.mem_cons_of_mem _ hday)) hk hi]
      simp only [Nat.cast_add, Nat.cast_one, Option.some.injEq, Slot.mk.injEq, true_and,
        and_true]
      omega

theorem mem_slotsOfDays (loc : rt.Location) (slotsPerDay : Int) (slotTimes : List String)
    (slotDuration : Int) (s : Slot rt.Time) :
    ∀ (work : List rt.Time) (dayIndex : Int),
      s ∈ slotsOfDays rt loc slotsPerDay slotTimes slotDuration work dayIndex →
      ∃ (k j : Nat) (day t : rt.Time), work[k]? = some day ∧
        (dayStarts rt loc slotsPerDay slotTimes slotDuration day)[j]? = some t ∧
        s = ⟨rt.formatDate day ++ "T" ++ rt.formatClock t ++ "Z#" ++ toString (j + 1), t,
          rt.timeAdd t (wrapInt64 (slotDuration * 60000000000)), dayIndex + k, (j : Int)⟩ := by
  intro work
  induction work with
  | nil => intro dayIndex h; simp [slotsOfDays] at h
  | cons d rest ih =>
    intro dayIndex h
    simp only [slotsOfDays, List.mem_append] at h
    rcases h with h | h
    · obtain ⟨j, t, ht, hs⟩ := mem_slotsOfDay rt slotDuration d dayIndex _ s h
      refine ⟨0, j, d, t, by simp, ht, ?_⟩
      rw [hs]
      simp
    · obtain ⟨k, j, day, t, hk, ht, hs⟩ := ih (dayIndex + 1) h
      refine ⟨k + 1, j, day, t, by simpa using hk, ht, ?_⟩
      rw [hs]
      simp only [Nat.cast_add, Nat.cast_one, Slot.mk.injEq, true_and, and_true]
      omega

/-- What a successful call of `GenerateSlots` returns: the slots of the working days among
the days from the start date up to the last day that is not after the end date. -/
theorem GenerateSlots_eq (startDate endDate : String) (slotsPerDay : Int)
    (slotTimes : List String) (slotDuration : Int) (holidays : List String) (timezone : String)
    (slots : List (Slot rt.Time))
    (h : GenerateSlots rt startDate endDate slotsPerDay slotTimes slotDuration holidays
      timezone = .ok slots) :
    ∃ (start endDay : rt.Time) (n : Nat),
      rt.parseDate startDate ((rt.loadLocation timezone).getD rt.utc) = .ok start ∧
      rt.parseDate endDate ((rt.loadLocation timezone).getD rt.utc) = .ok endDay ∧
      (∀ i, i < n → rt.timeAfter (Nat.iterate rt.addDay i start) endDay = false) ∧
      rt.timeAfter (Nat.iterate rt.addDay n start) endDay = true ∧
      (∀ day ∈ (calendarDays rt start n).filter (isWorkingDay rt holidays),
        ∃ ts, timesOfDay rt ((rt.loadLocation timezone).getD rt.utc) slotsPerDay slotTimes
          slotDuration day = .ok ts) ∧
      slots = slotsOfDays rt ((rt.loadLocation timezone).getD rt.utc) slotsPerDay slotTimes
        slotDuration ((calendarDays rt start n).filter (isWorkingDay rt holidays)) 0 := by
  unfold GenerateSlots at h
  simp only at h
  cases hs : rt.parseDate startDate ((rt.loadLocation timezone).getD rt.utc) with
  | error err => simp [hs] at h
  | ok start =>
    cases he : rt.parseDate endDate ((rt.loadLocation timezone).getD rt.utc) with
    | error err => simp [hs, he] at h
    | ok endDay =>
      simp only [hs, he] at h
      obtain ⟨n, hn, hend, hok, hr⟩ := dayLoop_eq rt endDay _ slotsPerDay slotTimes
        slotDuration holidays _ _ _ _ _ h
      exact ⟨start, endDay, n, rfl, rfl, hn, hend, hok, by simpa using hr⟩

theorem GenerateSlots_ok (startDate endDate : String) (slotsPerDay : Int)
    (slotTimes : List String) (slotDuration : Int) (holidays : List String) (timezone : String)
    (start endDay : rt.Time)
    (hstart : rt.parseDate startDate ((rt.loadLocation timezone).getD rt.utc) = .ok start)
    (hend : rt.parseDate endDate ((rt.loadLocation timezone).getD rt.utc) = .ok endDay)
    (htimes : ∀ st ∈ slotTimes, ∃ t, rt.parseClock st rt.utc = .ok t)
    (hafter : ∀ t u, rt.timeAfter t u = false → rt.timeUnix t ≤ rt.timeUnix u)
    (hadd : ∀ t, rt.timeUnix t < rt.timeUnix (rt.addDay t)) :
    ∃ slots, GenerateSlots rt startDate endDate slotsPerDay slotTimes slotDuration holidays
      timezone = .ok slots := by
  unfold GenerateSlots
  simp only [hstart, hend]
  exact dayLoop_ok rt endDay _ slotsPerDay slotTimes slotDuration holidays hafter hadd
    (timesOfDay_ok rt _ slotsPerDay slotTimes slotDuration htimes) _ _ _ _ (le_refl _)

theorem dayStarts_length (loc : rt.Location) (slotsPerDay : Int) (slotTimes : List String)
    (slotDuration : Int) (day : rt.Time)
    (h : ∃ ts, timesOfDay rt loc slotsPerDay slotTimes slotDuration day = .ok ts) :
    (dayStarts rt loc slotsPerDay slotTimes slotDuration day).length =
      slotsPerWorkingDay slotsPerDay slotTimes := by
  obtain ⟨ts, hts⟩ := h
  unfold dayStarts
  rw [hts]
  exact timesOfDay_length rt loc slotsPerDay slotTimes slotDuration day ts hts

end

/-- C31: every slot `s` returned by `GenerateSlots` has the ID
`D ++ "T" ++ hh:mm ++ "Z#" ++ N`, where `D` is the date `YYYY-MM-DD` of the slot's day (the
working day number `s.DayIndex`, counted from 0, among the days from the start date to the
end date), `hh:mm` is the start time of the slot as `Format("15:04")` writes it, and
`N = s.IndexInDay + 1`. -/
theorem C31_slot_id_format (rt : GoRuntime) (startDate endDate : String) (slotsPerDay : Int)
    (slotTimes : List String) (slotDuration : Int) (holidays : List String) (timezone : String)
    (slots : List (Slot rt.Time))
    (h : GenerateSlots rt startDate endDate slotsPerDay slotTimes slotDuration holidays
      timezone = .ok slots)
    (s : Slot rt.Time) (hs : s ∈ slots) :
    ∃ (start endDay : rt.Time) (n : Nat) (day : rt.Time),
      rt.parseDate startDate ((rt.loadLocation timezone).getD rt.utc) = .ok start ∧
      rt.parseDate endDate ((rt.loadLocation timezone).getD rt.utc) = .ok endDay ∧
      (∀ i, i < n → rt.timeAfter (Nat.iterate rt.addDay i start) endDay = false) ∧
      rt.timeAfter (Nat.iterate rt.addDay n start) endDay = true ∧
      0 ≤ s.DayIndex ∧ 0 ≤ s.IndexInDay ∧
      ((calendarDays rt start n).filter (isWorkingDay rt holidays))[s.DayIndex.toNat]? =
        some day ∧
      s.ID = rt.formatDate day ++ "T" ++ rt.formatClock s.Start ++ "Z#" ++
        toString (s.IndexInDay + 1) := by
  obtain ⟨start, endDay, n, hstart, hend, hn, hafter, _, hslots⟩ :=
    GenerateSlots_eq rt startDate endDate slotsPerDay slotTimes slotDuration holidays timezone
      slots h
  rw [hslots] at hs
  obtain ⟨k, j, day, t, hk, _, hsEq⟩ := mem_slotsOfDays rt _ slotsPerDay slotTimes slotDuration
    s _ 0 hs
  refine ⟨start, endDay, n, day, hstart, hend, hn, hafter, ?_, ?_, ?_, ?_⟩
  · rw [hsEq]; simp
  · rw [hsEq]; simp
  · rw [hsEq]; simpa using hk
  · rw [hsEq]
    rfl

/-- C31, counterexample: six evenly spaced slots of 180 minutes on Monday 2025-01-06.  The
sixth slot starts 15 hours after 09:00, at 00:00 on 2025-01-07, and its ID is
`2025-01-06T00:00Z#6`: the date in the ID is not the date of the start of the slot. -/
theorem C31_counterexample_slot_past_midnight :
    slotTable (GenerateSlots refRuntime "2025-01-06" "2025-01-06" 6 [] 180 [] "UTC") =
      .ok [("2025-01-06T09:00Z#1", "2025-01-06T09:00:00Z", 0, 0),
        ("2025-01-06T12:00Z#2", "2025-01-06T12:00:00Z", 0, 1),
        ("2025-01-06T15:00Z#3", "2025-01-06T15:00:00Z", 0, 2),
        ("2025-01-06T18:00Z#4", "2025-01-06T18:00:00Z", 0, 3),
        ("2025-01-06T21:00Z#5", "2025-01-06T21:00:00Z", 0, 4),
        ("2025-01-06T00:00Z#6", "2025-01-07T00:00:00Z", 0, 5)] := by
  decide

/-- C31 on the input of `TestGenerateSlots`, for the first slot of 2025-01-07: its day index
is 1, its day is the second working day, and its ID is `2025-01-07T09:00Z#1`. -/
theorem C31_slot_id_format_witness :
    GenerateSlots refRuntime "2025-01-06" "2025-01-10" 2 ["09:00", "14:00"] 180
        ["2025-01-08"] "UTC" = .ok testSlots ∧
      (⟨"2025-01-07T09:00Z#1", (1736240400 : Int), (1736251200 : Int), 1, 0⟩ :
        Slot refRuntime.Time) ∈ testSlots ∧
      refRuntime.formatDate (1736208000 : Int) = "2025-01-07" ∧
      refRuntime.formatClock (1736240400 : Int) = "09:00" ∧
      ∃ (start endDay : refRuntime.Time) (n : Nat) (day : refRuntime.Time),
        refRuntime.parseDate "2025-01-06" ((refRuntime.loadLocation "UTC").getD refRuntime.utc) =
          .ok start ∧
        refRuntime.parseDate "2025-01-10" ((refRuntime.loadLocation "UTC").getD refRuntime.utc) =
          .ok endDay ∧
        (∀ i, i < n →
          refRuntime.timeAfter (Nat.iterate refRuntime.addDay i start) endDay = false) ∧
        refRuntime.timeAfter (Nat.iterate refRuntime.addDay n start) endDay = true ∧
        (0 : Int) ≤ 1 ∧ (0 : Int) ≤ 0 ∧
        ((calendarDays refRuntime start n).filter
          (isWorkingDay refRuntime ["2025-01-08"]))[(1 : Int).toNat]? = some day ∧
        "2025-01-07T09:00Z#1" = refRuntime.formatDate day ++ "T" ++
          refRuntime.formatClock (1736240400 : Int) ++ "Z#" ++ toString ((0 : Int) + 1) :=
  ⟨by decide, by decide, by decide, by decide,
    C31_slot_id_format refRuntime "2025-01-06" "2025-01-10" 2 ["09:00", "14:00"] 180
      ["2025-01-08"] "UTC" testSlots (by decide)
      ⟨"2025-01-07T09:00Z#1", (1736240400 : Int), (1736251200 : Int), 1, 0⟩ (by decide)⟩

/-- What `GenerateSlots` returns on a run-time on which `AddDate(0, 0, 1)` moves the time
forward, for dates and slot times that can be parsed.  With `work` the days of the loop,
from the start date up to the last day not after the end date, that are neither a listed
holiday nor a Saturday nor a Sunday, and `p = len(slotTimes)`, or `slotsPerDay` (0 if
negative) when no slot time is given, the list has `p` slots for each day of `work` and no
other slot: the slot number `k * p + i` has day index `k` and index in the day `i`, it
starts at the start time number `i` built for the day number `k` of `work`, and its ID
begins with the date of that day. -/
theorem GenerateSlots_per_working_day (rt : GoRuntime) (startDate endDate : String)
    (slotsPerDay : Int) (slotTimes : List String) (slotDuration : Int) (holidays : List String)
    (timezone : String) (start endDay : rt.Time)
    (hstart : rt.parseDate startDate ((rt.loadLocation timezone).getD rt.utc) = .ok start)
    (hend : rt.parseDate endDate ((rt.loadLocation timezone).getD rt.utc) = .ok endDay)
    (htimes : ∀ st ∈ slotTimes, ∃ t, rt.parseClock st rt.utc = .ok t)
    (hafter : ∀ t u, rt.timeAfter t u = false → rt.timeUnix t ≤ rt.timeUnix u)
    (hadd : ∀ t, rt.timeUnix t < rt.timeUnix (rt.addDay t)) :
    ∃ (n : Nat) (slots : List (Slot rt.Time)),
      (∀ i, i < n → rt.timeAfter (Nat.iterate rt.addDay i start) endDay = false) ∧
      rt.timeAfter (Nat.iterate rt.addDay n start) endDay = true ∧
      GenerateSlots rt startDate endDate slotsPerDay slotTimes slotDuration holidays timezone =
        .ok slots ∧
      slots.length = ((calendarDays rt start n).filter (isWorkingDay rt holidays)).length *
        slotsPerWorkingDay slotsPerDay slotTimes ∧
      ∀ (k : Nat) (day : rt.Time),
        ((calendarDays rt start n).filter (isWorkingDay rt holidays))[k]? = some day →
        ∀ i, i < slotsPerWorkingDay slotsPerDay slotTimes →
          ∃ (s : Slot rt.Time) (ts : List rt.Time),
            slots[k * slotsPerWorkingDay slotsPerDay slotTimes + i]? = some s ∧
            timesOfDay rt ((rt.loadLocation timezone).getD rt.utc) slotsPerDay slotTimes
              slotDuration day = .ok ts ∧
            ts[i]? = some s.Start ∧ s.DayIndex = k ∧ s.IndexInDay = i ∧
            s.ID = rt.formatDate day ++ "T" ++ rt.formatClock s.Start ++ "Z#" ++
              toString (i + 1) := by
  obtain ⟨slots, hok⟩ := GenerateSlots_ok rt startDate endDate slotsPerDay slotTimes
    slotDuration holidays timezone start endDay hstart hend htimes hafter hadd
  obtain ⟨start', endDay', n, hs', he', hn, hlast, htok, hslots⟩ :=
    GenerateSlots_eq rt startDate endDate slotsPerDay slotTimes slotDuration holidays timezone
      slots hok
  rw [hstart] at hs'
  rw [hend] at he'
  cases hs'
  cases he'
  have hlen : ∀ day ∈ (calendarDays rt start n).filter (isWorkingDay rt holidays),
      (dayStarts rt ((rt.loadLocation timezone).getD rt.utc) slotsPerDay slotTimes slotDuration
        day).length = slotsPerWorkingDay slotsPerDay slotTimes :=
    fun day hday => dayStarts_length rt _ slotsPerDay slotTimes slotDuration day (htok day hday)
  refine ⟨n, slots, hn, hlast, hok, ?_, ?_⟩
  · rw [hslots]
    exact slotsOfDays_length rt _ slotsPerDay slotTimes slotDuration _ _ 0 hlen
  · intro k day hk i hi
    obtain ⟨ts, hts⟩ := htok day (List.getElem?_mem hk)
    have hds : dayStarts rt ((rt.loadLocation timezone).getD rt.utc) slotsPerDay slotTimes
        slotDuration day = ts := by
      unfold dayStarts
      rw [hts]
    have hil : i < ts.length := by
      rw [← hds, hlen day (List.getElem?_mem hk)]
      exact hi
    have hti : (dayStarts rt ((rt.loadLocation timezone).getD rt.utc) slotsPerDay slotTimes
        slotDuration day)[i]? = some ts[i] := by
      rw [hds]
      exact List.getElem?_eq_getElem hil
    have hget := slotsOfDays_getElem? rt _ slotsPerDay slotTimes slotDuration _ _ 0 k i day
      ts[i] hlen hk hti
    rw [← hslots] at hget
    exact ⟨_, ts, hget, hts, List.getElem?_eq_getElem hil, by simp, rfl, rfl⟩

/-- From Friday 2025-01-10 to Monday 2025-01-13 with two evenly spaced slots of 180 minutes
a day: the loop visits four days, of which Friday and Monday are working days, and the
result has two slots for each of them. -/
theorem GenerateSlots_per_working_day_example :
    refRuntime.parseDate "2025-01-10" ((refRuntime.loadLocation "UTC").getD refRuntime.utc) =
        .ok (1736467200 : Int) ∧
      refRuntime.parseDate "2025-01-13" ((refRuntime.loadLocation "UTC").getD refRuntime.utc) =
        .ok (1736726400 : Int) ∧
      GenerateSlots refRuntime "2025-01-10" "2025-01-13" 2 [] 180 [] "UTC" = .ok weekendSlots ∧
      (calendarDays refRuntime (1736467200 : Int) 4).filter (isWorkingDay refRuntime []) =
        [(1736467200 : Int), (1736726400 : Int)] ∧
      slotsPerWorkingDay 2 [] = 2 ∧
      ∃ (n : Nat) (slots : List (Slot refRuntime.Time)),
        (∀ i, i < n → refRuntime.timeAfter (Nat.iterate refRuntime.addDay i (1736467200 : Int))
          (1736726400 : Int) = false) ∧
        refRuntime.timeAfter (Nat.iterate refRuntime.addDay n (1736467200 : Int))
          (1736726400 : Int) = true ∧
        GenerateSlots refRuntime "2025-01-10" "2025-01-13" 2 [] 180 [] "UTC" = .ok slots ∧
        slots.length = ((calendarDays refRuntime (1736467200 : Int) n).filter
          (isWorkingDay refRuntime [])).length * slotsPerWorkingDay 2 [] ∧
        ∀ (k : Nat) (day : refRuntime.Time),
          ((calendarDays refRuntime (1736467200 : Int) n).filter
            (isWorkingDay refRuntime []))[k]? = some day →
          ∀ i, i < slotsPerWorkingDay 2 [] →
            ∃ (s : Slot refRuntime.Time) (ts : List refRuntime.Time),
              slots[k * slotsPerWorkingDay 2 [] + i]? = some s ∧
              timesOfDay refRuntime ((refRuntime.loadLocation "UTC").getD refRuntime.utc) 2 []
                180 day = .ok ts ∧
              ts[i]? = some s.Start ∧ s.DayIndex = k ∧ s.IndexInDay = i ∧
              s.ID = refRuntime.formatDate day ++ "T" ++ refRuntime.formatClock s.Start ++
                "Z#" ++ toString (i + 1) :=
  ⟨by decide, by decide, by decide, by decide, by decide,
    GenerateSlots_per_working_day refRuntime "2025-01-10" "2025-01-13" 2 [] 180 [] "UTC"
      (1736467200 : Int) (1736726400 : Int) (by decide) (by decide)
      (by intro st hst; cases hst)
      (fun (t u : Int) (h : decide (u < t) = false) =>
        not_lt.1 (of_decide_eq_false h))
      (fun (t : Int) => (by omega : t < t + 86400))⟩

/-- C32: `GenerateSlots` for six evenly spaced slots of 180 minutes from Tuesday 2025-01-07
to 2025-01-08, with the holiday 2025-01-08.  The loop skips the holiday, but the sixth slot
of the Tuesday starts 15 hours after 09:00, at 00:00 on the holiday: `Start.Day()` is 8 for
it, the condition that `TestGenerateSlots` reports as a slot generated on a holiday.  So one
slot is on a listed holiday, and only five of the six slots are on the working day. -/
theorem C32_slot_starts_on_holiday :
    slotTable (GenerateSlots refRuntime "2025-01-07" "2025-01-08" 6 [] 180 ["2025-01-08"]
        "UTC") =
      .ok [("2025-01-07T09:00Z#1", "2025-01-07T09:00:00Z", 0, 0),
        ("2025-01-07T12:00Z#2", "2025-01-07T12:00:00Z", 0, 1),
        ("2025-01-07T15:00Z#3", "2025-01-07T15:00:00Z", 0, 2),
        ("2025-01-07T18:00Z#4", "2025-01-07T18:00:00Z", 0, 3),
        ("2025-01-07T21:00Z#5", "2025-01-07T21:00:00Z", 0, 4),
        ("2025-01-07T00:00Z#6", "2025-01-08T00:00:00Z", 0, 5)] ∧
      refRuntime.timeDay (1736294400 : Int) = 8 ∧
      refRuntime.formatRFC3339 (1736294400 : Int) = "2025-01-08T00:00:00Z" := by
  decide

/-- C21: for every course mapping, `NewConflictGraph` yields one entry of `Degrees` for each
course of the mapping.  Every index `i` below the number of courses is the index of a course
`x` of the mapping, row `i` of the matrix has one entry for each course, and `Degrees[i]` is
the number of indices `j ≠ i` with `AdjMatrix[i][j] > 0`, whatever the weights of these
entries.  For every course `x` of the mapping, the degree at the index of `x` is the number
of other courses of the mapping that share a student with `x`. -/
theorem C21_degree_counts_conflicting_courses (rt : GoRuntime)
    (courses : GoMap CourseID Course) :
    (NewConflictGraph rt courses).Degrees.length = courses.len ∧
    (∀ i, i < courses.len →
      ∃ (x : CourseID) (cx : Course) (row : List Int),
        (NewConflictGraph rt courses).Courses[i]? = some x ∧
        (NewConflictGraph rt courses).CourseIndex.get? x = some i ∧
        courses.get? x = some cx ∧
        (NewConflictGraph rt courses).AdjMatrix[i]? = some row ∧ row.length = courses.len ∧
        (NewConflictGraph rt courses).Degrees[i]? =
          some (((List.range courses.len).countP fun j =>
            decide (j ≠ i) && decide (0 < row.getD j 0) : Nat) : Int)) ∧
    (∀ x cx, courses.get? x = some cx →
      ∃ i, i < courses.len ∧ (NewConflictGraph rt courses).CourseIndex.get? x = some i ∧
        (NewConflictGraph rt courses).Degrees[i]? =
          some ((courses.keys.countP fun y => decide (y ≠ x) &&
            decide (0 < sharedStudents cx.Enrollments (enrollmentsOf courses y)) : Nat) :
              Int)) := by
  obtain ⟨_, _, hlen, _⟩ := NewConflictGraph_degInv rt courses
  simp only at hlen
  have hmat := NewConflictGraph_matInv rt courses
  have hn := NewConflictGraph_length rt courses
  have hperm := (NewConflictGraph_courses_perm rt courses).1
  refine ⟨hlen, ?_, ?_⟩
  · intro i hi
    have hic : i < (NewConflictGraph rt courses).Courses.length := by rw [hn]; exact hi
    have hx : (NewConflictGraph rt courses).Courses[i]? =
        some (NewConflictGraph rt courses).Courses[i] := List.getElem?_eq_getElem hic
    have hkey : (NewConflictGraph rt courses).Courses[i] ∈ courses.keys :=
      hperm.subset (List.getElem_mem hic)
    have hget := (GoMap.mem_keys_iff courses _).1 hkey
    cases hcx : courses.get? (NewConflictGraph rt courses).Courses[i] with
    | none => exact absurd hcx hget
    | some cx =>
      have him : i < (NewConflictGraph rt courses).AdjMatrix.length := by
        rw [hmat.square.1]; exact hi
      have hrow : (NewConflictGraph rt courses).AdjMatrix[i]? =
          some (NewConflictGraph rt courses).AdjMatrix[i] := List.getElem?_eq_getElem him
      refine ⟨_, cx, _, hx, (NewConflictGraph_courseIndex rt courses i _).2 hx, hcx, hrow,
        hmat.square.2 _ (List.getElem_mem him), ?_⟩
      rw [NewConflictGraph_degrees rt courses i hic]
      congr 2
      unfold conflictCount
      rw [hn]
      apply List.countP_congr
      intro j _
      unfold ConflictGraph.adjacent
      rw [hrow]
      simp only [List.getD_eq_getElem?_getD]
      cases (NewConflictGraph rt courses).AdjMatrix[i][j]? with
      | none => simp
      | some w => simp
  · intro x cx hcx
    have hkey : x ∈ courses.keys := (GoMap.mem_keys_iff courses x).2 (by rw [hcx]; simp)
    obtain ⟨i, hi⟩ := List.mem_iff_getElem?.1 (hperm.symm.subset hkey)
    have hic : i < (NewConflictGraph rt courses).Courses.length :=
      (List.getElem?_eq_some_iff.1 hi).1
    refine ⟨i, by rw [← hn]; exact hic, (NewConflictGraph_courseIndex rt courses i x).2 hi, ?_⟩
    rw [NewConflictGraph_degrees rt courses i hic,
      NewConflictGraph_conflictCount rt courses i x hi, hperm.countP_eq]
    have hen : enrollmentsOf courses x = cx.Enrollments := by
      unfold enrollmentsOf
      rw [hcx]
    rw [hen]

/-- C21 on the courses `starCourses`, where `a` shares a student with `b` and one with `c`:
the degrees are 2, 1 and 1. -/
theorem C21_degree_counts_conflicting_courses_witness :
    starCourses.len = 3 ∧
      (NewConflictGraph refRuntime starCourses).Courses = ["a", "b", "c"] ∧
      (NewConflictGraph refRuntime starCourses).AdjMatrix = [[0, 1, 1], [1, 0, 0], [1, 0, 0]] ∧
      (NewConflictGraph refRuntime starCourses).Degrees = [2, 1, 1] ∧
      starCourses.get? "a" = some ⟨"a", ["s1", "s2"]⟩ ∧
      (∃ (x : CourseID) (cx : Course) (row : List Int),
        (NewConflictGraph refRuntime starCourses).Courses[0]? = some x ∧
        (NewConflictGraph refRuntime starCourses).CourseIndex.get? x = some 0 ∧
        starCourses.get? x = some cx ∧
        (NewConflictGraph refRuntime starCourses).AdjMatrix[0]? = some row ∧
        row.length = starCourses.len ∧
        (NewConflictGraph refRuntime starCourses).Degrees[0]? =
          some (((List.range starCourses.len).countP fun j =>
            decide (j ≠ 0) && decide (0 < row.getD j 0) : Nat) : Int)) ∧
      (∃ i, i < starCourses.len ∧
        (NewConflictGraph refRuntime starCourses).CourseIndex.get? "a" = some i ∧
        (NewConflictGraph refRuntime starCourses).Degrees[i]? =
          some ((starCourses.keys.countP fun y => decide (y ≠ "a") &&
            decide (0 < sharedStudents ["s1", "s2"] (enrollmentsOf starCourses y)) : Nat) :
              Int)) ∧
      (starCourses.keys.countP fun y => decide (y ≠ "a") &&
        decide (0 < sharedStudents ["s1", "s2"] (enrollmentsOf starCourses y))) = 2 :=
  ⟨by decide, by decide, by decide, by decide, by decide,
    (C21_degree_counts_conflicting_courses refRuntime starCourses).2.1 0 (by decide),
    (C21_degree_counts_conflicting_courses refRuntime starCourses).2.2 "a" ⟨"a", ["s1", "s2"]⟩
      (by decide),
    by decide⟩

/-- C37, counterexample: on `twiceCourses`, where `c1` lists student `s1` twice, with a
minimum gap of 153722868 minutes and the weights 1 and 10.  The duration
`time.Duration(minGapMinutes) * time.Minute` exceeds the range of `int64` and wraps to a
negative number of nanoseconds, so the gap 0 of the two entries of `s1` is not below it: the
pair adds the proximity weight only, and the penalty is 1, not 11, although
`min_gap_minutes > 0`. -/
theorem C37_counterexample_gap_overflow :
    (0 : Int) < 153722868 ∧
      wrapInt64 (153722868 * 60000000000) = -9223371993709551616 ∧
      examStarts refRuntime twiceCourses oneSlot (GoMap.range refRuntime 7 0 twiceColoring) "s1" =
        [(1736154000 : Int), (1736154000 : Int)] ∧
      CalculatePenalty refRuntime 0 twiceColoring twiceCourses oneSlot
        (NewConflictGraph refRuntime twiceCourses) 153722868 ⟨1, 10⟩ = .ok (1 : Rat) := by
  have h1 : CalculatePenalty refRuntime 0 twiceColoring twiceCourses oneSlot
      (NewConflictGraph refRuntime twiceCourses) 153722868 ⟨1, 10⟩ =
        .ok (refRuntime.fadd refRuntime.fzero 1) := rfl
  refine ⟨by decide, by decide, by decide, ?_⟩
  rw [h1]
  norm_num

end ExamScheduler
